import Mathlib

/-!
Trading engine: order lifecycle and trade (position) state machine

A shallow embedding of `generic.go` (package `engine`): the `Order` entity with
its state transitions, and the `Trade` aggregate with its five order books and
the execution / P&L arithmetic; of the events of `events.go`; and of the
strategy runtime of `strategy.go` (`BasicStrategy`): the requests, the handlers
of broker and market data events, and the windows of candles and ticks.

Modelling conventions

* `float64` is `F64`: not-a-number, the two infinities, or an exact rational.
  Arithmetic follows IEEE-754 on the special values and is exact on finite
  ones (rounding and the sign of zero are abstracted away).
* `int64` quantities are `Int`. The methods named as in the source compute in
  exact integer arithmetic; `Order.addExecution64`, `Trade.positionUpdate64` and
  `Trade.executeOrder64` restate the three methods that add and subtract
  quantities with every `int64` operation wrapped around modulo `2^64`, and
  agree with them whenever no operation overflows.
* Go string enums (`OrderSide`, `OrderState`, `OrderType`, `TradeType`,
  `OrderTIF`) stay strings, with the source constants as definitions.
* `map[string]*Order` is a finite map from id to order value; a method that
  mutates an order through its pointer writes the new value back under the
  key of the book holding it.  `map[string]struct{}` is a finite set.
* A method returning `error` returns the state after the call together with an
  `Outcome`; a Go `panic` is the third outcome.
* `time.Time` is `Time`, the instant in nanoseconds, where the source compares
  or stores the value; the `Datetime` of a candle, which is also a map key and
  is asked for calendar fields, carries its Location and monotonic clock
  reading beside the instant. The calendar functions of package `time` are
  parameters. Channels are the lists of the values sent; the handlers of the
  strategy run one at a time, each to its end, and a tick handler runs only
  when its wait loop lets it pass.
-/

namespace Engine

/-! ## float64 -/

/-- The `float64` values: NaN, plus and minus infinity, and finite values. -/
inductive F64 where
  | nan : F64
  | pinf : F64
  | ninf : F64
  | fin (q : ℚ) : F64
deriving DecidableEq

namespace F64

instance : OfNat F64 n := ⟨fin n⟩

/-- The function `math.IsNaN`. -/
def isNaN : F64 → Bool
  | nan => true
  | _ => false

/-- A finite value: neither NaN nor an infinity. -/
def isFinite : F64 → Bool
  | fin _ => true
  | _ => false

/-- The conversion `float64(n)` of an `int64`. -/
def ofInt (n : Int) : F64 := fin n

/-- Sign of a value: `1`, `-1`, or `0` for zero and NaN. -/
def sign : F64 → Int
  | nan => 0
  | pinf => 1
  | ninf => -1
  | fin q => if 0 < q then 1 else if q < 0 then -1 else 0

/-- The infinity of a given sign; NaN for sign zero. -/
def ofSign (s : Int) : F64 :=
  if 0 < s then pinf else if s < 0 then ninf else nan

/-- Unary minus. -/
def neg : F64 → F64
  | nan => nan
  | pinf => ninf
  | ninf => pinf
  | fin q => fin (-q)

/-- Addition: `+Inf + -Inf` is NaN. -/
def add : F64 → F64 → F64
  | nan, _ => nan
  | _, nan => nan
  | pinf, ninf => nan
  | ninf, pinf => nan
  | pinf, _ => pinf
  | _, pinf => pinf
  | ninf, _ => ninf
  | _, ninf => ninf
  | fin a, fin b => fin (a + b)

/-- Subtraction. -/
def sub (a b : F64) : F64 := add a (neg b)

/-- Multiplication: infinity times zero is NaN. -/
def mul : F64 → F64 → F64
  | nan, _ => nan
  | _, nan => nan
  | fin a, fin b => fin (a * b)
  | a, b => ofSign (sign a * sign b)

/-- Division: a finite nonzero value over zero is an infinity, `0/0` and
`Inf/Inf` are NaN, a finite value over an infinity is zero. -/
def div : F64 → F64 → F64
  | nan, _ => nan
  | _, nan => nan
  | fin a, fin b => if b = 0 then ofSign (sign (fin a)) else fin (a / b)
  | fin _, _ => fin 0
  | a, fin b => if b = 0 then a else ofSign (sign a * sign (fin b))
  | _, _ => nan

instance : Neg F64 := ⟨neg⟩
instance : Add F64 := ⟨add⟩
instance : Sub F64 := ⟨sub⟩
instance : Mul F64 := ⟨mul⟩
instance : Div F64 := ⟨div⟩

/-- The comparison `a < b`; false when either side is NaN. -/
def lt : F64 → F64 → Bool
  | nan, _ => false
  | _, nan => false
  | pinf, _ => false
  | _, ninf => false
  | ninf, _ => true
  | _, pinf => true
  | fin a, fin b => decide (a < b)

/-- The comparison `a == b`; false when either side is NaN. -/
def feq : F64 → F64 → Bool
  | nan, _ => false
  | _, nan => false
  | a, b => decide (a = b)

/-- The comparison `a <= b`; false when either side is NaN. -/
def le (a b : F64) : Bool := lt a b || feq a b

end F64

/-! ## Time, instruments -/

/-- An instant (`time.Time`), as nanoseconds since the Unix epoch. -/
structure Time where
  unixNano : Int
deriving DecidableEq

/-- The zero value of `time.Time`: January 1, year 1, 00:00:00 UTC. -/
def Time.zeroValue : Time := ⟨-62135596800000000000⟩

structure TimeOfDay where
  Hour : Int
  Minute : Int
  Second : Int
deriving DecidableEq

structure Exchange where
  Name : String
  MarketOpenTime : TimeOfDay
  MarketCloseTime : TimeOfDay
deriving DecidableEq

structure Instrument where
  Symbol : String
  Exchange : Exchange
  MinTick : F64
  LotSize : Int
deriving DecidableEq

/-! ## String enums (generic.go, lines 12-54) -/

abbrev OrderType := String
abbrev OrderSide := String
abbrev OrderState := String
abbrev TradeType := String
abbrev OrderTIF := String

def OrderBuy : OrderSide := "B"
def OrderSell : OrderSide := "S"

def NewOrder : OrderState := "NewOrder"
def ConfirmedOrder : OrderState := "ConfirmedOrder"
def FilledOrder : OrderState := "FilledOrder"
def PartialFilledOrder : OrderState := "PartialFilledOrder"
def CanceledOrder : OrderState := "CanceledOrder"
def RejectedOrder : OrderState := "RejectedOrder"

def LimitOrder : OrderType := "LMT"
def MarketOrder : OrderType := "MKT"
def StopOrder : OrderType := "STP"
def LimitOnClose : OrderType := "LOC"
def LimitOnOpen : OrderType := "LOO"
def MarketOnClose : OrderType := "MOC"
def MarketOnOpen : OrderType := "MOO"

def FlatTrade : TradeType := "FlatTrade"
def LongTrade : TradeType := "LongTrade"
def ShortTrade : TradeType := "ShortTrade"
def ClosedTrade : TradeType := "ClosedTrade"

def DayTIF : OrderTIF := "DayTIF"
def GTCTIF : OrderTIF := "GTCTIF"
def IOCTIF : OrderTIF := "IOCTIF"
def AuctionTIF : OrderTIF := "AuctionTIF"

/-- The method `OrderType.isAuction`. -/
def OrderType.isAuction (t : OrderType) : Bool :=
  if t = LimitOnClose ∨ t = LimitOnOpen ∨ t = MarketOnClose ∨ t = MarketOnOpen then true
  else false

/-! ## Outcomes -/

/-- How a call ends: normally with a value (`err == nil`), with a returned
error, or with a panic. -/
inductive Outcome (α : Type) where
  | ok (v : α) : Outcome α
  | err (msg : String) : Outcome α
  | panic (msg : String) : Outcome α
deriving DecidableEq

/-- The call returned normally, without an error. -/
def Outcome.isOk {α : Type} : Outcome α → Bool
  | .ok _ => true
  | _ => false

/-- The call returned an error (it did not panic). -/
def Outcome.isErr {α : Type} : Outcome α → Bool
  | .err _ => true
  | _ => false

/-! ## Order (generic.go, lines 158-308) -/

/-- The struct `Order`; the field `Type` is spelled `Typ`. -/
structure Order where
  Side : OrderSide
  Qty : Int
  ExecQty : Int
  Ticker : Option Instrument
  State : OrderState
  Price : F64
  ExecPrice : F64
  Typ : OrderType
  Tif : OrderTIF
  Destination : String
  Id : String
  Mark1 : String
  Mark2 : String
  Time : Time
deriving DecidableEq

namespace Order

/-- The method `Order.isValid` (lines 177-219). -/
def isValid (o : Order) : Bool :=
  if o.Tif = "" then false
  else if o.Destination = "" then false
  else if (match o.Ticker with
      | none => true
      | some tk => decide (tk.Symbol = "")) then false
  else if o.Id = "" then false
  else if o.Qty ≤ 0 then false
  else if o.State ≠ NewOrder ∧ o.State ≠ ConfirmedOrder ∧ o.State ≠ FilledOrder
      ∧ o.State ≠ PartialFilledOrder ∧ o.State ≠ CanceledOrder then false
  else if o.Side ≠ OrderBuy ∧ o.Side ≠ OrderSell then false
  else if o.Typ = LimitOrder ∨ o.Typ = LimitOnClose ∨ o.Typ = LimitOnOpen
      ∨ o.Typ = StopOrder then
    if o.Price.isNaN ∨ F64.feq o.Price 0 then false else true
  else if o.Typ = MarketOrder ∨ o.Typ = MarketOnClose ∨ o.Typ = MarketOnOpen then
    if !o.Price.isNaN then false else true
  else false

/-- The method `Order.addExecution` (lines 221-251). -/
def addExecution (o : Order) (price : F64) (qty : Int) : Order × Outcome Unit :=
  if o.State = FilledOrder then
    (o, .err "Can't update order. Order is already filled")
  else if price.isNaN then
    (o, .err "Can't update order. Execution price is NaN")
  else if F64.le price 0 then
    (o, .err "Can't update order. Price less or equal zero")
  else if qty ≤ 0 then
    (o, .err "Can't update order. Execution qty is lezz or equal to zero")
  else if qty + o.ExecQty > o.Qty then
    (o, .err "Can't update order. Execution quantity is greater than lvs qty")
  else
    let avgExecPrice :=
      if o.ExecQty > 0 then
        (F64.ofInt o.ExecQty * o.ExecPrice + price * F64.ofInt qty) / F64.ofInt (o.ExecQty + qty)
      else price
    let o1 := { o with ExecQty := o.ExecQty + qty }
    let o2 := { o1 with ExecPrice := avgExecPrice }
    if o2.ExecQty = o2.Qty then
      ({ o2 with State := FilledOrder }, .ok ())
    else
      ({ o2 with State := PartialFilledOrder }, .ok ())

/-- The method `Order.reject` (lines 253-264). -/
def reject (o : Order) (reason : String) : Order × Outcome Unit :=
  if o.State ≠ NewOrder then
    (o, .err "Can't reject order. It's not in status newOrder")
  else if o.ExecQty > 0 then
    (o, .err "Can't reject order. Already has executed qty. Status should be PartialFilled")
  else
    let o1 := { o with State := RejectedOrder }
    ({ o1 with Mark1 := reason }, .ok ())

/-- The method `Order.cancel` (lines 266-276). -/
def cancel (o : Order) : Order × Outcome Unit :=
  if o.State = FilledOrder then
    (o, .err "Can't cancel filled order")
  else if o.State = NewOrder then
    (o, .err "Can't cancel new order.Should be confirmed")
  else
    ({ o with State := CanceledOrder }, .ok ())

/-- The method `Order.confirm` (lines 278-286). -/
def confirm (o : Order) : Order × Outcome Unit :=
  if o.State ≠ NewOrder then
    (o, .err "Can't confirm order. State is not newOrder")
  else
    ({ o with State := ConfirmedOrder }, .ok ())

/-- The method `Order.IsPriced` (lines 296-301). -/
def IsPriced (o : Order) : Bool :=
  if o.Typ = LimitOnOpen ∨ o.Typ = LimitOrder ∨ o.Typ = LimitOnClose ∨ o.Typ = StopOrder then true
  else false

/-- The method `Order.replace` (lines 288-294). -/
def replace (o : Order) (newPrice : F64) : Order × Outcome Unit :=
  if !o.IsPriced then
    (o, .err "Can't replace order. Order should be priced")
  else
    ({ o with Price := newPrice }, .ok ())

/-- The method `Order.Created` (lines 303-308). -/
def Created (o : Order) : Bool :=
  if o.Typ ≠ "" ∧ !F64.feq o.Price 0 then true else false

end Order

/-! ## Trade (generic.go, lines 310-735) -/

structure TradeReturn where
  OpenPnL : F64
  ClosedPnL : F64
  Time : Time
deriving DecidableEq

/-- An order book `map[string]*Order`: a finite map from id to order. -/
abbrev Book := Finmap (fun _ : String => Order)

/-- The builtin `len` on an order book. -/
def Book.len (b : Book) : Nat := b.keys.card

/-- The idiom `if len(m) == 0 { m = make(map[string]*Order) }`: an empty (or
nil) book is replaced by a fresh empty map. -/
def Book.orFresh (b : Book) : Book := if b.len = 0 then ∅ else b

/-- The same idiom on the id set `map[string]struct{}`. -/
def idSetOrFresh (s : Finset String) : Finset String := if s.card = 0 then ∅ else s

/-- The ids `o.Id` of the orders stored in a book (the values, not the keys). -/
def Book.orderIds (b : Book) : Finset String :=
  (b.entries.map (fun e => e.2.Id)).toFinset

/-- The struct `Trade`; the field `Type` is spelled `Typ`. -/
structure Trade where
  Ticker : Option Instrument
  Qty : Int
  Typ : TradeType
  FirstPrice : F64
  OpenPrice : F64
  OpenValue : F64
  MarketValue : F64
  OpenTime : Time
  CloseTime : Time
  Marks : String
  FilledOrders : Book
  CanceledOrders : Book
  NewOrders : Book
  ConfirmedOrders : Book
  RejectedOrders : Book
  AllOrdersIDMap : Finset String
  Returns : List TradeReturn
  ClosedPnL : F64
  OpenPnL : F64
  Id : String
deriving DecidableEq

/-- The zero value of `Trade` (every field at its Go zero value). -/
def Trade.zeroValue : Trade :=
  { Ticker := none, Qty := 0, Typ := "", FirstPrice := 0, OpenPrice := 0, OpenValue := 0,
    MarketValue := 0, OpenTime := Time.zeroValue, CloseTime := Time.zeroValue, Marks := "",
    FilledOrders := ∅, CanceledOrders := ∅, NewOrders := ∅, ConfirmedOrders := ∅,
    RejectedOrders := ∅, AllOrdersIDMap := ∅, Returns := [], ClosedPnL := 0, OpenPnL := 0,
    Id := "" }

/-- The function `newFlatTrade` (lines 316-323). -/
def newFlatTrade (ticker : Option Instrument) : Trade :=
  { Trade.zeroValue with
    Ticker := ticker, Qty := 0, Typ := FlatTrade, OpenPrice := F64.nan,
    ClosedPnL := 0, OpenPnL := 0, FilledOrders := ∅, CanceledOrders := ∅,
    NewOrders := ∅, ConfirmedOrders := ∅, RejectedOrders := ∅, AllOrdersIDMap := ∅ }

namespace Trade

/-- The method `Trade.hasConfirmedOrderWithId` (lines 349-357). -/
def hasConfirmedOrderWithId (t : Trade) (ordID : String) : Bool :=
  decide (ordID ∈ t.ConfirmedOrders.orderIds)

/-- The method `Trade.IsOpen` (lines 359-368). -/
def IsOpen (t : Trade) : Outcome Bool :=
  if t.Typ = LongTrade ∨ t.Typ = ShortTrade then
    if t.Qty = 0 then .panic "Zero qty in open position" else .ok true
  else .ok false

/-- The method `Trade.putNewOrder` (lines 372-405). -/
def putNewOrder (t : Trade) (o : Order) : Trade × Outcome Unit :=
  if t.Typ = ClosedTrade then
    (t, .err "Can't put order to closed trade")
  else if !o.isValid then
    (t, .err "Trying to put invalid order")
  else
    match o.Ticker, t.Ticker with
    | some otk, some ttk =>
      if otk.Symbol ≠ ttk.Symbol then
        (t, .err "Can't put new order. Trade and Order have different symbols")
      else if o.State ≠ NewOrder then
        (t, .err "Trying to add not new order")
      else
        let t1 := { t with NewOrders := t.NewOrders.orFresh }
        if t.NewOrders.len ≠ 0 ∧ o.Id ∈ t1.NewOrders then
          (t1, .err "Trying to add order in NewOrders with the ID that already in map")
        else
          let t2 := { t1 with AllOrdersIDMap := idSetOrFresh t1.AllOrdersIDMap }
          if t1.AllOrdersIDMap.card ≠ 0 ∧ o.Id ∈ t2.AllOrdersIDMap then
            (t2, .err "Order with this ID is already in Trade orders maps")
          else
            let t3 := { t2 with NewOrders := t2.NewOrders.insert o.Id o }
            ({ t3 with AllOrdersIDMap := insert o.Id t3.AllOrdersIDMap }, .ok ())
    | _, _ => (t, .panic "invalid memory address or nil pointer dereference")

/-- The method `Trade.confirmOrder` (lines 409-430). -/
def confirmOrder (t : Trade) (id : String) : Trade × Outcome Unit :=
  match t.NewOrders.lookup id with
  | none => (t, .err "Can't confirm order. ID is not in the NewOrders map")
  | some order =>
    if id ∈ t.ConfirmedOrders then
      (t, .err "Can't confirm orders. ID already in ConfirmedOrders map")
    else
      let (order1, r) := order.confirm
      let t1 := { t with NewOrders := t.NewOrders.insert id order1 }
      match r with
      | .ok _ =>
        let t2 := { t1 with ConfirmedOrders := t1.ConfirmedOrders.orFresh }
        let t3 := { t2 with ConfirmedOrders := t2.ConfirmedOrders.insert id order1 }
        ({ t3 with NewOrders := t3.NewOrders.erase id }, .ok ())
      | .err msg => (t1, .err msg)
      | .panic msg => (t1, .panic msg)

/-- The method `Trade.cancelOrder` (lines 434-455). -/
def cancelOrder (t : Trade) (id : String) : Trade × Outcome Unit :=
  match t.ConfirmedOrders.lookup id with
  | some order =>
    let (order1, r) := order.cancel
    let t1 := { t with ConfirmedOrders := t.ConfirmedOrders.insert id order1 }
    match r with
    | .ok _ =>
      let t2 := { t1 with CanceledOrders := t1.CanceledOrders.orFresh }
      if t1.CanceledOrders.len ≠ 0 ∧ id ∈ t2.CanceledOrders then
        (t2, .err "Order found both in confirmed and cancel map")
      else
        let t3 := { t2 with CanceledOrders := t2.CanceledOrders.insert id order1 }
        ({ t3 with ConfirmedOrders := t3.ConfirmedOrders.erase id }, .ok ())
    | .err msg => (t1, .err msg)
    | .panic msg => (t1, .panic msg)
  | none => (t, .err "Can't cancel order. Not found in confirmed orders")

/-- The method `Trade.replaceOrder` (lines 457-468). -/
def replaceOrder (t : Trade) (id : String) (newPrice : F64) : Trade × Outcome Unit :=
  match t.ConfirmedOrders.lookup id with
  | some order =>
    let (order1, r) := order.replace newPrice
    let t1 := { t with ConfirmedOrders := t.ConfirmedOrders.insert id order1 }
    match r with
    | .ok _ => (t1, .ok ())
    | .err msg => (t1, .err msg)
    | .panic msg => (t1, .panic msg)
  | none => (t, .err "Can't replace order. Not found in confirmed orders")

/-- The method `Trade.rejectOrder` (lines 671-692). -/
def rejectOrder (t : Trade) (id : String) (reason : String) : Trade × Outcome Unit :=
  match t.NewOrders.lookup id with
  | some order =>
    let (order1, r) := order.reject reason
    let t1 := { t with NewOrders := t.NewOrders.insert id order1 }
    match r with
    | .ok _ =>
      let t2 := { t1 with RejectedOrders := t1.RejectedOrders.orFresh }
      if t1.RejectedOrders.len ≠ 0 ∧ id ∈ t2.RejectedOrders then
        (t2, .err "Order found both in confirmed and rejected map")
      else
        let t3 := { t2 with RejectedOrders := t2.RejectedOrders.insert id order1 }
        ({ t3 with NewOrders := t3.NewOrders.erase id }, .ok ())
    | .err msg => (t1, .err msg)
    | .panic msg => (t1, .panic msg)
  | none => (t, .err "Can't reject order. Not found in confirmed orders")

/-- The method `Trade.updateAllOrdersIDMap` (lines 696-718). -/
def updateAllOrdersIDMap (t : Trade) : Trade :=
  let t0 := { t with AllOrdersIDMap := ∅ }
  let t1 := { t0 with AllOrdersIDMap := t0.AllOrdersIDMap ∪ t0.NewOrders.orderIds }
  let t2 := { t1 with AllOrdersIDMap := t1.AllOrdersIDMap ∪ t1.ConfirmedOrders.orderIds }
  let t3 := { t2 with AllOrdersIDMap := t2.AllOrdersIDMap ∪ t2.FilledOrders.orderIds }
  let t4 := { t3 with AllOrdersIDMap := t3.AllOrdersIDMap ∪ t3.RejectedOrders.orderIds }
  { t4 with AllOrdersIDMap := t4.AllOrdersIDMap ∪ t4.CanceledOrders.orderIds }

/-- The method `Trade.updatePnL` (lines 721-734). -/
def updatePnL (t : Trade) (marketPrice : F64) (lastTime : Time) : Trade × Outcome Unit :=
  let t1 := { t with MarketValue := marketPrice * F64.ofInt t.Qty }
  if t1.Typ = LongTrade then
    let t2 := { t1 with OpenPnL := t1.MarketValue - t1.OpenValue }
    ({ t2 with Returns := t2.Returns ++ [⟨t2.OpenPnL, t2.ClosedPnL, lastTime⟩] }, .ok ())
  else if t1.Typ ≠ ShortTrade then
    (t1, .err "Can't update pnl for not open position")
  else
    let t2 := { t1 with OpenPnL := -(t1.MarketValue - t1.OpenValue) }
    ({ t2 with Returns := t2.Returns ++ [⟨t2.OpenPnL, t2.ClosedPnL, lastTime⟩] }, .ok ())

/-- The successor built when a cover exactly closes the position (lines 560-565
and 626-631): a fresh flat trade that takes over the live books. -/
def flatSuccessor (t : Trade) : Trade :=
  let newTrade := newFlatTrade t.Ticker
  let n1 := { newTrade with NewOrders := t.NewOrders }
  { n1 with ConfirmedOrders := t.ConfirmedOrders }

/-- The successor built when a cover flips the position (lines 580-587 and
646-654): a trade literal of the opposite type for the excess quantity. The
assignment `OpenPnL = 0` of line 650 restates the zero value of the literal,
so it is harmless in the short-to-long flip, which omits it. -/
def flipSuccessor (t : Trade) (order : Order) (newQty : Int) (execPrice : F64)
    (datetime : Time) (typ : TradeType) : Trade :=
  let newTrade : Trade :=
    { Trade.zeroValue with
      Ticker := t.Ticker, Qty := newQty, Id := order.Id, OpenTime := datetime, Typ := typ }
  let n1 := { newTrade with OpenPrice := execPrice }
  let n2 := { n1 with OpenValue := n1.OpenPrice * F64.ofInt n1.Qty }
  let n3 := { n2 with MarketValue := n2.OpenValue }
  let n4 := { n3 with OpenPnL := 0 }
  let n5 := { n4 with NewOrders := t.NewOrders }
  let n6 := { n5 with ConfirmedOrders := t.ConfirmedOrders }
  n6.updateAllOrdersIDMap

/-- The statements that close a trade in the cover branches (lines 552-558,
572-578, 618-624, 638-644), given the realised quantity `covered`, the signed
price difference `diff` and the new `Qty`. -/
def closeWith (t : Trade) (newQty : Int) (diff : F64) (covered : Int) (datetime : Time) :
    Trade :=
  let t1 := { t with Qty := newQty }
  let t2 := { t1 with ClosedPnL := t1.ClosedPnL + diff * F64.ofInt covered }
  let t3 := { t2 with OpenValue := 0 }
  let t4 := { t3 with MarketValue := 0 }
  let t5 := { t4 with OpenPnL := 0 }
  let t6 := { t5 with Typ := ClosedTrade }
  { t6 with CloseTime := datetime }

/-- The two statements that empty the live books of a closed trade
(lines 564-565, 589-590, 630-631, 656-657). -/
def dropLiveBooks (t : Trade) : Trade :=
  let t1 := { t with NewOrders := ∅ }
  { t1 with ConfirmedOrders := ∅ }

/-- The position update of `Trade.executeOrder`: the `switch t.Type` statement
(lines 512-666), run after the fill was recorded on `order`. In the flat case
the side test of lines 517-524 is written as one guard (panic unless the side
is Buy or Sell) followed by the choice of the type. A type outside the three
cases falls through to the final `return nil, nil`. -/
def positionUpdate (t : Trade) (order : Order) (qty : Int) (execPrice : F64)
    (datetime : Time) : Trade × Outcome (Option Trade) :=
  if t.Typ = FlatTrade then
    let t1 := { t with Qty := qty }
    let t2 := { t1 with Id := order.Id }
    let t3 := { t2 with FirstPrice := execPrice }
    if order.Side ≠ OrderBuy ∧ order.Side ≠ OrderSell then
      (t3, .panic "Unknow side for execution!")
    else
      let t4 := { t3 with Typ := if order.Side = OrderBuy then LongTrade else ShortTrade }
      let t5 := { t4 with OpenPrice := execPrice }
      let t6 := { t5 with OpenValue := execPrice * F64.ofInt t5.Qty }
      let t7 := { t6 with MarketValue := t6.OpenValue }
      ({ t7 with OpenTime := datetime }, .ok none)
  else if t.Typ = ShortTrade then
    if order.Side = OrderSell then
      let t1 := { t with Qty := t.Qty + qty }
      let t2 := { t1 with OpenValue := t1.OpenValue + F64.ofInt qty * execPrice }
      let t3 := { t2 with OpenPrice := t2.OpenValue / F64.ofInt t2.Qty }
      let t4 := { t3 with MarketValue := F64.ofInt t3.Qty * execPrice }
      ({ t4 with OpenPnL := -(t4.MarketValue - t4.OpenValue) }, .ok none)
    else if qty < t.Qty then
      let t1 := { t with Qty := t.Qty - qty }
      let t2 := { t1 with ClosedPnL := t1.ClosedPnL + -(execPrice - t1.OpenPrice) * F64.ofInt qty }
      let t3 := { t2 with OpenValue := t2.OpenPrice * F64.ofInt t2.Qty }
      let t4 := { t3 with MarketValue := F64.ofInt t3.Qty * execPrice }
      ({ t4 with OpenPnL := -(t4.MarketValue - t4.OpenValue) }, .ok none)
    else if qty = t.Qty then
      let tc := t.closeWith (t.Qty - qty) (-(execPrice - t.OpenPrice)) qty datetime
      let newTrade := tc.flatSuccessor
      (tc.dropLiveBooks, .ok (some newTrade))
    else
      let newQty := qty - t.Qty
      let tc := t.closeWith 0 (-(execPrice - t.OpenPrice)) t.Qty datetime
      let newTrade := tc.flipSuccessor order newQty execPrice datetime LongTrade
      (tc.dropLiveBooks, .ok (some newTrade))
  else if t.Typ = LongTrade then
    if order.Side = OrderBuy then
      let t1 := { t with Qty := t.Qty + qty }
      let t2 := { t1 with OpenValue := t1.OpenValue + F64.ofInt qty * execPrice }
      let t3 := { t2 with OpenPrice := t2.OpenValue / F64.ofInt t2.Qty }
      let t4 := { t3 with MarketValue := F64.ofInt t3.Qty * execPrice }
      ({ t4 with OpenPnL := t4.MarketValue - t4.OpenValue }, .ok none)
    else if qty < t.Qty then
      let t1 := { t with Qty := t.Qty - qty }
      let t2 := { t1 with ClosedPnL := t1.ClosedPnL + (execPrice - t1.OpenPrice) * F64.ofInt qty }
      let t3 := { t2 with OpenValue := t2.OpenPrice * F64.ofInt t2.Qty }
      let t4 := { t3 with MarketValue := F64.ofInt t3.Qty * execPrice }
      ({ t4 with OpenPnL := t4.MarketValue - t4.OpenValue }, .ok none)
    else if qty = t.Qty then
      let tc := t.closeWith (t.Qty - qty) (execPrice - t.OpenPrice) qty datetime
      let newTrade := tc.flatSuccessor
      (tc.dropLiveBooks, .ok (some newTrade))
    else
      let newQty := qty - t.Qty
      let tc := t.closeWith 0 (execPrice - t.OpenPrice) t.Qty datetime
      let newTrade := tc.flipSuccessor order newQty execPrice datetime ShortTrade
      (tc.dropLiveBooks, .ok (some newTrade))
  else (t, .ok none)

/-- The method `Trade.executeOrder` (lines 472-667). The fill is recorded on the
order (lines 474-509), then the position is updated (`positionUpdate`). -/
def executeOrder (t : Trade) (id : String) (qty : Int) (execPrice : F64) (datetime : Time) :
    Trade × Outcome (Option Trade) :=
  match t.ConfirmedOrders.lookup id with
  | none => (t, .err "Can't execute order. Id not found in ConfirmedOrders. id: %v")
  | some order =>
    if execPrice.isNaN ∨ F64.feq execPrice 0 then
      (t, .panic "Panic: tried to execute order with zero or NaN execution price")
    else
      let qtyLeft := order.Qty - order.ExecQty
      if qtyLeft < qty then
        (t, .err "Can't execute order %v. Qty is greater than unexecuted order qty. Order: %+v, execQty: %v")
      else
        let t1 := if qty = qtyLeft then { t with FilledOrders := t.FilledOrders.orFresh } else t
        if qty = qtyLeft ∧ t.FilledOrders.len ≠ 0 ∧ id ∈ t1.FilledOrders then
          (t1, .err "%v Can't execute order. ID already found in FilledOrders. Filled Qty:%v, Total Qty:%v,  id %v")
        else
          let t2 :=
            if qty = qtyLeft then
              let u := { t1 with FilledOrders := t1.FilledOrders.insert id order }
              { u with ConfirmedOrders := u.ConfirmedOrders.erase id }
            else t1
          let (order1, r) := order.addExecution execPrice qty
          let t3 :=
            if qty = qtyLeft then { t2 with FilledOrders := t2.FilledOrders.insert id order1 }
            else { t2 with ConfirmedOrders := t2.ConfirmedOrders.insert id order1 }
          match r with
          | .ok _ => t3.positionUpdate order1 qty execPrice datetime
          | .err msg => (t3, .err msg)
          | .panic msg => (t3, .panic msg)

end Trade

/-! ## Auxiliary definitions for the statements -/

/-- The order after a successful `addExecution`. -/
def Order.executed (o : Order) (price : F64) (qty : Int) : Order :=
  { o with
    ExecQty := o.ExecQty + qty
    ExecPrice :=
      if o.ExecQty > 0 then
        (F64.ofInt o.ExecQty * o.ExecPrice + price * F64.ofInt qty) / F64.ofInt (o.ExecQty + qty)
      else price
    State := if o.ExecQty + qty = o.Qty then FilledOrder else PartialFilledOrder }

/-- The books of `t` after a fill of `d` at `p` was recorded on `order`, filed
under `id`: a completing fill moves the order to `FilledOrders`, a partial one
leaves it in `ConfirmedOrders`; in both the stored order carries the fill. -/
def Trade.recorded (t : Trade) (id : String) (order : Order) (p : F64) (d : Int) : Trade :=
  if d = order.Qty - order.ExecQty then
    { t with
      FilledOrders := t.FilledOrders.insert id (order.executed p d)
      ConfirmedOrders := t.ConfirmedOrders.erase id }
  else
    { t with ConfirmedOrders := t.ConfirmedOrders.insert id (order.executed p d) }

/-! ## Sample data: the end-to-end scenarios of the specification -/

namespace Sample

/-- A sample instrument. -/
def ticker : Instrument :=
  ⟨"AAPL", ⟨"NASDAQ", ⟨9, 30, 0⟩, ⟨16, 0, 0⟩⟩, F64.fin (1 / 100), 1⟩

/-- A new day limit order on the sample instrument. -/
def limitOrder (id : String) (side : OrderSide) (qty : Int) (price : F64) : Order :=
  { Side := side, Qty := qty, ExecQty := 0, Ticker := some ticker, State := NewOrder,
    Price := price, ExecPrice := 0, Typ := LimitOrder, Tif := DayTIF, Destination := "SMART",
    Id := id, Mark1 := "", Mark2 := "", Time := ⟨0⟩ }

/-- The order as it is stored once the broker confirmed it. -/
def confirmed (o : Order) : Order := { o with State := ConfirmedOrder }

/-- Submit an order and have the broker confirm it. -/
def submit (t : Trade) (o : Order) : Trade := ((t.putNewOrder o).1.confirmOrder o.Id).1

/-- The successor returned by a call, or the zero trade when there is none. -/
def successorOf (r : Trade × Outcome (Option Trade)) : Trade :=
  match r.2 with
  | .ok (some s) => s
  | _ => Trade.zeroValue

/-- Scenario S1: flat, buy limit 100 at 50 submitted and confirmed. -/
def s1Confirmed : Trade := submit (newFlatTrade (some ticker)) (limitOrder "b" OrderBuy 100 50)

/-- Scenario S1 after the fill (25, 50). -/
def s1First : Trade := (s1Confirmed.executeOrder "b" 25 50 ⟨1⟩).1

/-- Scenario S1 after the fill (75, 52): long 100 at 51.5. -/
def s1Second : Trade := (s1First.executeOrder "b" 75 52 ⟨2⟩).1

/-- Scenario S2: continuing S1, sell 100 submitted and confirmed. -/
def s2Confirmed : Trade := submit s1Second (limitOrder "s" OrderSell 100 53)

/-- Scenario S3: flat, buy 10 at 100 fully filled, then sell 25 submitted and
confirmed. -/
def s3Confirmed : Trade :=
  submit ((submit (newFlatTrade (some ticker)) (limitOrder "b" OrderBuy 10 100)).executeOrder
    "b" 10 100 ⟨1⟩).1 (limitOrder "s" OrderSell 25 90)

/-- A short position of 10 at 100 with a confirmed buy order for 25. -/
def shortConfirmed : Trade :=
  submit ((submit (newFlatTrade (some ticker)) (limitOrder "s" OrderSell 10 100)).executeOrder
    "s" 10 100 ⟨1⟩).1 (limitOrder "b" OrderBuy 25 90)

/-- A long position of 10 at 100 with a confirmed sell order for 10 and a
second, still live, confirmed buy order. -/
def liveConfirmed : Trade :=
  submit (submit ((submit (newFlatTrade (some ticker)) (limitOrder "b" OrderBuy 10 100)).executeOrder
    "b" 10 100 ⟨1⟩).1 (limitOrder "s" OrderSell 10 101)) (limitOrder "b2" OrderBuy 5 99)

/-- A long position of 10 at 100 with a confirmed sell order for 25 and a
second, still live, confirmed buy order. -/
def flipLive : Trade :=
  submit (submit ((submit (newFlatTrade (some ticker)) (limitOrder "b" OrderBuy 10 100)).executeOrder
    "b" 10 100 ⟨1⟩).1 (limitOrder "s" OrderSell 25 90)) (limitOrder "b2" OrderBuy 5 99)

/-- The Flat successor returned when the sell order of `liveConfirmed` is filled:
it takes over the live order `b2`. -/
def flatSuccessorLive : Trade := successorOf (liveConfirmed.executeOrder "s" 10 101 ⟨5⟩)

/-- On that Flat successor: `b2` is cancelled, then a second order with the id
`b2` is submitted and confirmed. -/
def duplicateId : Trade :=
  submit (flatSuccessorLive.cancelOrder "b2").1 (limitOrder "b2" OrderBuy 5 98)

/-- A buy limit order in state New that already carries an executed quantity. -/
def executedNew : Order := { limitOrder "e" OrderBuy 10 100 with ExecQty := 5 }

end Sample

/-! ## Reachable trades and the order-book invariant -/

/-- The call ended in a panic. -/
def Outcome.isPanic {α : Type} : Outcome α → Bool
  | .panic _ => true
  | _ => false

/-- The trades reachable from `newFlatTrade` by calls of `putNewOrder`,
`confirmOrder`, `cancelOrder`, `replaceOrder`, `rejectOrder` and `executeOrder`
(failing calls included, panicking calls excluded). A call of `executeOrder`
leads to the trade it was called on and, when it returns a successor `s` that
`allow` admits, to `s` as well. -/
inductive ReachableVia (allow : Trade → Prop) : Trade → Prop where
  | init (ticker : Option Instrument) : ReachableVia allow (newFlatTrade ticker)
  | putNewOrder {t : Trade} (o : Order) :
      ReachableVia allow t → (t.putNewOrder o).2.isPanic = false →
      ReachableVia allow (t.putNewOrder o).1
  | confirmOrder {t : Trade} (id : String) :
      ReachableVia allow t → ReachableVia allow (t.confirmOrder id).1
  | cancelOrder {t : Trade} (id : String) :
      ReachableVia allow t → ReachableVia allow (t.cancelOrder id).1
  | replaceOrder {t : Trade} (id : String) (newPrice : F64) :
      ReachableVia allow t → ReachableVia allow (t.replaceOrder id newPrice).1
  | rejectOrder {t : Trade} (id : String) (reason : String) :
      ReachableVia allow t → ReachableVia allow (t.rejectOrder id reason).1
  | executeOrder {t : Trade} (id : String) (qty : Int) (execPrice : F64) (datetime : Time) :
      ReachableVia allow t → (t.executeOrder id qty execPrice datetime).2.isPanic = false →
      ReachableVia allow (t.executeOrder id qty execPrice datetime).1
  | successor {t s : Trade} (id : String) (qty : Int) (execPrice : F64) (datetime : Time) :
      ReachableVia allow t → (t.executeOrder id qty execPrice datetime).2 = .ok (some s) →
      allow s → ReachableVia allow s

/-- Reachable trades, every successor included. -/
def Reachable (t : Trade) : Prop := ReachableVia (fun _ => True) t

/-- Reachable trades, where the run continues on closed trades and on flip
successors (type Long or Short) but not on the flat successor of a full cover. -/
def ReachableNoFlatSuccessor (t : Trade) : Prop :=
  ReachableVia (fun s => s.Typ ≠ FlatTrade) t

/-- The five order books are pairwise disjoint by id. -/
def Trade.BooksDisjoint (t : Trade) : Prop :=
  Disjoint t.NewOrders.keys t.ConfirmedOrders.keys
  ∧ Disjoint t.NewOrders.keys t.FilledOrders.keys
  ∧ Disjoint t.NewOrders.keys t.CanceledOrders.keys
  ∧ Disjoint t.NewOrders.keys t.RejectedOrders.keys
  ∧ Disjoint t.ConfirmedOrders.keys t.FilledOrders.keys
  ∧ Disjoint t.ConfirmedOrders.keys t.CanceledOrders.keys
  ∧ Disjoint t.ConfirmedOrders.keys t.RejectedOrders.keys
  ∧ Disjoint t.FilledOrders.keys t.CanceledOrders.keys
  ∧ Disjoint t.FilledOrders.keys t.RejectedOrders.keys
  ∧ Disjoint t.CanceledOrders.keys t.RejectedOrders.keys

instance (t : Trade) : Decidable t.BooksDisjoint := by
  unfold Trade.BooksDisjoint
  infer_instance

/-- The union of the ids of the five order books. -/
def Trade.bookIds (t : Trade) : Finset String :=
  t.NewOrders.keys ∪ t.ConfirmedOrders.keys ∪ t.FilledOrders.keys ∪ t.CanceledOrders.keys
    ∪ t.RejectedOrders.keys

/-- How many times the id `k` occurs as a key of the book: 0 or 1. -/
def Book.occ (b : Book) (k : String) : Nat := if k ∈ b then 1 else 0

/-- In how many of the five books the id `k` occurs. -/
def Trade.occAll (t : Trade) (k : String) : Nat :=
  t.NewOrders.occ k + t.ConfirmedOrders.occ k + t.FilledOrders.occ k + t.CanceledOrders.occ k
    + t.RejectedOrders.occ k

/-- Every order of the book is stored under its own id. -/
def Book.KeyedById (b : Book) : Prop := ∀ k o, b.lookup k = some o → o.Id = k

/-- The invariant of the order books: an id occurs in at most one book, only
ids of `AllOrdersIDMap` occur, every id of `AllOrdersIDMap` occurs unless the
trade is Closed, and live orders are stored under their own id. -/
structure Trade.BooksInv (t : Trade) : Prop where
  once : ∀ k, t.occAll k ≤ 1
  sub : ∀ k, k ∉ t.AllOrdersIDMap → t.occAll k = 0
  sup : t.Typ ≠ ClosedTrade → ∀ k, k ∈ t.AllOrdersIDMap → t.occAll k = 1
  keyedNew : t.NewOrders.KeyedById
  keyedConfirmed : t.ConfirmedOrders.KeyedById

/-! ## Sequences of calls on an order -/

/-- Applying `addExecution` to the fills `(price, qty)` in order: the order after
the last fill, or `none` as soon as one fill is refused. -/
def Order.addExecutions (o : Order) : List (F64 × Int) → Option Order
  | [] => some o
  | f :: rest =>
    match o.addExecution f.1 f.2 with
    | (o1, .ok _) => Order.addExecutions o1 rest
    | _ => none

/-- The sum `acc + p_1*q_1 + ... + p_n*q_n` over the fills `(p_i, q_i)`. -/
def notionalFrom (acc : F64) (fills : List (F64 × Int)) : F64 :=
  fills.foldl (fun a f => a + f.1 * F64.ofInt f.2) acc

/-- The traded value `p_1*q_1 + ... + p_n*q_n` of the fills `(p_i, q_i)`. -/
def notional (fills : List (F64 × Int)) : F64 := notionalFrom 0 fills

/-- The total quantity `q_1 + ... + q_n` of the fills `(p_i, q_i)`. -/
def filledQty (fills : List (F64 × Int)) : Int := (fills.map Prod.snd).sum

/-- A call of one of the mutating methods of `Order`, with its arguments. -/
inductive OrderCall where
  | addExecution (price : F64) (qty : Int) : OrderCall
  | confirm : OrderCall
  | cancel : OrderCall
  | reject (reason : String) : OrderCall
  | replace (newPrice : F64) : OrderCall

/-- Running one call on an order. -/
def Order.call (o : Order) : OrderCall → Order × Outcome Unit
  | .addExecution price qty => o.addExecution price qty
  | .confirm => o.confirm
  | .cancel => o.cancel
  | .reject reason => o.reject reason
  | .replace newPrice => o.replace newPrice

/-- Running a sequence of calls on an order, successful or failing. -/
def Order.calls (o : Order) (cs : List OrderCall) : Order :=
  cs.foldl (fun x c => (x.call c).1) o

/-- The quantity invariant of an order: `0 <= ExecQty <= Qty`, Filled exactly
when everything is executed, PartialFilled only strictly in between. -/
def Order.QtyInv (o : Order) : Prop :=
  0 ≤ o.ExecQty ∧ o.ExecQty ≤ o.Qty ∧ (o.State = FilledOrder ↔ o.ExecQty = o.Qty)
    ∧ (o.State = PartialFilledOrder → 0 < o.ExecQty ∧ o.ExecQty < o.Qty)

/-! ## Sequences of calls on a trade -/

/-- The outcome of a call without its value. -/
def Outcome.void {α : Type} : Outcome α → Outcome Unit
  | .ok _ => .ok ()
  | .err msg => .err msg
  | .panic msg => .panic msg

/-- A call of one of the mutating methods of `Trade`, with its arguments. -/
inductive TradeCall where
  | putNewOrder (o : Order) : TradeCall
  | confirmOrder (id : String) : TradeCall
  | cancelOrder (id : String) : TradeCall
  | replaceOrder (id : String) (newPrice : F64) : TradeCall
  | rejectOrder (id : String) (reason : String) : TradeCall
  | executeOrder (id : String) (qty : Int) (execPrice : F64) (datetime : Time) : TradeCall
  | updatePnL (marketPrice : F64) (lastTime : Time) : TradeCall

/-- Running one call on a trade: the trade after the call and how the call ended. -/
def Trade.call (t : Trade) : TradeCall → Trade × Outcome Unit
  | .putNewOrder o => t.putNewOrder o
  | .confirmOrder id => t.confirmOrder id
  | .cancelOrder id => t.cancelOrder id
  | .replaceOrder id newPrice => t.replaceOrder id newPrice
  | .rejectOrder id reason => t.rejectOrder id reason
  | .executeOrder id qty execPrice datetime =>
    ((t.executeOrder id qty execPrice datetime).1,
      (t.executeOrder id qty execPrice datetime).2.void)
  | .updatePnL marketPrice lastTime => t.updatePnL marketPrice lastTime

/-- Running a sequence of calls on the same trade, successful or failing. -/
def Trade.calls (t : Trade) (cs : List TradeCall) : Trade :=
  cs.foldl (fun x c => (x.call c).1) t

/-- A closed trade as `executeOrder` leaves it: type Closed, no quantity, and no
live order. -/
def Trade.ClosedOut (t : Trade) : Prop :=
  t.Typ = ClosedTrade ∧ t.Qty = 0 ∧ t.NewOrders = ∅ ∧ t.ConfirmedOrders = ∅

/-! ## Position invariants -/

/-- The trade `u` has the position and P&L fields of `t`: only books, the id set
or other bookkeeping may differ. -/
def Trade.SamePosition (t u : Trade) : Prop :=
  u.Typ = t.Typ ∧ u.Qty = t.Qty ∧ u.OpenPrice = t.OpenPrice ∧ u.OpenValue = t.OpenValue
    ∧ u.MarketValue = t.MarketValue ∧ u.OpenPnL = t.OpenPnL ∧ u.ClosedPnL = t.ClosedPnL

/-- The quantity invariant of a trade: a Flat trade has no quantity and a NaN
open price, a Long or Short trade has a positive quantity, a Closed trade has
no quantity. -/
def Trade.PositionInv (t : Trade) : Prop :=
  (t.Typ = FlatTrade → t.Qty = 0 ∧ t.OpenPrice = F64.nan)
    ∧ (t.Typ = LongTrade ∨ t.Typ = ShortTrade → 0 < t.Qty)
    ∧ (t.Typ = ClosedTrade → t.Qty = 0)

/-- The valuation invariant of a trade: an open position is valued at its open
price, and its open P&L follows the long or short sign convention; a Flat trade
has no open P&L. -/
def Trade.ValueInv (t : Trade) : Prop :=
  (t.Typ = FlatTrade → t.OpenPnL = 0)
    ∧ (t.Typ = LongTrade ∨ t.Typ = ShortTrade → t.OpenValue = t.OpenPrice * F64.ofInt t.Qty)
    ∧ (t.Typ = LongTrade → t.OpenPnL = t.MarketValue - t.OpenValue)
    ∧ (t.Typ = ShortTrade → t.OpenPnL = t.OpenValue - t.MarketValue)

/-- The trades reachable from `newFlatTrade` by calls of the six trade
operations and of `updatePnL` (failing calls included, panicking calls
excluded), every successor included, when every execution price satisfies
`price`. -/
inductive ReachablePnL (price : F64 → Prop) : Trade → Prop where
  | init (ticker : Option Instrument) : ReachablePnL price (newFlatTrade ticker)
  | putNewOrder {t : Trade} (o : Order) :
      ReachablePnL price t → (t.putNewOrder o).2.isPanic = false →
      ReachablePnL price (t.putNewOrder o).1
  | confirmOrder {t : Trade} (id : String) :
      ReachablePnL price t → ReachablePnL price (t.confirmOrder id).1
  | cancelOrder {t : Trade} (id : String) :
      ReachablePnL price t → ReachablePnL price (t.cancelOrder id).1
  | replaceOrder {t : Trade} (id : String) (newPrice : F64) :
      ReachablePnL price t → ReachablePnL price (t.replaceOrder id newPrice).1
  | rejectOrder {t : Trade} (id : String) (reason : String) :
      ReachablePnL price t → ReachablePnL price (t.rejectOrder id reason).1
  | executeOrder {t : Trade} (id : String) (qty : Int) (execPrice : F64) (datetime : Time) :
      ReachablePnL price t → price execPrice →
      (t.executeOrder id qty execPrice datetime).2.isPanic = false →
      ReachablePnL price (t.executeOrder id qty execPrice datetime).1
  | successor {t s : Trade} (id : String) (qty : Int) (execPrice : F64) (datetime : Time) :
      ReachablePnL price t → price execPrice →
      (t.executeOrder id qty execPrice datetime).2 = .ok (some s) → ReachablePnL price s
  | updatePnL {t : Trade} (marketPrice : F64) (lastTime : Time) :
      ReachablePnL price t → ReachablePnL price (t.updatePnL marketPrice lastTime).1

/-! ## Properties of the orders held in the books -/

/-- Every order stored in the book satisfies `P`. -/
def Book.All (P : Order → Prop) (b : Book) : Prop := ∀ k o, b.lookup k = some o → P o

/-- The orders in `NewOrders` satisfy `PN`, those in `ConfirmedOrders` satisfy
`PC`, those in the three books of finished orders satisfy `PO`. -/
structure Trade.BooksSat (PN PC PO : Order → Prop) (t : Trade) : Prop where
  new : Book.All PN t.NewOrders
  confirmed : Book.All PC t.ConfirmedOrders
  filled : Book.All PO t.FilledOrders
  canceled : Book.All PO t.CanceledOrders
  rejected : Book.All PO t.RejectedOrders

/-- The order is held in one of the five books of the trade. -/
def Trade.Holds (t : Trade) (o : Order) : Prop :=
  ∃ id, t.NewOrders.lookup id = some o ∨ t.ConfirmedOrders.lookup id = some o
    ∨ t.FilledOrders.lookup id = some o ∨ t.CanceledOrders.lookup id = some o
    ∨ t.RejectedOrders.lookup id = some o

/-- The test for the market types made by `Order.isValid` (line 210). -/
def Order.IsMarketType (o : Order) : Bool :=
  if o.Typ = MarketOrder ∨ o.Typ = MarketOnClose ∨ o.Typ = MarketOnOpen then true else false

/-- The price rule in the words of the specification: a priced order has a
finite positive price, a market order has a not-a-number price. -/
def Order.PriceAsStated (o : Order) : Prop :=
  (o.IsPriced = true → o.Price.isFinite = true ∧ F64.lt 0 o.Price = true)
    ∧ (o.IsMarketType = true → o.Price.isNaN = true)

/-- The price rule the code maintains: the order has a priced or a market type,
and a market order has a not-a-number price. -/
def Order.PriceKept (o : Order) : Prop :=
  (o.IsPriced = true ∨ o.IsMarketType = true) ∧ (o.IsMarketType = true → o.Price.isNaN = true)

/-- The states of the live orders: an order in `NewOrders` is New, an order in
`ConfirmedOrders` is Confirmed or PartialFilled. -/
def Trade.LiveStates (t : Trade) : Prop :=
  t.BooksSat (fun o => o.State = NewOrder)
    (fun o => o.State = ConfirmedOrder ∨ o.State = PartialFilledOrder) (fun _ => True)

/-! ## The 64-bit arithmetic of the quantities

`Order.addExecution`, `Trade.positionUpdate` and `Trade.executeOrder` above
compute the quantities in exact integer arithmetic. The source computes them in
`int64`, whose sums and differences wrap around. The definitions of this section
restate the three methods with every `int64` operation wrapped: they are the
methods of the source on arguments and quantity fields that are `int64` values,
and they agree with the exact definitions whenever no operation overflows. -/

/-- The integer is a value of the type `int64`. -/
def IsInt64 (n : Int) : Prop := -9223372036854775808 ≤ n ∧ n ≤ 9223372036854775807

instance (n : Int) : Decidable (IsInt64 n) := by
  unfold IsInt64
  infer_instance

/-- The constant `math.MaxInt64`. -/
def MaxInt64 : Int := 9223372036854775807

/-- The constant `math.MinInt64`. -/
def MinInt64 : Int := -9223372036854775808

/-- The `int64` result of an operation whose exact result is `n`: the value
congruent to `n` modulo `2^64` in the `int64` range (two's complement). -/
def wrap64 (n : Int) : Int :=
  (n + 9223372036854775808) % 18446744073709551616 - 9223372036854775808

/-- The method `Order.addExecution` (lines 221-251) in `int64` arithmetic: the
sum `qty+o.ExecQty` of the guard, the sum `o.ExecQty+qty` of the average and
the update `o.ExecQty += qty` wrap around. -/
def Order.addExecution64 (o : Order) (price : F64) (qty : Int) : Order × Outcome Unit :=
  if o.State = FilledOrder then
    (o, .err "Can't update order. Order is already filled")
  else if price.isNaN then
    (o, .err "Can't update order. Execution price is NaN")
  else if F64.le price 0 then
    (o, .err "Can't update order. Price less or equal zero")
  else if qty ≤ 0 then
    (o, .err "Can't update order. Execution qty is lezz or equal to zero")
  else if wrap64 (qty + o.ExecQty) > o.Qty then
    (o, .err "Can't update order. Execution quantity is greater than lvs qty")
  else
    let avgExecPrice :=
      if o.ExecQty > 0 then
        (F64.ofInt o.ExecQty * o.ExecPrice + price * F64.ofInt qty)
          / F64.ofInt (wrap64 (o.ExecQty + qty))
      else price
    let o1 := { o with ExecQty := wrap64 (o.ExecQty + qty) }
    let o2 := { o1 with ExecPrice := avgExecPrice }
    if o2.ExecQty = o2.Qty then
      ({ o2 with State := FilledOrder }, .ok ())
    else
      ({ o2 with State := PartialFilledOrder }, .ok ())

/-- Running one call on an order, in `int64` arithmetic. -/
def Order.call64 (o : Order) : OrderCall → Order × Outcome Unit
  | .addExecution price qty => o.addExecution64 price qty
  | .confirm => o.confirm
  | .cancel => o.cancel
  | .reject reason => o.reject reason
  | .replace newPrice => o.replace newPrice

/-- Running a sequence of calls on an order, successful or failing, in `int64`
arithmetic. -/
def Order.calls64 (o : Order) (cs : List OrderCall) : Order :=
  cs.foldl (fun x c => (x.call64 c).1) o

/-- The position update of `Trade.executeOrder` (lines 512-666) in `int64`
arithmetic: `t.Qty += qty`, `t.Qty -= qty` and `newQty := qty - t.Qty` wrap
around. The text is that of `Trade.positionUpdate`. -/
def Trade.positionUpdate64 (t : Trade) (order : Order) (qty : Int) (execPrice : F64)
    (datetime : Time) : Trade × Outcome (Option Trade) :=
  if t.Typ = FlatTrade then
    let t1 := { t with Qty := qty }
    let t2 := { t1 with Id := order.Id }
    let t3 := { t2 with FirstPrice := execPrice }
    if order.Side ≠ OrderBuy ∧ order.Side ≠ OrderSell then
      (t3, .panic "Unknow side for execution!")
    else
      let t4 := { t3 with Typ := if order.Side = OrderBuy then LongTrade else ShortTrade }
      let t5 := { t4 with OpenPrice := execPrice }
      let t6 := { t5 with OpenValue := execPrice * F64.ofInt t5.Qty }
      let t7 := { t6 with MarketValue := t6.OpenValue }
      ({ t7 with OpenTime := datetime }, .ok none)
  else if t.Typ = ShortTrade then
    if order.Side = OrderSell then
      let t1 := { t with Qty := wrap64 (t.Qty + qty) }
      let t2 := { t1 with OpenValue := t1.OpenValue + F64.ofInt qty * execPrice }
      let t3 := { t2 with OpenPrice := t2.OpenValue / F64.ofInt t2.Qty }
      let t4 := { t3 with MarketValue := F64.ofInt t3.Qty * execPrice }
      ({ t4 with OpenPnL := -(t4.MarketValue - t4.OpenValue) }, .ok none)
    else if qty < t.Qty then
      let t1 := { t with Qty := wrap64 (t.Qty - qty) }
      let t2 := { t1 with ClosedPnL := t1.ClosedPnL + -(execPrice - t1.OpenPrice) * F64.ofInt qty }
      let t3 := { t2 with OpenValue := t2.OpenPrice * F64.ofInt t2.Qty }
      let t4 := { t3 with MarketValue := F64.ofInt t3.Qty * execPrice }
      ({ t4 with OpenPnL := -(t4.MarketValue - t4.OpenValue) }, .ok none)
    else if qty = t.Qty then
      let tc := t.closeWith (wrap64 (t.Qty - qty)) (-(execPrice - t.OpenPrice)) qty datetime
      let newTrade := tc.flatSuccessor
      (tc.dropLiveBooks, .ok (some newTrade))
    else
      let newQty := wrap64 (qty - t.Qty)
      let tc := t.closeWith 0 (-(execPrice - t.OpenPrice)) t.Qty datetime
      let newTrade := tc.flipSuccessor order newQty execPrice datetime LongTrade
      (tc.dropLiveBooks, .ok (some newTrade))
  else if t.Typ = LongTrade then
    if order.Side = OrderBuy then
      let t1 := { t with Qty := wrap64 (t.Qty + qty) }
      let t2 := { t1 with OpenValue := t1.OpenValue + F64.ofInt qty * execPrice }
      let t3 := { t2 with OpenPrice := t2.OpenValue / F64.ofInt t2.Qty }
      let t4 := { t3 with MarketValue := F64.ofInt t3.Qty * execPrice }
      ({ t4 with OpenPnL := t4.MarketValue - t4.OpenValue }, .ok none)
    else if qty < t.Qty then
      let t1 := { t with Qty := wrap64 (t.Qty - qty) }
      let t2 := { t1 with ClosedPnL := t1.ClosedPnL + (execPrice - t1.OpenPrice) * F64.ofInt qty }
      let t3 := { t2 with OpenValue := t2.OpenPrice * F64.ofInt t2.Qty }
      let t4 := { t3 with MarketValue := F64.ofInt t3.Qty * execPrice }
      ({ t4 with OpenPnL := t4.MarketValue - t4.OpenValue }, .ok none)
    else if qty = t.Qty then
      let tc := t.closeWith (wrap64 (t.Qty - qty)) (execPrice - t.OpenPrice) qty datetime
      let newTrade := tc.flatSuccessor
      (tc.dropLiveBooks, .ok (some newTrade))
    else
      let newQty := wrap64 (qty - t.Qty)
      let tc := t.closeWith 0 (execPrice - t.OpenPrice) t.Qty datetime
      let newTrade := tc.flipSuccessor order newQty execPrice datetime ShortTrade
      (tc.dropLiveBooks, .ok (some newTrade))
  else (t, .ok none)

/-- The method `Trade.executeOrder` (lines 472-667) in `int64` arithmetic:
`qtyLeft := order.Qty - order.ExecQty` wraps around, the fill is recorded by
`Order.addExecution64` and the position is updated by `Trade.positionUpdate64`.
The text is that of `Trade.executeOrder`. -/
def Trade.executeOrder64 (t : Trade) (id : String) (qty : Int) (execPrice : F64) (datetime : Time) :
    Trade × Outcome (Option Trade) :=
  match t.ConfirmedOrders.lookup id with
  | none => (t, .err "Can't execute order. Id not found in ConfirmedOrders. id: %v")
  | some order =>
    if execPrice.isNaN ∨ F64.feq execPrice 0 then
      (t, .panic "Panic: tried to execute order with zero or NaN execution price")
    else
      let qtyLeft := wrap64 (order.Qty - order.ExecQty)
      if qtyLeft < qty then
        (t, .err "Can't execute order %v. Qty is greater than unexecuted order qty. Order: %+v, execQty: %v")
      else
        let t1 := if qty = qtyLeft then { t with FilledOrders := t.FilledOrders.orFresh } else t
        if qty = qtyLeft ∧ t.FilledOrders.len ≠ 0 ∧ id ∈ t1.FilledOrders then
          (t1, .err "%v Can't execute order. ID already found in FilledOrders. Filled Qty:%v, Total Qty:%v,  id %v")
        else
          let t2 :=
            if qty = qtyLeft then
              let u := { t1 with FilledOrders := t1.FilledOrders.insert id order }
              { u with ConfirmedOrders := u.ConfirmedOrders.erase id }
            else t1
          let (order1, r) := order.addExecution64 execPrice qty
          let t3 :=
            if qty = qtyLeft then { t2 with FilledOrders := t2.FilledOrders.insert id order1 }
            else { t2 with ConfirmedOrders := t2.ConfirmedOrders.insert id order1 }
          match r with
          | .ok _ => t3.positionUpdate64 order1 qty execPrice datetime
          | .err msg => (t3, .err msg)
          | .panic msg => (t3, .panic msg)

/-- No `int64` operation of the call `executeOrder(id, qty, ..)` on `t`
overflows, where `order` is the order held under `id`: neither the remaining
quantity `order.Qty - order.ExecQty`, nor the new executed quantity
`qty + order.ExecQty`, nor `t.Qty + qty` when the fill adds to the position,
nor `t.Qty - qty` and `qty - t.Qty` when it covers the position. -/
def Trade.NoOverflow (t : Trade) (order : Order) (qty : Int) : Prop :=
  IsInt64 (order.Qty - order.ExecQty) ∧ IsInt64 (qty + order.ExecQty)
  ∧ ((t.Typ = ShortTrade ∧ order.Side = OrderSell ∨ t.Typ = LongTrade ∧ order.Side = OrderBuy) →
      IsInt64 (t.Qty + qty))
  ∧ ((t.Typ = ShortTrade ∧ order.Side ≠ OrderSell ∨ t.Typ = LongTrade ∧ order.Side ≠ OrderBuy) →
      IsInt64 (t.Qty - qty) ∧ IsInt64 (qty - t.Qty))

instance (t : Trade) (order : Order) (qty : Int) : Decidable (t.NoOverflow order qty) := by
  unfold Trade.NoOverflow
  infer_instance

/-- The trades that the source reaches from `newFlatTrade` by calls of
`putNewOrder`, `confirmOrder`, `cancelOrder`, `replaceOrder`, `rejectOrder` and
`executeOrder` (failing calls included, panicking calls excluded), every
successor included, in runs in which no `int64` operation of an `executeOrder`
call overflows. -/
inductive ReachableNoOverflow : Trade → Prop where
  | init (ticker : Option Instrument) : ReachableNoOverflow (newFlatTrade ticker)
  | putNewOrder {t : Trade} (o : Order) :
      ReachableNoOverflow t → (t.putNewOrder o).2.isPanic = false →
      ReachableNoOverflow (t.putNewOrder o).1
  | confirmOrder {t : Trade} (id : String) :
      ReachableNoOverflow t → ReachableNoOverflow (t.confirmOrder id).1
  | cancelOrder {t : Trade} (id : String) :
      ReachableNoOverflow t → ReachableNoOverflow (t.cancelOrder id).1
  | replaceOrder {t : Trade} (id : String) (newPrice : F64) :
      ReachableNoOverflow t → ReachableNoOverflow (t.replaceOrder id newPrice).1
  | rejectOrder {t : Trade} (id : String) (reason : String) :
      ReachableNoOverflow t → ReachableNoOverflow (t.rejectOrder id reason).1
  | executeOrder {t : Trade} (id : String) (qty : Int) (execPrice : F64) (datetime : Time) :
      ReachableNoOverflow t →
      (∀ order, t.ConfirmedOrders.lookup id = some order → t.NoOverflow order qty) →
      (t.executeOrder64 id qty execPrice datetime).2.isPanic = false →
      ReachableNoOverflow (t.executeOrder64 id qty execPrice datetime).1
  | successor {t s : Trade} (id : String) (qty : Int) (execPrice : F64) (datetime : Time) :
      ReachableNoOverflow t →
      (∀ order, t.ConfirmedOrders.lookup id = some order → t.NoOverflow order qty) →
      (t.executeOrder64 id qty execPrice datetime).2 = .ok (some s) → ReachableNoOverflow s

/-! ## Sample data: an id used twice after a Flat successor -/

namespace Sample

/-- On the Flat successor `flatSuccessorLive`, which holds the live order `b2`:
the fill (5 at 99) of `b2` opens a long position of 5 and files `b2` under
`FilledOrders`. -/
def longOnSuccessor : Trade := (flatSuccessorLive.executeOrder "b2" 5 99 ⟨6⟩).1

/-- On that long position a second order with the id `b2` is submitted and
confirmed. -/
def reusedId (side : OrderSide) (qty : Int) : Trade :=
  submit longOnSuccessor (limitOrder "b2" side qty 99)

/-- On the Flat successor `flatSuccessorLive`: the fill of `b2` at the price -1
is refused after `b2` was filed under `FilledOrders`; then a second order with
the id `b2` is submitted and confirmed. The trade is still Flat. -/
def reusedIdFlat : Trade :=
  submit (flatSuccessorLive.executeOrder "b2" 5 (-1) ⟨6⟩).1 (limitOrder "b2" OrderBuy 5 99)

/-- A long position of `math.MaxInt64` shares, opened by the complete fill of a
buy order `a`, with a confirmed buy order `b` for one share. Every call is
computed in `int64` arithmetic and none overflows. -/
def maxLong : Trade :=
  submit ((submit (newFlatTrade (some ticker)) (limitOrder "a" OrderBuy MaxInt64 50)).executeOrder64
    "a" MaxInt64 50 ⟨1⟩).1 (limitOrder "b" OrderBuy 1 50)

/-- The trade `maxLong` after the fill of the order `b`: the sum
`t.Qty += qty` overflows. -/
def overflowLong : Trade := (maxLong.executeOrder64 "b" 1 50 ⟨2⟩).1

end Sample

/-! ## Library functions used by events.go and strategy.go

`Time` is the instant of a `time.Time` value. The methods `Before`, `After`,
`Unix` and `Add` look at the instant alone. A `time.Time` value also carries a
`*Location` and, possibly, a monotonic clock reading (`TimeRest`): the operator
`==`, which compares the keys of a map, compares them too, and the calendar
methods (`Year`, `Month`, `Day`, `Hour`, `Minute`, `AddDate`, `time.Date`) read
the zone rules of the Location. The calendar methods are library code: they are
parameters (`Calendar`) of the methods of the source that call them. -/

/-- The constant `time.Minute`, a `time.Duration` in nanoseconds. -/
def Duration.Minute : Int := 60 * 1000000000

namespace Time

/-- The method `Time.Before`. -/
def Before (t u : Time) : Bool := decide (t.unixNano < u.unixNano)

/-- The method `Time.After`. -/
def After (t u : Time) : Bool := decide (u.unixNano < t.unixNano)

/-- The method `Time.Unix`: the whole seconds since the epoch. -/
def Unix (t : Time) : Int := t.unixNano / 1000000000

/-- The method `Time.Add` of a duration in nanoseconds. -/
def Add (t : Time) (d : Int) : Time := ⟨t.unixNano + d⟩

end Time

/-- What a `time.Time` value holds beside its instant: the `*Location` it
carries, by identity (0 stands for nil), and its monotonic clock reading, if it
has one. Two `time.Time` values are `==`, and so the same map key, when they
are the same instant and these two parts are the same. -/
structure TimeRest where
  loc : Nat
  mono : Option Int
deriving DecidableEq

/-- The calendar functions of package `time` that the source calls, for a value
that carries the Location `loc` and is the instant `t`: the methods `Year`,
`Month`, `Day`, `Hour`, `Minute` and `AddDate`, and the function `time.Date`,
whose last argument is the Location. -/
structure Calendar where
  Year : Nat → Time → Int
  Month : Nat → Time → Int
  Day : Nat → Time → Int
  Hour : Nat → Time → Int
  Minute : Nat → Time → Int
  AddDate : Nat → Time → Int → Int → Int → Time
  Date : Int → Int → Int → Int → Int → Int → Int → Nat → Time

/-- The civil date (year, month, day) of a count of days since 1 January 1970
in the proleptic Gregorian calendar. -/
def civilFromDays (days : Int) : Int × Int × Int :=
  let z := days + 719468
  let era := z / 146097
  let doe := z - era * 146097
  let yoe := (doe - doe / 1460 + doe / 36524 - doe / 146096) / 365
  let doy := doe - (365 * yoe + yoe / 4 - yoe / 100)
  let mp := (5 * doy + 2) / 153
  (yoe + era * 400 + (if mp < 10 then 0 else 1), if mp < 10 then mp + 3 else mp - 9,
    doy - (153 * mp + 2) / 5 + 1)

/-- The count of days since 1 January 1970 of a civil date with a month from 1
to 12; a day outside the month counts on into the neighbouring months. -/
def daysFromCivil (y m d : Int) : Int :=
  let y1 := if m ≤ 2 then y - 1 else y
  let era := y1 / 400
  let yoe := y1 - era * 400
  let mp := if m > 2 then m - 3 else m + 9
  let doy := (153 * mp + 2) / 5 + d - 1
  let doe := yoe * 365 + yoe / 4 - yoe / 100 + doy
  era * 146097 + doe - 719468

/-- The calendar functions when the Location `loc` is a fixed zone
`offset loc` seconds east of UTC (`time.FixedZone`, and UTC itself with the
offset 0). It serves to evaluate the methods on sample data. -/
def Calendar.fixedZones (offset : Nat → Int) : Calendar :=
  let date : Int → Int → Int → Int → Int → Int → Int → Nat → Time :=
    fun y m d h mi s ns loc =>
      ⟨(daysFromCivil (y + (m - 1) / 12) ((m - 1) % 12 + 1) d * 86400 + h * 3600 + mi * 60 + s
          - offset loc) * 1000000000 + ns⟩
  let civil : Nat → Time → Int × Int × Int :=
    fun loc t => civilFromDays ((t.Unix + offset loc) / 86400)
  { Year := fun loc t => (civil loc t).1
    Month := fun loc t => (civil loc t).2.1
    Day := fun loc t => (civil loc t).2.2
    Hour := fun loc t => (t.Unix + offset loc) % 86400 / 3600
    Minute := fun loc t => (t.Unix + offset loc) % 3600 / 60
    AddDate := fun loc t years months days =>
      date ((civil loc t).1 + years) ((civil loc t).2.1 + months) ((civil loc t).2.2 + days)
        ((t.Unix + offset loc) % 86400 / 3600) ((t.Unix + offset loc) % 3600 / 60)
        ((t.Unix + offset loc) % 60) (t.unixNano % 1000000000) loc
    Date := date }

/-- The calendar functions when every Location is UTC. -/
def Calendar.utc : Calendar := Calendar.fixedZones (fun _ => 0)

/-- The digits of `strconv.ParseUint(s, 10, 64)` read as a number: `none` when
the string is empty or holds a character that is not a decimal digit. -/
def parseDigits (cs : List Char) : Option Nat :=
  if cs = [] then none
  else
    cs.foldl
      (fun acc c =>
        match acc with
        | none => none
        | some n => if c.isDigit then some (n * 10 + (c.toNat - 48)) else none)
      (some 0)

/-- The call `strconv.ParseInt(s, 10, 8)`: an optional sign followed by decimal
digits, with a value that fits eight bits; `none` stands for every error. -/
def strconvParseInt8 (s : String) : Option Int :=
  match s.data with
  | [] => none
  | c :: rest =>
    let digits := if c = '+' ∨ c = '-' then rest else c :: rest
    match parseDigits digits with
    | none => none
    | some un =>
      if c ≠ '-' ∧ un ≥ 128 then none
      else if c = '-' ∧ un > 128 then none
      else some (if c = '-' then -(un : Int) else (un : Int))

/-- The call `sort.SliceStable(l, func(i, j) bool { return key(l[i]) < key(l[j]) })`:
the stable sort by ascending key. -/
def sortSliceStable {α : Type} (key : α → Int) (l : List α) : List α :=
  l.insertionSort (fun a b => key a ≤ key b)

/-! ## Market data (generic.go, lines 94-156)

The structs `Candle` and `Tick` embed the market data record, whose fields are
promoted; strategy.go names the embedded types. One type stands for both. -/

/-- The struct `Candle` with the promoted fields of `marketdata.Candle`. The
field `Datetime` of the source, a `time.Time` value, is the pair of `Datetime`,
its instant, and `DatetimeRest`, its Location and monotonic clock reading. -/
structure Candle where
  Datetime : Time
  DatetimeRest : TimeRest
  Open : F64
  High : F64
  Low : F64
  Close : F64
  Ticker : Option Instrument
deriving DecidableEq

/-- The value of the field `Datetime` of the source as a map key. -/
def Candle.DatetimeKey (c : Candle) : Time × TimeRest := (c.Datetime, c.DatetimeRest)

/-- The struct `Tick` with the promoted fields of `marketdata.Tick`. The source
uses the `Datetime` of a tick through `Before` and `Unix` only: it is the
instant. -/
structure Tick where
  Datetime : Time
  LastPrice : F64
  Ticker : Option Instrument
deriving DecidableEq

/-- The method `Candle.isClosingForTimeFrame` (generic.go, lines 140-154). -/
def Candle.isClosingForTimeFrame (cal : Calendar) (c : Candle) (tf : String) : Outcome Bool :=
  if tf = "D" ∨ tf = "W" then .ok true
  else
    match strconvParseInt8 tf with
    | none => .panic "Unknown timeframe. "
    | some mins =>
      match c.Ticker with
      | none => .panic "invalid memory address or nil pointer dereference"
      | some tk =>
        let e := tk.Exchange
        let closeTime := c.Datetime.Add (Duration.Minute * mins)
        if cal.Hour c.DatetimeRest.loc closeTime = e.MarketCloseTime.Hour
            ∧ cal.Minute c.DatetimeRest.loc closeTime = e.MarketCloseTime.Minute
        then .ok true
        else .ok false

/-! ## Events (events.go) -/

/-- The struct `BaseEvent`. -/
structure BaseEvent where
  Time : Time
  Ticker : Option Instrument
deriving DecidableEq

/-- The symbol of an event, `e.Symbol` in strategy.go: the symbol of its
instrument (`getSymbol`), empty when there is none. -/
def BaseEvent.Symbol (e : BaseEvent) : String :=
  match e.Ticker with
  | some tk => tk.Symbol
  | none => ""

structure CandleOpenEvent extends BaseEvent where
  CandleTime : Engine.Time
  Price : F64
  TimeFrame : String
deriving DecidableEq

structure CandleCloseEvent extends BaseEvent where
  Candle : Option Candle
  TimeFrame : String
deriving DecidableEq

structure CandlesHistoryEvent extends BaseEvent where
  Candles : List (Option Candle)
deriving DecidableEq

structure NewTickEvent extends BaseEvent where
  Tick : Option Tick
deriving DecidableEq

structure TickHistoryEvent extends BaseEvent where
  Ticks : List (Option Tick)
deriving DecidableEq

structure OrderConfirmationEvent extends BaseEvent where
  OrdId : String
deriving DecidableEq

structure OrderFillEvent extends BaseEvent where
  OrdId : String
  Price : F64
  Qty : Int
deriving DecidableEq

structure OrderCancelEvent extends BaseEvent where
  OrdId : String
deriving DecidableEq

structure OrderReplacedEvent extends BaseEvent where
  OrdId : String
  NewPrice : F64
deriving DecidableEq

structure OrderRejectedEvent extends BaseEvent where
  OrdId : String
  Reason : String
deriving DecidableEq

/-- The method `CandleCloseEvent.setEventTimeFromCandle` (events.go, lines 63-86).
The event time keeps the instant of the computed time. -/
def CandleCloseEvent.setEventTimeFromCandle (cal : Calendar) (e : CandleCloseEvent) :
    CandleCloseEvent × Outcome Unit :=
  match e.Candle with
  | none => (e, .panic "Can't get Event time from Nil candle")
  | some c =>
    let loc := c.DatetimeRest.loc
    if e.TimeFrame = "D" then
      let closeTime := c.Datetime
      let closeTime :=
        cal.Date (cal.Year loc closeTime) (cal.Month loc closeTime) (cal.Day loc closeTime)
          23 59 59 0 loc
      ({ e with Time := closeTime }, .ok ())
    else if e.TimeFrame = "W" then
      let closeTime := cal.AddDate loc c.Datetime 0 0 7
      let closeTime :=
        cal.Date (cal.Year loc closeTime) (cal.Month loc closeTime) (cal.Day loc closeTime)
          23 59 59 0 loc
      ({ e with Time := closeTime }, .ok ())
    else
      match strconvParseInt8 e.TimeFrame with
      | none => (e, .panic ("Unknown timeframe: " ++ e.TimeFrame))
      | some minutes =>
        let closeTime := c.Datetime.Add (minutes * Duration.Minute)
        ({ e with Time := closeTime }, .ok ())

/-! ## The strategy (strategy.go)

strategy.go is written against a revision of the package in which orders,
trades and events carry the symbol as a string. With the types of generic.go
and events.go, `order.Symbol` and `e.Symbol` are the symbol of the instrument,
and `newFlatTrade(b.Symbol)` receives the instrument that has this symbol.
Channels are modelled by the list of the values sent on them, a goroutine
started by `go` runs at once, and `int32` counters are integers. The windows
`Ticks` and `Candles` hold non-nil entries only, as every path that fills them
drops nil. The library function `Time.Format` is the parameter `fmt`. -/

/-- The symbol of an order, `order.Symbol` in strategy.go. -/
def Order.Symbol (o : Order) : String :=
  match o.Ticker with
  | some tk => tk.Symbol
  | none => ""

/-- The instrument literal `&Instrument{Symbol: symbol}`. -/
def Instrument.ofSymbol (symbol : String) : Instrument :=
  ⟨symbol, ⟨"", ⟨0, 0, 0⟩, ⟨0, 0, 0⟩⟩, 0, 0⟩

/-- A value sent on `requestsChan`. -/
inductive Request where
  | newOrder (order : Order) : Request
  | cancel (ordId : String) : Request
  | tick (e : Option NewTickEvent) : Request
deriving DecidableEq

/-- The struct `BasicStrategy` (lines 41-65): the fields read or written by the
handlers, the channels as the lists of what was sent, and the calls of the user
callback `OnTick` in `onTickCalls`. -/
structure BasicStrategy where
  Symbol : String
  NPeriods : Int
  waitingConfirmation : Finset String
  waitingN : Int
  closedTrades : List Trade
  currentTrade : Option Trade
  Ticks : List Tick
  Candles : List Candle
  lastCandleOpen : F64
  lastCandleOpenTime : Time
  mostRecentTime : Time
  requestsChan : List Request
  errorsChan : List String
  brokerNotifyChan : List OrderFillEvent
  onTickCalls : List Tick
deriving DecidableEq

namespace BasicStrategy

/-- The method `init` (lines 67-74). -/
def init (b : BasicStrategy) : BasicStrategy :=
  let b1 :=
    match b.currentTrade with
    | none => { b with currentTrade := some (newFlatTrade (some (Instrument.ofSymbol b.Symbol))) }
    | some _ => b
  if b1.closedTrades.length = 0 then { b1 with closedTrades := [] } else b1

/-- The method `error` (lines 545-549), started as a goroutine by its callers. -/
def error (b : BasicStrategy) (err : String) : BasicStrategy :=
  { b with errorsChan := b.errorsChan ++ [err] }

/-- The method `newEvent` (lines 551-553). -/
def newEvent (b : BasicStrategy) (e : Request) : BasicStrategy :=
  { b with requestsChan := b.requestsChan ++ [e] }

/-- The method `newOrder` (lines 183-216). -/
def newOrder (fmt : Time → String) (b : BasicStrategy) (order : Order) :
    BasicStrategy × Outcome Unit :=
  if order.Symbol ≠ b.Symbol then
    (b, .err "Can't put new order. Strategy symbol and order symbol are different. ")
  else
    let order1 := if order.Id = "" then { order with Id := fmt order.Time } else order
    if !order1.isValid then
      (b, .err "Order is not valid. ")
    else
      let order2 := { order1 with Id := b.Symbol ++ "|" ++ order1.Side ++ "|" ++ order1.Id }
      match b.currentTrade with
      | none => (b, .panic "invalid memory address or nil pointer dereference")
      | some t =>
        let (t1, r) := t.putNewOrder order2
        let b1 := { b with currentTrade := some t1 }
        match r with
        | .err msg => (b1.error msg, .err msg)
        | .panic msg => (b1, .panic msg)
        | .ok _ =>
          let reqID := "$NO$" ++ order2.Id
          if reqID ∈ b1.waitingConfirmation then
            (b1, .err "Order is already waiting for conf. ")
          else
            let b2 := { b1 with waitingConfirmation := insert reqID b1.waitingConfirmation }
            let b3 := { b2 with waitingN := b2.waitingN + 1 }
            (b3.newEvent (.newOrder order2), .ok ())

/-- The method `CancelOrder` (lines 218-244). -/
def CancelOrder (b : BasicStrategy) (ordID : String) : BasicStrategy × Outcome Unit :=
  if ordID = "" then
    (b, .err "Order Id not specified. ")
  else
    match b.currentTrade with
    | none => (b, .panic "invalid memory address or nil pointer dereference")
    | some t =>
      if !t.hasConfirmedOrderWithId ordID then
        (b, .err "Order ID not found in confirmed orders. ")
      else
        match t.ConfirmedOrders.lookup ordID with
        | none => (b, .panic "invalid memory address or nil pointer dereference")
        | some _ =>
          let reqID := "$CAN$" ++ ordID
          if reqID ∈ b.waitingConfirmation then
            (b, .err "Order is already waiting for conf. ")
          else
            let b2 := { b with waitingConfirmation := insert reqID b.waitingConfirmation }
            let b3 := { b2 with waitingN := b2.waitingN + 1 }
            (b3.newEvent (.cancel ordID), .ok ())

/-- The statement shared by the market data handlers (lines 274-279, 301-306,
384-389): `if b.currentTrade.IsOpen() { err := b.currentTrade.updatePnL(price,
time); if err != nil { go b.error(err) } }`. -/
def updateOpenPnL (b : BasicStrategy) (price : F64) (time : Time) :
    BasicStrategy × Outcome Unit :=
  match b.currentTrade with
  | none => (b, .panic "invalid memory address or nil pointer dereference")
  | some t =>
    match t.IsOpen with
    | .ok true =>
      let (t1, r) := t.updatePnL price time
      let b1 := { b with currentTrade := some t1 }
      match r with
      | .ok _ => (b1, .ok ())
      | .err msg => (b1.error msg, .ok ())
      | .panic msg => (b1, .panic msg)
    | .ok false => (b, .ok ())
    | .err msg => (b, .panic msg)
    | .panic msg => (b, .panic msg)

/-- The method `updateLastCandleOpen` (lines 605-615). -/
def updateLastCandleOpen (b : BasicStrategy) : BasicStrategy :=
  match b.Candles.getLast? with
  | none => b
  | some lastCandleInHist =>
    if lastCandleInHist.Datetime.After b.lastCandleOpenTime then
      let b1 := { b with lastCandleOpen := lastCandleInHist.Open }
      { b1 with lastCandleOpenTime := lastCandleInHist.Datetime }
    else b

/-- The method `putNewCandle` (lines 555-580). -/
def putNewCandle (b : BasicStrategy) (candle : Option Candle) : BasicStrategy × Outcome Unit :=
  match candle with
  | none => (b, .ok ())
  | some c =>
    let sortIt :=
      match b.Candles.getLast? with
      | some l => c.Datetime.Before l.Datetime
      | none => false
    if (b.Candles.length : Int) < b.NPeriods then
      let b1 := { b with Candles := b.Candles ++ [c] }
      (b1.updateLastCandleOpen, .ok ())
    else
      match b.Candles with
      | [] => (b, .panic "slice bounds out of range [1:0]")
      | _ :: rest =>
        let b1 := { b with Candles := rest ++ [c] }
        let b2 :=
          if sortIt then
            { b1 with Candles := sortSliceStable (fun x => x.Datetime.Unix) b1.Candles }
          else b1
        (b2.updateLastCandleOpen, .ok ())

/-- The method `putNewTick` (lines 582-603). -/
def putNewTick (b : BasicStrategy) (tick : Option Tick) : BasicStrategy × Outcome Unit :=
  match tick with
  | none => (b, .ok ())
  | some t =>
    let sortIt :=
      match b.Ticks.getLast? with
      | some l => t.Datetime.Before l.Datetime
      | none => false
    if (b.Ticks.length : Int) < b.NPeriods then
      ({ b with Ticks := b.Ticks ++ [t] }, .ok ())
    else
      match b.Ticks with
      | [] => (b, .panic "slice bounds out of range [1:0]")
      | _ :: rest =>
        let b1 := { b with Ticks := rest ++ [t] }
        let b2 :=
          if sortIt then
            { b1 with Ticks := sortSliceStable (fun x => x.Datetime.Unix) b1.Ticks }
          else b1
        (b2, .ok ())

/-- The method `onCandleCloseHandler` (lines 260-287); `CandleIsValid` returns
true and `OnCandleClose` is empty. -/
def onCandleCloseHandler (b : BasicStrategy) (e : Option CandleCloseEvent) :
    BasicStrategy × Outcome Unit :=
  match e with
  | none => (b, .ok ())
  | some e =>
    match e.Candle with
    | none => (b, .ok ())
    | some c =>
      match b.putNewCandle (some c) with
      | (b1, .ok _) => b1.updateOpenPnL c.Close c.Datetime
      | (b1, r) => (b1, r)

/-- The method `onCandleOpenHandler` (lines 289-310); `OnCandleOpen` is empty. -/
def onCandleOpenHandler (b : BasicStrategy) (e : Option CandleOpenEvent) :
    BasicStrategy × Outcome Unit :=
  match e with
  | none => (b, .ok ())
  | some e =>
    let b1 :=
      if !e.CandleTime.Before b.lastCandleOpenTime then
        let b0 := { b with lastCandleOpen := e.Price }
        { b0 with lastCandleOpenTime := e.CandleTime }
      else b
    b1.updateOpenPnL e.Price e.CandleTime

/-- The loop of `onCandleHistoryHandler` (lines 325-341): nil entries are
skipped, and so is every entry whose `Datetime` is a key of the map
`listedCandleTimes` of the values listed before. -/
def checkedCandles (allCandles : List (Option Candle)) : List Candle :=
  (allCandles.foldl
    (fun (acc : List Candle × Finset (Time × TimeRest)) v =>
      match v with
      | none => acc
      | some c =>
        if c.DatetimeKey ∈ acc.2 then acc else (acc.1 ++ [c], insert c.DatetimeKey acc.2))
    ([], ∅)).1

/-- The method `onCandleHistoryHandler` (lines 313-356). -/
def onCandleHistoryHandler (b : BasicStrategy) (e : CandlesHistoryEvent) :
    BasicStrategy × Outcome Unit :=
  if e.Candles.length = 0 then (b, .ok ())
  else
    let allCandles := b.Candles.map some ++ e.Candles
    let checked := sortSliceStable (fun c => c.Datetime.Unix) (checkedCandles allCandles)
    if (checked.length : Int) > b.NPeriods then
      if b.NPeriods < 0 then (b, .panic "slice bounds out of range")
      else
        let b1 := { b with Candles := checked.drop (checked.length - b.NPeriods.toNat) }
        (b1.updateLastCandleOpen, .ok ())
    else
      let b1 := { b with Candles := checked }
      (b1.updateLastCandleOpen, .ok ())

/-- The loop of `onTickHistoryHandler` (lines 415-425): nil entries are skipped. -/
def checkedTicks (allTicks : List (Option Tick)) : List Tick :=
  allTicks.foldl
    (fun acc v =>
      match v with
      | none => acc
      | some t => acc ++ [t])
    []

/-- The method `onTickHistoryHandler` (lines 399-438). -/
def onTickHistoryHandler (b : BasicStrategy) (e : TickHistoryEvent) :
    BasicStrategy × Outcome Unit :=
  if e.Ticks.length = 0 then (b, .ok ())
  else
    let allTicks := b.Ticks.map some ++ e.Ticks
    let checked := sortSliceStable (fun t => t.Datetime.Unix) (checkedTicks allTicks)
    if (checked.length : Int) > b.NPeriods then
      if b.NPeriods < 0 then (b, .panic "slice bounds out of range")
      else ({ b with Ticks := checked.drop (checked.length - b.NPeriods.toNat) }, .ok ())
    else
      ({ b with Ticks := checked }, .ok ())

/-- The method `onTickHandler` (lines 362-396). The result is `none` while the
call is held in its first loop, `for atomic.LoadInt32(&b.waitingN) > 0 {}`;
`tickIsValid` returns true. -/
def onTickHandler (b : BasicStrategy) (e : Option NewTickEvent) :
    Option (BasicStrategy × Outcome Unit) :=
  if b.waitingN > 0 then none
  else
    let b0 := b.newEvent (.tick e)
    match e with
    | none => some (b0, .ok ())
    | some e =>
      match e.Tick with
      | none => some (b0, .ok ())
      | some tick =>
        let b1 := { b0 with mostRecentTime := tick.Datetime }
        match b1.putNewTick (some tick) with
        | (b2, .ok _) =>
          match b2.updateOpenPnL tick.LastPrice tick.Datetime with
          | (b3, .ok _) =>
            if (b3.Ticks.length : Int) < b3.NPeriods then some (b3, .ok ())
            else some ({ b3 with onTickCalls := b3.onTickCalls ++ [tick] }, .ok ())
          | (b3, r) => some (b3, r)
        | (b2, r) => some (b2, r)

/-- The method `onOrderFillHandler` (lines 443-476). -/
def onOrderFillHandler (b : BasicStrategy) (e : OrderFillEvent) :
    BasicStrategy × Outcome Unit :=
  let b1 :=
    if e.Symbol ≠ b.Symbol then b.error "Mismatch symbols in fill event and position. " else b
  let b2 := if e.Qty ≤ 0 then b1.error "Execution Qty is zero or less. " else b1
  let b3 :=
    if e.Price.isNaN ∨ F64.le e.Price 0 then
      b2.error "Price is NaN or less or equal to zero. "
    else b2
  match b3.currentTrade with
  | none => (b3, .panic "invalid memory address or nil pointer dereference")
  | some t =>
    let (t1, r) := t.executeOrder e.OrdId e.Qty e.Price e.Time
    let b4 := { b3 with currentTrade := some t1 }
    match r with
    | .err msg => (b4.error msg, .ok ())
    | .panic msg => (b4, .panic msg)
    | .ok newPos =>
      match newPos with
      | some s =>
        if t1.Typ ≠ ClosedTrade then
          (b4.error "New position opened, but previous is not closed. ", .ok ())
        else
          let b5 := { b4 with closedTrades := b4.closedTrades ++ [t1] }
          let b6 := { b5 with currentTrade := some s }
          ({ b6 with brokerNotifyChan := b6.brokerNotifyChan ++ [e] }, .ok ())
      | none => ({ b4 with brokerNotifyChan := b4.brokerNotifyChan ++ [e] }, .ok ())

/-- The method `onOrderCancelHandler` (lines 478-492). -/
def onOrderCancelHandler (b : BasicStrategy) (e : OrderCancelEvent) :
    BasicStrategy × Outcome Unit :=
  let b1 := { b with waitingN := b.waitingN + -1 }
  let b2 := { b1 with waitingConfirmation := b1.waitingConfirmation.erase ("&CAN&" ++ e.OrdId) }
  match b2.currentTrade with
  | none => (b2, .panic "invalid memory address or nil pointer dereference")
  | some t =>
    let (t1, r) := t.cancelOrder e.OrdId
    let b3 := { b2 with currentTrade := some t1 }
    match r with
    | .err msg => (b3.error msg, .ok ())
    | .panic msg => (b3, .panic msg)
    | .ok _ => (b3, .ok ())

/-- The method `onOrderConfirmHandler` (lines 494-507). -/
def onOrderConfirmHandler (b : BasicStrategy) (e : OrderConfirmationEvent) :
    BasicStrategy × Outcome Unit :=
  let b1 := { b with waitingN := b.waitingN + -1 }
  let b2 := { b1 with waitingConfirmation := b1.waitingConfirmation.erase ("&NO&" ++ e.OrdId) }
  match b2.currentTrade with
  | none => (b2, .panic "invalid memory address or nil pointer dereference")
  | some t =>
    let (t1, r) := t.confirmOrder e.OrdId
    let b3 := { b2 with currentTrade := some t1 }
    match r with
    | .err msg => (b3.error msg, .ok ())
    | .panic msg => (b3, .panic msg)
    | .ok _ => (b3, .ok ())

/-- The method `onOrderReplacedHandler` (lines 509-520), which always ends in
`panic("Not implemented")`. -/
def onOrderReplacedHandler (b : BasicStrategy) (e : OrderReplacedEvent) :
    BasicStrategy × Outcome Unit :=
  match b.currentTrade with
  | none => (b, .panic "invalid memory address or nil pointer dereference")
  | some t =>
    let (t1, r) := t.replaceOrder e.OrdId e.NewPrice
    let b1 := { b with currentTrade := some t1 }
    match r with
    | .err msg => (b1.error msg, .panic "Not implemented")
    | .panic msg => (b1, .panic msg)
    | .ok _ => (b1, .panic "Not implemented")

/-- The method `onOrderRejectedHandler` (lines 522-535). -/
def onOrderRejectedHandler (b : BasicStrategy) (e : OrderRejectedEvent) :
    BasicStrategy × Outcome Unit :=
  let b1 := { b with waitingN := b.waitingN + -1 }
  let b2 := { b1 with waitingConfirmation := b1.waitingConfirmation.erase ("&NO&" ++ e.OrdId) }
  match b2.currentTrade with
  | none => (b2, .panic "invalid memory address or nil pointer dereference")
  | some t =>
    let (t1, r) := t.rejectOrder e.OrdId e.Reason
    let b3 := { b2 with currentTrade := some t1 }
    match r with
    | .err msg => (b3.error msg, .ok ())
    | .panic msg => (b3, .panic msg)
    | .ok _ => (b3, .ok ())

end BasicStrategy

/-! ## Runs of the strategy -/

/-- A call of one of the methods of the strategy: the two requests of the user
and the handlers of the broker and market data events. -/
inductive StrategyCall where
  | newOrder (order : Order) : StrategyCall
  | CancelOrder (ordID : String) : StrategyCall
  | onOrderConfirmHandler (e : OrderConfirmationEvent) : StrategyCall
  | onOrderCancelHandler (e : OrderCancelEvent) : StrategyCall
  | onOrderRejectedHandler (e : OrderRejectedEvent) : StrategyCall
  | onOrderFillHandler (e : OrderFillEvent) : StrategyCall
  | onTickHandler (e : Option NewTickEvent) : StrategyCall
  | onTickHistoryHandler (e : TickHistoryEvent) : StrategyCall
  | onCandleOpenHandler (e : Option CandleOpenEvent) : StrategyCall
  | onCandleCloseHandler (e : Option CandleCloseEvent) : StrategyCall
  | onCandleHistoryHandler (e : CandlesHistoryEvent) : StrategyCall

/-- The state after a call and how the call ended; `none` for a tick handler
that is held in its wait loop. -/
def BasicStrategy.call (fmt : Time → String) (b : BasicStrategy) :
    StrategyCall → Option (BasicStrategy × Outcome Unit)
  | .newOrder order => some (b.newOrder fmt order)
  | .CancelOrder ordID => some (b.CancelOrder ordID)
  | .onOrderConfirmHandler e => some (b.onOrderConfirmHandler e)
  | .onOrderCancelHandler e => some (b.onOrderCancelHandler e)
  | .onOrderRejectedHandler e => some (b.onOrderRejectedHandler e)
  | .onOrderFillHandler e => some (b.onOrderFillHandler e)
  | .onTickHandler e => b.onTickHandler e
  | .onTickHistoryHandler e => some (b.onTickHistoryHandler e)
  | .onCandleOpenHandler e => some (b.onCandleOpenHandler e)
  | .onCandleCloseHandler e => some (b.onCandleCloseHandler e)
  | .onCandleHistoryHandler e => some (b.onCandleHistoryHandler e)

/-- A run: the calls are made one after the other, each on the state the one
before left. The result is `none` when a call panics or when a tick handler is
reached while it is held in its wait loop (the list is then not a run). -/
def BasicStrategy.run (fmt : Time → String) : BasicStrategy → List StrategyCall →
    Option BasicStrategy
  | b, [] => some b
  | b, c :: cs =>
    match b.call fmt c with
    | some (b1, r) => if r.isPanic then none else BasicStrategy.run fmt b1 cs
    | none => none

/-- The tag under which a request is registered in `waitingConfirmation`. -/
def Request.tag : Request → Option String
  | .newOrder order => some ("$NO$" ++ order.Id)
  | .cancel ordId => some ("$CAN$" ++ ordId)
  | .tick _ => none

/-- The tag of the request that a broker event answers: a confirmation or a
rejection answers a new-order request, a cancel event a cancel request. -/
def StrategyCall.answers : StrategyCall → Option String
  | .onOrderConfirmHandler e => some ("$NO$" ++ e.OrdId)
  | .onOrderRejectedHandler e => some ("$NO$" ++ e.OrdId)
  | .onOrderCancelHandler e => some ("$CAN$" ++ e.OrdId)
  | _ => none

/-- The tag of the request that the call sent to the broker, if it sent one. -/
def BasicStrategy.requested (fmt : Time → String) (b : BasicStrategy) :
    StrategyCall → Option String
  | .newOrder order =>
    if (b.newOrder fmt order).2 = .ok () then
      (b.newOrder fmt order).1.requestsChan.getLast?.bind Request.tag
    else none
  | .CancelOrder ordID =>
    if (b.CancelOrder ordID).2 = .ok () then some ("$CAN$" ++ ordID) else none
  | _ => none

/-- The requests awaiting a response after the call, given those awaiting one
before it. -/
def BasicStrategy.awaiting (fmt : Time → String) (b : BasicStrategy) (pending : List String)
    (c : StrategyCall) : List String :=
  match c.answers with
  | some tag => pending.erase tag
  | none =>
    match b.requested fmt c with
    | some tag => tag :: pending
    | none => pending

/-- The requests awaiting a response after the calls. -/
def BasicStrategy.awaitingAfter (fmt : Time → String) : BasicStrategy → List String →
    List StrategyCall → List String
  | _, pending, [] => pending
  | b, pending, c :: cs =>
    match b.call fmt c with
    | some (b1, _) => BasicStrategy.awaitingAfter fmt b1 (b.awaiting fmt pending c) cs
    | none => pending

/-- Every broker confirmation, rejection and cancel event of the calls answers
a request that is awaiting a response when the event arrives; `pending` lists
the requests awaiting a response before the calls. -/
def BasicStrategy.Answered (fmt : Time → String) : BasicStrategy → List String →
    List StrategyCall → Bool
  | _, _, [] => true
  | b, pending, c :: cs =>
    (match c.answers with
      | some tag => decide (tag ∈ pending)
      | none => true)
    && match b.call fmt c with
      | some (b1, _) => BasicStrategy.Answered fmt b1 (b.awaiting fmt pending c) cs
      | none => true

/-- The callback `OnTick` is invoked by none of the calls while a request is
awaiting a response; `pending` lists the requests awaiting a response before
the calls. -/
def BasicStrategy.Gated (fmt : Time → String) : BasicStrategy → List String →
    List StrategyCall → Bool
  | _, _, [] => true
  | b, pending, c :: cs =>
    match b.call fmt c with
    | some (b1, _) =>
      (decide (b1.onTickCalls = b.onTickCalls) || pending.isEmpty)
      && BasicStrategy.Gated fmt b1 (b.awaiting fmt pending c) cs
    | none => true

/-! ## The history windows in the words of the specification -/

/-- Among the candles with the same timestamp, that is the same `time.Time`
value as a map key, only the first is kept. -/
def keepFirstByTime : List Candle → List Candle
  | [] => []
  | c :: cs => c :: (keepFirstByTime cs).filter (fun x => x.DatetimeKey ≠ c.DatetimeKey)

/-- The last `n` entries of a list. -/
def lastN {α : Type} (n : Nat) (l : List α) : List α := l.drop (l.length - n)

/-- The candle window after a history event as the specification words it: the
window followed by the incoming candles, without nil entries and keeping the
first of each timestamp, sorted stably by `key`, cut to the last `n`. -/
def candleWindowAsStated (key : Candle → Int) (n : Nat) (window : List Candle)
    (incoming : List (Option Candle)) : List Candle :=
  lastN n (sortSliceStable key (keepFirstByTime (window ++ incoming.filterMap id)))

/-- The tick window after a history event as the code builds it: the window
followed by the incoming ticks, without nil entries, sorted stably by `key`,
cut to the last `n`. -/
def tickWindowMerged (key : Tick → Int) (n : Nat) (window : List Tick)
    (incoming : List (Option Tick)) : List Tick :=
  lastN n (sortSliceStable key (window ++ incoming.filterMap id))

/-- The list is ascending by the whole second of the timestamp. -/
def AscendingBySecond {α : Type} (time : α → Time) (l : List α) : Prop :=
  l.Sorted (fun a b => (time a).Unix ≤ (time b).Unix)

/-- The list is ascending by timestamp. -/
def AscendingByTime {α : Type} (time : α → Time) (l : List α) : Prop :=
  l.Sorted (fun a b => (time a).unixNano ≤ (time b).unixNano)

/-! ## Samples for the strategy -/

namespace Sample

/-- A strategy on the sample instrument with a window of one period, before
`init`. -/
def strategy : BasicStrategy :=
  { Symbol := "AAPL", NPeriods := 1, waitingConfirmation := ∅, waitingN := 0, closedTrades := [],
    currentTrade := none, Ticks := [], Candles := [], lastCandleOpen := 0,
    lastCandleOpenTime := Time.zeroValue, mostRecentTime := Time.zeroValue, requestsChan := [],
    errorsChan := [], brokerNotifyChan := [], onTickCalls := [] }

/-- A stand-in for `Time.Format`. -/
def fmt (_ : Time) : String := "t"

/-- A candle at the given instant with all prices 1; its `Datetime` carries no
Location (UTC) and no monotonic clock reading. -/
def candleAt (nanos : Int) : Candle := ⟨⟨nanos⟩, ⟨0, none⟩, 1, 1, 1, 1, none⟩

/-- A candle at the given instant whose `Datetime` carries the Location `loc`. -/
def candleIn (loc : Nat) (nanos : Int) : Candle := ⟨⟨nanos⟩, ⟨loc, none⟩, 1, 1, 1, 1, none⟩

/-- A tick at the given instant and price. -/
def tickAt (nanos : Int) (price : F64) : Tick := ⟨⟨nanos⟩, price, none⟩

/-- A tick event. -/
def tickEvent (nanos : Int) (price : F64) : NewTickEvent :=
  { Time := ⟨nanos⟩, Ticker := some ticker, Tick := some (tickAt nanos price) }

end Sample

/-! ## Invariants of the strategy -/

/-- The invariant of the trades of a strategy: there is a current trade, it is
not of type Closed, and every archived trade is of type Closed. -/
def BasicStrategy.TradesInv (b : BasicStrategy) : Prop :=
  (∃ t, b.currentTrade = some t ∧ t.Typ ≠ ClosedTrade)
  ∧ ∀ t ∈ b.closedTrades, t.Typ = ClosedTrade

/-- The state `b1` has the archive of `b`, and a current trade of the same
type when `b` has a current trade. -/
def BasicStrategy.SameTrades (b b1 : BasicStrategy) : Prop :=
  b1.closedTrades = b.closedTrades
  ∧ ∀ t, b.currentTrade = some t → ∃ t1, b1.currentTrade = some t1 ∧ t1.Typ = t.Typ

/-- The state `b1` has the candle window and the last candle open of `b`. -/
def BasicStrategy.SameCandles (b b1 : BasicStrategy) : Prop :=
  b1.Candles = b.Candles ∧ b1.lastCandleOpenTime = b.lastCandleOpenTime
  ∧ b1.lastCandleOpen = b.lastCandleOpen ∧ b1.NPeriods = b.NPeriods

/-- The state `b1` has the tick window and the `OnTick` calls of `b`. -/
def BasicStrategy.SameTicks (b b1 : BasicStrategy) : Prop :=
  b1.Ticks = b.Ticks ∧ b1.onTickCalls = b.onTickCalls ∧ b1.NPeriods = b.NPeriods

/-- The state `b1` has the last candle open of `b`, price and time. -/
def BasicStrategy.OpenKept (b b1 : BasicStrategy) : Prop :=
  b1.lastCandleOpenTime = b.lastCandleOpenTime ∧ b1.lastCandleOpen = b.lastCandleOpen

/-- The last candle open of `b1` was set, price and time, from the last candle
of its window, which is after the time held by `b`. -/
def BasicStrategy.OpenFromWindow (b b1 : BasicStrategy) : Prop :=
  ∃ c, b1.Candles.getLast? = some c ∧ c.Datetime.After b.lastCandleOpenTime = true
    ∧ b1.lastCandleOpenTime = c.Datetime ∧ b1.lastCandleOpen = c.Open

/-- The last candle open of `b1` was set, price and time, from the candle open
event `e`, whose time is not before the time held by `b`. -/
def BasicStrategy.OpenFromEvent (b b1 : BasicStrategy) (e : CandleOpenEvent) : Prop :=
  e.CandleTime.Before b.lastCandleOpenTime = false
    ∧ b1.lastCandleOpenTime = e.CandleTime ∧ b1.lastCandleOpen = e.Price

/-! ## More samples for the strategy -/

namespace Sample

/-- The id that `newOrder` gives to an order of the sample strategy. -/
def orderId (side : OrderSide) (id : String) : String := "AAPL|" ++ side ++ "|" ++ id

/-- A confirmation event for the order. -/
def confirmEvent (ordId : String) : OrderConfirmationEvent :=
  { Time := ⟨0⟩, Ticker := some ticker, OrdId := ordId }

/-- A cancel event for the order. -/
def cancelEvent (ordId : String) : OrderCancelEvent :=
  { Time := ⟨0⟩, Ticker := some ticker, OrdId := ordId }

/-- A fill event for the order. -/
def fillEvent (ordId : String) (price : F64) (qty : Int) : OrderFillEvent :=
  { Time := ⟨0⟩, Ticker := some ticker, OrdId := ordId, Price := price, Qty := qty }

/-- Buy 100 at 50: submitted, confirmed and filled. -/
def buyFilled : List StrategyCall :=
  [ .newOrder (limitOrder "a" OrderBuy 100 50),
    .onOrderConfirmHandler (confirmEvent (orderId OrderBuy "a")),
    .onOrderFillHandler (fillEvent (orderId OrderBuy "a") 50 100) ]

/-- After `buyFilled`, sell 100 at 55: submitted and confirmed. -/
def sellConfirmed : List StrategyCall :=
  buyFilled ++
    [ .newOrder (limitOrder "b" OrderSell 100 55),
      .onOrderConfirmHandler (confirmEvent (orderId OrderSell "b")) ]

/-- The state of the sample strategy after the calls, or the strategy itself
when the calls are not a run. -/
def after (cs : List StrategyCall) : BasicStrategy :=
  (strategy.init.run fmt cs).getD strategy

end Sample

namespace Sample

end Sample

instance AscendingBySecond.decidableBySecond {α : Type} (time : α → Time) (l : List α) :
    Decidable (AscendingBySecond time l) :=
  inferInstanceAs (Decidable (l.Sorted (fun a b => (time a).Unix ≤ (time b).Unix)))

instance AscendingByTime.decidableByTime {α : Type} (time : α → Time) (l : List α) :
    Decidable (AscendingByTime time l) :=
  inferInstanceAs (Decidable (l.Sorted (fun a b => (time a).unixNano ≤ (time b).unixNano)))

/-- The timestamp is on a whole second. -/
def Time.IsWholeSecond (t : Time) : Prop := t.unixNano % 1000000000 = 0

instance Time.IsWholeSecond.decidableWholeSecond (t : Time) : Decidable t.IsWholeSecond :=
  inferInstanceAs (Decidable (t.unixNano % 1000000000 = 0))

namespace Sample

/-- The sample strategy with a window size and windows of candles and ticks. -/
def windowStrategy (n : Int) (candles : List Candle) (ticks : List Tick) : BasicStrategy :=
  { strategy with NPeriods := n, Candles := candles, Ticks := ticks }

/-- A candle history event with the given list. -/
def candleHistory (l : List (Option Candle)) : CandlesHistoryEvent :=
  { Time := ⟨0⟩, Ticker := some ticker, Candles := l }

/-- A tick history event with the given list. -/
def tickHistory (l : List (Option Tick)) : TickHistoryEvent :=
  { Time := ⟨0⟩, Ticker := some ticker, Ticks := l }

/-- One second, in nanoseconds. -/
def second : Int := 1000000000

end Sample

namespace Sample

/-- A candle close event with the given timeframe, for a candle at 10:00 on the
second day of the epoch. -/
def closeEvent (tf : String) : CandleCloseEvent :=
  { Time := ⟨0⟩, Ticker := some ticker, Candle := some (candleAt ((86400 + 36000) * second)),
    TimeFrame := tf }

/-- The first order of the sample runs: buy 100 at 50, not yet acknowledged. -/
def newOrderSent : List StrategyCall := [ .newOrder (limitOrder "a" OrderBuy 100 50) ]

/-- After `newOrderSent` the broker confirms the order. -/
def newOrderConfirmed : List StrategyCall :=
  newOrderSent ++ [ .onOrderConfirmHandler (confirmEvent (orderId OrderBuy "a")) ]

/-- After `newOrderConfirmed` the broker cancels the order, which the strategy
did not request, and the strategy submits a second order. -/
def unsolicitedCancel : List StrategyCall :=
  newOrderConfirmed ++
    [ .onOrderCancelHandler (cancelEvent (orderId OrderBuy "a")),
      .newOrder (limitOrder "b" OrderBuy 100 50) ]

end Sample

/-! ## The validity check of a candle (generic.go, lines 107-130) -/

/-- The method `Candle.isValid` (generic.go, lines 107-130) on a candle pointer
that may be nil. The comparison `a > b` is `b < a`. -/
def Candle.isValid (cal : Calendar) (c : Option Candle) : Bool :=
  match c with
  | none => false
  | some c =>
    if cal.Year c.DatetimeRest.loc c.Datetime < 1995 then false
    else if F64.lt c.High c.Low then false
    else if F64.lt c.High c.Open then false
    else if F64.lt c.High c.Close then false
    else if F64.lt c.Open c.Low then false
    else if F64.lt c.High c.Open then false
    else true

namespace Sample

/-- A candle on 1 June 2000 (UTC) with the given prices. -/
def pricedCandle (o h l c : F64) : Candle :=
  ⟨⟨959817600 * second⟩, ⟨0, none⟩, o, h, l, c, some ticker⟩

/-- Two Locations: number 0 is UTC, every other one is the fixed zone nine
hours east of UTC. -/
def zones (loc : Nat) : Int := if loc = 0 then 0 else 32400

/-- A candle with all prices 1 at 20:00:00 UTC on 31 December 1994, carrying
the Location `loc`. -/
def newYearCandle (loc : Nat) : Candle := candleIn loc (788904000 * second)

end Sample

/-! ## Facts about the float model and the books -/

theorem F64.pos_not_nan {p : F64} (h : F64.lt 0 p = true) : p.isNaN = false := by
  cases p <;> simp_all [F64.lt, F64.isNaN, OfNat.ofNat]

theorem F64.pos_not_zero {p : F64} (h : F64.lt 0 p = true) : F64.feq p 0 = false := by
  cases p <;> simp_all [F64.lt, F64.feq, OfNat.ofNat]
  rename_i q
  intro hq
  simp [hq] at h

theorem F64.pos_not_le {p : F64} (h : F64.lt 0 p = true) : F64.le p 0 = false := by
  cases p <;> simp_all [F64.lt, F64.feq, F64.le, OfNat.ofNat]
  rename_i q
  constructor
  · exact le_of_lt h
  · intro hq
    simp [hq] at h

theorem F64.mul_swap (a b : F64) : a * b = b * a := by
  show F64.mul a b = F64.mul b a
  cases a <;> cases b <;> simp [F64.mul, mul_comm]

theorem F64.neg_sub_swap (a b : F64) : -(a - b) = b - a := by
  show F64.neg (F64.add a (F64.neg b)) = F64.add b (F64.neg a)
  cases a <;> cases b <;> simp [F64.neg, F64.add]


/-- A book with no keys is the empty book. -/
theorem Book.eq_empty_of_len {b : Book} (h : b.len = 0) : b = ∅ := by
  apply Finmap.ext_lookup
  intro x
  have hk : b.keys = ∅ := Finset.card_eq_zero.mp h
  have hx : x ∉ b := by
    rw [← Finmap.mem_keys, hk]
    simp
  rw [Finmap.lookup_eq_none.mpr hx]
  simp

/-- Replacing an empty book by a fresh empty map changes nothing. -/
@[simp] theorem Book.orFresh_eq (b : Book) : b.orFresh = b := by
  unfold Book.orFresh
  split
  · rename_i h
    exact (Book.eq_empty_of_len h).symm
  · rfl

@[simp] theorem idSetOrFresh_eq (s : Finset String) : idSetOrFresh s = s := by
  unfold idSetOrFresh
  split
  · rename_i h
    exact (Finset.card_eq_zero.mp h).symm
  · rfl

theorem Order.addExecution_ok (o : Order) (p : F64) (d : Int)
    (hst : o.State ≠ FilledOrder) (hp : F64.lt 0 p = true) (hd : 0 < d)
    (hq : d + o.ExecQty ≤ o.Qty) :
    o.addExecution p d = (o.executed p d, .ok ()) := by
  have h1 := F64.pos_not_nan hp
  have h2 := F64.pos_not_le hp
  have h3 : ¬ d ≤ 0 := by omega
  have h4 : ¬ d + o.ExecQty > o.Qty := by omega
  unfold Order.addExecution Order.executed
  simp only [hst, h1, h2, h3, h4, if_false, Bool.false_eq_true]
  split <;> rfl

theorem F64.ofNat_eq (n : Nat) [n.AtLeastTwo] : (OfNat.ofNat n : F64) = F64.fin (OfNat.ofNat n) := rfl
theorem F64.zero_eq : (0 : F64) = F64.fin 0 := rfl
theorem F64.fin_add (a b : ℚ) : F64.fin a + F64.fin b = F64.fin (a + b) := rfl
theorem F64.fin_mul (a b : ℚ) : F64.fin a * F64.fin b = F64.fin (a * b) := rfl
theorem F64.fin_sub (a b : ℚ) : F64.fin a - F64.fin b = F64.fin (a - b) := by
  show F64.add (F64.fin a) (F64.neg (F64.fin b)) = _
  simp [F64.add, F64.neg, sub_eq_add_neg]
theorem F64.fin_neg (a : ℚ) : -F64.fin a = F64.fin (-a) := rfl
theorem F64.fin_div (a b : ℚ) (h : b ≠ 0) : F64.fin a / F64.fin b = F64.fin (a / b) := by
  show F64.div (F64.fin a) (F64.fin b) = _
  simp [F64.div, h]

/-- On a live order and a valid fill, `executeOrder` is the position update
applied to the trade with the fill recorded. -/
theorem Trade.executeOrder_eq (t : Trade) (id : String) (order : Order) (d : Int) (p : F64)
    (tm : Time) (hord : t.ConfirmedOrders.lookup id = some order)
    (hd : 0 < d) (hrem : d ≤ order.Qty - order.ExecQty) (hp : F64.lt 0 p = true)
    (hlive : order.State ≠ FilledOrder)
    (hfresh : d = order.Qty - order.ExecQty → id ∉ t.FilledOrders) :
    t.executeOrder id d p tm
      = (t.recorded id order p d).positionUpdate (order.executed p d) d p tm := by
  have h1 := F64.pos_not_nan hp
  have h2 := F64.pos_not_zero hp
  have h3 : ¬ (order.Qty - order.ExecQty < d) := by omega
  have hadd := Order.addExecution_ok order p d hlive hp hd (by omega)
  unfold Trade.executeOrder Trade.recorded
  simp only [hord, h1, h2, h3, hadd, Book.orFresh_eq, if_false, Bool.false_eq_true, or_self]
  by_cases hfull : d = order.Qty - order.ExecQty
  · have hf := hfresh hfull
    simp [hfull, hf]
  · simp [hfull]

/-- Recording a fill touches the `FilledOrders` and `ConfirmedOrders` books only. -/
theorem Trade.recorded_frame (t : Trade) (id : String) (order : Order) (p : F64) (d : Int) :
    (t.recorded id order p d).Typ = t.Typ ∧ (t.recorded id order p d).Qty = t.Qty
    ∧ (t.recorded id order p d).OpenPrice = t.OpenPrice
    ∧ (t.recorded id order p d).OpenValue = t.OpenValue
    ∧ (t.recorded id order p d).ClosedPnL = t.ClosedPnL
    ∧ (t.recorded id order p d).Ticker = t.Ticker
    ∧ (t.recorded id order p d).NewOrders = t.NewOrders
    ∧ (t.recorded id order p d).CanceledOrders = t.CanceledOrders
    ∧ (t.recorded id order p d).RejectedOrders = t.RejectedOrders := by
  unfold Trade.recorded
  split <;> simp

theorem Trade.recorded_stays (t : Trade) (id : String) (order : Order) (p : F64) (d : Int)
    (h : d ≠ order.Qty - order.ExecQty) :
    t.recorded id order p d
      = { t with ConfirmedOrders := t.ConfirmedOrders.insert id (order.executed p d) } := by
  unfold Trade.recorded
  simp [h]

theorem Trade.recorded_moves (t : Trade) (id : String) (order : Order) (p : F64) (d : Int)
    (h : d = order.Qty - order.ExecQty) :
    t.recorded id order p d
      = { t with
          FilledOrders := t.FilledOrders.insert id (order.executed p d)
          ConfirmedOrders := t.ConfirmedOrders.erase id } := by
  unfold Trade.recorded
  simp [h]

/-- A value that is not NaN and not `<= 0` is positive. -/
theorem F64.pos_of_not_le {p : F64} (h1 : p.isNaN = false) (h2 : F64.le p 0 = false) :
    F64.lt 0 p = true := by
  rw [F64.zero_eq] at h2 ⊢
  cases p with
  | nan => simp [F64.isNaN] at h1
  | pinf => rfl
  | ninf => simp [F64.le, F64.lt] at h2
  | fin q =>
    simp only [F64.le, F64.lt, F64.feq, Bool.or_eq_false_iff, decide_eq_false_iff_not,
      decide_eq_true_eq, F64.fin.injEq] at h2 ⊢
    rcases lt_trichotomy q 0 with h | h | h
    · exact absurd h h2.1
    · exact absurd h h2.2
    · exact h

/-- What a successful `addExecution` implies about its arguments. -/
theorem Order.addExecution_ok_inv (o : Order) (p : F64) (d : Int)
    (h : (o.addExecution p d).2 = .ok ()) :
    o.State ≠ FilledOrder ∧ F64.lt 0 p = true ∧ 0 < d ∧ d + o.ExecQty ≤ o.Qty := by
  unfold Order.addExecution at h
  by_cases h1 : o.State = FilledOrder
  · simp [h1] at h
  by_cases h2 : p.isNaN = true
  · simp [h1, h2] at h
  by_cases h3 : F64.le p 0 = true
  · simp [h1, h2, h3] at h
  by_cases h4 : d ≤ 0
  · simp [h1, h2, h3, h4] at h
  by_cases h5 : d + o.ExecQty > o.Qty
  · simp [h1, h2, h3, h4, h5] at h
  refine ⟨h1, F64.pos_of_not_le (by simpa using h2) (by simpa using h3), by omega, by omega⟩

/-- An unsuccessful `addExecution` leaves the order as it was. -/
theorem Order.addExecution_fail (o : Order) (p : F64) (d : Int)
    (h : (o.addExecution p d).2 ≠ .ok ()) : (o.addExecution p d).1 = o := by
  unfold Order.addExecution at h ⊢
  by_cases h1 : o.State = FilledOrder
  · simp [h1]
  by_cases h2 : p.isNaN = true
  · simp [h1, h2]
  by_cases h3 : F64.le p 0 = true
  · simp [h1, h2, h3]
  by_cases h4 : d ≤ 0
  · simp [h1, h2, h3, h4]
  by_cases h5 : d + o.ExecQty > o.Qty
  · simp [h1, h2, h3, h4, h5]
  exfalso
  apply h
  simp only [h1, h2, h3, h4, h5, if_false, Bool.false_eq_true]
  split <;> rfl

/-- What a normal return of `executeOrder` implies: the fill was valid for a
live order held under `id`. -/
theorem Trade.executeOrder_ok_inv (t : Trade) (id : String) (d : Int) (p : F64) (tm : Time)
    (v : Option Trade) (h : (t.executeOrder id d p tm).2 = .ok v) :
    ∃ order, t.ConfirmedOrders.lookup id = some order ∧ 0 < d
      ∧ d ≤ order.Qty - order.ExecQty ∧ F64.lt 0 p = true ∧ order.State ≠ FilledOrder
      ∧ (d = order.Qty - order.ExecQty → id ∉ t.FilledOrders) := by
  unfold Trade.executeOrder at h
  cases hl : t.ConfirmedOrders.lookup id with
  | none => simp [hl] at h
  | some order =>
    simp only [hl] at h
    by_cases h1 : p.isNaN = true ∨ F64.feq p 0 = true
    · simp [h1] at h
    by_cases h2 : order.Qty - order.ExecQty < d
    · simp [h1, h2] at h
    simp only [h1, h2, if_false, Book.orFresh_eq] at h
    have hpair : order.addExecution p d
        = ((order.addExecution p d).1, (order.addExecution p d).2) := rfl
    have hok : (order.addExecution p d).2 = .ok () := by
      cases hr : (order.addExecution p d).2 with
      | ok u => rfl
      | err msg =>
        rw [hpair, hr] at h
        split_ifs at h
      | panic msg =>
        rw [hpair, hr] at h
        split_ifs at h
    obtain ⟨a1, a2, a3, a4⟩ := Order.addExecution_ok_inv order p d hok
    refine ⟨order, rfl, a3, by omega, a2, a1, ?_⟩
    intro hfull hmem
    have hlen : t.FilledOrders.len ≠ 0 := by
      intro hlen
      rw [Book.eq_empty_of_len hlen] at hmem
      exact Finmap.not_mem_empty hmem
    simp [hfull, hlen, hmem] at h

/-- Closing a trade touches no book, the ticker or the id set. -/
theorem Trade.closeWith_frame (t : Trade) (q : Int) (diff : F64) (c : Int) (tm : Time) :
    (t.closeWith q diff c tm).NewOrders = t.NewOrders
    ∧ (t.closeWith q diff c tm).ConfirmedOrders = t.ConfirmedOrders
    ∧ (t.closeWith q diff c tm).FilledOrders = t.FilledOrders
    ∧ (t.closeWith q diff c tm).CanceledOrders = t.CanceledOrders
    ∧ (t.closeWith q diff c tm).RejectedOrders = t.RejectedOrders
    ∧ (t.closeWith q diff c tm).AllOrdersIDMap = t.AllOrdersIDMap
    ∧ (t.closeWith q diff c tm).Ticker = t.Ticker
    ∧ (t.closeWith q diff c tm).Typ = ClosedTrade :=
  ⟨rfl, rfl, rfl, rfl, rfl, rfl, rfl, rfl⟩

/-- Whenever the position update returns a successor, the old trade was closed
(by `closeWith`), its live books were dropped, and the successor is either the
flat successor or a flip successor of type Long or Short. -/
theorem Trade.positionUpdate_successor (t : Trade) (o : Order) (d : Int) (p : F64) (tm : Time)
    (s : Trade) (h : (t.positionUpdate o d p tm).2 = .ok (some s)) :
    ∃ tc : Trade, (∃ q diff c, tc = t.closeWith q diff c tm)
      ∧ (t.positionUpdate o d p tm).1 = tc.dropLiveBooks
      ∧ (s = tc.flatSuccessor
        ∨ ∃ typ, (typ = LongTrade ∨ typ = ShortTrade)
            ∧ s = tc.flipSuccessor o (d - t.Qty) p tm typ) := by
  unfold Trade.positionUpdate at h ⊢
  split_ifs at h ⊢ <;> simp only [Outcome.ok.injEq, Option.some.injEq, reduceCtorEq] at h
  · exact ⟨_, ⟨_, _, _, rfl⟩, rfl, Or.inl h.symm⟩
  · exact ⟨_, ⟨_, _, _, rfl⟩, rfl, Or.inr ⟨LongTrade, Or.inl rfl, h.symm⟩⟩
  · exact ⟨_, ⟨_, _, _, rfl⟩, rfl, Or.inl h.symm⟩
  · exact ⟨_, ⟨_, _, _, rfl⟩, rfl, Or.inr ⟨ShortTrade, Or.inr rfl, h.symm⟩⟩

/-- The books of a flat successor and of a flip successor. -/
theorem Trade.successor_books (tc s : Trade) (o : Order) (q : Int) (p : F64) (tm : Time)
    (h : s = tc.flatSuccessor
      ∨ ∃ typ, (typ = LongTrade ∨ typ = ShortTrade) ∧ s = tc.flipSuccessor o q p tm typ) :
    s.NewOrders = tc.NewOrders ∧ s.ConfirmedOrders = tc.ConfirmedOrders
    ∧ s.FilledOrders = ∅ ∧ s.CanceledOrders = ∅ ∧ s.RejectedOrders = ∅ := by
  rcases h with h | ⟨typ, -, h⟩ <;> subst h <;> exact ⟨rfl, rfl, rfl, rfl, rfl⟩

/-- The books after an `executeOrder` call that returned a successor. -/
theorem Trade.executeOrder_successor_books (t : Trade) (id : String) (d : Int) (p : F64)
    (tm : Time) (s : Trade) (h : (t.executeOrder id d p tm).2 = .ok (some s)) :
    ∃ order, t.ConfirmedOrders.lookup id = some order
      ∧ 0 < d ∧ d ≤ order.Qty - order.ExecQty ∧ F64.lt 0 p = true
      ∧ order.State ≠ FilledOrder
      ∧ s.NewOrders = t.NewOrders
      ∧ s.ConfirmedOrders = (t.recorded id order p d).ConfirmedOrders
      ∧ s.FilledOrders = ∅ ∧ s.CanceledOrders = ∅ ∧ s.RejectedOrders = ∅
      ∧ (t.executeOrder id d p tm).1.NewOrders = ∅
      ∧ (t.executeOrder id d p tm).1.ConfirmedOrders = ∅
      ∧ (t.executeOrder id d p tm).1.CanceledOrders = t.CanceledOrders
      ∧ (t.executeOrder id d p tm).1.RejectedOrders = t.RejectedOrders
      ∧ (t.executeOrder id d p tm).1.FilledOrders = (t.recorded id order p d).FilledOrders := by
  obtain ⟨order, hord, hd, hrem, hp, hlive, hfresh⟩ :=
    Trade.executeOrder_ok_inv t id d p tm (some s) h
  have e := Trade.executeOrder_eq t id order d p tm hord hd hrem hp hlive hfresh
  rw [e] at h ⊢
  obtain ⟨tc, ⟨q, diff, c, htc⟩, h1, h2⟩ :=
    Trade.positionUpdate_successor (t.recorded id order p d) (order.executed p d) d p tm s h
  obtain ⟨b1, b2, b3, b4, b5⟩ := Trade.successor_books tc s _ _ p tm h2
  obtain ⟨c1, c2, c3, c4, c5, -⟩ := Trade.closeWith_frame (t.recorded id order p d) q diff c tm
  obtain ⟨-, -, -, -, -, -, r1, r2, r3⟩ := Trade.recorded_frame t id order p d
  rw [← htc] at c1 c2 c3 c4 c5
  refine ⟨order, hord, hd, hrem, hp, hlive, ?_, ?_, b3, b4, b5, ?_, ?_, ?_, ?_, ?_⟩
  · rw [b1, c1, r1]
  · rw [b2, c2]
  · rw [h1]; rfl
  · rw [h1]; rfl
  · rw [h1]; show tc.CanceledOrders = _; rw [c4, r2]
  · rw [h1]; show tc.RejectedOrders = _; rw [c5, r3]
  · rw [h1]; show tc.FilledOrders = _; rw [c3]

/-! ## The order-book invariant is preserved -/

@[simp] theorem Book.occ_insert (b : Book) (id k : String) (o : Order) :
    Book.occ (b.insert id o) k = if k = id then 1 else b.occ k := by
  unfold Book.occ
  by_cases h : k = id <;> simp [h, Finmap.mem_insert]

@[simp] theorem Book.occ_erase (b : Book) (id k : String) :
    Book.occ (b.erase id) k = if k = id then 0 else b.occ k := by
  unfold Book.occ
  by_cases h : k = id <;> simp [h, Finmap.mem_erase]

@[simp] theorem Book.occ_empty (k : String) : Book.occ ∅ k = 0 := by
  unfold Book.occ
  split
  · rename_i h
    exact absurd h (Finmap.not_mem_empty)
  · rfl

theorem Order.confirm_id (o : Order) : o.confirm.1.Id = o.Id := by
  unfold Order.confirm
  split <;> rfl

theorem Order.cancel_id (o : Order) : o.cancel.1.Id = o.Id := by
  unfold Order.cancel
  split_ifs <;> rfl

theorem Order.replace_id (o : Order) (p : F64) : (o.replace p).1.Id = o.Id := by
  unfold Order.replace
  split <;> rfl

theorem Order.reject_id (o : Order) (reason : String) : (o.reject reason).1.Id = o.Id := by
  unfold Order.reject
  split_ifs <;> rfl

theorem Order.addExecution_id (o : Order) (p : F64) (d : Int) :
    (o.addExecution p d).1.Id = o.Id := by
  by_cases h : (o.addExecution p d).2 = .ok ()
  · obtain ⟨h1, h2, h3, h4⟩ := Order.addExecution_ok_inv o p d h
    rw [Order.addExecution_ok o p d h1 h2 h3 h4]
    rfl
  · rw [Order.addExecution_fail o p d h]

theorem Book.occ_of_lookup {b : Book} {id : String} {o : Order}
    (h : b.lookup id = some o) : b.occ id = 1 := by
  have : id ∈ b := Finmap.mem_iff.mpr ⟨o, h⟩
  simp [Book.occ, this]

theorem Book.occ_of_not_mem {b : Book} {id : String} (h : id ∉ b) : b.occ id = 0 := by
  simp [Book.occ, h]

theorem Book.occ_le_one (b : Book) (k : String) : b.occ k ≤ 1 := by
  unfold Book.occ
  split <;> omega

theorem Book.mem_of_occ {b : Book} {k : String} (h : b.occ k = 1) : k ∈ b := by
  unfold Book.occ at h
  split at h
  · assumption
  · omega

theorem Book.keyed_insert {b : Book} {id : String} {o : Order} (h : b.KeyedById)
    (ho : o.Id = id) : Book.KeyedById (b.insert id o) := by
  intro k o' hk
  by_cases hki : k = id
  · subst hki
    rw [Finmap.lookup_insert] at hk
    cases hk
    exact ho
  · rw [Finmap.lookup_insert_of_ne _ hki] at hk
    exact h k o' hk

theorem Book.keyed_erase {b : Book} {id : String} (h : b.KeyedById) :
    Book.KeyedById (b.erase id) := by
  intro k o' hk
  by_cases hki : k = id
  · subst hki
    rw [Finmap.lookup_erase] at hk
    cases hk
  · rw [Finmap.lookup_erase_ne hki] at hk
    exact h k o' hk

theorem Book.keyed_empty : Book.KeyedById ∅ := by
  intro k o hk
  simp at hk

/-- Writing an order back under a key that is already present leaves the set of
keys as it was. -/
theorem Book.occ_insert_present {b : Book} {id : String} {o o' : Order}
    (h : b.lookup id = some o) (k : String) : Book.occ (b.insert id o') k = b.occ k := by
  rw [Book.occ_insert]
  split
  · rename_i hk
    subst hk
    exact (Book.occ_of_lookup h).symm
  · rfl

/-- The invariant carries over to a trade with the same id counts, the same id
set and live books keyed by id, as long as it is Closed only if the old one is. -/
theorem Trade.BooksInv.of_occ {t u : Trade} (h : t.BooksInv)
    (hocc : ∀ k, u.occAll k = t.occAll k) (hall : u.AllOrdersIDMap = t.AllOrdersIDMap)
    (htyp : u.Typ ≠ ClosedTrade → t.Typ ≠ ClosedTrade)
    (hn : u.NewOrders.KeyedById) (hc : u.ConfirmedOrders.KeyedById) : u.BooksInv where
  once := fun k => by rw [hocc]; exact h.once k
  sub := fun k hk => by rw [hocc]; exact h.sub k (hall ▸ hk)
  sup := fun ht k hk => by rw [hocc]; exact h.sup (htyp ht) k (hall ▸ hk)
  keyedNew := hn
  keyedConfirmed := hc

/-- The invariant carries over to a Closed trade with fewer ids in its books. -/
theorem Trade.BooksInv.of_closed {t u : Trade} (h : t.BooksInv)
    (hocc : ∀ k, u.occAll k ≤ t.occAll k) (hall : u.AllOrdersIDMap = t.AllOrdersIDMap)
    (htyp : u.Typ = ClosedTrade)
    (hn : u.NewOrders.KeyedById) (hc : u.ConfirmedOrders.KeyedById) : u.BooksInv where
  once := fun k => le_trans (hocc k) (h.once k)
  sub := fun k hk => by
    have := h.sub k (hall ▸ hk)
    have := hocc k
    omega
  sup := fun ht => absurd htyp ht
  keyedNew := hn
  keyedConfirmed := hc

theorem Trade.BooksInv.newFlatTrade (ticker : Option Instrument) :
    (newFlatTrade ticker).BooksInv where
  once := fun k => by simp [Trade.occAll, Engine.newFlatTrade]
  sub := fun k _ => by simp [Trade.occAll, Engine.newFlatTrade]
  sup := fun _ k hk => by simp [Engine.newFlatTrade] at hk
  keyedNew := Book.keyed_empty
  keyedConfirmed := Book.keyed_empty

theorem Trade.BooksInv.confirmOrder {t : Trade} (h : t.BooksInv) (id : String) :
    (t.confirmOrder id).1.BooksInv := by
  unfold Trade.confirmOrder
  cases hl : t.NewOrders.lookup id with
  | none => exact h
  | some order =>
    simp only
    split
    · exact h
    · rename_i hnc
      have hid : order.confirm.1.Id = id := (Order.confirm_id order).trans (h.keyedNew id order hl)
      have h0 : t.ConfirmedOrders.occ id = 0 := Book.occ_of_not_mem hnc
      have h1 : t.NewOrders.occ id = 1 := Book.occ_of_lookup hl
      generalize order.confirm = res at hid ⊢
      obtain ⟨o1, r⟩ := res
      have hwb : (Trade.BooksInv { t with NewOrders := t.NewOrders.insert id o1 }) := by
        refine h.of_occ (fun k => ?_) rfl (fun x => x) ?_ h.keyedConfirmed
        · simp only [Trade.occAll, Book.occ_insert_present hl]
        · exact Book.keyed_insert h.keyedNew hid
      cases r with
      | err msg => exact hwb
      | panic msg => exact hwb
      | ok v =>
        refine h.of_occ (fun k => ?_) rfl (fun x => x) ?_ ?_
        · simp only [Trade.occAll, Book.orFresh_eq, Book.occ_insert, Book.occ_erase]
          split
          · rename_i hk
            subst hk
            omega
          · rfl
        · exact Book.keyed_erase (Book.keyed_insert h.keyedNew hid)
        · simp only [Book.orFresh_eq]
          exact Book.keyed_insert h.keyedConfirmed hid

/-- In a book keyed by id, the ids of the stored orders are the keys. -/
theorem Book.orderIds_eq_keys {b : Book} (h : b.KeyedById) : b.orderIds = b.keys := by
  ext k
  simp only [Book.orderIds, Multiset.mem_toFinset, Multiset.mem_map, Finmap.mem_keys]
  constructor
  · rintro ⟨⟨a, o⟩, he, hk⟩
    have hl : b.lookup a = some o := Finmap.mem_lookup_iff.mpr he
    have := h a o hl
    simp only at hk
    rw [← hk, this]
    exact Finmap.mem_of_lookup_eq_some hl
  · intro hk
    obtain ⟨o, ho⟩ := Finmap.mem_iff.mp hk
    exact ⟨⟨k, o⟩, Finmap.mem_lookup_iff.mp ho, h k o ho⟩

theorem Book.orderIds_empty : Book.orderIds ∅ = ∅ := by
  rw [Book.orderIds_eq_keys Book.keyed_empty]
  exact Finmap.keys_empty

/-- An id held in one book is in no other book. -/
theorem Trade.BooksInv.others_zero {t : Trade} (h : t.BooksInv) (k : String) :
    (t.NewOrders.occ k = 1 → t.ConfirmedOrders.occ k = 0 ∧ t.FilledOrders.occ k = 0
      ∧ t.CanceledOrders.occ k = 0 ∧ t.RejectedOrders.occ k = 0)
    ∧ (t.ConfirmedOrders.occ k = 1 → t.NewOrders.occ k = 0 ∧ t.FilledOrders.occ k = 0
      ∧ t.CanceledOrders.occ k = 0 ∧ t.RejectedOrders.occ k = 0) := by
  have := h.once k
  unfold Trade.occAll at this
  constructor <;> intro h1 <;> omega

theorem Trade.BooksInv.cancelOrder {t : Trade} (h : t.BooksInv) (id : String) :
    (t.cancelOrder id).1.BooksInv := by
  unfold Trade.cancelOrder
  cases hl : t.ConfirmedOrders.lookup id with
  | none => exact h
  | some order =>
    simp only
    have hid : order.cancel.1.Id = id :=
      (Order.cancel_id order).trans (h.keyedConfirmed id order hl)
    have h1 : t.ConfirmedOrders.occ id = 1 := Book.occ_of_lookup hl
    obtain ⟨-, -, hx, -⟩ := (h.others_zero id).2 h1
    generalize order.cancel = res at hid ⊢
    obtain ⟨o1, r⟩ := res
    have hwb : (Trade.BooksInv { t with ConfirmedOrders := t.ConfirmedOrders.insert id o1 }) := by
      refine h.of_occ (fun k => ?_) rfl (fun x => x) h.keyedNew ?_
      · simp only [Trade.occAll, Book.occ_insert_present hl]
      · exact Book.keyed_insert h.keyedConfirmed hid
    cases r with
    | err msg => exact hwb
    | panic msg => exact hwb
    | ok v =>
      simp only [Book.orFresh_eq]
      split
      · exact hwb
      · refine h.of_occ (fun k => ?_) rfl (fun x => x) h.keyedNew ?_
        · simp only [Trade.occAll, Book.occ_insert, Book.occ_erase]
          split
          · rename_i hk
            subst hk
            omega
          · rfl
        · exact Book.keyed_erase (Book.keyed_insert h.keyedConfirmed hid)

theorem Trade.BooksInv.rejectOrder {t : Trade} (h : t.BooksInv) (id reason : String) :
    (t.rejectOrder id reason).1.BooksInv := by
  unfold Trade.rejectOrder
  cases hl : t.NewOrders.lookup id with
  | none => exact h
  | some order =>
    simp only
    have hid : (order.reject reason).1.Id = id :=
      (Order.reject_id order reason).trans (h.keyedNew id order hl)
    have h1 : t.NewOrders.occ id = 1 := Book.occ_of_lookup hl
    obtain ⟨-, -, -, hr⟩ := (h.others_zero id).1 h1
    generalize order.reject reason = res at hid ⊢
    obtain ⟨o1, r⟩ := res
    have hwb : (Trade.BooksInv { t with NewOrders := t.NewOrders.insert id o1 }) := by
      refine h.of_occ (fun k => ?_) rfl (fun x => x) ?_ h.keyedConfirmed
      · simp only [Trade.occAll, Book.occ_insert_present hl]
      · exact Book.keyed_insert h.keyedNew hid
    cases r with
    | err msg => exact hwb
    | panic msg => exact hwb
    | ok v =>
      simp only [Book.orFresh_eq]
      split
      · exact hwb
      · refine h.of_occ (fun k => ?_) rfl (fun x => x) ?_ h.keyedConfirmed
        · simp only [Trade.occAll, Book.occ_insert, Book.occ_erase]
          split
          · rename_i hk
            subst hk
            omega
          · rfl
        · exact Book.keyed_erase (Book.keyed_insert h.keyedNew hid)

theorem Trade.BooksInv.replaceOrder {t : Trade} (h : t.BooksInv) (id : String) (p : F64) :
    (t.replaceOrder id p).1.BooksInv := by
  unfold Trade.replaceOrder
  cases hl : t.ConfirmedOrders.lookup id with
  | none => exact h
  | some order =>
    simp only
    have hid : (order.replace p).1.Id = id :=
      (Order.replace_id order p).trans (h.keyedConfirmed id order hl)
    generalize order.replace p = res at hid ⊢
    obtain ⟨o1, r⟩ := res
    have hwb : (Trade.BooksInv { t with ConfirmedOrders := t.ConfirmedOrders.insert id o1 }) := by
      refine h.of_occ (fun k => ?_) rfl (fun x => x) h.keyedNew ?_
      · simp only [Trade.occAll, Book.occ_insert_present hl]
      · exact Book.keyed_insert h.keyedConfirmed hid
    cases r <;> exact hwb

/-- The state after `putNewOrder`: unchanged, or the order was added under a
fresh id. -/
theorem Trade.putNewOrder_state (t : Trade) (o : Order) :
    (t.putNewOrder o).1 = t
    ∨ (o.Id ∉ t.AllOrdersIDMap
      ∧ (t.putNewOrder o).1
        = { t with NewOrders := t.NewOrders.insert o.Id o,
                   AllOrdersIDMap := insert o.Id t.AllOrdersIDMap }) := by
  have hcard : ∀ s : Finset String, ∀ k, k ∈ s → s.card ≠ 0 := by
    intro s k hk h0
    rw [Finset.card_eq_zero.mp h0] at hk
    exact Finset.not_mem_empty k hk
  have hlen : ∀ b : Book, ∀ k, k ∈ b → b.len ≠ 0 := by
    intro b k hk h0
    rw [Book.eq_empty_of_len h0] at hk
    exact Finmap.not_mem_empty hk
  unfold Trade.putNewOrder
  by_cases h1 : t.Typ = ClosedTrade
  · left
    simp [h1]
  by_cases h2 : o.isValid = true
  swap
  · left
    simp [h1, h2]
  cases ho : o.Ticker with
  | none =>
    left
    simp [h1, h2]
  | some otk =>
    cases ht : t.Ticker with
    | none =>
      left
      simp [h1, h2]
    | some ttk =>
      by_cases h3 : otk.Symbol = ttk.Symbol
      swap
      · left
        simp [h1, h2, h3]
      by_cases h4 : o.State = NewOrder
      swap
      · left
        simp [h1, h2, h3, h4]
      by_cases h5 : o.Id ∈ t.NewOrders
      · have := hlen _ _ h5
        left
        simp [h1, h2, h3, h4, h5, this]
        rw [← ht]
      by_cases h6 : o.Id ∈ t.AllOrdersIDMap
      · have := hcard _ _ h6
        left
        simp [h1, h2, h3, h4, h5, h6, this]
        rw [← ht]
      right
      refine ⟨h6, ?_⟩
      simp [h1, h2, h3, h4, h5, h6]

theorem Trade.BooksInv.putNewOrder {t : Trade} (h : t.BooksInv) (o : Order) :
    (t.putNewOrder o).1.BooksInv := by
  rcases Trade.putNewOrder_state t o with e | ⟨hfresh, e⟩
  · rw [e]
    exact h
  · rw [e]
    have h0 := h.sub o.Id hfresh
    unfold Trade.occAll at h0
    refine ⟨fun k => ?_, fun k hk => ?_, fun ht k hk => ?_, ?_, h.keyedConfirmed⟩
    · have := h.once k
      simp only [Trade.occAll, Book.occ_insert] at this ⊢
      split
      · rename_i hk
        subst hk
        omega
      · exact this
    · simp only [Finset.mem_insert, not_or] at hk
      have := h.sub k hk.2
      simp only [Trade.occAll, Book.occ_insert, hk.1, if_false] at this ⊢
      exact this
    · simp only [Trade.occAll, Book.occ_insert]
      split
      · rename_i hk'
        subst hk'
        omega
      · rename_i hk'
        simp only [Finset.mem_insert, hk', false_or] at hk
        exact h.sup ht k hk
    · exact Book.keyed_insert h.keyedNew rfl

/-- The position update either leaves the books and the id set alone, without
closing the trade, or closes the trade and drops its live books. -/
theorem Trade.positionUpdate_books (t : Trade) (o : Order) (d : Int) (p : F64) (tm : Time)
    (r : Trade × Outcome (Option Trade)) (hr : t.positionUpdate o d p tm = r) :
    (r.1.NewOrders = t.NewOrders ∧ r.1.ConfirmedOrders = t.ConfirmedOrders
      ∧ r.1.FilledOrders = t.FilledOrders ∧ r.1.CanceledOrders = t.CanceledOrders
      ∧ r.1.RejectedOrders = t.RejectedOrders ∧ r.1.AllOrdersIDMap = t.AllOrdersIDMap
      ∧ (t.Typ = ClosedTrade → r.1.Typ = ClosedTrade))
    ∨ ∃ q diff c, r.1 = (t.closeWith q diff c tm).dropLiveBooks := by
  have e1 : LongTrade ≠ ClosedTrade := by decide
  have e2 : ShortTrade ≠ ClosedTrade := by decide
  have e3 : FlatTrade ≠ ClosedTrade := by decide
  unfold Trade.positionUpdate at hr
  split_ifs at hr
  all_goals subst hr
  all_goals first
    | exact Or.inl ⟨rfl, rfl, rfl, rfl, rfl, rfl, fun hc => hc⟩
    | exact Or.inl ⟨rfl, rfl, rfl, rfl, rfl, rfl,
        fun hc => absurd (‹t.Typ = FlatTrade›.symm.trans hc) e3⟩
    | exact Or.inl ⟨rfl, rfl, rfl, rfl, rfl, rfl,
        fun hc => absurd (‹t.Typ = LongTrade›.symm.trans hc) e1⟩
    | exact Or.inl ⟨rfl, rfl, rfl, rfl, rfl, rfl,
        fun hc => absurd (‹t.Typ = ShortTrade›.symm.trans hc) e2⟩
    | exact Or.inr ⟨_, _, _, rfl⟩

/-- The position update keeps the invariant of the trade it is applied to. -/
theorem Trade.BooksInv.positionUpdate {t : Trade} (h : t.BooksInv) (o : Order) (d : Int)
    (p : F64) (tm : Time) : (t.positionUpdate o d p tm).1.BooksInv := by
  rcases Trade.positionUpdate_books t o d p tm _ rfl with
    ⟨a1, a2, a3, a4, a5, a6, a7⟩ | ⟨q, diff, c, e⟩
  · refine h.of_occ (fun k => ?_) a6 (fun hc hc' => ?_) (a1 ▸ h.keyedNew)
      (a2 ▸ h.keyedConfirmed)
    · unfold Trade.occAll
      rw [a1, a2, a3, a4, a5]
    · exact hc (a7 hc')
  · rw [e]
    refine h.of_closed (fun k => ?_) rfl rfl Book.keyed_empty Book.keyed_empty
    simp only [Trade.occAll, Trade.dropLiveBooks, Trade.closeWith, Book.occ_empty]
    omega

/-- A flip successor of a trade satisfying the invariant satisfies it. -/
theorem Trade.BooksInv.flipSuccessor {t : Trade} (h : t.BooksInv) (o : Order) (q : Int)
    (p : F64) (tm : Time) (typ : TradeType) (q' : Int) (diff : F64) (c : Int) :
    ((t.closeWith q' diff c tm).flipSuccessor o q p tm typ).BooksInv := by
  have hall : ((t.closeWith q' diff c tm).flipSuccessor o q p tm typ).AllOrdersIDMap
      = t.NewOrders.keys ∪ t.ConfirmedOrders.keys := by
    simp [Trade.flipSuccessor, Trade.updateAllOrdersIDMap, Trade.closeWith, Trade.zeroValue,
      Book.orderIds_eq_keys h.keyedNew, Book.orderIds_eq_keys h.keyedConfirmed,
      Book.orderIds_empty]
  have hocc : ∀ k, ((t.closeWith q' diff c tm).flipSuccessor o q p tm typ).occAll k
      = t.NewOrders.occ k + t.ConfirmedOrders.occ k := by
    intro k
    simp [Trade.flipSuccessor, Trade.updateAllOrdersIDMap, Trade.closeWith, Trade.zeroValue,
      Trade.occAll]
  refine ⟨fun k => ?_, fun k hk => ?_, fun _ k hk => ?_, h.keyedNew, h.keyedConfirmed⟩
  · rw [hocc]
    have := h.once k
    unfold Trade.occAll at this
    omega
  · rw [hocc]
    rw [hall, Finset.mem_union, Finmap.mem_keys, Finmap.mem_keys, not_or] at hk
    rw [Book.occ_of_not_mem hk.1, Book.occ_of_not_mem hk.2]
  · rw [hocc]
    rw [hall, Finset.mem_union, Finmap.mem_keys, Finmap.mem_keys] at hk
    have := h.once k
    unfold Trade.occAll at this
    rcases hk with hk | hk
    · have : t.NewOrders.occ k = 1 := by simp [Book.occ, hk]
      omega
    · have : t.ConfirmedOrders.occ k = 1 := by simp [Book.occ, hk]
      omega

theorem Trade.BooksInv.executeOrder {t : Trade} (h : t.BooksInv) (id : String) (d : Int)
    (p : F64) (tm : Time) : (t.executeOrder id d p tm).1.BooksInv := by
  unfold Trade.executeOrder
  cases hl : t.ConfirmedOrders.lookup id with
  | none => exact h
  | some order =>
    simp only [Book.orFresh_eq]
    have hid : (order.addExecution p d).1.Id = id :=
      (Order.addExecution_id order p d).trans (h.keyedConfirmed id order hl)
    have h1 : t.ConfirmedOrders.occ id = 1 := Book.occ_of_lookup hl
    obtain ⟨-, hf, -, -⟩ := (h.others_zero id).2 h1
    generalize order.addExecution p d = res at hid ⊢
    obtain ⟨o1, r⟩ := res
    simp only at hid
    split
    · exact h
    split
    · exact h
    by_cases hfull : d = order.Qty - order.ExecQty
    · simp only [hfull, if_true, true_and]
      split
      · exact h
      · have h3 : (Trade.BooksInv { t with
            FilledOrders := (t.FilledOrders.insert id order).insert id o1
            ConfirmedOrders := t.ConfirmedOrders.erase id }) := by
          refine h.of_occ (fun k => ?_) rfl (fun x => x) h.keyedNew ?_
          · simp only [Trade.occAll, Book.occ_insert, Book.occ_erase]
            split
            · rename_i hk
              subst hk
              omega
            · rfl
          · exact Book.keyed_erase h.keyedConfirmed
        cases r with
        | ok v => exact h3.positionUpdate _ _ _ _
        | err msg => exact h3
        | panic msg => exact h3
    · simp only [hfull, if_false, false_and]
      have h3 : (Trade.BooksInv { t with ConfirmedOrders := t.ConfirmedOrders.insert id o1 }) := by
        refine h.of_occ (fun k => ?_) rfl (fun x => x) h.keyedNew ?_
        · simp only [Trade.occAll, Book.occ_insert_present hl]
        · exact Book.keyed_insert h.keyedConfirmed hid
      cases r with
      | ok v => exact h3.positionUpdate _ _ _ _
      | err msg => exact h3
      | panic msg => exact h3

/-- The trade handed to the position update by a successful `executeOrder`
satisfies the invariant. -/
theorem Trade.BooksInv.recorded {t : Trade} (h : t.BooksInv) (id : String) (order : Order)
    (p : F64) (d : Int) (hl : t.ConfirmedOrders.lookup id = some order) :
    (t.recorded id order p d).BooksInv := by
  have hid : (order.executed p d).Id = id := h.keyedConfirmed id order hl
  have h1 : t.ConfirmedOrders.occ id = 1 := Book.occ_of_lookup hl
  obtain ⟨-, hf, -, -⟩ := (h.others_zero id).2 h1
  unfold Trade.recorded
  split
  · refine h.of_occ (fun k => ?_) rfl (fun x => x) h.keyedNew ?_
    · simp only [Trade.occAll, Book.occ_insert, Book.occ_erase]
      split
      · rename_i hk
        subst hk
        omega
      · rfl
    · exact Book.keyed_erase h.keyedConfirmed
  · refine h.of_occ (fun k => ?_) rfl (fun x => x) h.keyedNew ?_
    · simp only [Trade.occAll, Book.occ_insert_present hl]
    · exact Book.keyed_insert h.keyedConfirmed hid

/-- A flip successor returned by `executeOrder` satisfies the invariant. -/
theorem Trade.BooksInv.successor {t s : Trade} (h : t.BooksInv) (id : String) (d : Int)
    (p : F64) (tm : Time) (hs : (t.executeOrder id d p tm).2 = .ok (some s))
    (hflat : s.Typ ≠ FlatTrade) : s.BooksInv := by
  obtain ⟨order, hord, hd, hrem, hp, hlive, hfresh⟩ :=
    Trade.executeOrder_ok_inv t id d p tm (some s) hs
  rw [Trade.executeOrder_eq t id order d p tm hord hd hrem hp hlive hfresh] at hs
  obtain ⟨tc, ⟨q, diff, c, htc⟩, -, h2⟩ :=
    Trade.positionUpdate_successor (t.recorded id order p d) (order.executed p d) d p tm s hs
  rcases h2 with h2 | ⟨typ, -, h2⟩
  · rw [h2] at hflat
    exact absurd rfl hflat
  · rw [h2, htc]
    exact (h.recorded id order p d hord).flipSuccessor _ _ _ _ _ _ _ _

/-- Every trade reachable without passing to a flat successor satisfies the
invariant of the order books. -/
theorem ReachableNoFlatSuccessor.booksInv {t : Trade} (h : ReachableNoFlatSuccessor t) :
    t.BooksInv := by
  induction h with
  | init ticker => exact Trade.BooksInv.newFlatTrade ticker
  | putNewOrder o _ _ ih => exact ih.putNewOrder o
  | confirmOrder id _ ih => exact ih.confirmOrder id
  | cancelOrder id _ ih => exact ih.cancelOrder id
  | replaceOrder id newPrice _ ih => exact ih.replaceOrder id newPrice
  | rejectOrder id reason _ ih => exact ih.rejectOrder id reason
  | executeOrder id qty execPrice datetime _ _ ih => exact ih.executeOrder id qty execPrice datetime
  | successor id qty execPrice datetime _ hs hallow ih =>
    exact ih.successor id qty execPrice datetime hs hallow

/-- From id counts to disjoint key sets. -/
theorem Trade.BooksInv.disjoint {t : Trade} (h : t.BooksInv) : t.BooksDisjoint := by
  have key : ∀ (a b : Book), (∀ k, a.occ k + b.occ k ≤ 1) → Disjoint a.keys b.keys := by
    intro a b hab
    rw [Finset.disjoint_left]
    intro k ha hb
    rw [Finmap.mem_keys] at ha hb
    have := hab k
    simp [Book.occ, ha, hb] at this
  have hle := fun (b : Book) (k : String) => Nat.zero_le (b.occ k)
  unfold Trade.BooksDisjoint
  refine ⟨key _ _ ?_, key _ _ ?_, key _ _ ?_, key _ _ ?_, key _ _ ?_, key _ _ ?_, key _ _ ?_,
    key _ _ ?_, key _ _ ?_, key _ _ ?_⟩
  all_goals
    intro k
    have := h.once k
    unfold Trade.occAll at this
    omega

/-- From id counts to the union of the key sets. -/
theorem Trade.mem_bookIds (t : Trade) (k : String) : k ∈ t.bookIds ↔ 1 ≤ t.occAll k := by
  have key : ∀ (b : Book), (k ∈ b.keys ↔ b.occ k = 1) := by
    intro b
    rw [Finmap.mem_keys]
    unfold Book.occ
    split <;> simp_all
  have hle := fun (b : Book) => Book.occ_le_one b k
  have h1 := hle t.NewOrders
  have h2 := hle t.ConfirmedOrders
  have h3 := hle t.FilledOrders
  have h4 := hle t.CanceledOrders
  have h5 := hle t.RejectedOrders
  simp only [Trade.bookIds, Finset.mem_union, key, Trade.occAll]
  omega

/-- Submitting an order and confirming it stays within the reachable trades. -/
theorem ReachableVia.submit {allow : Trade → Prop} {t : Trade} (o : Order)
    (h : ReachableVia allow t) (hp : (t.putNewOrder o).2.isPanic = false) :
    ReachableVia allow (Sample.submit t o) :=
  ReachableVia.confirmOrder o.Id (ReachableVia.putNewOrder o h hp)

/-- The sample trade `flipLive` is reachable. -/
theorem Sample.flipLive_reachable (allow : Trade → Prop) : ReachableVia allow Sample.flipLive :=
  ReachableVia.submit _
    (ReachableVia.submit _
      (ReachableVia.executeOrder "b" 10 100 ⟨1⟩
        (ReachableVia.submit _ (ReachableVia.init (some Sample.ticker)) (by decide!))
        (by decide!))
      (by decide!))
    (by decide!)

/-! ## Agreement of the 64-bit methods with the exact ones -/

/-- An operation whose exact result is an `int64` does not wrap. -/
theorem wrap64_eq {n : Int} (h : IsInt64 n) : wrap64 n = n := by
  unfold IsInt64 at h
  unfold wrap64
  omega

/-- The result of an `int64` operation is an `int64`. -/
theorem wrap64_isInt64 (n : Int) : IsInt64 (wrap64 n) := by
  unfold IsInt64 wrap64
  omega

/-- Without overflow `addExecution` computes in exact arithmetic. -/
theorem Order.addExecution64_eq (o : Order) (p : F64) (d : Int) (h : IsInt64 (d + o.ExecQty)) :
    o.addExecution64 p d = o.addExecution p d := by
  have h2 : IsInt64 (o.ExecQty + d) := by
    rw [add_comm]
    exact h
  unfold Order.addExecution64 Order.addExecution
  rw [wrap64_eq h, wrap64_eq h2]

/-- The method `addExecution` leaves the side of the order. -/
theorem Order.addExecution_side (o : Order) (p : F64) (d : Int) :
    (o.addExecution p d).1.Side = o.Side := by
  unfold Order.addExecution
  dsimp only
  split_ifs <;> rfl

/-- Without overflow the position update computes in exact arithmetic. -/
theorem Trade.positionUpdate64_eq (t : Trade) (order : Order) (d : Int) (p : F64) (tm : Time)
    (hadd : (t.Typ = ShortTrade ∧ order.Side = OrderSell ∨ t.Typ = LongTrade ∧ order.Side = OrderBuy) →
      IsInt64 (t.Qty + d))
    (hcov : (t.Typ = ShortTrade ∧ order.Side ≠ OrderSell
        ∨ t.Typ = LongTrade ∧ order.Side ≠ OrderBuy) →
      IsInt64 (t.Qty - d) ∧ IsInt64 (d - t.Qty)) :
    t.positionUpdate64 order d p tm = t.positionUpdate order d p tm := by
  unfold Trade.positionUpdate64 Trade.positionUpdate
  by_cases hf : t.Typ = FlatTrade
  · rw [if_pos hf, if_pos hf]
  rw [if_neg hf, if_neg hf]
  by_cases hs : t.Typ = ShortTrade
  · rw [if_pos hs, if_pos hs]
    by_cases ho : order.Side = OrderSell
    · rw [if_pos ho, if_pos ho, wrap64_eq (hadd (Or.inl ⟨hs, ho⟩))]
    · rw [if_neg ho, if_neg ho, wrap64_eq (hcov (Or.inl ⟨hs, ho⟩)).1,
        wrap64_eq (hcov (Or.inl ⟨hs, ho⟩)).2]
  rw [if_neg hs, if_neg hs]
  by_cases hl : t.Typ = LongTrade
  · rw [if_pos hl, if_pos hl]
    by_cases ho : order.Side = OrderBuy
    · rw [if_pos ho, if_pos ho, wrap64_eq (hadd (Or.inr ⟨hl, ho⟩))]
    · rw [if_neg ho, if_neg ho, wrap64_eq (hcov (Or.inr ⟨hl, ho⟩)).1,
        wrap64_eq (hcov (Or.inr ⟨hl, ho⟩)).2]
  rw [if_neg hl, if_neg hl]

/-- Without overflow `executeOrder` computes in exact arithmetic. -/
theorem Trade.executeOrder64_eq (t : Trade) (id : String) (d : Int) (p : F64) (tm : Time)
    (h : ∀ order, t.ConfirmedOrders.lookup id = some order → t.NoOverflow order d) :
    t.executeOrder64 id d p tm = t.executeOrder id d p tm := by
  unfold Trade.executeOrder64 Trade.executeOrder
  cases hord : t.ConfirmedOrders.lookup id with
  | none => rfl
  | some order =>
    obtain ⟨h1, h2, h3, h4⟩ := h order hord
    have hside := Order.addExecution_side order p d
    dsimp only
    rw [wrap64_eq h1, Order.addExecution64_eq order p d h2]
    generalize order.addExecution p d = r at hside
    obtain ⟨order1, res⟩ := r
    dsimp only at hside ⊢
    split_ifs <;> first
      | rfl
      | (cases res <;> first
          | rfl
          | (dsimp only
             apply Trade.positionUpdate64_eq
             · rw [hside]
               exact h3
             · rw [hside]
               exact h4))

/-- A run without overflow is a run of the exact methods. -/
theorem ReachableNoOverflow.reachable {t : Trade} (h : ReachableNoOverflow t) : Reachable t := by
  induction h with
  | init ticker => exact ReachableVia.init ticker
  | putNewOrder o _ hp ih => exact ReachableVia.putNewOrder o ih hp
  | confirmOrder id _ ih => exact ReachableVia.confirmOrder id ih
  | cancelOrder id _ ih => exact ReachableVia.cancelOrder id ih
  | replaceOrder id newPrice _ ih => exact ReachableVia.replaceOrder id newPrice ih
  | rejectOrder id reason _ ih => exact ReachableVia.rejectOrder id reason ih
  | executeOrder id qty execPrice datetime _ hr hp ih =>
    rw [Trade.executeOrder64_eq _ id qty execPrice datetime hr] at hp ⊢
    exact ReachableVia.executeOrder id qty execPrice datetime ih hp
  | successor id qty execPrice datetime _ hr hs ih =>
    rw [Trade.executeOrder64_eq _ id qty execPrice datetime hr] at hs
    exact ReachableVia.successor id qty execPrice datetime ih hs trivial
/-! ## Sequences of fills on one order -/

theorem F64.zero_add_eq (x : F64) : 0 + x = x := by
  show F64.add (F64.fin 0) x = x
  cases x <;> simp [F64.add]

theorem F64.pos_add {a b : F64} (ha : F64.lt 0 a = true) (hb : F64.lt 0 b = true) :
    F64.lt 0 (a + b) = true := by
  rw [F64.zero_eq] at *
  show F64.lt (F64.fin 0) (F64.add a b) = true
  cases a <;> cases b <;> simp_all [F64.add, F64.lt]
  rename_i x y
  exact add_pos ha hb

theorem F64.pos_mul_ofInt {p : F64} {q : Int} (hp : F64.lt 0 p = true) (hq : 0 < q) :
    F64.lt 0 (p * F64.ofInt q) = true := by
  have hq' : (0 : ℚ) < q := by exact_mod_cast hq
  rw [F64.zero_eq] at *
  show F64.lt (F64.fin 0) (F64.mul p (F64.fin q)) = true
  cases p <;> simp_all [F64.mul, F64.lt, F64.sign, F64.ofSign]

/-- Multiplying a positive value divided by a positive count by that count gives
the value back. -/
theorem F64.mul_div_cancel_pos {s : F64} {e : Int} (hs : F64.lt 0 s = true) (he : 0 < e) :
    F64.ofInt e * (s / F64.ofInt e) = s := by
  have he' : (0 : ℚ) < e := by exact_mod_cast he
  have hne : (e : ℚ) ≠ 0 := ne_of_gt he'
  rw [F64.zero_eq] at hs
  show F64.mul (F64.fin e) (F64.div s (F64.fin e)) = s
  cases s <;> simp_all [F64.mul, F64.div, F64.lt, F64.sign, F64.ofSign]
  rename_i x
  field_simp

/-- A positive price times a positive count, divided by the count, is the price. -/
theorem F64.mul_div_self_pos {p : F64} {q : Int} (hp : F64.lt 0 p = true) (hq : 0 < q) :
    (0 + p * F64.ofInt q) / F64.ofInt q = p := by
  have hq' : (0 : ℚ) < q := by exact_mod_cast hq
  have hne : (q : ℚ) ≠ 0 := ne_of_gt hq'
  rw [F64.zero_add_eq]
  rw [F64.zero_eq] at hp
  show F64.div (F64.mul p (F64.fin q)) (F64.fin q) = p
  cases p <;> simp_all [F64.mul, F64.div, F64.lt, F64.sign, F64.ofSign]

theorem filledQty_nonneg {fills : List (F64 × Int)}
    (hpos : ∀ f ∈ fills, F64.lt 0 f.1 = true ∧ 0 < f.2) : 0 ≤ filledQty fills := by
  induction fills with
  | nil => simp [filledQty]
  | cons f rest ih =>
    have h1 := (hpos f (List.mem_cons_self f rest)).2
    have h2 := ih (fun g hg => hpos g (List.mem_cons_of_mem f hg))
    simp only [filledQty, List.map_cons, List.sum_cons] at h2 ⊢
    omega

/-- Fills on an order that already carries the average `s / ExecQty`: they are
all accepted, and the order ends Filled at the average of all fills. -/
theorem Order.addExecutions_from (fills : List (F64 × Int)) :
    ∀ (o : Order) (s : F64), 0 < o.ExecQty → F64.lt 0 s = true →
      o.ExecPrice = s / F64.ofInt o.ExecQty → (o.State = FilledOrder ↔ o.ExecQty = o.Qty) →
      (∀ f ∈ fills, F64.lt 0 f.1 = true ∧ 0 < f.2) → o.ExecQty + filledQty fills = o.Qty →
      ∃ o', o.addExecutions fills = some o' ∧ o'.State = FilledOrder ∧ o'.ExecQty = o.Qty
        ∧ o'.ExecPrice = notionalFrom s fills / F64.ofInt o.Qty := by
  induction fills with
  | nil =>
    intro o s he hs hp hst _ hsum
    simp only [filledQty, List.map_nil, List.sum_nil, add_zero] at hsum
    exact ⟨o, rfl, hst.mpr hsum, hsum, by rw [hp, hsum]; rfl⟩
  | cons f rest ih =>
    intro o s he hs hp hst hpos hsum
    obtain ⟨hfp, hfq⟩ := hpos f (List.mem_cons_self f rest)
    have hrest := fun g hg => hpos g (List.mem_cons_of_mem f hg)
    have hnn := filledQty_nonneg hrest
    have hsum' : o.ExecQty + f.2 + filledQty rest = o.Qty := by
      simp only [filledQty, List.map_cons, List.sum_cons] at hsum ⊢
      omega
    have hlive : o.State ≠ FilledOrder := fun h => by
      have := hst.mp h
      omega
    have hadd := Order.addExecution_ok o f.1 f.2 hlive hfp hfq (by omega)
    have hprice : (o.executed f.1 f.2).ExecPrice
        = (s + f.1 * F64.ofInt f.2) / F64.ofInt (o.executed f.1 f.2).ExecQty := by
      simp only [Order.executed, he, if_true, gt_iff_lt]
      rw [hp, F64.mul_div_cancel_pos hs he]
    obtain ⟨o', h1, h2, h3, h4⟩ := ih (o.executed f.1 f.2) (s + f.1 * F64.ofInt f.2)
      (by simp only [Order.executed]; omega) (F64.pos_add hs (F64.pos_mul_ofInt hfp hfq))
      hprice
      (by
        simp only [Order.executed]
        constructor
        · intro h
          by_contra hne
          simp [hne] at h
          exact absurd h (by decide)
        · intro h
          simp [h])
      hrest hsum'
    refine ⟨o', ?_, h2, h3, h4⟩
    simp only [Order.addExecutions, hadd]
    exact h1


/-- Dividing by a positive count and multiplying by it again gives the value
back, whatever the value. -/
theorem F64.div_mul_cancel_pos (x : F64) {q : Int} (hq : 0 < q) :
    x / F64.ofInt q * F64.ofInt q = x := by
  have hq' : (0 : ℚ) < q := by exact_mod_cast hq
  have hne : (q : ℚ) ≠ 0 := ne_of_gt hq'
  show F64.mul (F64.div x (F64.fin q)) (F64.fin q) = x
  cases x <;> simp_all [F64.mul, F64.div, F64.sign, F64.ofSign]

theorem F64.fin_sub_self (a : ℚ) : F64.fin a - F64.fin a = 0 := by
  rw [F64.fin_sub, sub_self]
  rfl
/-! ## The quantity invariant of an order -/

theorem Order.QtyInv.after_call {o : Order} (h : o.QtyInv) (c : OrderCall) : (o.call c).1.QtyInv := by
  obtain ⟨h1, h2, h3, h4⟩ := h
  have e1 : ConfirmedOrder ≠ FilledOrder := by decide
  have e2 : ConfirmedOrder ≠ PartialFilledOrder := by decide
  have e3 : CanceledOrder ≠ FilledOrder := by decide
  have e4 : CanceledOrder ≠ PartialFilledOrder := by decide
  have e5 : RejectedOrder ≠ FilledOrder := by decide
  have e6 : RejectedOrder ≠ PartialFilledOrder := by decide
  have e7 : NewOrder ≠ FilledOrder := by decide
  have e8 : PartialFilledOrder ≠ FilledOrder := by decide
  cases c with
  | addExecution p d =>
    by_cases hok : (o.addExecution p d).2 = .ok ()
    · obtain ⟨a1, a2, a3, a4⟩ := Order.addExecution_ok_inv o p d hok
      simp only [Order.call, Order.addExecution_ok o p d a1 a2 a3 a4]
      refine ⟨?_, ?_, ?_, ?_⟩
      · simp only [Order.executed]; omega
      · simp only [Order.executed]; omega
      · simp only [Order.executed]
        constructor
        · intro hs
          by_contra hne
          simp [hne] at hs
          exact e8 hs
        · intro hs
          simp [hs]
      · simp only [Order.executed]
        intro hs
        have hne : ¬ o.ExecQty + d = o.Qty := by
          intro heq
          simp [heq] at hs
          exact e8 hs.symm
        omega
    · simp only [Order.call, Order.addExecution_fail o p d hok]
      exact ⟨h1, h2, h3, h4⟩
  | confirm =>
    simp only [Order.call, Order.confirm]
    split
    · exact ⟨h1, h2, h3, h4⟩
    · rename_i hs
      have hs' : o.State = NewOrder := by simpa using hs
      have hne : o.ExecQty ≠ o.Qty := fun heq => e7 (hs' ▸ h3.mpr heq)
      exact ⟨h1, h2, ⟨fun x => absurd x e1, fun x => absurd x hne⟩, fun x => absurd x e2⟩
  | cancel =>
    simp only [Order.call, Order.cancel]
    split
    · exact ⟨h1, h2, h3, h4⟩
    · split
      · exact ⟨h1, h2, h3, h4⟩
      · rename_i hs _
        have hne : o.ExecQty ≠ o.Qty := fun heq => hs (h3.mpr heq)
        exact ⟨h1, h2, ⟨fun x => absurd x e3, fun x => absurd x hne⟩, fun x => absurd x e4⟩
  | reject reason =>
    simp only [Order.call, Order.reject]
    split
    · exact ⟨h1, h2, h3, h4⟩
    · split
      · exact ⟨h1, h2, h3, h4⟩
      · rename_i hs _
        have hs' : o.State = NewOrder := by simpa using hs
        have hne : o.ExecQty ≠ o.Qty := fun heq => e7 (hs' ▸ h3.mpr heq)
        exact ⟨h1, h2, ⟨fun x => absurd x e5, fun x => absurd x hne⟩, fun x => absurd x e6⟩
  | replace newPrice =>
    simp only [Order.call, Order.replace]
    split
    · exact ⟨h1, h2, h3, h4⟩
    · exact ⟨h1, h2, h3, h4⟩

theorem Order.QtyInv.after_calls (cs : List OrderCall) :
    ∀ {o : Order}, o.QtyInv → (o.calls cs).QtyInv := by
  induction cs with
  | nil => intro o h; exact h
  | cons c rest ih =>
    intro o h
    exact ih (h.after_call c)

/-! ## Writing an order back into its book -/

/-- Writing back the value a key already has leaves the map as it was. -/
theorem Book.insert_self {b : Book} {id : String} {o : Order} (h : b.lookup id = some o) :
    b.insert id o = b := by
  apply Finmap.ext_lookup
  intro k
  by_cases hk : k = id
  · subst hk
    rw [Finmap.lookup_insert, h]
  · rw [Finmap.lookup_insert_of_ne _ hk]

/-- Writing a value under a key that is already present keeps the set of keys. -/
theorem Book.keys_insert_present {b : Book} {id : String} {o o' : Order}
    (h : b.lookup id = some o) : (b.insert id o').keys = b.keys := by
  ext k
  rw [Finmap.mem_keys, Finmap.mem_keys, Finmap.mem_insert]
  constructor
  · rintro (hk | hk)
    · subst hk
      exact Finmap.mem_of_lookup_eq_some h
    · exact hk
  · intro hk
    exact Or.inr hk

/-! ## Closed trades -/

/-- Every call on a closed-out trade returns an error and changes at most its
`MarketValue`. -/
theorem Trade.ClosedOut.refuses {t : Trade} (h : t.ClosedOut) (c : TradeCall) :
    (t.call c).2.isErr = true ∧ (t.call c).1.ClosedOut
    ∧ (t.call c).1.ClosedPnL = t.ClosedPnL
    ∧ (t.call c).1.FilledOrders = t.FilledOrders
    ∧ (t.call c).1.CanceledOrders = t.CanceledOrders
    ∧ (t.call c).1.RejectedOrders = t.RejectedOrders
    ∧ (t.call c).1.Returns = t.Returns := by
  obtain ⟨h1, h2, h3, h4⟩ := h
  have e1 : ClosedTrade ≠ LongTrade := by decide
  have e2 : ClosedTrade ≠ ShortTrade := by decide
  cases c with
  | putNewOrder o =>
    simp [Trade.call, Trade.putNewOrder, h1, Outcome.isErr, Trade.ClosedOut, h2, h3, h4]
  | confirmOrder id =>
    simp [Trade.call, Trade.confirmOrder, h3, Outcome.isErr, Trade.ClosedOut, h1, h2, h4]
  | cancelOrder id =>
    simp [Trade.call, Trade.cancelOrder, h4, Outcome.isErr, Trade.ClosedOut, h1, h2, h3]
  | replaceOrder id newPrice =>
    simp [Trade.call, Trade.replaceOrder, h4, Outcome.isErr, Trade.ClosedOut, h1, h2, h3]
  | rejectOrder id reason =>
    simp [Trade.call, Trade.rejectOrder, h3, Outcome.isErr, Trade.ClosedOut, h1, h2, h4]
  | executeOrder id qty execPrice datetime =>
    simp [Trade.call, Trade.executeOrder, h4, Outcome.isErr, Outcome.void, Trade.ClosedOut,
      h1, h2, h3]
  | updatePnL marketPrice lastTime =>
    simp [Trade.call, Trade.updatePnL, h1, e1, e2, Outcome.isErr, Trade.ClosedOut, h2, h3, h4]

/-- After any sequence of calls a closed-out trade is still closed out, with the
same realised P&L, the same terminal books and the same snapshots. -/
theorem Trade.ClosedOut.stays_closed (cs : List TradeCall) :
    ∀ {t : Trade}, t.ClosedOut → (t.calls cs).ClosedOut
      ∧ (t.calls cs).ClosedPnL = t.ClosedPnL
      ∧ (t.calls cs).FilledOrders = t.FilledOrders
      ∧ (t.calls cs).CanceledOrders = t.CanceledOrders
      ∧ (t.calls cs).RejectedOrders = t.RejectedOrders
      ∧ (t.calls cs).Returns = t.Returns := by
  induction cs with
  | nil => intro t h; exact ⟨h, rfl, rfl, rfl, rfl, rfl⟩
  | cons c rest ih =>
    intro t h
    obtain ⟨-, a1, a2, a3, a4, a5, a6⟩ := h.refuses c
    obtain ⟨b1, b2, b3, b4, b5, b6⟩ := ih a1
    exact ⟨b1, b2.trans a2, b3.trans a3, b4.trans a4, b5.trans a5, b6.trans a6⟩

/-- What the position update leaves behind when it returns a successor: the
old trade is closed out, and the successor is flat with no quantity, or is a
long or short position in the excess quantity opened at the fill price. -/
theorem Trade.positionUpdate_closing (t : Trade) (o : Order) (d : Int) (p : F64) (tm : Time)
    (r : Trade × Outcome (Option Trade)) (hr : t.positionUpdate o d p tm = r) (s : Trade)
    (hs : r.2 = .ok (some s)) :
    r.1.ClosedOut
    ∧ ((s.Typ = FlatTrade ∧ s.Qty = 0 ∧ s.OpenPrice = F64.nan ∧ s.OpenPnL = 0)
      ∨ ((s.Typ = LongTrade ∨ s.Typ = ShortTrade) ∧ t.Qty < d ∧ s.Qty = d - t.Qty
        ∧ s.OpenPrice = p ∧ s.OpenValue = p * F64.ofInt (d - t.Qty)
        ∧ s.MarketValue = s.OpenValue ∧ s.OpenPnL = 0)) := by
  unfold Trade.positionUpdate at hr
  split_ifs at hr
  all_goals subst hr
  all_goals simp only [Outcome.ok.injEq, Option.some.injEq, reduceCtorEq] at hs
  all_goals subst hs
  · refine ⟨⟨rfl, ?_, rfl, rfl⟩, Or.inl ⟨rfl, rfl, rfl, rfl⟩⟩
    show t.Qty - d = 0
    omega
  · refine ⟨⟨rfl, rfl, rfl, rfl⟩, Or.inr ⟨Or.inl rfl, by omega, rfl, rfl, rfl, rfl, rfl⟩⟩
  · refine ⟨⟨rfl, ?_, rfl, rfl⟩, Or.inl ⟨rfl, rfl, rfl, rfl⟩⟩
    show t.Qty - d = 0
    omega
  · refine ⟨⟨rfl, rfl, rfl, rfl⟩, Or.inr ⟨Or.inr rfl, by omega, rfl, rfl, rfl, rfl, rfl⟩⟩

/-- A trade for which `executeOrder` returned a successor is closed out. -/
theorem Trade.closedOut_of_successor (t : Trade) (id : String) (d : Int) (p : F64) (tm : Time)
    (s : Trade) (h : (t.executeOrder id d p tm).2 = .ok (some s)) :
    (t.executeOrder id d p tm).1.ClosedOut := by
  obtain ⟨order, hord, hd, hrem, hp, hlive, hfresh⟩ :=
    Trade.executeOrder_ok_inv t id d p tm (some s) h
  rw [Trade.executeOrder_eq t id order d p tm hord hd hrem hp hlive hfresh] at h ⊢
  exact (Trade.positionUpdate_closing _ _ d p tm _ rfl s h).1

/-! ## Calls that leave the position alone -/

theorem Trade.SamePosition.refl (t : Trade) : t.SamePosition t :=
  ⟨rfl, rfl, rfl, rfl, rfl, rfl, rfl⟩

theorem Trade.samePosition_putNewOrder (t : Trade) (o : Order) :
    t.SamePosition (t.putNewOrder o).1 := by
  rcases Trade.putNewOrder_state t o with e | ⟨-, e⟩ <;> rw [e]
  · exact Trade.SamePosition.refl t
  · exact ⟨rfl, rfl, rfl, rfl, rfl, rfl, rfl⟩

theorem Trade.samePosition_confirmOrder (t : Trade) (id : String) :
    t.SamePosition (t.confirmOrder id).1 := by
  unfold Trade.confirmOrder
  cases t.NewOrders.lookup id with
  | none => exact Trade.SamePosition.refl t
  | some order =>
    simp only
    split
    · exact Trade.SamePosition.refl t
    · generalize order.confirm = res
      obtain ⟨o1, r⟩ := res
      cases r <;> exact ⟨rfl, rfl, rfl, rfl, rfl, rfl, rfl⟩

theorem Trade.samePosition_cancelOrder (t : Trade) (id : String) :
    t.SamePosition (t.cancelOrder id).1 := by
  unfold Trade.cancelOrder
  cases t.ConfirmedOrders.lookup id with
  | none => exact Trade.SamePosition.refl t
  | some order =>
    simp only
    generalize order.cancel = res
    obtain ⟨o1, r⟩ := res
    cases r with
    | ok v =>
      simp only
      split <;> exact ⟨rfl, rfl, rfl, rfl, rfl, rfl, rfl⟩
    | err msg => exact ⟨rfl, rfl, rfl, rfl, rfl, rfl, rfl⟩
    | panic msg => exact ⟨rfl, rfl, rfl, rfl, rfl, rfl, rfl⟩

theorem Trade.samePosition_rejectOrder (t : Trade) (id reason : String) :
    t.SamePosition (t.rejectOrder id reason).1 := by
  unfold Trade.rejectOrder
  cases t.NewOrders.lookup id with
  | none => exact Trade.SamePosition.refl t
  | some order =>
    simp only
    generalize order.reject reason = res
    obtain ⟨o1, r⟩ := res
    cases r with
    | ok v =>
      simp only
      split <;> exact ⟨rfl, rfl, rfl, rfl, rfl, rfl, rfl⟩
    | err msg => exact ⟨rfl, rfl, rfl, rfl, rfl, rfl, rfl⟩
    | panic msg => exact ⟨rfl, rfl, rfl, rfl, rfl, rfl, rfl⟩

theorem Trade.samePosition_replaceOrder (t : Trade) (id : String) (p : F64) :
    t.SamePosition (t.replaceOrder id p).1 := by
  unfold Trade.replaceOrder
  cases t.ConfirmedOrders.lookup id with
  | none => exact Trade.SamePosition.refl t
  | some order =>
    simp only
    generalize order.replace p = res
    obtain ⟨o1, r⟩ := res
    cases r <;> exact ⟨rfl, rfl, rfl, rfl, rfl, rfl, rfl⟩

theorem Trade.samePosition_recorded (t : Trade) (id : String) (order : Order) (p : F64)
    (d : Int) : t.SamePosition (t.recorded id order p d) := by
  unfold Trade.recorded
  split <;> exact ⟨rfl, rfl, rfl, rfl, rfl, rfl, rfl⟩

/-- A call of `executeOrder` either leaves the position alone and does not end
normally, or is the position update of a valid fill on a live order. -/
theorem Trade.executeOrder_cases (t : Trade) (id : String) (d : Int) (p : F64) (tm : Time) :
    (t.SamePosition (t.executeOrder id d p tm).1 ∧ (t.executeOrder id d p tm).2.isOk = false)
    ∨ ∃ order, t.ConfirmedOrders.lookup id = some order ∧ 0 < d
        ∧ d ≤ order.Qty - order.ExecQty ∧ F64.lt 0 p = true ∧ order.State ≠ FilledOrder
        ∧ t.executeOrder id d p tm
          = (t.recorded id order p d).positionUpdate (order.executed p d) d p tm := by
  by_cases hex : ∃ order, t.ConfirmedOrders.lookup id = some order ∧ 0 < d
      ∧ d ≤ order.Qty - order.ExecQty ∧ F64.lt 0 p = true ∧ order.State ≠ FilledOrder
      ∧ (d = order.Qty - order.ExecQty → id ∉ t.FilledOrders)
  · obtain ⟨order, h1, h2, h3, h4, h5, h6⟩ := hex
    exact Or.inr ⟨order, h1, h2, h3, h4, h5, Trade.executeOrder_eq t id order d p tm h1 h2 h3 h4 h5 h6⟩
  · left
    have hnot : ∀ v, (t.executeOrder id d p tm).2 ≠ .ok v := by
      intro v hv
      exact hex (Trade.executeOrder_ok_inv t id d p tm v hv)
    constructor
    swap
    · cases hr : (t.executeOrder id d p tm).2 with
      | ok v => exact absurd hr (hnot v)
      | err msg => rfl
      | panic msg => rfl
    · unfold Trade.executeOrder
      cases hl : t.ConfirmedOrders.lookup id with
      | none => exact Trade.SamePosition.refl t
      | some order =>
        simp only [Book.orFresh_eq]
        rcases hres : order.addExecution p d with ⟨o1, r⟩
        cases r with
        | ok u =>
          have hok : (order.addExecution p d).2 = .ok () := by rw [hres]
          obtain ⟨a1, a2, a3, a4⟩ := Order.addExecution_ok_inv order p d hok
          by_cases hdup : d = order.Qty - order.ExecQty ∧ id ∈ t.FilledOrders
          · obtain ⟨hq, hmem⟩ := hdup
            have hlen : t.FilledOrders.len ≠ 0 := by
              intro hlen
              rw [Book.eq_empty_of_len hlen] at hmem
              exact Finmap.not_mem_empty hmem
            subst hq
            simp only [lt_self_iff_false, if_false, if_true, hlen, hmem, ne_eq, not_false_eq_true,
              and_self]
            split <;> exact ⟨rfl, rfl, rfl, rfl, rfl, rfl, rfl⟩
          · exfalso
            refine hex ⟨order, hl, a3, by omega, a2, a1, ?_⟩
            intro hfull hmem
            exact hdup ⟨hfull, hmem⟩
        | err msg =>
          simp only
          split_ifs <;> exact Trade.SamePosition.refl t
        | panic msg =>
          simp only
          split_ifs <;> exact Trade.SamePosition.refl t

/-! ## The position invariants along the position update -/

theorem Trade.ClosedOut.closed_positionInv {t : Trade} (h : t.ClosedOut) : t.PositionInv := by
  obtain ⟨h1, h2, -, -⟩ := h
  refine ⟨fun c => ?_, fun c => ?_, fun _ => h2⟩
  · rw [h1] at c
    exact absurd c (by decide)
  · rw [h1] at c
    rcases c with c | c <;> exact absurd c (by decide)

theorem Trade.ClosedOut.closed_valueInv {t : Trade} (h : t.ClosedOut) : t.ValueInv := by
  obtain ⟨h1, -, -, -⟩ := h
  refine ⟨fun c => ?_, fun c => ?_, fun c => ?_, fun c => ?_⟩
  · rw [h1] at c
    exact absurd c (by decide)
  · rw [h1] at c
    rcases c with c | c <;> exact absurd c (by decide)
  · rw [h1] at c
    exact absurd c (by decide)
  · rw [h1] at c
    exact absurd c (by decide)

theorem Trade.PositionInv.position_of_same {t u : Trade} (h : t.PositionInv) (hs : t.SamePosition u) :
    u.PositionInv := by
  obtain ⟨e1, e2, e3, -⟩ := hs
  unfold Trade.PositionInv
  rw [e1, e2, e3]
  exact h

theorem Trade.ValueInv.value_of_same {t u : Trade} (h : t.ValueInv) (hs : t.SamePosition u) :
    u.ValueInv := by
  obtain ⟨e1, e2, e3, e4, e5, e6, -⟩ := hs
  unfold Trade.ValueInv
  rw [e1, e2, e3, e4, e5, e6]
  exact h

/-- The position update keeps the quantity invariant, on the trade and on the
successor it may return. -/
theorem Trade.PositionInv.position_positionUpdate {t : Trade} (h : t.PositionInv) (o : Order) (d : Int)
    (p : F64) (tm : Time) (hd : 0 < d) (r : Trade × Outcome (Option Trade))
    (hr : t.positionUpdate o d p tm = r) (hnp : r.2.isPanic = false) :
    r.1.PositionInv ∧ ∀ s, r.2 = .ok (some s) → s.PositionInv := by
  have hsucc : ∀ s, r.2 = .ok (some s) → r.1.PositionInv ∧ s.PositionInv := by
    intro s hs
    obtain ⟨hc, hcase⟩ := Trade.positionUpdate_closing t o d p tm r hr s hs
    refine ⟨hc.closed_positionInv, ?_⟩
    rcases hcase with ⟨h1, h2, h3, -⟩ | ⟨h1, h2, h3, -⟩
    · refine ⟨fun _ => ⟨h2, h3⟩, fun c => ?_, fun _ => h2⟩
      rw [h1] at c
      rcases c with c | c <;> exact absurd c (by decide)
    · refine ⟨fun c => ?_, fun _ => by omega, fun c => ?_⟩
      · rw [c] at h1
        rcases h1 with c | c <;> exact absurd c (by decide)
      · rw [c] at h1
        rcases h1 with c | c <;> exact absurd c (by decide)
  cases hr2 : r.2 with
  | panic msg => simp [hr2, Outcome.isPanic] at hnp
  | err msg =>
    exfalso
    unfold Trade.positionUpdate at hr
    split_ifs at hr
    all_goals subst hr
    all_goals simp at hr2
  | ok v =>
    cases v with
    | some s =>
      refine ⟨(hsucc s hr2).1, fun s2 hs2 => ?_⟩
      simp only [Outcome.ok.injEq, Option.some.injEq] at hs2
      subst hs2
      exact (hsucc s hr2).2
    | none =>
      refine ⟨?_, fun s hs => by simp at hs⟩
      clear hsucc hnp
      obtain ⟨hflat, hopen, hclosed⟩ := h
      unfold Trade.positionUpdate at hr
      split_ifs at hr
      all_goals subst hr
      all_goals simp only [reduceCtorEq, Outcome.ok.injEq] at hr2
      all_goals simp only [Trade.PositionInv]
      all_goals first
        | exact ⟨hflat, hopen, hclosed⟩
        | (simp_all [FlatTrade, LongTrade, ShortTrade, ClosedTrade]; done)
        | (simp_all [FlatTrade, LongTrade, ShortTrade, ClosedTrade]; omega)

theorem F64.finite_mul_ofInt_sub_self {p : F64} (hp : p.isFinite = true) (q : Int) :
    p * F64.ofInt q - p * F64.ofInt q = 0 := by
  cases p <;> simp [F64.isFinite] at hp
  rw [F64.ofInt, F64.fin_mul, F64.fin_sub_self]

/-- The position update at a finite price keeps the valuation invariant, on the
trade and on the successor it may return. -/
theorem Trade.ValueInv.value_positionUpdate {t : Trade} (h : t.ValueInv) (hq : t.PositionInv)
    (o : Order) (d : Int) (p : F64) (tm : Time) (hd : 0 < d) (hp : p.isFinite = true)
    (r : Trade × Outcome (Option Trade)) (hr : t.positionUpdate o d p tm = r)
    (hnp : r.2.isPanic = false) :
    r.1.ValueInv ∧ ∀ s, r.2 = .ok (some s) → s.ValueInv := by
  have hsucc : ∀ s, r.2 = .ok (some s) → r.1.ValueInv ∧ s.ValueInv := by
    intro s hs
    obtain ⟨hc, hcase⟩ := Trade.positionUpdate_closing t o d p tm r hr s hs
    refine ⟨hc.closed_valueInv, ?_⟩
    rcases hcase with ⟨h1, -, -, h4⟩ | ⟨h1, -, h3, h4, h5, h6, h7⟩
    · refine ⟨fun _ => h4, fun c => ?_, fun c => ?_, fun c => ?_⟩
      · rw [h1] at c
        rcases c with c | c <;> exact absurd c (by decide)
      · rw [h1] at c
        exact absurd c (by decide)
      · rw [h1] at c
        exact absurd c (by decide)
    · have hzero : s.OpenPnL = s.MarketValue - s.OpenValue := by
        rw [h7, h6, h5, F64.finite_mul_ofInt_sub_self hp]
      have hzero2 : s.OpenPnL = s.OpenValue - s.MarketValue := by
        rw [h7, h6, h5, F64.finite_mul_ofInt_sub_self hp]
      refine ⟨fun _ => h7, fun _ => ?_, fun _ => hzero, fun _ => hzero2⟩
      rw [h5, h4, h3]
  cases hr2 : r.2 with
  | panic msg => simp [hr2, Outcome.isPanic] at hnp
  | err msg =>
    exfalso
    unfold Trade.positionUpdate at hr
    split_ifs at hr
    all_goals subst hr
    all_goals simp at hr2
  | ok v =>
    cases v with
    | some s =>
      refine ⟨(hsucc s hr2).1, fun s2 hs2 => ?_⟩
      simp only [Outcome.ok.injEq, Option.some.injEq] at hs2
      subst hs2
      exact (hsucc s hr2).2
    | none =>
      refine ⟨?_, fun s hs => by simp at hs⟩
      clear hsucc hnp
      obtain ⟨hflat, hval, hlong, hshort⟩ := h
      obtain ⟨-, hopen, -⟩ := hq
      unfold Trade.positionUpdate at hr
      split_ifs at hr
      all_goals subst hr
      all_goals simp only [reduceCtorEq, Outcome.ok.injEq] at hr2
      all_goals simp only [Trade.ValueInv]
      · rename_i c1 c2 c3
        refine ⟨fun c => absurd c (by decide), fun _ => trivial, fun _ => ?_,
          fun c => absurd c (by decide)⟩
        rw [hflat c1, F64.finite_mul_ofInt_sub_self hp]
      · rename_i c1 c2 c3
        refine ⟨fun c => absurd c (by decide), fun _ => trivial,
          fun c => absurd c (by decide), fun _ => ?_⟩
        rw [hflat c1, F64.finite_mul_ofInt_sub_self hp]
      · rename_i c1 c2 c3
        have hQ := hopen (Or.inr c2)
        refine ⟨fun c => absurd c c1, fun _ => (F64.div_mul_cancel_pos _ (by omega)).symm,
          fun c => ?_, fun _ => F64.neg_sub_swap _ _⟩
        rw [c2] at c
        exact absurd c (by decide)
      · rename_i c1 c2 c3 c4
        refine ⟨fun c => absurd c c1, fun _ => trivial, fun c => ?_,
          fun _ => F64.neg_sub_swap _ _⟩
        rw [c2] at c
        exact absurd c (by decide)
      · rename_i c1 c2 c3 c4
        have hQ := hopen (Or.inl c3)
        exact ⟨fun c => absurd c c1, fun _ => (F64.div_mul_cancel_pos _ (by omega)).symm,
          fun _ => trivial, fun c => absurd c c2⟩
      · rename_i c1 c2 c3 c4 c5
        exact ⟨fun c => absurd c c1, fun _ => trivial, fun _ => trivial, fun c => absurd c c2⟩
      · exact ⟨hflat, hval, hlong, hshort⟩
/-! ## The position invariants on the reachable trades -/

theorem Trade.PositionInv.position_executeOrder {t : Trade} (h : t.PositionInv) (id : String) (d : Int)
    (p : F64) (tm : Time) (hnp : (t.executeOrder id d p tm).2.isPanic = false) :
    (t.executeOrder id d p tm).1.PositionInv
      ∧ ∀ s, (t.executeOrder id d p tm).2 = .ok (some s) → s.PositionInv := by
  rcases Trade.executeOrder_cases t id d p tm with ⟨hs, hno⟩ | ⟨order, -, hd, -, -, -, heq⟩
  · refine ⟨h.position_of_same hs, fun s hs2 => ?_⟩
    rw [hs2] at hno
    simp [Outcome.isOk] at hno
  · rw [heq] at hnp ⊢
    exact Trade.PositionInv.position_positionUpdate (h.position_of_same (Trade.samePosition_recorded t id order p d))
      _ d p tm hd _ rfl hnp

theorem Trade.ValueInv.value_executeOrder {t : Trade} (h : t.ValueInv) (hq : t.PositionInv)
    (id : String) (d : Int) (p : F64) (tm : Time) (hp : p.isFinite = true)
    (hnp : (t.executeOrder id d p tm).2.isPanic = false) :
    (t.executeOrder id d p tm).1.ValueInv
      ∧ ∀ s, (t.executeOrder id d p tm).2 = .ok (some s) → s.ValueInv := by
  rcases Trade.executeOrder_cases t id d p tm with ⟨hs, hno⟩ | ⟨order, -, hd, -, -, -, heq⟩
  · refine ⟨h.value_of_same hs, fun s hs2 => ?_⟩
    rw [hs2] at hno
    simp [Outcome.isOk] at hno
  · rw [heq] at hnp ⊢
    exact Trade.ValueInv.value_positionUpdate (h.value_of_same (Trade.samePosition_recorded t id order p d))
      (hq.position_of_same (Trade.samePosition_recorded t id order p d)) _ d p tm hd hp _ rfl hnp

theorem Trade.PositionInv.position_of_flat {t : Trade} (h : t.Typ = FlatTrade) (hq : t.Qty = 0)
    (hp : t.OpenPrice = F64.nan) : t.PositionInv := by
  refine ⟨fun _ => ⟨hq, hp⟩, fun c => ?_, fun _ => hq⟩
  rw [h] at c
  rcases c with c | c <;> exact absurd c (by decide)

theorem Trade.ValueInv.value_of_flat {t : Trade} (h : t.Typ = FlatTrade) (h0 : t.OpenPnL = 0) :
    t.ValueInv := by
  refine ⟨fun _ => h0, fun c => ?_, fun c => ?_, fun c => ?_⟩
  · rw [h] at c
    rcases c with c | c <;> exact absurd c (by decide)
  · rw [h] at c
    exact absurd c (by decide)
  · rw [h] at c
    exact absurd c (by decide)

theorem Trade.PositionInv.position_newFlatTrade (ticker : Option Instrument) :
    (newFlatTrade ticker).PositionInv :=
  Trade.PositionInv.position_of_flat rfl rfl rfl

theorem Trade.ValueInv.value_newFlatTrade (ticker : Option Instrument) :
    (newFlatTrade ticker).ValueInv :=
  Trade.ValueInv.value_of_flat rfl rfl

theorem Trade.PositionInv.position_updatePnL {t : Trade} (h : t.PositionInv) (mp : F64) (tm : Time) :
    (t.updatePnL mp tm).1.PositionInv := by
  unfold Trade.updatePnL
  simp only
  split_ifs <;> exact h

theorem Trade.ValueInv.value_updatePnL {t : Trade} (h : t.ValueInv) (mp : F64) (tm : Time) :
    (t.updatePnL mp tm).1.ValueInv := by
  obtain ⟨hflat, hval, hlong, hshort⟩ := h
  unfold Trade.updatePnL
  simp only
  split_ifs with c1 c2
  · refine ⟨fun c => ?_, hval, fun _ => rfl, fun c => ?_⟩
    · have c3 : t.Typ = FlatTrade := c
      rw [c1] at c3
      exact absurd c3 (by decide)
    · have c3 : t.Typ = ShortTrade := c
      rw [c1] at c3
      exact absurd c3 (by decide)
  · exact ⟨hflat, hval, fun c => absurd c c1, fun c => absurd c c2⟩
  · have c3 : t.Typ = ShortTrade := not_not.mp c2
    refine ⟨fun c => ?_, hval, fun c => absurd c c1, fun _ => F64.neg_sub_swap _ _⟩
    have c4 : t.Typ = FlatTrade := c
    rw [c3] at c4
    exact absurd c4 (by decide)

/-- Every reachable trade satisfies the quantity invariant. -/
theorem Reachable.reachable_positionInv {t : Trade} (h : Reachable t) : t.PositionInv := by
  induction h with
  | init ticker => exact Trade.PositionInv.position_newFlatTrade ticker
  | putNewOrder o _ _ ih => exact ih.position_of_same (Trade.samePosition_putNewOrder _ o)
  | confirmOrder id _ ih => exact ih.position_of_same (Trade.samePosition_confirmOrder _ id)
  | cancelOrder id _ ih => exact ih.position_of_same (Trade.samePosition_cancelOrder _ id)
  | replaceOrder id np _ ih => exact ih.position_of_same (Trade.samePosition_replaceOrder _ id np)
  | rejectOrder id reason _ ih => exact ih.position_of_same (Trade.samePosition_rejectOrder _ id reason)
  | executeOrder id d p tm _ hnp ih => exact (ih.position_executeOrder id d p tm hnp).1
  | successor id d p tm _ hs _ ih =>
    refine (ih.position_executeOrder id d p tm ?_).2 _ hs
    rw [hs]
    rfl

/-- Every trade reachable with finite execution prices satisfies the quantity
and the valuation invariant. -/
theorem ReachablePnL.inv {t : Trade} (h : ReachablePnL (fun p => p.isFinite = true) t) :
    t.PositionInv ∧ t.ValueInv := by
  induction h with
  | init ticker =>
    exact ⟨Trade.PositionInv.position_newFlatTrade ticker, Trade.ValueInv.value_newFlatTrade ticker⟩
  | putNewOrder o _ _ ih =>
    exact ⟨ih.1.position_of_same (Trade.samePosition_putNewOrder _ o),
      ih.2.value_of_same (Trade.samePosition_putNewOrder _ o)⟩
  | confirmOrder id _ ih =>
    exact ⟨ih.1.position_of_same (Trade.samePosition_confirmOrder _ id),
      ih.2.value_of_same (Trade.samePosition_confirmOrder _ id)⟩
  | cancelOrder id _ ih =>
    exact ⟨ih.1.position_of_same (Trade.samePosition_cancelOrder _ id),
      ih.2.value_of_same (Trade.samePosition_cancelOrder _ id)⟩
  | replaceOrder id np _ ih =>
    exact ⟨ih.1.position_of_same (Trade.samePosition_replaceOrder _ id np),
      ih.2.value_of_same (Trade.samePosition_replaceOrder _ id np)⟩
  | rejectOrder id reason _ ih =>
    exact ⟨ih.1.position_of_same (Trade.samePosition_rejectOrder _ id reason),
      ih.2.value_of_same (Trade.samePosition_rejectOrder _ id reason)⟩
  | executeOrder id d p tm _ hp hnp ih =>
    exact ⟨(ih.1.position_executeOrder id d p tm hnp).1, (ih.2.value_executeOrder ih.1 id d p tm hp hnp).1⟩
  | @successor u s id d p tm _ hp hs ih =>
    have hnp : (u.executeOrder id d p tm).2.isPanic = false := by
      rw [hs]
      rfl
    exact ⟨(ih.1.position_executeOrder id d p tm hnp).2 _ hs,
      (ih.2.value_executeOrder ih.1 id d p tm hp hnp).2 _ hs⟩
  | updatePnL mp tm _ ih => exact ⟨ih.1.position_updatePnL mp tm, ih.2.value_updatePnL mp tm⟩

theorem Order.confirm_ok {o : Order} (h : o.State = NewOrder) :
    o.confirm = ({ o with State := ConfirmedOrder }, .ok ()) := by
  unfold Order.confirm
  simp [h]

theorem Order.confirm_err {o : Order} (h : o.State ≠ NewOrder) :
    o.confirm = (o, .err "Can't confirm order. State is not newOrder") := by
  unfold Order.confirm
  simp [h]

theorem Order.cancel_ok {o : Order} (h1 : o.State ≠ FilledOrder) (h2 : o.State ≠ NewOrder) :
    o.cancel = ({ o with State := CanceledOrder }, .ok ()) := by
  unfold Order.cancel
  simp [h1, h2]

theorem Order.cancel_err {o : Order} (h : o.State = FilledOrder ∨ o.State = NewOrder) :
    ∃ msg, o.cancel = (o, .err msg) := by
  unfold Order.cancel
  by_cases h1 : o.State = FilledOrder
  · exact ⟨_, by rw [if_pos h1]⟩
  · rcases h with h | h
    · exact absurd h h1
    · exact ⟨_, by rw [if_neg h1, if_pos h]⟩

theorem Order.reject_ok {o : Order} (reason : String) (h1 : o.State = NewOrder)
    (h2 : o.ExecQty ≤ 0) :
    o.reject reason = ({ o with State := RejectedOrder, Mark1 := reason }, .ok ()) := by
  have h3 : ¬ o.ExecQty > 0 := by omega
  unfold Order.reject
  simp [h1, h3]

theorem Order.reject_err {o : Order} (reason : String)
    (h : o.State ≠ NewOrder ∨ 0 < o.ExecQty) : ∃ msg, o.reject reason = (o, .err msg) := by
  unfold Order.reject
  by_cases h1 : o.State ≠ NewOrder
  · exact ⟨_, by rw [if_pos h1]⟩
  · rcases h with h | h
    · exact absurd h h1
    · exact ⟨_, by rw [if_neg h1, if_pos h]⟩

theorem Order.replace_ok {o : Order} (p : F64) (h : o.IsPriced = true) :
    o.replace p = ({ o with Price := p }, .ok ()) := by
  unfold Order.replace
  simp [h]

theorem Order.replace_err {o : Order} (p : F64) (h : o.IsPriced = false) :
    o.replace p = (o, .err "Can't replace order. Order should be priced") := by
  unfold Order.replace
  simp [h]

theorem Book.erase_insert (b : Book) (id : String) (o : Order) :
    (b.insert id o).erase id = b.erase id := by
  apply Finmap.ext_lookup
  intro k
  by_cases hk : k = id
  · subst hk
    rw [Finmap.lookup_erase, Finmap.lookup_erase]
  · rw [Finmap.lookup_erase_ne hk, Finmap.lookup_erase_ne hk, Finmap.lookup_insert_of_ne _ hk]

theorem Book.insert_twice (b : Book) (id : String) (o o' : Order) :
    (b.insert id o).insert id o' = b.insert id o' := by
  apply Finmap.ext_lookup
  intro k
  by_cases hk : k = id
  · subst hk
    rw [Finmap.lookup_insert, Finmap.lookup_insert]
  · rw [Finmap.lookup_insert_of_ne _ hk, Finmap.lookup_insert_of_ne _ hk,
      Finmap.lookup_insert_of_ne _ hk]

theorem Book.len_ne_zero_of_mem {b : Book} {id : String} (h : id ∈ b) : b.len ≠ 0 := by
  intro hlen
  rw [Book.eq_empty_of_len hlen] at h
  exact Finmap.not_mem_empty h

/-- The outcomes of `confirmOrder`. -/
theorem Trade.confirmOrder_cases (t : Trade) (id : String) :
    (∃ msg, t.confirmOrder id = (t, .err msg)
      ∧ (t.NewOrders.lookup id = none ∨ id ∈ t.ConfirmedOrders
        ∨ ∃ order, t.NewOrders.lookup id = some order ∧ order.State ≠ NewOrder))
    ∨ ∃ order, t.NewOrders.lookup id = some order ∧ id ∉ t.ConfirmedOrders
        ∧ order.State = NewOrder
        ∧ t.confirmOrder id
          = ({ t with
                ConfirmedOrders := t.ConfirmedOrders.insert id { order with State := ConfirmedOrder }
                NewOrders := t.NewOrders.erase id }, .ok ()) := by
  unfold Trade.confirmOrder
  cases hl : t.NewOrders.lookup id with
  | none => exact Or.inl ⟨_, rfl, Or.inl rfl⟩
  | some order =>
    simp only [Book.orFresh_eq]
    by_cases hc : id ∈ t.ConfirmedOrders
    · exact Or.inl ⟨_, by rw [if_pos hc], Or.inr (Or.inl hc)⟩
    · rw [if_neg hc]
      by_cases hs : order.State = NewOrder
      · refine Or.inr ⟨order, rfl, hc, hs, ?_⟩
        rw [Order.confirm_ok hs]
        simp only [Book.erase_insert]
      · refine Or.inl ⟨"Can't confirm order. State is not newOrder", ?_,
          Or.inr (Or.inr ⟨order, rfl, hs⟩)⟩
        rw [Order.confirm_err hs]
        simp only [Book.insert_self hl]

/-- The outcomes of `cancelOrder`. -/
theorem Trade.cancelOrder_cases (t : Trade) (id : String) :
    (∃ msg, t.cancelOrder id = (t, .err msg)
      ∧ (t.ConfirmedOrders.lookup id = none
        ∨ ∃ order, t.ConfirmedOrders.lookup id = some order
          ∧ (order.State = FilledOrder ∨ order.State = NewOrder)))
    ∨ ∃ order, t.ConfirmedOrders.lookup id = some order
        ∧ order.State ≠ FilledOrder ∧ order.State ≠ NewOrder
        ∧ ((id ∈ t.CanceledOrders
            ∧ t.cancelOrder id
              = ({ t with
                    ConfirmedOrders :=
                      t.ConfirmedOrders.insert id { order with State := CanceledOrder } },
                  .err "Order found both in confirmed and cancel map"))
          ∨ (id ∉ t.CanceledOrders
            ∧ t.cancelOrder id
              = ({ t with
                    CanceledOrders :=
                      t.CanceledOrders.insert id { order with State := CanceledOrder }
                    ConfirmedOrders := t.ConfirmedOrders.erase id }, .ok ()))) := by
  unfold Trade.cancelOrder
  cases hl : t.ConfirmedOrders.lookup id with
  | none => exact Or.inl ⟨_, rfl, Or.inl rfl⟩
  | some order =>
    simp only [Book.orFresh_eq]
    by_cases hs : order.State = FilledOrder ∨ order.State = NewOrder
    · obtain ⟨msg, hm⟩ := Order.cancel_err hs
      refine Or.inl ⟨msg, ?_, Or.inr ⟨order, rfl, hs⟩⟩
      rw [hm]
      simp only [Book.insert_self hl]
    · have h1 : order.State ≠ FilledOrder := fun h => hs (Or.inl h)
      have h2 : order.State ≠ NewOrder := fun h => hs (Or.inr h)
      refine Or.inr ⟨order, rfl, h1, h2, ?_⟩
      rw [Order.cancel_ok h1 h2]
      by_cases hc : id ∈ t.CanceledOrders
      · left
        refine ⟨hc, ?_⟩
        simp only [hc, Book.len_ne_zero_of_mem hc, ne_eq, not_false_eq_true, and_self, if_true]
      · right
        refine ⟨hc, ?_⟩
        simp only [hc, and_false, if_false, Book.erase_insert]

/-- The outcomes of `rejectOrder`. -/
theorem Trade.rejectOrder_cases (t : Trade) (id reason : String) :
    (∃ msg, t.rejectOrder id reason = (t, .err msg)
      ∧ (t.NewOrders.lookup id = none
        ∨ ∃ order, t.NewOrders.lookup id = some order
          ∧ (order.State ≠ NewOrder ∨ 0 < order.ExecQty)))
    ∨ ∃ order, t.NewOrders.lookup id = some order
        ∧ order.State = NewOrder ∧ order.ExecQty ≤ 0
        ∧ ((id ∈ t.RejectedOrders
            ∧ t.rejectOrder id reason
              = ({ t with
                    NewOrders :=
                      t.NewOrders.insert id { order with State := RejectedOrder, Mark1 := reason } },
                  .err "Order found both in confirmed and rejected map"))
          ∨ (id ∉ t.RejectedOrders
            ∧ t.rejectOrder id reason
              = ({ t with
                    RejectedOrders :=
                      t.RejectedOrders.insert id
                        { order with State := RejectedOrder, Mark1 := reason }
                    NewOrders := t.NewOrders.erase id }, .ok ()))) := by
  unfold Trade.rejectOrder
  cases hl : t.NewOrders.lookup id with
  | none => exact Or.inl ⟨_, rfl, Or.inl rfl⟩
  | some order =>
    simp only [Book.orFresh_eq]
    by_cases hs : order.State ≠ NewOrder ∨ 0 < order.ExecQty
    · obtain ⟨msg, hm⟩ := Order.reject_err reason hs
      refine Or.inl ⟨msg, ?_, Or.inr ⟨order, rfl, hs⟩⟩
      rw [hm]
      simp only [Book.insert_self hl]
    · have h1 : order.State = NewOrder := not_not.mp (fun h => hs (Or.inl h))
      have h2 : order.ExecQty ≤ 0 := not_lt.mp (fun h => hs (Or.inr h))
      refine Or.inr ⟨order, rfl, h1, h2, ?_⟩
      rw [Order.reject_ok reason h1 h2]
      by_cases hc : id ∈ t.RejectedOrders
      · left
        refine ⟨hc, ?_⟩
        simp only [hc, Book.len_ne_zero_of_mem hc, ne_eq, not_false_eq_true, and_self, if_true]
      · right
        refine ⟨hc, ?_⟩
        simp only [hc, and_false, if_false, Book.erase_insert]

/-- The outcomes of `replaceOrder`. -/
theorem Trade.replaceOrder_cases (t : Trade) (id : String) (p : F64) :
    (∃ msg, t.replaceOrder id p = (t, .err msg)
      ∧ (t.ConfirmedOrders.lookup id = none
        ∨ ∃ order, t.ConfirmedOrders.lookup id = some order ∧ order.IsPriced = false))
    ∨ ∃ order, t.ConfirmedOrders.lookup id = some order ∧ order.IsPriced = true
        ∧ t.replaceOrder id p
          = ({ t with ConfirmedOrders := t.ConfirmedOrders.insert id { order with Price := p } },
              .ok ()) := by
  unfold Trade.replaceOrder
  cases hl : t.ConfirmedOrders.lookup id with
  | none => exact Or.inl ⟨_, rfl, Or.inl rfl⟩
  | some order =>
    simp only
    cases hs : order.IsPriced with
    | false =>
      refine Or.inl ⟨"Can't replace order. Order should be priced", ?_,
        Or.inr ⟨order, rfl, hs⟩⟩
      rw [Order.replace_err p hs]
      simp only [Book.insert_self hl]
    | true =>
      refine Or.inr ⟨order, rfl, hs, ?_⟩
      rw [Order.replace_ok p hs]

/-- A call of `executeOrder` that is not a valid fill on a live order does not
end normally; it leaves the trade as it was, or (when the order's state or the
price is refused only after the order was moved) has moved the order,
unchanged, to `FilledOrders`. -/
theorem Trade.executeOrder_failed (t : Trade) (id : String) (d : Int) (p : F64) (tm : Time)
    (hex : ¬ ∃ order, t.ConfirmedOrders.lookup id = some order ∧ 0 < d
      ∧ d ≤ order.Qty - order.ExecQty ∧ F64.lt 0 p = true ∧ order.State ≠ FilledOrder
      ∧ (d = order.Qty - order.ExecQty → id ∉ t.FilledOrders)) :
    (t.executeOrder id d p tm).2.isOk = false
    ∧ ((t.executeOrder id d p tm).1 = t
      ∨ ∃ order, t.ConfirmedOrders.lookup id = some order
          ∧ (t.executeOrder id d p tm).1
            = { t with
                FilledOrders := t.FilledOrders.insert id order
                ConfirmedOrders := t.ConfirmedOrders.erase id }) := by
  have hnot : ∀ v, (t.executeOrder id d p tm).2 ≠ .ok v := by
    intro v hv
    exact hex (Trade.executeOrder_ok_inv t id d p tm v hv)
  constructor
  · cases hr : (t.executeOrder id d p tm).2 with
    | ok v => exact absurd hr (hnot v)
    | err msg => rfl
    | panic msg => rfl
  · unfold Trade.executeOrder
    cases hl : t.ConfirmedOrders.lookup id with
    | none => exact Or.inl rfl
    | some order =>
      simp only [Book.orFresh_eq]
      rcases hres : order.addExecution p d with ⟨o1, r⟩
      cases r with
      | ok u =>
        have hok : (order.addExecution p d).2 = .ok () := by rw [hres]
        obtain ⟨a1, a2, a3, a4⟩ := Order.addExecution_ok_inv order p d hok
        by_cases hdup : d = order.Qty - order.ExecQty ∧ id ∈ t.FilledOrders
        · obtain ⟨hq, hmem⟩ := hdup
          have hlen : t.FilledOrders.len ≠ 0 := Book.len_ne_zero_of_mem hmem
          subst hq
          simp only [lt_self_iff_false, if_false, if_true, hlen, hmem, ne_eq, not_false_eq_true,
            and_self]
          split <;> exact Or.inl rfl
        · exfalso
          refine hex ⟨order, hl, a3, by omega, a2, a1, ?_⟩
          intro hfull hmem
          exact hdup ⟨hfull, hmem⟩
      | err msg =>
        have ho : o1 = order := by
          have := Order.addExecution_fail order p d (by rw [hres]; simp)
          rw [hres] at this
          exact this
        subst ho
        simp only
        split_ifs
        all_goals first
          | exact Or.inl rfl
          | (left; simp only [Book.insert_self hl]; done)
          | (right; exact ⟨o1, rfl, by simp only [Book.insert_twice]⟩)
      | panic msg =>
        have ho : o1 = order := by
          have := Order.addExecution_fail order p d (by rw [hres]; simp)
          rw [hres] at this
          exact this
        subst ho
        simp only
        split_ifs
        all_goals first
          | exact Or.inl rfl
          | (left; simp only [Book.insert_self hl]; done)
          | (right; exact ⟨o1, rfl, by simp only [Book.insert_twice]⟩)

/-- The outcomes of `putNewOrder`: the trade is unchanged and the call did not
succeed, or a valid order in state New was added under a fresh id. -/
theorem Trade.putNewOrder_cases (t : Trade) (o : Order) :
    ((t.putNewOrder o).1 = t ∧ (t.putNewOrder o).2 ≠ .ok ())
    ∨ (o.isValid = true ∧ o.State = NewOrder ∧ o.Id ∉ t.AllOrdersIDMap
      ∧ t.putNewOrder o
        = ({ t with NewOrders := t.NewOrders.insert o.Id o,
                    AllOrdersIDMap := insert o.Id t.AllOrdersIDMap }, .ok ())) := by
  have hcard : ∀ s : Finset String, ∀ k, k ∈ s → s.card ≠ 0 := by
    intro s k hk h0
    rw [Finset.card_eq_zero.mp h0] at hk
    exact Finset.not_mem_empty k hk
  unfold Trade.putNewOrder
  by_cases h1 : t.Typ = ClosedTrade
  · left
    simp [h1]
  by_cases h2 : o.isValid = true
  swap
  · left
    simp [h1, h2]
  cases ho : o.Ticker with
  | none =>
    left
    simp [h1, h2]
  | some otk =>
    cases ht : t.Ticker with
    | none =>
      left
      simp [h1, h2]
    | some ttk =>
      by_cases h3 : otk.Symbol = ttk.Symbol
      swap
      · left
        simp [h1, h2, h3]
      by_cases h4 : o.State = NewOrder
      swap
      · left
        simp [h1, h2, h3, h4]
      by_cases h5 : o.Id ∈ t.NewOrders
      · have := Book.len_ne_zero_of_mem h5
        left
        simp [h1, h2, h3, h4, h5, this]
        rw [← ht]
      by_cases h6 : o.Id ∈ t.AllOrdersIDMap
      · have := hcard _ _ h6
        left
        simp [h1, h2, h3, h4, h5, h6, this]
        rw [← ht]
      right
      refine ⟨h2, h4, h6, ?_⟩
      simp [h1, h2, h3, h4, h5, h6]
/-! ## Properties of the held orders along the operations -/

theorem Book.All.insert {P : Order → Prop} {b : Book} (h : Book.All P b) (id : String)
    {o : Order} (ho : P o) : Book.All P (b.insert id o) := by
  intro k x hx
  by_cases hk : k = id
  · subst hk
    rw [Finmap.lookup_insert] at hx
    cases hx
    exact ho
  · rw [Finmap.lookup_insert_of_ne _ hk] at hx
    exact h k x hx

theorem Book.All.erase {P : Order → Prop} {b : Book} (h : Book.All P b) (id : String) :
    Book.All P (b.erase id) := by
  intro k x hx
  by_cases hk : k = id
  · subst hk
    rw [Finmap.lookup_erase] at hx
    cases hx
  · rw [Finmap.lookup_erase_ne hk] at hx
    exact h k x hx

theorem Book.All.empty (P : Order → Prop) : Book.All P ∅ := by
  intro k x hx
  rw [Finmap.lookup_empty] at hx
  cases hx

theorem Trade.BooksSat.sat_newFlatTrade (PN PC PO : Order → Prop) (ticker : Option Instrument) :
    (newFlatTrade ticker).BooksSat PN PC PO :=
  ⟨Book.All.empty _, Book.All.empty _, Book.All.empty _, Book.All.empty _, Book.All.empty _⟩

theorem Trade.BooksSat.sat_putNewOrder {PN PC PO : Order → Prop} {t : Trade}
    (h : t.BooksSat PN PC PO) (o : Order)
    (hput : o.isValid = true → o.State = NewOrder → PN o) :
    (t.putNewOrder o).1.BooksSat PN PC PO := by
  rcases Trade.putNewOrder_cases t o with ⟨e, -⟩ | ⟨h1, h2, -, e⟩
  · rw [e]
    exact h
  · rw [e]
    exact ⟨h.new.insert _ (hput h1 h2), h.confirmed, h.filled, h.canceled, h.rejected⟩

theorem Trade.BooksSat.sat_confirmOrder {PN PC PO : Order → Prop} {t : Trade}
    (h : t.BooksSat PN PC PO) (id : String)
    (hconf : ∀ o, PN o → o.State = NewOrder → PC { o with State := ConfirmedOrder }) :
    (t.confirmOrder id).1.BooksSat PN PC PO := by
  rcases Trade.confirmOrder_cases t id with ⟨msg, e, -⟩ | ⟨order, hl, -, hs, e⟩
  · rw [e]
    exact h
  · rw [e]
    exact ⟨h.new.erase id, h.confirmed.insert id (hconf order (h.new id order hl) hs),
      h.filled, h.canceled, h.rejected⟩

theorem Trade.BooksSat.sat_cancelOrder {PN PC PO : Order → Prop} {t : Trade}
    (h : t.BooksSat PN PC PO) (id : String)
    (hcan : ∀ o, PC o → PO { o with State := CanceledOrder })
    (hdup : id ∈ t.ConfirmedOrders → id ∈ t.CanceledOrders →
      ∀ o, PC o → PC { o with State := CanceledOrder }) :
    (t.cancelOrder id).1.BooksSat PN PC PO := by
  rcases Trade.cancelOrder_cases t id with
    ⟨msg, e, -⟩ | ⟨order, hl, -, -, ⟨hc, e⟩ | ⟨hc, e⟩⟩
  · rw [e]
    exact h
  · rw [e]
    exact ⟨h.new,
      h.confirmed.insert id
        (hdup (Finmap.mem_of_lookup_eq_some hl) hc order (h.confirmed id order hl)),
      h.filled, h.canceled, h.rejected⟩
  · rw [e]
    exact ⟨h.new, h.confirmed.erase id, h.filled,
      h.canceled.insert id (hcan order (h.confirmed id order hl)), h.rejected⟩

theorem Trade.BooksSat.sat_rejectOrder {PN PC PO : Order → Prop} {t : Trade}
    (h : t.BooksSat PN PC PO) (id reason : String)
    (hrej : ∀ o, PN o → PO { o with State := RejectedOrder, Mark1 := reason })
    (hdup : id ∈ t.NewOrders → id ∈ t.RejectedOrders →
      ∀ o, PN o → PN { o with State := RejectedOrder, Mark1 := reason }) :
    (t.rejectOrder id reason).1.BooksSat PN PC PO := by
  rcases Trade.rejectOrder_cases t id reason with
    ⟨msg, e, -⟩ | ⟨order, hl, -, -, ⟨hc, e⟩ | ⟨hc, e⟩⟩
  · rw [e]
    exact h
  · rw [e]
    exact ⟨h.new.insert id (hdup (Finmap.mem_of_lookup_eq_some hl) hc order (h.new id order hl)),
      h.confirmed, h.filled, h.canceled, h.rejected⟩
  · rw [e]
    exact ⟨h.new.erase id, h.confirmed, h.filled, h.canceled,
      h.rejected.insert id (hrej order (h.new id order hl))⟩

theorem Trade.BooksSat.sat_replaceOrder {PN PC PO : Order → Prop} {t : Trade}
    (h : t.BooksSat PN PC PO) (id : String) (p : F64)
    (hrep : ∀ o, PC o → o.IsPriced = true → PC { o with Price := p }) :
    (t.replaceOrder id p).1.BooksSat PN PC PO := by
  rcases Trade.replaceOrder_cases t id p with ⟨msg, e, -⟩ | ⟨order, hl, hp, e⟩
  · rw [e]
    exact h
  · rw [e]
    exact ⟨h.new, h.confirmed.insert id (hrep order (h.confirmed id order hl) hp),
      h.filled, h.canceled, h.rejected⟩

theorem Trade.BooksSat.sat_recorded {PN PC PO : Order → Prop} {t : Trade}
    (h : t.BooksSat PN PC PO) (id : String) (order : Order) (p : F64) (d : Int)
    (hfill : d = order.Qty - order.ExecQty → PO (order.executed p d))
    (hpart : d ≠ order.Qty - order.ExecQty → PC (order.executed p d)) :
    (t.recorded id order p d).BooksSat PN PC PO := by
  by_cases hq : d = order.Qty - order.ExecQty
  · rw [Trade.recorded_moves t id order p d hq]
    exact ⟨h.new, h.confirmed.erase id, h.filled.insert id (hfill hq), h.canceled, h.rejected⟩
  · rw [Trade.recorded_stays t id order p d hq]
    exact ⟨h.new, h.confirmed.insert id (hpart hq), h.filled, h.canceled, h.rejected⟩

/-- The method `executeOrder` keeps a property of the held orders, on the trade
and on the successor it may return. -/
theorem Trade.BooksSat.sat_executeOrder {PN PC PO : Order → Prop} {t : Trade}
    (h : t.BooksSat PN PC PO) (id : String) (d : Int) (p : F64) (tm : Time)
    (hmove : ∀ o, PC o → PO o) (hfill : ∀ o, PC o → PO (o.executed p d))
    (hpart : ∀ o, PC o → 0 < d → d < o.Qty - o.ExecQty → PC (o.executed p d)) :
    (t.executeOrder id d p tm).1.BooksSat PN PC PO
      ∧ ∀ s, (t.executeOrder id d p tm).2 = .ok (some s) → s.BooksSat PN PC PO := by
  by_cases hex : ∃ order, t.ConfirmedOrders.lookup id = some order ∧ 0 < d
      ∧ d ≤ order.Qty - order.ExecQty ∧ F64.lt 0 p = true ∧ order.State ≠ FilledOrder
      ∧ (d = order.Qty - order.ExecQty → id ∉ t.FilledOrders)
  · obtain ⟨order, h1, h2, h3, h4, h5, h6⟩ := hex
    have e := Trade.executeOrder_eq t id order d p tm h1 h2 h3 h4 h5 h6
    have hpc := h.confirmed id order h1
    have hrec : (t.recorded id order p d).BooksSat PN PC PO :=
      h.sat_recorded id order p d (fun _ => hfill order hpc)
        (fun hne => hpart order hpc h2 (lt_of_le_of_ne h3 hne))
    constructor
    · rw [e]
      rcases Trade.positionUpdate_books (t.recorded id order p d) (order.executed p d) d p tm _ rfl
        with ⟨b1, b2, b3, b4, b5, -, -⟩ | ⟨q, diff, c, hcl⟩
      · exact ⟨by rw [b1]; exact hrec.new, by rw [b2]; exact hrec.confirmed,
          by rw [b3]; exact hrec.filled, by rw [b4]; exact hrec.canceled,
          by rw [b5]; exact hrec.rejected⟩
      · rw [hcl]
        exact ⟨Book.All.empty _, Book.All.empty _, hrec.filled, hrec.canceled, hrec.rejected⟩
    · intro s hs
      obtain ⟨order2, hord, -, -, -, -, s1, s2, s3, s4, s5, -⟩ :=
        Trade.executeOrder_successor_books t id d p tm s hs
      rw [h1] at hord
      cases hord
      exact ⟨by rw [s1]; exact h.new, by rw [s2]; exact hrec.confirmed,
        by rw [s3]; exact Book.All.empty _, by rw [s4]; exact Book.All.empty _,
        by rw [s5]; exact Book.All.empty _⟩
  · obtain ⟨hno, hst⟩ := Trade.executeOrder_failed t id d p tm hex
    constructor
    · rcases hst with e | ⟨order, hl, e⟩
      · rw [e]
        exact h
      · rw [e]
        exact ⟨h.new, h.confirmed.erase id,
          h.filled.insert id (hmove order (h.confirmed id order hl)), h.canceled, h.rejected⟩
    · intro s hs
      rw [hs] at hno
      simp [Outcome.isOk] at hno
/-! ## The prices of the held orders -/

theorem Order.not_market_of_priced {o : Order} (h : o.IsPriced = true) :
    o.IsMarketType = false := by
  unfold Order.IsPriced at h
  unfold Order.IsMarketType
  split_ifs at h with c
  split_ifs with c2
  · exfalso
    rcases c with c | c | c | c <;> rcases c2 with c2 | c2 | c2 <;> rw [c] at c2
      <;> exact absurd c2 (by decide)
  · rfl

/-- What `isValid` checks about the price: a priced order has a price that is
neither NaN nor zero, any other accepted order has a market type and a NaN
price. -/
theorem Order.isValid_price {o : Order} (h : o.isValid = true) :
    (o.IsPriced = true ∧ o.Price.isNaN = false ∧ F64.feq o.Price 0 = false)
    ∨ (o.IsMarketType = true ∧ o.Price.isNaN = true) := by
  unfold Order.isValid at h
  repeat' split at h
  all_goals first
    | exact absurd h (by decide)
    | skip
  · rename_i c1 c2
    left
    have hp : o.IsPriced = true := by
      unfold Order.IsPriced
      rw [if_pos]
      rcases c1 with c | c | c | c
      · exact Or.inr (Or.inl c)
      · exact Or.inr (Or.inr (Or.inl c))
      · exact Or.inl c
      · exact Or.inr (Or.inr (Or.inr c))
    have h1 : ¬ o.Price.isNaN = true := fun hh => c2 (Or.inl hh)
    have h2 : ¬ F64.feq o.Price 0 = true := fun hh => c2 (Or.inr hh)
    exact ⟨hp, by simpa using h1, by simpa using h2⟩
  · rename_i c1 c2
    right
    have hm : o.IsMarketType = true := by
      unfold Order.IsMarketType
      rw [if_pos c1]
    exact ⟨hm, by simpa using c2⟩

theorem Order.PriceKept.of_valid {o : Order} (h : o.isValid = true) : o.PriceKept := by
  rcases Order.isValid_price h with ⟨h1, -, -⟩ | ⟨h1, h2⟩
  · refine ⟨Or.inl h1, fun hm => ?_⟩
    rw [Order.not_market_of_priced h1] at hm
    cases hm
  · exact ⟨Or.inr h1, fun _ => h2⟩

theorem Order.PriceKept.replaced {o : Order} (p : F64) (h : o.IsPriced = true) :
    Order.PriceKept { o with Price := p } := by
  refine ⟨Or.inl h, fun hm => ?_⟩
  have : o.IsMarketType = true := hm
  rw [Order.not_market_of_priced h] at this
  cases this

/-- Every order held by a reachable trade follows the price rule that the code
maintains. -/
theorem ReachableVia.priceKept {allow : Trade → Prop} {t : Trade} (h : ReachableVia allow t) :
    t.BooksSat Order.PriceKept Order.PriceKept Order.PriceKept := by
  induction h with
  | init ticker => exact Trade.BooksSat.sat_newFlatTrade _ _ _ ticker
  | putNewOrder o _ _ ih => exact ih.sat_putNewOrder o (fun hv _ => Order.PriceKept.of_valid hv)
  | confirmOrder id _ ih => exact ih.sat_confirmOrder id (fun o ho _ => ho)
  | cancelOrder id _ ih => exact ih.sat_cancelOrder id (fun o ho => ho) (fun _ _ o ho => ho)
  | replaceOrder id np _ ih =>
    exact ih.sat_replaceOrder id np (fun o _ hp => Order.PriceKept.replaced np hp)
  | rejectOrder id reason _ ih =>
    exact ih.sat_rejectOrder id reason (fun o ho => ho) (fun _ _ o ho => ho)
  | executeOrder id d p tm _ _ ih =>
    exact (ih.sat_executeOrder id d p tm (fun o ho => ho) (fun o ho => ho) (fun o ho _ _ => ho)).1
  | successor id d p tm _ hs _ ih =>
    exact (ih.sat_executeOrder id d p tm (fun o ho => ho) (fun o ho => ho)
      (fun o ho _ _ => ho)).2 _ hs

theorem Trade.BooksSat.holds {P : Order → Prop} {t : Trade} (h : t.BooksSat P P P) {o : Order}
    (ho : t.Holds o) : P o := by
  obtain ⟨id, h1 | h1 | h1 | h1 | h1⟩ := ho
  · exact h.new id o h1
  · exact h.confirmed id o h1
  · exact h.filled id o h1
  · exact h.canceled id o h1
  · exact h.rejected id o h1
/-! ## The states of the live orders -/

theorem Trade.BooksInv.exclusive {t : Trade} (h : t.BooksInv) (k : String) :
    (k ∈ t.ConfirmedOrders → k ∉ t.CanceledOrders)
    ∧ (k ∈ t.NewOrders → k ∉ t.RejectedOrders)
    ∧ (k ∈ t.NewOrders → k ∉ t.ConfirmedOrders) := by
  have h1 := h.once k
  unfold Trade.occAll Book.occ at h1
  refine ⟨fun a b => ?_, fun a b => ?_, fun a b => ?_⟩
  all_goals
    simp only [a, b, if_true] at h1
    split_ifs at h1 <;> omega

theorem Order.executed_state_of_lt (o : Order) (p : F64) (d : Int)
    (h : d < o.Qty - o.ExecQty) : (o.executed p d).State = PartialFilledOrder := by
  have hne : ¬ o.ExecQty + d = o.Qty := by omega
  unfold Order.executed
  simp [hne]

/-- Every trade reachable without passing to a flat successor keeps its live
orders in the states of their books. -/
theorem ReachableNoFlatSuccessor.liveStates {t : Trade} (h : ReachableNoFlatSuccessor t) :
    t.LiveStates := by
  unfold Trade.LiveStates
  induction h with
  | init ticker => exact Trade.BooksSat.sat_newFlatTrade _ _ _ ticker
  | putNewOrder o _ _ ih => exact ih.sat_putNewOrder o (fun _ hs => hs)
  | confirmOrder id _ ih => exact ih.sat_confirmOrder id (fun o _ _ => Or.inl rfl)
  | @cancelOrder u id hu ih =>
    refine ih.sat_cancelOrder id (fun o _ => trivial) (fun h1 h2 => ?_)
    exact absurd h2 (((ReachableNoFlatSuccessor.booksInv hu).exclusive id).1 h1)
  | replaceOrder id np _ ih => exact ih.sat_replaceOrder id np (fun o ho _ => ho)
  | @rejectOrder u id reason hu ih =>
    refine ih.sat_rejectOrder id reason (fun o _ => trivial) (fun h1 h2 => ?_)
    exact absurd h2 (((ReachableNoFlatSuccessor.booksInv hu).exclusive id).2.1 h1)
  | executeOrder id d p tm _ _ ih =>
    exact (ih.sat_executeOrder id d p tm (fun o _ => trivial) (fun o _ => trivial)
      (fun o _ _ hlt => Or.inr (Order.executed_state_of_lt o p d hlt))).1
  | successor id d p tm _ hs _ ih =>
    exact (ih.sat_executeOrder id d p tm (fun o _ => trivial) (fun o _ => trivial)
      (fun o _ _ hlt => Or.inr (Order.executed_state_of_lt o p d hlt))).2 _ hs

theorem Trade.cancelOrder_absent {t : Trade} {id : String} (h : id ∉ t.ConfirmedOrders) :
    t.cancelOrder id = (t, .err "Can't cancel order. Not found in confirmed orders") := by
  unfold Trade.cancelOrder
  rw [Finmap.lookup_eq_none.mpr h]

theorem Trade.rejectOrder_absent {t : Trade} {id : String} (reason : String)
    (h : id ∉ t.NewOrders) :
    t.rejectOrder id reason = (t, .err "Can't reject order. Not found in confirmed orders") := by
  unfold Trade.rejectOrder
  rw [Finmap.lookup_eq_none.mpr h]

/-- The sample trade `liveConfirmed` is reachable. -/
theorem Sample.liveConfirmed_reachable (allow : Trade → Prop) :
    ReachableVia allow Sample.liveConfirmed :=
  ReachableVia.submit _
    (ReachableVia.submit _
      (ReachableVia.executeOrder "b" 10 100 ⟨1⟩
        (ReachableVia.submit _ (ReachableVia.init (some Sample.ticker)) (by decide!))
        (by decide!))
      (by decide!))
    (by decide!)

/-- The sample trade `duplicateId` is reachable, through a flat successor. -/
theorem Sample.duplicateId_reachable : Reachable Sample.duplicateId :=
  ReachableVia.submit _
    (ReachableVia.cancelOrder "b2"
      (ReachableVia.successor "s" 10 101 ⟨5⟩ (Sample.liveConfirmed_reachable _) (by decide!)
        trivial))
    (by decide!)

/-- On a trade with the book invariant and live orders in the states of their
books, `cancelOrder` fails without a change when the id is not in
`ConfirmedOrders` and moves the order to `CanceledOrders` otherwise. -/
theorem Trade.cancelOrder_live {t : Trade} (hb : t.BooksInv) (hl : t.LiveStates) (id : String) :
    (id ∉ t.ConfirmedOrders ∧ ∃ msg, t.cancelOrder id = (t, .err msg))
    ∨ ∃ order, t.ConfirmedOrders.lookup id = some order
        ∧ t.cancelOrder id
          = ({ t with
                CanceledOrders := t.CanceledOrders.insert id { order with State := CanceledOrder }
                ConfirmedOrders := t.ConfirmedOrders.erase id }, .ok ()) := by
  rcases Trade.cancelOrder_cases t id with
    ⟨msg, e, hn | ⟨order, ho, hs⟩⟩ | ⟨order, ho, -, -, ⟨hc, -⟩ | ⟨-, e⟩⟩
  · exact Or.inl ⟨Finmap.lookup_eq_none.mp hn, msg, e⟩
  · exfalso
    have h1 := hl.confirmed id order ho
    rcases hs with hs | hs <;> rw [hs] at h1 <;> rcases h1 with h1 | h1
      <;> exact absurd h1 (by decide)
  · exact absurd hc ((hb.exclusive id).1 (Finmap.mem_of_lookup_eq_some ho))
  · exact Or.inr ⟨order, ho, e⟩

/-- On a trade with the book invariant and live orders in the states of their
books, `rejectOrder` fails without a change when the id is not in `NewOrders`
or the order carries an executed quantity, and moves the order to
`RejectedOrders` otherwise. -/
theorem Trade.rejectOrder_live {t : Trade} (hb : t.BooksInv) (hl : t.LiveStates)
    (id reason : String) :
    ((id ∉ t.NewOrders ∨ ∃ order, t.NewOrders.lookup id = some order ∧ 0 < order.ExecQty)
      ∧ ∃ msg, t.rejectOrder id reason = (t, .err msg))
    ∨ ∃ order, t.NewOrders.lookup id = some order ∧ order.ExecQty ≤ 0
        ∧ t.rejectOrder id reason
          = ({ t with
                RejectedOrders :=
                  t.RejectedOrders.insert id { order with State := RejectedOrder, Mark1 := reason }
                NewOrders := t.NewOrders.erase id }, .ok ()) := by
  rcases Trade.rejectOrder_cases t id reason with
    ⟨msg, e, hn | ⟨order, ho, hs⟩⟩ | ⟨order, ho, -, hq, ⟨hc, -⟩ | ⟨-, e⟩⟩
  · exact Or.inl ⟨Or.inl (Finmap.lookup_eq_none.mp hn), msg, e⟩
  · rcases hs with hs | hs
    · exact absurd (hl.new id order ho) hs
    · exact Or.inl ⟨Or.inr ⟨order, ho, hs⟩, msg, e⟩
  · exact absurd hc ((hb.exclusive id).2.1 (Finmap.mem_of_lookup_eq_some ho))
  · exact Or.inr ⟨order, ho, hq, e⟩
/-! ## More on the outcomes of `executeOrder` -/

/-- The position update never returns an error. -/
theorem Trade.positionUpdate_not_err (t : Trade) (o : Order) (d : Int) (p : F64) (tm : Time)
    (r : Trade × Outcome (Option Trade)) (hr : t.positionUpdate o d p tm = r) (msg : String) :
    r.2 ≠ .err msg := by
  unfold Trade.positionUpdate at hr
  split_ifs at hr
  all_goals subst hr
  all_goals simp

/-- When the position update returns no successor, it leaves the five books
alone and does not close the trade. -/
theorem Trade.positionUpdate_none (t : Trade) (o : Order) (d : Int) (p : F64) (tm : Time)
    (r : Trade × Outcome (Option Trade)) (hr : t.positionUpdate o d p tm = r)
    (hn : r.2 = .ok none) :
    r.1.NewOrders = t.NewOrders ∧ r.1.ConfirmedOrders = t.ConfirmedOrders
    ∧ r.1.FilledOrders = t.FilledOrders ∧ r.1.CanceledOrders = t.CanceledOrders
    ∧ r.1.RejectedOrders = t.RejectedOrders
    ∧ (t.Typ ≠ ClosedTrade → r.1.Typ ≠ ClosedTrade) := by
  have e1 : LongTrade ≠ ClosedTrade := by decide
  have e2 : ShortTrade ≠ ClosedTrade := by decide
  unfold Trade.positionUpdate at hr
  split_ifs at hr
  all_goals subst hr
  all_goals simp only [reduceCtorEq, Outcome.ok.injEq] at hn
  all_goals first
    | exact ⟨rfl, rfl, rfl, rfl, rfl, fun hc => hc⟩
    | exact ⟨rfl, rfl, rfl, rfl, rfl, fun _ => e1⟩
    | exact ⟨rfl, rfl, rfl, rfl, rfl, fun _ => e2⟩

/-- The state after a call of `executeOrder` that returned an error: the trade
as it was, or, when the fill would have completed the order and `addExecution`
refused it, the trade with the unchanged order moved from `ConfirmedOrders` to
`FilledOrders`. -/
theorem Trade.executeOrder_err_state (t : Trade) (id : String) (d : Int) (p : F64) (tm : Time)
    (msg : String) (h : (t.executeOrder id d p tm).2 = .err msg) :
    (t.executeOrder id d p tm).1 = t
    ∨ ∃ order, t.ConfirmedOrders.lookup id = some order ∧ d = order.Qty - order.ExecQty
        ∧ id ∉ t.FilledOrders ∧ (order.addExecution p d).2 ≠ .ok ()
        ∧ (t.executeOrder id d p tm).1
          = { t with
              FilledOrders := t.FilledOrders.insert id order
              ConfirmedOrders := t.ConfirmedOrders.erase id } := by
  unfold Trade.executeOrder at h ⊢
  cases hl : t.ConfirmedOrders.lookup id with
  | none => exact Or.inl rfl
  | some order =>
    simp only [hl, Book.orFresh_eq] at h ⊢
    have hpair : order.addExecution p d
        = ((order.addExecution p d).1, (order.addExecution p d).2) := rfl
    by_cases h1 : p.isNaN = true ∨ F64.feq p 0 = true
    · left
      simp only [h1, if_true]
    by_cases h2 : order.Qty - order.ExecQty < d
    · left
      simp only [h1, h2, if_true, if_false]
    by_cases hq : d = order.Qty - order.ExecQty
    swap
    · left
      simp only [h1, h2, hq, if_false, false_and] at h ⊢
      cases hr : (order.addExecution p d).2 with
      | ok u =>
        exfalso
        rw [hpair, hr] at h
        exact Trade.positionUpdate_not_err _ _ d p tm _ rfl msg h
      | err m =>
        have ho := Order.addExecution_fail order p d (by rw [hr]; simp)
        rw [hpair, hr, ho]
        simp only [Book.insert_self hl]
      | panic m =>
        rw [hpair, hr] at h
        cases h
    subst hq
    by_cases hm : id ∈ t.FilledOrders
    · left
      have hlen := Book.len_ne_zero_of_mem hm
      simp only [h1, h2, hm, hlen, if_false, if_true, ne_eq, not_false_eq_true, and_self]
    · right
      simp only [h1, h2, hm, if_false, if_true, and_false] at h
      refine ⟨order, rfl, rfl, hm, ?_, ?_⟩
      · intro hok
        rw [hpair, hok] at h
        exact Trade.positionUpdate_not_err _ _ _ p tm _ rfl msg h
      · cases hr : (order.addExecution p (order.Qty - order.ExecQty)).2 with
        | ok u =>
          exfalso
          rw [hpair, hr] at h
          exact Trade.positionUpdate_not_err _ _ _ p tm _ rfl msg h
        | err m =>
          have ho := Order.addExecution_fail order p (order.Qty - order.ExecQty)
            (by rw [hr]; simp)
          simp only [h1, h2, hm, if_false, if_true, and_false]
          rw [hpair, hr, ho]
          simp only [Book.insert_twice]
        | panic m =>
          rw [hpair, hr] at h
          cases h

/-! ## The outcomes of `updatePnL` -/

theorem Trade.updatePnL_long (t : Trade) (mp : F64) (tm : Time) (h : t.Typ = LongTrade) :
    t.updatePnL mp tm
      = ({ t with
            MarketValue := mp * F64.ofInt t.Qty
            OpenPnL := mp * F64.ofInt t.Qty - t.OpenValue
            Returns := t.Returns ++ [⟨mp * F64.ofInt t.Qty - t.OpenValue, t.ClosedPnL, tm⟩] },
          .ok ()) := by
  show (if t.Typ = LongTrade then _ else _) = _
  rw [if_pos h]

theorem Trade.updatePnL_short (t : Trade) (mp : F64) (tm : Time) (h : t.Typ = ShortTrade) :
    t.updatePnL mp tm
      = ({ t with
            MarketValue := mp * F64.ofInt t.Qty
            OpenPnL := t.OpenValue - mp * F64.ofInt t.Qty
            Returns := t.Returns ++ [⟨t.OpenValue - mp * F64.ofInt t.Qty, t.ClosedPnL, tm⟩] },
          .ok ()) := by
  have hl : ¬ t.Typ = LongTrade := by
    rw [h]
    decide
  show (if t.Typ = LongTrade then _ else if t.Typ ≠ ShortTrade then _ else _) = _
  rw [if_neg hl, if_neg (not_not.mpr h)]
  simp only [F64.neg_sub_swap]

theorem Trade.updatePnL_other (t : Trade) (mp : F64) (tm : Time) (hl : t.Typ ≠ LongTrade)
    (hs : t.Typ ≠ ShortTrade) :
    t.updatePnL mp tm
      = ({ t with MarketValue := mp * F64.ofInt t.Qty },
          .err "Can't update pnl for not open position") := by
  show (if t.Typ = LongTrade then _ else if t.Typ ≠ ShortTrade then _ else _) = _
  rw [if_neg hl, if_pos hs]

theorem F64.finite_mul_zero {p : F64} (h : p.isFinite = true) : p * F64.ofInt 0 = 0 := by
  cases p <;> simp [F64.isFinite] at h
  rw [F64.ofInt, F64.fin_mul]
  simp [F64.zero_eq]

/-- The books that hold the executed order after a successful `executeOrder`:
`FilledOrders` of the trade is the one of `recorded`, and the live
`ConfirmedOrders` book, kept by the trade or handed to the successor, is the
one of `recorded`. -/
theorem Trade.executeOrder_ok_books (t : Trade) (id : String) (d : Int) (p : F64) (tm : Time)
    (v : Option Trade) (order : Order) (h : (t.executeOrder id d p tm).2 = .ok v)
    (hord : t.ConfirmedOrders.lookup id = some order) :
    0 < d ∧ d ≤ order.Qty - order.ExecQty
    ∧ order.addExecution p d = (order.executed p d, .ok ())
    ∧ (t.executeOrder id d p tm).1.FilledOrders = (t.recorded id order p d).FilledOrders
    ∧ (v = none →
        (t.executeOrder id d p tm).1.ConfirmedOrders = (t.recorded id order p d).ConfirmedOrders)
    ∧ (∀ s, v = some s →
        (t.executeOrder id d p tm).1.ConfirmedOrders = ∅
        ∧ s.ConfirmedOrders = (t.recorded id order p d).ConfirmedOrders) := by
  obtain ⟨order2, ho2, hd, hrem, hp, hlive, hfresh⟩ := Trade.executeOrder_ok_inv t id d p tm v h
  rw [hord] at ho2
  cases ho2
  have hadd := Order.addExecution_ok order p d hlive hp hd (by omega)
  refine ⟨hd, hrem, hadd, ?_, ?_, ?_⟩
  · cases v with
    | none =>
      rw [Trade.executeOrder_eq t id order d p tm hord hd hrem hp hlive hfresh] at h ⊢
      exact (Trade.positionUpdate_none _ _ d p tm _ rfl h).2.2.1
    | some s =>
      obtain ⟨order3, ho3, -, -, -, -, -, -, -, -, -, -, -, -, -, hf⟩ :=
        Trade.executeOrder_successor_books t id d p tm s h
      rw [hord] at ho3
      cases ho3
      exact hf
  · intro hv
    subst hv
    rw [Trade.executeOrder_eq t id order d p tm hord hd hrem hp hlive hfresh] at h ⊢
    exact (Trade.positionUpdate_none _ _ d p tm _ rfl h).2.1
  · intro s hv
    subst hv
    obtain ⟨order3, ho3, -, -, -, -, -, hs, -, -, -, -, hc, -⟩ :=
      Trade.executeOrder_successor_books t id d p tm s h
    rw [hord] at ho3
    cases ho3
    exact ⟨hc, hs⟩

theorem Order.executed_state_of_eq (o : Order) (p : F64) (d : Int)
    (h : d = o.Qty - o.ExecQty) : (o.executed p d).State = FilledOrder := by
  have he : o.ExecQty + d = o.Qty := by omega
  unfold Order.executed
  simp [he]

theorem F64.neg_not_nan {p : F64} (h : F64.lt p 0 = true) : p.isNaN = false := by
  cases p <;> simp_all [F64.lt, F64.isNaN, OfNat.ofNat]

theorem F64.neg_not_zero {p : F64} (h : F64.lt p 0 = true) : F64.feq p 0 = false := by
  cases p <;> simp_all [F64.lt, F64.feq, OfNat.ofNat]
  rename_i q
  intro hq
  simp [hq] at h

theorem F64.neg_le_zero {p : F64} (h : F64.lt p 0 = true) : F64.le p 0 = true := by
  unfold F64.le
  rw [h]
  rfl

/-- The method `addExecution` refuses a negative price and leaves the order as
it was. -/
theorem Order.addExecution_negative (o : Order) (p : F64) (d : Int) (h : F64.lt p 0 = true) :
    ∃ msg, o.addExecution p d = (o, .err msg) := by
  unfold Order.addExecution
  by_cases h1 : o.State = FilledOrder
  · exact ⟨_, by rw [if_pos h1]⟩
  · refine ⟨"Can't update order. Price less or equal zero", ?_⟩
    rw [if_neg h1, F64.neg_not_nan h, F64.neg_le_zero h]
    simp

/-- A fill of the whole remaining quantity at a negative price returns an error
after the order was moved to `FilledOrders`. -/
theorem Trade.executeOrder_negative (t : Trade) (id : String) (d : Int) (p : F64) (tm : Time)
    (order : Order) (hord : t.ConfirmedOrders.lookup id = some order)
    (hq : d = order.Qty - order.ExecQty) (hm : id ∉ t.FilledOrders) (hp : F64.lt p 0 = true) :
    ∃ msg, t.executeOrder id d p tm
      = ({ t with
            FilledOrders := t.FilledOrders.insert id order
            ConfirmedOrders := t.ConfirmedOrders.erase id }, .err msg) := by
  obtain ⟨msg, hadd⟩ := Order.addExecution_negative order p d hp
  refine ⟨msg, ?_⟩
  subst hq
  unfold Trade.executeOrder
  simp only [hord, Book.orFresh_eq, F64.neg_not_nan hp, F64.neg_not_zero hp, hm, hadd,
    lt_self_iff_false, if_false, if_true, and_false, Bool.false_eq_true, or_self,
    Book.insert_twice]
/-! ## The position update case by case, in exact arithmetic -/

/-- Proving a conjunction whose second part may use the first. -/
theorem and_of_left {a b : Prop} (ha : a) (hb : a → b) : a ∧ b := ⟨ha, hb ha⟩

/-- A fill of a live order on a flat trade opens the position. -/
theorem Trade.flat_opens_exact (t : Trade) (id : String) (order : Order) (d : Int) (p : F64)
    (tm : Time) (hflat : t.Typ = FlatTrade)
    (hord : t.ConfirmedOrders.lookup id = some order)
    (hd : 0 < d) (hrem : d ≤ order.Qty - order.ExecQty) (hp : F64.lt 0 p = true)
    (hlive : order.State ≠ FilledOrder) (hfresh : id ∉ t.FilledOrders)
    (hside : order.Side = OrderBuy ∨ order.Side = OrderSell) :
    (t.executeOrder id d p tm).2 = .ok none
    ∧ (order.Side = OrderBuy → (t.executeOrder id d p tm).1.Typ = LongTrade)
    ∧ (order.Side = OrderSell → (t.executeOrder id d p tm).1.Typ = ShortTrade)
    ∧ (t.executeOrder id d p tm).1.Qty = d
    ∧ (t.executeOrder id d p tm).1.OpenPrice = p
    ∧ (t.executeOrder id d p tm).1.FirstPrice = p
    ∧ (t.executeOrder id d p tm).1.OpenValue = F64.ofInt d * p
    ∧ (t.executeOrder id d p tm).1.MarketValue = (t.executeOrder id d p tm).1.OpenValue
    ∧ (t.executeOrder id d p tm).1.OpenTime = tm
    ∧ (t.executeOrder id d p tm).1.Id = order.Id
    ∧ (t.executeOrder id d p tm).1.ClosedPnL = t.ClosedPnL := by
  rw [Trade.executeOrder_eq t id order d p tm hord hd hrem hp hlive (fun _ => hfresh)]
  obtain ⟨hT, -, -, -, hC, -⟩ := Trade.recorded_frame t id order p d
  have hs : (order.executed p d).Side = order.Side := rfl
  have hi : (order.executed p d).Id = order.Id := rfl
  have hne : OrderSell ≠ OrderBuy := by decide
  unfold Trade.positionUpdate
  rw [hT, hs, hi]
  rcases hside with hb | hs'
  · simp [hflat, hb, hC, F64.mul_swap, hne.symm]
  · simp [hflat, hs', hne, hC, F64.mul_swap]

/-- A fill of a live order in the direction of the position adds to it; the two
fills of scenario S1. -/
theorem Trade.add_to_position_exact :
    (∀ (t : Trade) (id : String) (order : Order) (d : Int) (p : F64) (tm : Time),
      ((t.Typ = LongTrade ∧ order.Side = OrderBuy)
        ∨ (t.Typ = ShortTrade ∧ order.Side = OrderSell)) →
      t.ConfirmedOrders.lookup id = some order →
      0 < d → d ≤ order.Qty - order.ExecQty → F64.lt 0 p = true →
      order.State ≠ FilledOrder → id ∉ t.FilledOrders →
      (t.executeOrder id d p tm).2 = .ok none
      ∧ (t.executeOrder id d p tm).1.Typ = t.Typ
      ∧ (t.executeOrder id d p tm).1.Qty = t.Qty + d
      ∧ (t.executeOrder id d p tm).1.OpenValue = t.OpenValue + F64.ofInt d * p
      ∧ (t.executeOrder id d p tm).1.OpenPrice
          = (t.executeOrder id d p tm).1.OpenValue / F64.ofInt (t.executeOrder id d p tm).1.Qty
      ∧ (t.executeOrder id d p tm).1.MarketValue
          = F64.ofInt (t.executeOrder id d p tm).1.Qty * p
      ∧ (t.executeOrder id d p tm).1.ClosedPnL = t.ClosedPnL
      ∧ (t.Typ = LongTrade → (t.executeOrder id d p tm).1.OpenPnL
          = (t.executeOrder id d p tm).1.MarketValue - (t.executeOrder id d p tm).1.OpenValue)
      ∧ (t.Typ = ShortTrade → (t.executeOrder id d p tm).1.OpenPnL
          = (t.executeOrder id d p tm).1.OpenValue
            - (t.executeOrder id d p tm).1.MarketValue))
    ∧ (∀ (t : Trade) (id : String) (order : Order) (tm1 tm2 : Time),
      t.Typ = FlatTrade → t.ConfirmedOrders.lookup id = some order →
      order.Side = OrderBuy → order.Qty = 100 → order.ExecQty = 0 →
      order.State ≠ FilledOrder → id ∉ t.FilledOrders →
      (t.executeOrder id 25 50 tm1).2 = .ok none
      ∧ ((t.executeOrder id 25 50 tm1).1.executeOrder id 75 52 tm2).2 = .ok none
      ∧ ((t.executeOrder id 25 50 tm1).1.executeOrder id 75 52 tm2).1.Typ = LongTrade
      ∧ ((t.executeOrder id 25 50 tm1).1.executeOrder id 75 52 tm2).1.Qty = 100
      ∧ ((t.executeOrder id 25 50 tm1).1.executeOrder id 75 52 tm2).1.OpenPrice = F64.fin 51.5
      ∧ ((t.executeOrder id 25 50 tm1).1.executeOrder id 75 52 tm2).1.OpenValue = 5150) := by
  constructor
  · intro t id order d p tm hdir hord hd hrem hp hlive hfresh
    rw [Trade.executeOrder_eq t id order d p tm hord hd hrem hp hlive (fun _ => hfresh)]
    obtain ⟨hT, hQ, -, hV, hC, -⟩ := Trade.recorded_frame t id order p d
    have hs : (order.executed p d).Side = order.Side := rfl
    have h1 : ShortTrade ≠ FlatTrade := by decide
    have h2 : LongTrade ≠ FlatTrade := by decide
    have h3 : LongTrade ≠ ShortTrade := by decide
    unfold Trade.positionUpdate
    rw [hT, hs]
    rcases hdir with ⟨ht, hb⟩ | ⟨ht, hb⟩
    · simp [ht, hb, hC, hQ, hV, h2, h3]
    · simp [ht, hb, hC, hQ, hV, h1, h3.symm, F64.neg_sub_swap]
  · intro t id order tm1 tm2 hflat hord hside hqty hexec hlive hfresh
    have hp1 : F64.lt 0 50 = true := by decide
    have hp2 : F64.lt 0 52 = true := by decide
    have hne : (25 : Int) ≠ order.Qty - order.ExecQty := by omega
    have e1 := Trade.executeOrder_eq t id order 25 50 tm1 hord (by decide) (by omega) hp1 hlive
      (fun _ => hfresh)
    rw [Trade.recorded_stays t id order 50 25 hne] at e1
    have hb : (order.executed 50 25).Side = OrderBuy := hside
    unfold Trade.positionUpdate at e1
    simp only [hflat, hb, if_true, ne_eq, not_true_eq_false, false_and, if_false] at e1
    rw [e1]
    have hst : (order.executed 50 25).State ≠ FilledOrder := by
      have : ¬ (order.ExecQty + 25 = order.Qty) := by omega
      simp [Order.executed, this]
      decide
    have e2 := Trade.executeOrder_eq
      { t with
        Qty := 25, Id := (order.executed 50 25).Id, FirstPrice := 50, Typ := LongTrade,
        OpenPrice := 50, OpenValue := 50 * F64.ofInt 25, MarketValue := 50 * F64.ofInt 25,
        OpenTime := tm1
        ConfirmedOrders := t.ConfirmedOrders.insert id (order.executed 50 25) }
      id (order.executed 50 25) 75 52 tm2
      (by simp) (by decide) (by simp [Order.executed]; omega) hp2 hst (fun _ => hfresh)
    refine ⟨rfl, ?_⟩
    simp only at e2 ⊢
    rw [e2]
    have hb2 : ((order.executed 50 25).executed 52 75).Side = OrderBuy := hside
    have h2 : LongTrade ≠ FlatTrade := by decide
    have h3 : LongTrade ≠ ShortTrade := by decide
    obtain ⟨hT, hQ, -, hV, -⟩ := Trade.recorded_frame
      { t with
        Qty := 25, Id := (order.executed 50 25).Id, FirstPrice := 50, Typ := LongTrade,
        OpenPrice := 50, OpenValue := 50 * F64.ofInt 25, MarketValue := 50 * F64.ofInt 25,
        OpenTime := tm1
        ConfirmedOrders := t.ConfirmedOrders.insert id (order.executed 50 25) }
      id (order.executed 50 25) 52 75
    unfold Trade.positionUpdate
    rw [hT, hQ, hV, hb2]
    simp only [h2, h3, if_true, if_false]
    simp only [F64.ofInt, F64.ofNat_eq, F64.fin_mul, F64.fin_add]
    rw [F64.fin_div _ _ (by norm_num)]
    norm_num

/-- A fill of a live order against the position and below its quantity covers
it in part. -/
theorem Trade.partial_cover_exact (t : Trade) (id : String) (order : Order) (d : Int)
    (p : F64) (tm : Time)
    (hdir : (t.Typ = LongTrade ∧ order.Side = OrderSell)
      ∨ (t.Typ = ShortTrade ∧ order.Side = OrderBuy))
    (hlt : d < t.Qty)
    (hord : t.ConfirmedOrders.lookup id = some order)
    (hd : 0 < d) (hrem : d ≤ order.Qty - order.ExecQty) (hp : F64.lt 0 p = true)
    (hlive : order.State ≠ FilledOrder) (hfresh : id ∉ t.FilledOrders) :
    (t.executeOrder id d p tm).2 = .ok none
    ∧ (t.executeOrder id d p tm).1.Typ = t.Typ
    ∧ (t.executeOrder id d p tm).1.OpenPrice = t.OpenPrice
    ∧ (t.executeOrder id d p tm).1.Qty = t.Qty - d
    ∧ (t.Typ = LongTrade → (t.executeOrder id d p tm).1.ClosedPnL
        = t.ClosedPnL + (p - t.OpenPrice) * F64.ofInt d)
    ∧ (t.Typ = ShortTrade → (t.executeOrder id d p tm).1.ClosedPnL
        = t.ClosedPnL + (t.OpenPrice - p) * F64.ofInt d)
    ∧ (t.executeOrder id d p tm).1.OpenValue
        = t.OpenPrice * F64.ofInt (t.executeOrder id d p tm).1.Qty
    ∧ (t.executeOrder id d p tm).1.MarketValue = F64.ofInt (t.executeOrder id d p tm).1.Qty * p
    ∧ (t.Typ = LongTrade → (t.executeOrder id d p tm).1.OpenPnL
        = (t.executeOrder id d p tm).1.MarketValue - (t.executeOrder id d p tm).1.OpenValue)
    ∧ (t.Typ = ShortTrade → (t.executeOrder id d p tm).1.OpenPnL
        = (t.executeOrder id d p tm).1.OpenValue - (t.executeOrder id d p tm).1.MarketValue) := by
  rw [Trade.executeOrder_eq t id order d p tm hord hd hrem hp hlive (fun _ => hfresh)]
  obtain ⟨hT, hQ, hP, -, hC, -⟩ := Trade.recorded_frame t id order p d
  have hs : (order.executed p d).Side = order.Side := rfl
  have h1 : ShortTrade ≠ FlatTrade := by decide
  have h2 : LongTrade ≠ FlatTrade := by decide
  have h3 : LongTrade ≠ ShortTrade := by decide
  have h4 : OrderSell ≠ OrderBuy := by decide
  unfold Trade.positionUpdate
  rw [hT, hs]
  rcases hdir with ⟨ht, hb⟩ | ⟨ht, hb⟩
  · simp [ht, hb, hC, hQ, hP, h2, h3, h4, hlt]
  · simp [ht, hb, hC, hQ, hP, h1, h3.symm, h4.symm, hlt, F64.neg_sub_swap]

/-- A fill of a live order against the position and equal to its quantity closes
it and returns a flat successor; the closing fill of scenario S2. -/
theorem Trade.full_cover_exact :
    (∀ (t : Trade) (id : String) (order : Order) (d : Int) (p : F64) (tm : Time),
      ((t.Typ = LongTrade ∧ order.Side = OrderSell)
        ∨ (t.Typ = ShortTrade ∧ order.Side = OrderBuy)) →
      d = t.Qty → t.ConfirmedOrders.lookup id = some order →
      0 < d → d ≤ order.Qty - order.ExecQty → F64.lt 0 p = true →
      order.State ≠ FilledOrder → id ∉ t.FilledOrders →
      (t.executeOrder id d p tm).1.Typ = ClosedTrade
      ∧ (t.executeOrder id d p tm).1.Qty = 0
      ∧ (t.executeOrder id d p tm).1.OpenValue = 0
      ∧ (t.executeOrder id d p tm).1.MarketValue = 0
      ∧ (t.executeOrder id d p tm).1.OpenPnL = 0
      ∧ (t.executeOrder id d p tm).1.CloseTime = tm
      ∧ (t.Typ = LongTrade → (t.executeOrder id d p tm).1.ClosedPnL
          = t.ClosedPnL + (p - t.OpenPrice) * F64.ofInt d)
      ∧ (t.Typ = ShortTrade → (t.executeOrder id d p tm).1.ClosedPnL
          = t.ClosedPnL + (t.OpenPrice - p) * F64.ofInt d)
      ∧ ∃ s : Trade, (t.executeOrder id d p tm).2 = .ok (some s)
          ∧ s.Typ = FlatTrade ∧ s.Ticker = t.Ticker ∧ s.Qty = 0 ∧ s.ClosedPnL = 0)
    ∧ (∀ (t : Trade) (id : String) (order : Order) (tm : Time),
      t.Typ = LongTrade → t.Qty = 100 → t.OpenPrice = F64.fin 51.5 → t.ClosedPnL = 0 →
      order.Side = OrderSell → t.ConfirmedOrders.lookup id = some order →
      order.Qty - order.ExecQty = 100 → order.State ≠ FilledOrder → id ∉ t.FilledOrders →
      t.NewOrders = ∅ → t.ConfirmedOrders.erase id = ∅ →
      (t.executeOrder id 100 53 tm).1.Typ = ClosedTrade
      ∧ (t.executeOrder id 100 53 tm).1.ClosedPnL = 150
      ∧ ∃ s : Trade, (t.executeOrder id 100 53 tm).2 = .ok (some s) ∧ s.Typ = FlatTrade
          ∧ s.NewOrders = ∅ ∧ s.ConfirmedOrders = ∅ ∧ s.FilledOrders = ∅
          ∧ s.CanceledOrders = ∅ ∧ s.RejectedOrders = ∅) := by
  refine and_of_left ?_ ?_
  · intro t id order d p tm hdir heq hord hd hrem hp hlive hfresh
    rw [Trade.executeOrder_eq t id order d p tm hord hd hrem hp hlive (fun _ => hfresh)]
    subst heq
    obtain ⟨hT, hQ, hP, -, hC, hK, -⟩ := Trade.recorded_frame t id order p t.Qty
    have hs : (order.executed p t.Qty).Side = order.Side := rfl
    have h1 : ShortTrade ≠ FlatTrade := by decide
    have h2 : LongTrade ≠ FlatTrade := by decide
    have h3 : LongTrade ≠ ShortTrade := by decide
    have h4 : OrderSell ≠ OrderBuy := by decide
    unfold Trade.positionUpdate
    rw [hT, hs, hQ]
    rcases hdir with ⟨ht, hb⟩ | ⟨ht, hb⟩
    · simp [ht, hb, h2, h3, h4, Trade.closeWith, Trade.dropLiveBooks, Trade.flatSuccessor,
        newFlatTrade, Trade.zeroValue, hC, hK, hP, hQ]
    · simp [ht, hb, h1, h3.symm, h4.symm, Trade.closeWith, Trade.dropLiveBooks,
        Trade.flatSuccessor, newFlatTrade, Trade.zeroValue, hC, hK, hP, hQ, F64.neg_sub_swap]
  · intro gen t id order tm hT hQ hP hC hside hord hrem hlive hfresh hnew honly
    obtain ⟨c1, -, -, -, -, -, c7, -, s, hs, hs1, -⟩ :=
      gen t id order 100 53 tm (Or.inl ⟨hT, hside⟩) hQ.symm hord (by decide)
        (by omega) (by decide) hlive hfresh
    obtain ⟨o2, ho2, -, -, -, -, b1, b2, b3, b4, b5, -⟩ :=
      Trade.executeOrder_successor_books t id 100 53 tm s hs
    have ho : o2 = order := by
      rw [hord] at ho2
      exact (Option.some.inj ho2).symm
    subst ho
    refine ⟨c1, ?_, s, hs, hs1, by rw [b1, hnew], ?_, b3, b4, b5⟩
    · rw [c7 hT, hC, hP]
      simp only [F64.ofInt, F64.ofNat_eq, F64.zero_eq, F64.fin_mul, F64.fin_add, F64.fin_sub]
      norm_num
    · rw [b2, Trade.recorded_moves t id o2 53 100 hrem.symm]
      exact honly

/-- A fill of a live order against the position and above its quantity closes it
and returns a successor of the opposite type; the fill of scenario S3. -/
theorem Trade.cover_and_flip_exact :
    (∀ (t : Trade) (id : String) (order : Order) (d : Int) (p : F64) (tm : Time),
      ((t.Typ = LongTrade ∧ order.Side = OrderSell)
        ∨ (t.Typ = ShortTrade ∧ order.Side = OrderBuy)) →
      t.Qty < d → t.ConfirmedOrders.lookup id = some order →
      0 < d → d ≤ order.Qty - order.ExecQty → F64.lt 0 p = true →
      order.State ≠ FilledOrder → id ∉ t.FilledOrders →
      (t.executeOrder id d p tm).1.Typ = ClosedTrade
      ∧ (t.executeOrder id d p tm).1.Qty = 0
      ∧ (t.executeOrder id d p tm).1.CloseTime = tm
      ∧ (t.Typ = LongTrade → (t.executeOrder id d p tm).1.ClosedPnL
          = t.ClosedPnL + (p - t.OpenPrice) * F64.ofInt t.Qty)
      ∧ (t.Typ = ShortTrade → (t.executeOrder id d p tm).1.ClosedPnL
          = t.ClosedPnL + (t.OpenPrice - p) * F64.ofInt t.Qty)
      ∧ ∃ s : Trade, (t.executeOrder id d p tm).2 = .ok (some s)
          ∧ (t.Typ = LongTrade → s.Typ = ShortTrade)
          ∧ (t.Typ = ShortTrade → s.Typ = LongTrade)
          ∧ s.Qty = d - t.Qty ∧ s.OpenPrice = p ∧ s.OpenValue = p * F64.ofInt (d - t.Qty)
          ∧ s.MarketValue = s.OpenValue ∧ s.OpenPnL = 0 ∧ s.Id = order.Id ∧ s.OpenTime = tm
          ∧ s.Qty + t.Qty = d)
    ∧ (∀ (t : Trade) (id : String) (order : Order) (tm : Time),
      t.Typ = LongTrade → t.Qty = 10 → t.OpenPrice = 100 → t.ClosedPnL = 0 →
      order.Side = OrderSell → t.ConfirmedOrders.lookup id = some order →
      25 ≤ order.Qty - order.ExecQty → order.State ≠ FilledOrder → id ∉ t.FilledOrders →
      (t.executeOrder id 25 90 tm).1.Typ = ClosedTrade
      ∧ (t.executeOrder id 25 90 tm).1.ClosedPnL = F64.fin (-100)
      ∧ ∃ s : Trade, (t.executeOrder id 25 90 tm).2 = .ok (some s) ∧ s.Typ = ShortTrade
          ∧ s.Qty = 15 ∧ s.OpenPrice = 90 ∧ s.OpenValue = 1350) := by
  refine and_of_left ?_ ?_
  · intro t id order d p tm hdir hgt hord hd hrem hp hlive hfresh
    rw [Trade.executeOrder_eq t id order d p tm hord hd hrem hp hlive (fun _ => hfresh)]
    obtain ⟨hT, hQ, hP, -, hC, hK, -⟩ := Trade.recorded_frame t id order p d
    have hs : (order.executed p d).Side = order.Side := rfl
    have hi : (order.executed p d).Id = order.Id := rfl
    have h1 : ShortTrade ≠ FlatTrade := by decide
    have h2 : LongTrade ≠ FlatTrade := by decide
    have h3 : LongTrade ≠ ShortTrade := by decide
    have h4 : OrderSell ≠ OrderBuy := by decide
    have h5 : ¬ d < t.Qty := by omega
    have h6 : ¬ d = t.Qty := by omega
    unfold Trade.positionUpdate
    rw [hT, hs, hQ]
    rcases hdir with ⟨ht, hb⟩ | ⟨ht, hb⟩
    · simp [ht, hb, h2, h3, h4, h5, h6, Trade.closeWith, Trade.dropLiveBooks,
        Trade.flipSuccessor, Trade.updateAllOrdersIDMap, Trade.zeroValue, hC, hP, hQ, hi]
    · simp [ht, hb, h1, h3.symm, h4.symm, h5, h6, Trade.closeWith, Trade.dropLiveBooks,
        Trade.flipSuccessor, Trade.updateAllOrdersIDMap, Trade.zeroValue, hC, hP, hQ, hi,
        F64.neg_sub_swap]
  · intro gen t id order tm hT hQ hP hC hside hord hrem hlive hfresh
    obtain ⟨c1, -, -, c4, -, s, hs, s1, -, s3, s4, s5, -⟩ :=
      gen t id order 25 90 tm (Or.inl ⟨hT, hside⟩) (by omega) hord
        (by decide) hrem (by decide) hlive hfresh
    refine ⟨c1, ?_, s, hs, s1 hT, by omega, s4, ?_⟩
    · rw [c4 hT, hC, hP, hQ]
      simp only [F64.ofInt, F64.ofNat_eq, F64.zero_eq, F64.fin_mul, F64.fin_add, F64.fin_sub]
      norm_num
    · rw [s5, hQ]
      simp only [F64.ofInt, F64.ofNat_eq, F64.fin_mul]
      norm_num

/-! ## Live orders on reachable trades; the samples with an id used twice -/

/-- The exact and the 64-bit `executeOrder` agree on a call without overflow. -/
theorem Trade.executeOrder64_eq_of (t : Trade) (id : String) (order : Order) (d : Int) (p : F64)
    (tm : Time) (hord : t.ConfirmedOrders.lookup id = some order) (h : t.NoOverflow order d) :
    t.executeOrder64 id d p tm = t.executeOrder id d p tm := by
  apply Trade.executeOrder64_eq
  intro o ho
  rw [hord] at ho
  cases ho
  exact h

/-- On a trade reachable without passing to a flat successor, an order held
in `ConfirmedOrders` is not Filled and its id is not in `FilledOrders`. -/
theorem ReachableNoFlatSuccessor.confirmed_live {t : Trade} (h : ReachableNoFlatSuccessor t)
    (id : String) (order : Order) (hord : t.ConfirmedOrders.lookup id = some order) :
    order.State ≠ FilledOrder ∧ id ∉ t.FilledOrders := by
  constructor
  · have hs := (ReachableNoFlatSuccessor.liveStates h).confirmed id order hord
    have e1 : ConfirmedOrder ≠ FilledOrder := by decide
    have e2 : PartialFilledOrder ≠ FilledOrder := by decide
    rcases hs with hs | hs <;> rw [hs] <;> assumption
  · intro hf
    have hc : id ∈ t.ConfirmedOrders := Finmap.mem_of_lookup_eq_some hord
    have h1 := (ReachableNoFlatSuccessor.booksInv h).once id
    unfold Trade.occAll Book.occ at h1
    simp only [hc, hf, if_true] at h1
    split_ifs at h1 <;> omega

/-- The Flat successor of the sample trade `liveConfirmed` is reachable. -/
theorem Sample.flatSuccessorLive_reachable : Reachable Sample.flatSuccessorLive :=
  ReachableVia.successor "s" 10 101 ⟨5⟩ (Sample.liveConfirmed_reachable _) (by decide!) trivial

/-- The sample trade `longOnSuccessor` is reachable. -/
theorem Sample.longOnSuccessor_reachable : Reachable Sample.longOnSuccessor :=
  ReachableVia.executeOrder "b2" 5 99 ⟨6⟩ Sample.flatSuccessorLive_reachable (by decide!)

/-- The sample trade `reusedIdFlat` is reachable. -/
theorem Sample.reusedIdFlat_reachable : Reachable Sample.reusedIdFlat :=
  ReachableVia.submit _
    (ReachableVia.executeOrder "b2" 5 (-1) ⟨6⟩ Sample.flatSuccessorLive_reachable (by decide!))
    (by decide!)

/-- The state after the first fill of scenario S1. -/
theorem Trade.scenario_first_fill (t : Trade) (id : String) (order : Order) (tm1 : Time)
    (hflat : t.Typ = FlatTrade) (hord : t.ConfirmedOrders.lookup id = some order)
    (hside : order.Side = OrderBuy) (hqty : order.Qty = 100) (hexec : order.ExecQty = 0)
    (hlive : order.State ≠ FilledOrder) (hfresh : id ∉ t.FilledOrders) :
    (t.executeOrder id 25 50 tm1).1.ConfirmedOrders.lookup id = some (order.executed 50 25)
    ∧ (t.executeOrder id 25 50 tm1).1.Typ = LongTrade
    ∧ (t.executeOrder id 25 50 tm1).1.Qty = 25 := by
  have hp1 : F64.lt 0 50 = true := by decide
  have hne : (25 : Int) ≠ order.Qty - order.ExecQty := by omega
  have e1 := Trade.executeOrder_eq t id order 25 50 tm1 hord (by decide) (by omega) hp1 hlive
    (fun _ => hfresh)
  rw [Trade.recorded_stays t id order 50 25 hne] at e1
  have hb : (order.executed 50 25).Side = OrderBuy := hside
  unfold Trade.positionUpdate at e1
  simp only [hflat, hb, if_true, ne_eq, not_true_eq_false, false_and, if_false] at e1
  rw [e1]
  refine ⟨?_, rfl, rfl⟩
  simp

/-- The sample trades `reusedId` are reachable. -/
theorem Sample.reusedId_reachable (side : OrderSide) (qty : Int)
    (h : (Sample.longOnSuccessor.putNewOrder (Sample.limitOrder "b2" side qty 99)).2.isPanic
      = false) :
    Reachable (Sample.reusedId side qty) :=
  ReachableVia.submit _ Sample.longOnSuccessor_reachable h

/-- The sample trade of scenario S1 with its confirmed order is reachable. -/
theorem Sample.s1Confirmed_reachable (allow : Trade → Prop) :
    ReachableVia allow Sample.s1Confirmed :=
  ReachableVia.submit _ (ReachableVia.init (some Sample.ticker)) (by decide!)

/-- The sample trade of scenario S1 after its first fill is reachable. -/
theorem Sample.s1First_reachable (allow : Trade → Prop) : ReachableVia allow Sample.s1First :=
  ReachableVia.executeOrder "b" 25 50 ⟨1⟩ (Sample.s1Confirmed_reachable allow) (by decide!)

/-- The sample trade of scenario S2 with its confirmed sell order is reachable. -/
theorem Sample.s2Confirmed_reachable (allow : Trade → Prop) :
    ReachableVia allow Sample.s2Confirmed :=
  ReachableVia.submit _
    (ReachableVia.executeOrder "b" 75 52 ⟨2⟩ (Sample.s1First_reachable allow) (by decide!))
    (by decide!)

/-- The sample trade of scenario S3 with its confirmed sell order is reachable. -/
theorem Sample.s3Confirmed_reachable (allow : Trade → Prop) :
    ReachableVia allow Sample.s3Confirmed :=
  ReachableVia.submit _
    (ReachableVia.executeOrder "b" 10 100 ⟨1⟩
      (ReachableVia.submit _ (ReachableVia.init (some Sample.ticker)) (by decide!))
      (by decide!))
    (by decide!)

/-- The sample short position with its confirmed buy order is reachable. -/
theorem Sample.shortConfirmed_reachable (allow : Trade → Prop) :
    ReachableVia allow Sample.shortConfirmed :=
  ReachableVia.submit _
    (ReachableVia.executeOrder "s" 10 100 ⟨1⟩
      (ReachableVia.submit _ (ReachableVia.init (some Sample.ticker)) (by decide!))
      (by decide!))
    (by decide!)

/-- The sample trade `maxLong` is reached without overflow. -/
theorem Sample.maxLong_reachable : ReachableNoOverflow Sample.maxLong := by
  have h1 : ReachableNoOverflow
      (Sample.submit (newFlatTrade (some Sample.ticker))
        (Sample.limitOrder "a" OrderBuy MaxInt64 50)) :=
    ReachableNoOverflow.confirmOrder _
      (ReachableNoOverflow.putNewOrder _ (ReachableNoOverflow.init _) (by decide!))
  have h2 := ReachableNoOverflow.executeOrder "a" MaxInt64 50 ⟨1⟩ h1
    (by
      intro order ho
      have hl : (Sample.submit (newFlatTrade (some Sample.ticker))
          (Sample.limitOrder "a" OrderBuy MaxInt64 50)).ConfirmedOrders.lookup "a"
          = some (Sample.confirmed (Sample.limitOrder "a" OrderBuy MaxInt64 50)) := by decide!
      rw [hl] at ho
      cases ho
      decide!)
    (by decide!)
  exact ReachableNoOverflow.confirmOrder _ (ReachableNoOverflow.putNewOrder _ h2 (by decide!))

/-- An order that `isValid` accepts has the side Buy or Sell. -/
theorem Order.isValid_side {o : Order} (h : o.isValid = true) :
    o.Side = OrderBuy ∨ o.Side = OrderSell := by
  by_contra hn
  have hs : o.Side ≠ OrderBuy ∧ o.Side ≠ OrderSell :=
    ⟨fun a => hn (Or.inl a), fun a => hn (Or.inr a)⟩
  unfold Order.isValid at h
  repeat' split at h
  all_goals exact absurd h (by decide)

/-- Every order held by a reachable trade has the side Buy or Sell. -/
theorem ReachableVia.sideKept {allow : Trade → Prop} {t : Trade} (h : ReachableVia allow t) :
    t.BooksSat (fun o => o.Side = OrderBuy ∨ o.Side = OrderSell)
      (fun o => o.Side = OrderBuy ∨ o.Side = OrderSell)
      (fun o => o.Side = OrderBuy ∨ o.Side = OrderSell) := by
  induction h with
  | init ticker => exact Trade.BooksSat.sat_newFlatTrade _ _ _ ticker
  | putNewOrder o _ _ ih => exact ih.sat_putNewOrder o (fun hv _ => Order.isValid_side hv)
  | confirmOrder id _ ih => exact ih.sat_confirmOrder id (fun o ho _ => ho)
  | cancelOrder id _ ih => exact ih.sat_cancelOrder id (fun o ho => ho) (fun _ _ o ho => ho)
  | replaceOrder id np _ ih => exact ih.sat_replaceOrder id np (fun o ho _ => ho)
  | rejectOrder id reason _ ih =>
    exact ih.sat_rejectOrder id reason (fun o ho => ho) (fun _ _ o ho => ho)
  | executeOrder id d p tm _ _ ih =>
    exact (ih.sat_executeOrder id d p tm (fun o ho => ho) (fun o ho => ho) (fun o ho _ _ => ho)).1
  | successor id d p tm _ hs _ ih =>
    exact (ih.sat_executeOrder id d p tm (fun o ho => ho) (fun o ho => ho)
      (fun o ho _ _ => ho)).2 _ hs
/-! ## The contracts of `addExecution` and `putNewOrder`; sequences of order calls -/

/-- The contract of `Order.addExecution` in exact arithmetic. -/
theorem Order.addExecution_exact (o : Order) (price : F64) (qty : Int) :
    ((o.addExecution price qty).2 = .ok () ↔
      (o.State ≠ FilledOrder ∧ F64.lt 0 price = true ∧ 0 < qty ∧ qty + o.ExecQty ≤ o.Qty))
    ∧ ((o.addExecution price qty).2 = .ok () →
        (o.addExecution price qty).1.ExecQty = o.ExecQty + qty
        ∧ (0 < o.ExecQty → (o.addExecution price qty).1.ExecPrice
            = (F64.ofInt o.ExecQty * o.ExecPrice + F64.ofInt qty * price)
              / F64.ofInt (o.ExecQty + qty))
        ∧ (o.ExecQty ≤ 0 → (o.addExecution price qty).1.ExecPrice = price)
        ∧ (o.ExecQty = 0 → o.ExecPrice.isFinite = true →
            (o.addExecution price qty).1.ExecPrice
              = (F64.ofInt o.ExecQty * o.ExecPrice + F64.ofInt qty * price)
                / F64.ofInt (o.ExecQty + qty))
        ∧ ((o.addExecution price qty).1.State = FilledOrder
            ↔ (o.addExecution price qty).1.ExecQty = o.Qty)
        ∧ ((o.addExecution price qty).1.ExecQty ≠ o.Qty
            → (o.addExecution price qty).1.State = PartialFilledOrder)
        ∧ (o.addExecution price qty).1
            = { o with ExecQty := (o.addExecution price qty).1.ExecQty,
                       ExecPrice := (o.addExecution price qty).1.ExecPrice,
                       State := (o.addExecution price qty).1.State })
    ∧ ((o.addExecution price qty).2 ≠ .ok () → (o.addExecution price qty).1 = o) := by
  refine ⟨⟨fun h => Order.addExecution_ok_inv o price qty h, fun h => ?_⟩, fun h => ?_,
    fun h => Order.addExecution_fail o price qty h⟩
  · rw [Order.addExecution_ok o price qty h.1 h.2.1 h.2.2.1 h.2.2.2]
  · obtain ⟨h1, h2, h3, h4⟩ := Order.addExecution_ok_inv o price qty h
    rw [Order.addExecution_ok o price qty h1 h2 h3 h4]
    have hne : PartialFilledOrder ≠ FilledOrder := by decide
    refine ⟨rfl, ?_, ?_, ?_, ?_, ?_, rfl⟩
    · intro hpos
      simp [Order.executed, hpos, F64.mul_swap]
    · intro hle
      have : ¬ o.ExecQty > 0 := by omega
      simp [Order.executed, this]
    · intro h0 hfin
      have hq : (qty : ℚ) ≠ 0 := by
        have : qty ≠ 0 := by omega
        exact_mod_cast this
      have hqpos : (0 : ℚ) < qty := by exact_mod_cast h3
      cases hE : o.ExecPrice with
      | fin q =>
        cases price with
        | fin r =>
          simp only [Order.executed, h0, gt_iff_lt, lt_self_iff_false, if_false, F64.ofInt,
            F64.fin_mul, F64.fin_add, zero_add, Int.cast_zero, zero_mul]
          rw [F64.fin_div _ _ hq]
          congr 1
          field_simp
        | pinf =>
          simp only [Order.executed, h0, gt_iff_lt, lt_self_iff_false, if_false, F64.ofInt,
            F64.fin_mul, zero_add, Int.cast_zero, zero_mul]
          show F64.pinf = F64.div (F64.add (F64.fin 0) (F64.mul (F64.fin qty) F64.pinf))
            (F64.fin qty)
          simp [F64.mul, F64.add, F64.div, F64.sign, F64.ofSign, hqpos, hq]
        | ninf => simp [F64.lt, F64.zero_eq] at h2
        | nan => simp [F64.lt, F64.zero_eq] at h2
      | nan => simp [hE, F64.isFinite] at hfin
      | pinf => simp [hE, F64.isFinite] at hfin
      | ninf => simp [hE, F64.isFinite] at hfin
    · simp only [Order.executed]
      split
      · simp_all
      · rename_i hx
        simp [hx, hne]
    · intro hx
      simp only [Order.executed] at hx ⊢
      simp [hx]

/-- The contract of `Trade.putNewOrder`. -/
theorem Trade.putNewOrder_exact (t : Trade) (o : Order) :
    ((t.putNewOrder o).2 = .ok () ↔
      (t.Typ ≠ ClosedTrade ∧ o.isValid = true
        ∧ (∃ otk ttk, o.Ticker = some otk ∧ t.Ticker = some ttk ∧ otk.Symbol = ttk.Symbol)
        ∧ o.State = NewOrder ∧ o.Id ∉ t.AllOrdersIDMap ∧ o.Id ∉ t.NewOrders))
    ∧ ((t.putNewOrder o).2 = .ok () →
        (t.putNewOrder o).1.NewOrders = t.NewOrders.insert o.Id o
        ∧ (t.putNewOrder o).1.NewOrders.lookup o.Id = some o
        ∧ (t.putNewOrder o).1.AllOrdersIDMap = insert o.Id t.AllOrdersIDMap
        ∧ (t.putNewOrder o).1.ConfirmedOrders = t.ConfirmedOrders
        ∧ (t.putNewOrder o).1.FilledOrders = t.FilledOrders
        ∧ (t.putNewOrder o).1.CanceledOrders = t.CanceledOrders
        ∧ (t.putNewOrder o).1.RejectedOrders = t.RejectedOrders)
    ∧ ((t.putNewOrder o).2 ≠ .ok () → (t.putNewOrder o).1 = t) := by
  have hlen : ∀ b : Book, ∀ k, k ∈ b → b.len ≠ 0 := by
    intro b k hk h0
    rw [Book.eq_empty_of_len h0] at hk
    exact Finmap.not_mem_empty hk
  have hcard : ∀ s : Finset String, ∀ k, k ∈ s → s.card ≠ 0 := by
    intro s k hk h0
    rw [Finset.card_eq_zero.mp h0] at hk
    exact Finset.not_mem_empty k hk
  unfold Trade.putNewOrder
  by_cases h1 : t.Typ = ClosedTrade
  · simp [h1]
  by_cases h2 : o.isValid = true
  swap
  · simp [h1, h2]
  cases ho : o.Ticker with
  | none => simp [h1, h2]
  | some otk =>
    cases ht : t.Ticker with
    | none => simp [h1, h2]
    | some ttk =>
      by_cases h3 : otk.Symbol = ttk.Symbol
      swap
      · simp [h1, h2, h3]
      by_cases h4 : o.State = NewOrder
      swap
      · simp [h1, h2, h3, h4]
      by_cases h5 : o.Id ∈ t.NewOrders
      · have := hlen _ _ h5
        simp [h1, h2, h3, h4, h5, this]
        rw [← ht]
      by_cases h6 : o.Id ∈ t.AllOrdersIDMap
      · have := hcard _ _ h6
        simp [h1, h2, h3, h4, h5, h6, this]
        rw [← ht]
      simp [h1, h2, h3, h4, h5, h6]

/-- The method `addExecution` computes in exact arithmetic when the sum of a
positive quantity and `ExecQty` does not overflow. -/
theorem Order.addExecution64_eq_of_pos (o : Order) (p : F64) (d : Int)
    (h : 0 < d → IsInt64 (d + o.ExecQty)) :
    o.addExecution64 p d = o.addExecution p d := by
  by_cases hd : 0 < d
  · exact Order.addExecution64_eq o p d (h hd)
  · have hle : d ≤ 0 := by omega
    unfold Order.addExecution64 Order.addExecution
    simp only [hle, if_true]

/-- No call changes the quantity of an order. -/
theorem Order.call_qty (o : Order) (c : OrderCall) : (o.call c).1.Qty = o.Qty := by
  cases c with
  | addExecution p d =>
    simp only [Order.call, Order.addExecution]
    split_ifs <;> rfl
  | confirm =>
    simp only [Order.call, Order.confirm]
    split_ifs <;> rfl
  | cancel =>
    simp only [Order.call, Order.cancel]
    split_ifs <;> rfl
  | reject reason =>
    simp only [Order.call, Order.reject]
    split_ifs <;> rfl
  | replace newPrice =>
    simp only [Order.call, Order.replace]
    split_ifs <;> rfl

/-- A sequence of calls computes in exact arithmetic when every quantity passed
to `addExecution` leaves room for the order quantity below `math.MaxInt64`. -/
theorem Order.calls64_eq (cs : List OrderCall) :
    ∀ (o : Order), o.QtyInv →
      (∀ p q, OrderCall.addExecution p q ∈ cs → q + o.Qty ≤ MaxInt64) →
      o.calls64 cs = o.calls cs := by
  induction cs with
  | nil => intro o _ _; rfl
  | cons c rest ih =>
    intro o hinv hq
    have hstep : (o.call64 c) = (o.call c) := by
      cases c with
      | addExecution p q =>
        have hb := hq p q (List.mem_cons_self _ _)
        obtain ⟨h1, h2, -, -⟩ := hinv
        apply Order.addExecution64_eq_of_pos
        intro hpos
        unfold MaxInt64 at hb
        unfold IsInt64
        omega
      | confirm => rfl
      | cancel => rfl
      | reject reason => rfl
      | replace newPrice => rfl
    show (o.call64 c).1.calls64 rest = (o.call c).1.calls rest
    rw [hstep]
    apply ih _ (hinv.after_call c)
    intro p q hmem
    rw [Order.call_qty]
    exact hq p q (List.mem_cons_of_mem _ hmem)

/-- On a trade reachable without passing to a flat successor, an id that is not
in `AllOrdersIDMap` is in none of the five books. -/
theorem ReachableNoFlatSuccessor.absent_of_not_listed {t : Trade}
    (h : ReachableNoFlatSuccessor t) (k : String) (hk : k ∉ t.AllOrdersIDMap) :
    k ∉ t.NewOrders ∧ k ∉ t.ConfirmedOrders ∧ k ∉ t.FilledOrders ∧ k ∉ t.CanceledOrders
      ∧ k ∉ t.RejectedOrders := by
  have h0 := (ReachableNoFlatSuccessor.booksInv h).sub k hk
  unfold Trade.occAll Book.occ at h0
  refine ⟨fun a => ?_, fun a => ?_, fun a => ?_, fun a => ?_, fun a => ?_⟩
  all_goals
    simp only [a, if_true] at h0
    split_ifs at h0 <;> omega
/-! ## The current trade and the archive of a strategy -/

/-- The type of the trade after `executeOrder` on a trade that is not Closed:
with a successor the old trade is Closed and the successor is not; without one
the trade is not Closed, also when the call returns an error. -/
theorem Trade.executeOrder_typ (t : Trade) (id : String) (d : Int) (p : F64) (tm : Time)
    (hty : t.Typ ≠ ClosedTrade) :
    (∀ s, (t.executeOrder id d p tm).2 = .ok (some s) →
      (t.executeOrder id d p tm).1.Typ = ClosedTrade ∧ s.Typ ≠ ClosedTrade)
    ∧ ((t.executeOrder id d p tm).2 = .ok none → (t.executeOrder id d p tm).1.Typ ≠ ClosedTrade)
    ∧ (∀ msg, (t.executeOrder id d p tm).2 = .err msg →
      (t.executeOrder id d p tm).1.Typ ≠ ClosedTrade) := by
  have e0 : FlatTrade ≠ ClosedTrade := by decide
  have e1 : LongTrade ≠ ClosedTrade := by decide
  have e2 : ShortTrade ≠ ClosedTrade := by decide
  rcases Trade.executeOrder_cases t id d p tm with ⟨hs, hok⟩ | ⟨order, -, -, -, -, -, heq⟩
  · refine ⟨fun s h => ?_, fun h => ?_, fun msg _ => ?_⟩
    · rw [h] at hok
      cases hok
    · rw [h] at hok
      cases hok
    · rw [hs.1]
      exact hty
  · have hrec : (t.recorded id order p d).Typ ≠ ClosedTrade := by
      rw [(Trade.samePosition_recorded t id order p d).1]
      exact hty
    rw [heq]
    refine ⟨fun s h => ?_, fun h => ?_, fun msg h => ?_⟩
    · obtain ⟨hc, hsucc⟩ := Trade.positionUpdate_closing _ _ d p tm _ rfl s h
      refine ⟨hc.1, ?_⟩
      rcases hsucc with ⟨h1, -⟩ | ⟨h1 | h1, -⟩ <;> rw [h1] <;> assumption
    · exact (Trade.positionUpdate_none _ _ d p tm _ rfl h).2.2.2.2.2 hrec
    · exact absurd h (Trade.positionUpdate_not_err _ _ d p tm _ rfl msg)

/-- The invariant carries over to a state with the same archive whose current
trade has the type of the one before. -/
theorem BasicStrategy.TradesInv.of_same_typ {b b1 : BasicStrategy} (h : b.TradesInv)
    (hc : b1.closedTrades = b.closedTrades)
    (ht : ∀ t, b.currentTrade = some t → ∃ t1, b1.currentTrade = some t1 ∧ t1.Typ = t.Typ) :
    b1.TradesInv := by
  obtain ⟨⟨t, h1, h2⟩, h3⟩ := h
  obtain ⟨t1, h4, h5⟩ := ht t h1
  refine ⟨⟨t1, h4, ?_⟩, ?_⟩
  · rw [h5]
    exact h2
  · rw [hc]
    exact h3

/-- What `onOrderConfirmHandler` leaves alone. -/
theorem BasicStrategy.confirm_frame (b : BasicStrategy) (e : OrderConfirmationEvent) :
    b.SameTrades (b.onOrderConfirmHandler e).1 ∧ b.SameCandles (b.onOrderConfirmHandler e).1
    ∧ b.SameTicks (b.onOrderConfirmHandler e).1
    ∧ (b.onOrderConfirmHandler e).1.waitingN = b.waitingN - 1 := by
  unfold BasicStrategy.onOrderConfirmHandler BasicStrategy.SameTrades BasicStrategy.SameCandles
    BasicStrategy.SameTicks
  cases ht : b.currentTrade with
  | none =>
    simp only [ht, reduceCtorEq, false_implies, implies_true, and_self, and_true, true_and]
    omega
  | some t =>
    have hs := (Trade.samePosition_confirmOrder t e.OrdId).1
    rcases hr : t.confirmOrder e.OrdId with ⟨t1, r⟩
    rw [hr] at hs
    cases r <;> simp [hr, BasicStrategy.error] <;> exact ⟨hs, by omega⟩

/-- What `onOrderCancelHandler` leaves alone. -/
theorem BasicStrategy.cancel_frame (b : BasicStrategy) (e : OrderCancelEvent) :
    b.SameTrades (b.onOrderCancelHandler e).1 ∧ b.SameCandles (b.onOrderCancelHandler e).1
    ∧ b.SameTicks (b.onOrderCancelHandler e).1
    ∧ (b.onOrderCancelHandler e).1.waitingN = b.waitingN - 1 := by
  unfold BasicStrategy.onOrderCancelHandler BasicStrategy.SameTrades BasicStrategy.SameCandles
    BasicStrategy.SameTicks
  cases ht : b.currentTrade with
  | none =>
    simp only [ht, reduceCtorEq, false_implies, implies_true, and_self, and_true, true_and]
    omega
  | some t =>
    have hs := (Trade.samePosition_cancelOrder t e.OrdId).1
    rcases hr : t.cancelOrder e.OrdId with ⟨t1, r⟩
    rw [hr] at hs
    cases r <;> simp [hr, BasicStrategy.error] <;> exact ⟨hs, by omega⟩

/-- What `onOrderRejectedHandler` leaves alone. -/
theorem BasicStrategy.rejected_frame (b : BasicStrategy) (e : OrderRejectedEvent) :
    b.SameTrades (b.onOrderRejectedHandler e).1 ∧ b.SameCandles (b.onOrderRejectedHandler e).1
    ∧ b.SameTicks (b.onOrderRejectedHandler e).1
    ∧ (b.onOrderRejectedHandler e).1.waitingN = b.waitingN - 1 := by
  unfold BasicStrategy.onOrderRejectedHandler BasicStrategy.SameTrades BasicStrategy.SameCandles
    BasicStrategy.SameTicks
  cases ht : b.currentTrade with
  | none =>
    simp only [ht, reduceCtorEq, false_implies, implies_true, and_self, and_true, true_and]
    omega
  | some t =>
    have hs := (Trade.samePosition_rejectOrder t e.OrdId e.Reason).1
    rcases hr : t.rejectOrder e.OrdId e.Reason with ⟨t1, r⟩
    rw [hr] at hs
    cases r <;> simp [hr, BasicStrategy.error] <;> exact ⟨hs, by omega⟩

/-- The statement that updates the P&L of an open position changes nothing
but the current trade, whose type it keeps. -/
theorem BasicStrategy.updateOpenPnL_frame (b : BasicStrategy) (price : F64) (time : Time) :
    b.SameTrades (b.updateOpenPnL price time).1 ∧ b.SameCandles (b.updateOpenPnL price time).1
    ∧ b.SameTicks (b.updateOpenPnL price time).1
    ∧ (b.updateOpenPnL price time).1.waitingN = b.waitingN := by
  unfold BasicStrategy.updateOpenPnL BasicStrategy.SameTrades BasicStrategy.SameCandles
    BasicStrategy.SameTicks
  cases ht : b.currentTrade with
  | none => simp [ht]
  | some t =>
    have hs : (t.updatePnL price time).1.Typ = t.Typ := by
      by_cases hl : t.Typ = LongTrade
      · rw [Trade.updatePnL_long t price time hl]
      · by_cases hsh : t.Typ = ShortTrade
        · rw [Trade.updatePnL_short t price time hsh]
        · rw [Trade.updatePnL_other t price time hl hsh]
    rcases hr : t.updatePnL price time with ⟨t1, r⟩
    rw [hr] at hs
    cases ho : t.IsOpen with
    | ok v =>
      cases v
      · simp [ho, ht]
      · cases r <;> simp [hr, ho, BasicStrategy.error] <;> exact hs
    | err msg => simp [ho, ht]
    | panic msg => simp [ho, ht]

/-- The part of `onOrderFillHandler` after its checks, case by case in the
result of `executeOrder`. -/
theorem BasicStrategy.onOrderFillHandler_core (b3 : BasicStrategy) (e : OrderFillEvent) :
    (match b3.currentTrade with
      | none => (b3, Outcome.panic "invalid memory address or nil pointer dereference")
      | some t =>
        let (t1, r) := t.executeOrder e.OrdId e.Qty e.Price e.Time
        let b4 := { b3 with currentTrade := some t1 }
        match r with
        | .err msg => (b4.error msg, .ok ())
        | .panic msg => (b4, .panic msg)
        | .ok newPos =>
          match newPos with
          | some s =>
            if t1.Typ ≠ ClosedTrade then
              (b4.error "New position opened, but previous is not closed. ", .ok ())
            else
              let b5 := { b4 with closedTrades := b4.closedTrades ++ [t1] }
              let b6 := { b5 with currentTrade := some s }
              ({ b6 with brokerNotifyChan := b6.brokerNotifyChan ++ [e] }, .ok ())
          | none => ({ b4 with brokerNotifyChan := b4.brokerNotifyChan ++ [e] }, .ok ()))
      =
        match b3.currentTrade with
        | none => (b3, .panic "invalid memory address or nil pointer dereference")
        | some t =>
          match (t.executeOrder e.OrdId e.Qty e.Price e.Time).2 with
          | .err msg =>
            (({ b3 with currentTrade := some (t.executeOrder e.OrdId e.Qty e.Price e.Time).1 }
              : BasicStrategy).error msg, .ok ())
          | .panic msg =>
            ({ b3 with currentTrade := some (t.executeOrder e.OrdId e.Qty e.Price e.Time).1 },
              .panic msg)
          | .ok (some s) =>
            if (t.executeOrder e.OrdId e.Qty e.Price e.Time).1.Typ ≠ ClosedTrade then
              (({ b3 with currentTrade := some (t.executeOrder e.OrdId e.Qty e.Price e.Time).1 }
                : BasicStrategy).error "New position opened, but previous is not closed. ", .ok ())
            else
              ({ b3 with
                  closedTrades :=
                    b3.closedTrades ++ [(t.executeOrder e.OrdId e.Qty e.Price e.Time).1]
                  currentTrade := some s
                  brokerNotifyChan := b3.brokerNotifyChan ++ [e] }, .ok ())
          | .ok none =>
            ({ b3 with
                currentTrade := some (t.executeOrder e.OrdId e.Qty e.Price e.Time).1
                brokerNotifyChan := b3.brokerNotifyChan ++ [e] }, .ok ()) := by
  cases b3.currentTrade with
  | none => rfl
  | some t =>
    dsimp only
    rcases t.executeOrder e.OrdId e.Qty e.Price e.Time with ⟨t1, r⟩
    rcases r with (_ | s) | msg | msg <;> rfl

/-- The checks at the head of `onOrderFillHandler` only report errors: the
handler runs on a state `b3` that differs from `b` in `errorsChan` alone. -/
theorem BasicStrategy.onOrderFillHandler_eq (b : BasicStrategy) (e : OrderFillEvent) :
    ∃ b3 : BasicStrategy, b3 = { b with errorsChan := b3.errorsChan }
      ∧ b.onOrderFillHandler e =
        match b3.currentTrade with
        | none => (b3, .panic "invalid memory address or nil pointer dereference")
        | some t =>
          match (t.executeOrder e.OrdId e.Qty e.Price e.Time).2 with
          | .err msg =>
            (({ b3 with currentTrade := some (t.executeOrder e.OrdId e.Qty e.Price e.Time).1 }
              : BasicStrategy).error msg, .ok ())
          | .panic msg =>
            ({ b3 with currentTrade := some (t.executeOrder e.OrdId e.Qty e.Price e.Time).1 },
              .panic msg)
          | .ok (some s) =>
            if (t.executeOrder e.OrdId e.Qty e.Price e.Time).1.Typ ≠ ClosedTrade then
              (({ b3 with currentTrade := some (t.executeOrder e.OrdId e.Qty e.Price e.Time).1 }
                : BasicStrategy).error "New position opened, but previous is not closed. ", .ok ())
            else
              ({ b3 with
                  closedTrades :=
                    b3.closedTrades ++ [(t.executeOrder e.OrdId e.Qty e.Price e.Time).1]
                  currentTrade := some s
                  brokerNotifyChan := b3.brokerNotifyChan ++ [e] }, .ok ())
          | .ok none =>
            ({ b3 with
                currentTrade := some (t.executeOrder e.OrdId e.Qty e.Price e.Time).1
                brokerNotifyChan := b3.brokerNotifyChan ++ [e] }, .ok ()) := by
  refine ⟨if e.Price.isNaN ∨ F64.le e.Price 0 then
      (if e.Qty ≤ 0 then
        (if e.Symbol ≠ b.Symbol then b.error "Mismatch symbols in fill event and position. "
          else b).error "Execution Qty is zero or less. "
        else (if e.Symbol ≠ b.Symbol then
          b.error "Mismatch symbols in fill event and position. " else b)).error
        "Price is NaN or less or equal to zero. "
    else
      (if e.Qty ≤ 0 then
        (if e.Symbol ≠ b.Symbol then b.error "Mismatch symbols in fill event and position. "
          else b).error "Execution Qty is zero or less. "
        else (if e.Symbol ≠ b.Symbol then
          b.error "Mismatch symbols in fill event and position. " else b)), ?_, ?_⟩
  · split_ifs <;> rfl
  · exact BasicStrategy.onOrderFillHandler_core _ e

/-- What `onOrderFillHandler` leaves alone. -/
theorem BasicStrategy.fill_frame (b : BasicStrategy) (e : OrderFillEvent) :
    b.SameCandles (b.onOrderFillHandler e).1 ∧ b.SameTicks (b.onOrderFillHandler e).1
    ∧ (b.onOrderFillHandler e).1.waitingN = b.waitingN := by
  obtain ⟨b3, hb3, heq⟩ := b.onOrderFillHandler_eq e
  rw [heq]
  have hC : b3.Candles = b.Candles := by rw [hb3]
  have hT : b3.lastCandleOpenTime = b.lastCandleOpenTime := by rw [hb3]
  have hO : b3.lastCandleOpen = b.lastCandleOpen := by rw [hb3]
  have hN : b3.NPeriods = b.NPeriods := by rw [hb3]
  have hTi : b3.Ticks = b.Ticks := by rw [hb3]
  have hOn : b3.onTickCalls = b.onTickCalls := by rw [hb3]
  have hW : b3.waitingN = b.waitingN := by rw [hb3]
  cases b3.currentTrade with
  | none => exact ⟨⟨hC, hT, hO, hN⟩, ⟨hTi, hOn, hN⟩, hW⟩
  | some t =>
    dsimp only
    rcases (t.executeOrder e.OrdId e.Qty e.Price e.Time).2 with (_ | s) | msg | msg
    · exact ⟨⟨hC, hT, hO, hN⟩, ⟨hTi, hOn, hN⟩, hW⟩
    · dsimp only
      split_ifs <;> exact ⟨⟨hC, hT, hO, hN⟩, ⟨hTi, hOn, hN⟩, hW⟩
    · exact ⟨⟨hC, hT, hO, hN⟩, ⟨hTi, hOn, hN⟩, hW⟩
    · exact ⟨⟨hC, hT, hO, hN⟩, ⟨hTi, hOn, hN⟩, hW⟩

/-- A fill for which `executeOrder` returns a successor appends the old trade
to the archive and installs the successor. -/
theorem BasicStrategy.fill_successor (b : BasicStrategy) (e : OrderFillEvent) (t s : Trade)
    (ht : b.currentTrade = some t)
    (hs : (t.executeOrder e.OrdId e.Qty e.Price e.Time).2 = .ok (some s)) :
    (b.onOrderFillHandler e).1.closedTrades
      = b.closedTrades ++ [(t.executeOrder e.OrdId e.Qty e.Price e.Time).1]
    ∧ (b.onOrderFillHandler e).1.currentTrade = some s
    ∧ (b.onOrderFillHandler e).2 = .ok () := by
  obtain ⟨b3, hb3, heq⟩ := b.onOrderFillHandler_eq e
  rw [heq]
  have hct : b3.currentTrade = some t := by rw [hb3]; exact ht
  have hcl : b3.closedTrades = b.closedTrades := by rw [hb3]
  have hty := (Trade.closedOut_of_successor t e.OrdId e.Qty e.Price e.Time s hs).1
  rw [hct]
  dsimp only
  rw [hs]
  dsimp only
  rw [if_neg (not_not.mpr hty)]
  exact ⟨by rw [← hcl], rfl, rfl⟩

/-- The fill handler keeps the invariant of the trades when it does not panic. -/
theorem BasicStrategy.tradesInv_fill (b : BasicStrategy) (e : OrderFillEvent) (h : b.TradesInv)
    (hp : (b.onOrderFillHandler e).2.isPanic = false) : (b.onOrderFillHandler e).1.TradesInv := by
  obtain ⟨⟨t, ht, hty⟩, hc⟩ := h
  obtain ⟨h1, h2, h3⟩ := Trade.executeOrder_typ t e.OrdId e.Qty e.Price e.Time hty
  obtain ⟨b3, hb3, heq⟩ := b.onOrderFillHandler_eq e
  rw [heq] at hp ⊢
  have hct : b3.currentTrade = some t := by rw [hb3]; exact ht
  have hcl : b3.closedTrades = b.closedTrades := by rw [hb3]
  rw [hct] at hp ⊢
  dsimp only at hp ⊢
  rcases hr : (t.executeOrder e.OrdId e.Qty e.Price e.Time).2 with (_ | s) | msg | msg
  · exact ⟨⟨_, rfl, h2 hr⟩, by rw [← hcl] at hc; exact hc⟩
  · dsimp only
    rw [if_neg (not_not.mpr (h1 s hr).1)]
    refine ⟨⟨s, rfl, (h1 s hr).2⟩, ?_⟩
    intro u hu
    rcases List.mem_append.mp hu with hu | hu
    · rw [hcl] at hu
      exact hc u hu
    · rw [List.mem_singleton.mp hu]
      exact (h1 s hr).1
  · exact ⟨⟨_, rfl, h3 msg hr⟩, by rw [← hcl] at hc; exact hc⟩
  · rw [hr] at hp
    cases hp

/-- The body of `newOrder`, case by case in the result of `putNewOrder`. -/
theorem BasicStrategy.newOrder_core (b : BasicStrategy) (sym : Prop) [Decidable sym]
    (valid : Bool) (order2 : Order) :
    (if sym then
        (b, Outcome.err "Can't put new order. Strategy symbol and order symbol are different. ")
      else
        if !valid then (b, Outcome.err "Order is not valid. ")
        else
          match b.currentTrade with
          | none => (b, .panic "invalid memory address or nil pointer dereference")
          | some t =>
            let (t1, r) := t.putNewOrder order2
            let b1 := { b with currentTrade := some t1 }
            match r with
            | .err msg => (b1.error msg, .err msg)
            | .panic msg => (b1, .panic msg)
            | .ok _ =>
              let reqID := "$NO$" ++ order2.Id
              if reqID ∈ b1.waitingConfirmation then
                (b1, .err "Order is already waiting for conf. ")
              else
                let b2 := { b1 with waitingConfirmation := insert reqID b1.waitingConfirmation }
                let b3 := { b2 with waitingN := b2.waitingN + 1 }
                (b3.newEvent (.newOrder order2), .ok ()))
      =
      if sym then
        (b, Outcome.err "Can't put new order. Strategy symbol and order symbol are different. ")
      else
        if valid = false then (b, Outcome.err "Order is not valid. ")
        else
          match b.currentTrade with
          | none => (b, .panic "invalid memory address or nil pointer dereference")
          | some t =>
            match (t.putNewOrder order2).2 with
            | .err msg =>
              ({ b with
                  currentTrade := some (t.putNewOrder order2).1
                  errorsChan := b.errorsChan ++ [msg] }, .err msg)
            | .panic msg => ({ b with currentTrade := some (t.putNewOrder order2).1 }, .panic msg)
            | .ok _ =>
              if "$NO$" ++ order2.Id ∈ b.waitingConfirmation then
                ({ b with currentTrade := some (t.putNewOrder order2).1 },
                  .err "Order is already waiting for conf. ")
              else
                ({ b with
                    currentTrade := some (t.putNewOrder order2).1
                    waitingConfirmation := insert ("$NO$" ++ order2.Id) b.waitingConfirmation
                    waitingN := b.waitingN + 1
                    requestsChan := b.requestsChan ++ [.newOrder order2] }, .ok ()) := by
  by_cases h1 : sym
  · rw [if_pos h1, if_pos h1]
  · rw [if_neg h1, if_neg h1]
    cases valid with
    | false => rfl
    | true =>
      cases b.currentTrade with
      | none => rfl
      | some t =>
        dsimp only
        rcases t.putNewOrder order2 with ⟨t1, r⟩
        rcases r with v | msg | msg <;> rfl

/-- The method `newOrder` in terms of the order `order2` that it submits. -/
theorem BasicStrategy.newOrder_eq (fmt : Time → String) (b : BasicStrategy) (order : Order) :
    ∃ (valid : Bool) (order2 : Order),
      b.newOrder fmt order =
        if order.Symbol ≠ b.Symbol then
          (b, Outcome.err "Can't put new order. Strategy symbol and order symbol are different. ")
        else
          if valid = false then (b, Outcome.err "Order is not valid. ")
          else
            match b.currentTrade with
            | none => (b, .panic "invalid memory address or nil pointer dereference")
            | some t =>
              match (t.putNewOrder order2).2 with
              | .err msg =>
                ({ b with
                    currentTrade := some (t.putNewOrder order2).1
                    errorsChan := b.errorsChan ++ [msg] }, .err msg)
              | .panic msg =>
                ({ b with currentTrade := some (t.putNewOrder order2).1 }, .panic msg)
              | .ok _ =>
                if "$NO$" ++ order2.Id ∈ b.waitingConfirmation then
                  ({ b with currentTrade := some (t.putNewOrder order2).1 },
                    .err "Order is already waiting for conf. ")
                else
                  ({ b with
                      currentTrade := some (t.putNewOrder order2).1
                      waitingConfirmation := insert ("$NO$" ++ order2.Id) b.waitingConfirmation
                      waitingN := b.waitingN + 1
                      requestsChan := b.requestsChan ++ [.newOrder order2] }, .ok ()) :=
  ⟨_, _, BasicStrategy.newOrder_core b _ _ _⟩

theorem BasicStrategy.requested_newOrder (fmt : Time → String) (b : BasicStrategy) (order : Order) :
    b.requested fmt (.newOrder order)
      = if (b.newOrder fmt order).2 = .ok () then
          (b.newOrder fmt order).1.requestsChan.getLast?.bind Request.tag
        else none := rfl

/-- What `newOrder` leaves alone, and its effect on the counter: a call that
returns normally sent one request and counted it, any other call did neither. -/
theorem BasicStrategy.newOrder_frame (fmt : Time → String) (b : BasicStrategy) (order : Order) :
    b.SameTrades (b.newOrder fmt order).1 ∧ b.SameCandles (b.newOrder fmt order).1
    ∧ b.SameTicks (b.newOrder fmt order).1
    ∧ (((b.newOrder fmt order).2 = .ok ()
        ∧ (b.newOrder fmt order).1.waitingN = b.waitingN + 1
        ∧ ∃ tag, b.requested fmt (.newOrder order) = some tag)
      ∨ ((b.newOrder fmt order).2 ≠ .ok ()
        ∧ (b.newOrder fmt order).1.waitingN = b.waitingN
        ∧ b.requested fmt (.newOrder order) = none)) := by
  have hsame : b.SameTrades b ∧ b.SameCandles b ∧ b.SameTicks b :=
    ⟨⟨rfl, fun t ht => ⟨t, ht, rfl⟩⟩, ⟨rfl, rfl, rfl, rfl⟩, ⟨rfl, rfl, rfl⟩⟩
  rw [BasicStrategy.requested_newOrder]
  obtain ⟨valid, order2, heq⟩ := BasicStrategy.newOrder_eq fmt b order
  generalize b.newOrder fmt order = r at heq ⊢
  have hsome : ∀ t, b.currentTrade = some t → ∀ u, b.currentTrade = some u →
      ∃ u1, some (t.putNewOrder order2).1 = some u1 ∧ u1.Typ = u.Typ := by
    intro t ht u hu
    rw [ht] at hu
    cases hu
    exact ⟨_, rfl, (Trade.samePosition_putNewOrder t order2).1⟩
  split_ifs at heq with h1 h2 h3
  · subst heq
    exact ⟨hsame.1, hsame.2.1, hsame.2.2, Or.inr ⟨by simp, rfl, by simp⟩⟩
  · subst heq
    exact ⟨hsame.1, hsame.2.1, hsame.2.2, Or.inr ⟨by simp, rfl, by simp⟩⟩
  · cases ht : b.currentTrade with
    | none =>
      rw [ht] at heq
      subst heq
      exact ⟨⟨rfl, fun t h => by rw [ht] at h; cases h⟩, hsame.2.1, hsame.2.2,
        Or.inr ⟨by simp, rfl, by simp⟩⟩
    | some t =>
      rw [ht] at heq
      dsimp only at heq
      rcases hr : (t.putNewOrder order2).2 with v | msg | msg <;> rw [hr] at heq <;> subst heq <;>
        exact ⟨⟨rfl, hsome t ht⟩, ⟨rfl, rfl, rfl, rfl⟩, ⟨rfl, rfl, rfl⟩,
          Or.inr ⟨by simp, rfl, by simp⟩⟩
  · cases ht : b.currentTrade with
    | none =>
      rw [ht] at heq
      subst heq
      exact ⟨⟨rfl, fun t h => by rw [ht] at h; cases h⟩, hsame.2.1, hsame.2.2,
        Or.inr ⟨by simp, rfl, by simp⟩⟩
    | some t =>
      rw [ht] at heq
      dsimp only at heq
      rcases hr : (t.putNewOrder order2).2 with v | msg | msg <;> rw [hr] at heq <;> subst heq
      · refine ⟨⟨rfl, hsome t ht⟩, ⟨rfl, rfl, rfl, rfl⟩, ⟨rfl, rfl, rfl⟩, Or.inl ⟨rfl, rfl, ?_⟩⟩
        simp [Request.tag]
      · exact ⟨⟨rfl, hsome t ht⟩, ⟨rfl, rfl, rfl, rfl⟩, ⟨rfl, rfl, rfl⟩,
          Or.inr ⟨by simp, rfl, by simp⟩⟩
      · exact ⟨⟨rfl, hsome t ht⟩, ⟨rfl, rfl, rfl, rfl⟩, ⟨rfl, rfl, rfl⟩,
          Or.inr ⟨by simp, rfl, by simp⟩⟩

theorem BasicStrategy.requested_cancel (fmt : Time → String) (b : BasicStrategy) (ordID : String) :
    b.requested fmt (.CancelOrder ordID)
      = if (b.CancelOrder ordID).2 = .ok () then some ("$CAN$" ++ ordID) else none := rfl

/-- What `CancelOrder` leaves alone, and its effect on the counter. -/
theorem BasicStrategy.cancelRequest_frame (fmt : Time → String) (b : BasicStrategy)
    (ordID : String) :
    b.SameTrades (b.CancelOrder ordID).1 ∧ b.SameCandles (b.CancelOrder ordID).1
    ∧ b.SameTicks (b.CancelOrder ordID).1
    ∧ (((b.CancelOrder ordID).2 = .ok ()
        ∧ (b.CancelOrder ordID).1.waitingN = b.waitingN + 1
        ∧ ∃ tag, b.requested fmt (.CancelOrder ordID) = some tag)
      ∨ ((b.CancelOrder ordID).2 ≠ .ok ()
        ∧ (b.CancelOrder ordID).1.waitingN = b.waitingN
        ∧ b.requested fmt (.CancelOrder ordID) = none)) := by
  have hsame : b.SameTrades b := ⟨rfl, fun t ht => ⟨t, ht, rfl⟩⟩
  rw [BasicStrategy.requested_cancel]
  rcases hres : b.CancelOrder ordID with ⟨b1, r⟩
  unfold BasicStrategy.CancelOrder at hres
  dsimp only at hres
  repeat' split at hres
  all_goals simp only [Prod.mk.injEq] at hres
  all_goals obtain ⟨hb, hr⟩ := hres
  all_goals subst hb
  all_goals subst hr
  all_goals first
    | exact ⟨hsame, ⟨rfl, rfl, rfl, rfl⟩, ⟨rfl, rfl, rfl⟩, Or.inr ⟨by simp, rfl, by simp⟩⟩
    | exact ⟨hsame, ⟨rfl, rfl, rfl, rfl⟩, ⟨rfl, rfl, rfl⟩, Or.inl ⟨rfl, rfl, by simp⟩⟩

/-! ## What the market data handlers leave alone -/

theorem BasicStrategy.SameTrades.rfl_same (b : BasicStrategy) : b.SameTrades b :=
  ⟨rfl, fun t ht => ⟨t, ht, rfl⟩⟩

theorem BasicStrategy.SameTrades.trans_same {a b c : BasicStrategy} (h1 : a.SameTrades b)
    (h2 : b.SameTrades c) : a.SameTrades c := by
  refine ⟨h2.1.trans h1.1, fun t ht => ?_⟩
  obtain ⟨t1, ht1, hty1⟩ := h1.2 t ht
  obtain ⟨t2, ht2, hty2⟩ := h2.2 t1 ht1
  exact ⟨t2, ht2, hty2.trans hty1⟩

theorem BasicStrategy.SameTrades.of_eq {b b1 : BasicStrategy}
    (h1 : b1.closedTrades = b.closedTrades) (h2 : b1.currentTrade = b.currentTrade) :
    b.SameTrades b1 :=
  ⟨h1, fun t ht => ⟨t, h2.trans ht, rfl⟩⟩

theorem BasicStrategy.SameCandles.trans_candles {a b c : BasicStrategy} (h1 : a.SameCandles b)
    (h2 : b.SameCandles c) : a.SameCandles c :=
  ⟨h2.1.trans h1.1, h2.2.1.trans h1.2.1, h2.2.2.1.trans h1.2.2.1, h2.2.2.2.trans h1.2.2.2⟩

theorem BasicStrategy.SameTicks.trans_ticks {a b c : BasicStrategy} (h1 : a.SameTicks b)
    (h2 : b.SameTicks c) : a.SameTicks c :=
  ⟨h2.1.trans h1.1, h2.2.1.trans h1.2.1, h2.2.2.trans h1.2.2⟩

/-- The method `updateLastCandleOpen` changes the last candle open only, and
sets it from the last candle of the window when it changes it. -/
theorem BasicStrategy.updateLastCandleOpen_frame (b : BasicStrategy) :
    b.SameTrades b.updateLastCandleOpen ∧ b.SameTicks b.updateLastCandleOpen
    ∧ b.updateLastCandleOpen.waitingN = b.waitingN
    ∧ b.updateLastCandleOpen.Candles = b.Candles
    ∧ (b.OpenKept b.updateLastCandleOpen ∨ b.OpenFromWindow b.updateLastCandleOpen) := by
  unfold BasicStrategy.updateLastCandleOpen
  cases hl : b.Candles.getLast? with
  | none => exact ⟨BasicStrategy.SameTrades.rfl_same b, ⟨rfl, rfl, rfl⟩, rfl, rfl, Or.inl ⟨rfl, rfl⟩⟩
  | some c =>
    dsimp only
    split_ifs with h
    · exact ⟨BasicStrategy.SameTrades.of_eq rfl rfl, ⟨rfl, rfl, rfl⟩, rfl, rfl,
        Or.inr ⟨c, hl, h, rfl, rfl⟩⟩
    · exact ⟨BasicStrategy.SameTrades.rfl_same b, ⟨rfl, rfl, rfl⟩, rfl, rfl, Or.inl ⟨rfl, rfl⟩⟩

/-- The last candle open after `updateLastCandleOpen` on a state that differs
from `b` in the candle window only. -/
theorem BasicStrategy.updateLastCandleOpen_window (b : BasicStrategy) (l : List Candle) :
    b.SameTrades ({ b with Candles := l } : BasicStrategy).updateLastCandleOpen
    ∧ b.SameTicks ({ b with Candles := l } : BasicStrategy).updateLastCandleOpen
    ∧ ({ b with Candles := l } : BasicStrategy).updateLastCandleOpen.waitingN = b.waitingN
    ∧ ({ b with Candles := l } : BasicStrategy).updateLastCandleOpen.Candles = l
    ∧ (b.OpenKept ({ b with Candles := l } : BasicStrategy).updateLastCandleOpen
      ∨ b.OpenFromWindow ({ b with Candles := l } : BasicStrategy).updateLastCandleOpen) := by
  obtain ⟨h1, h2, h3, h4, h5⟩ :=
    BasicStrategy.updateLastCandleOpen_frame ({ b with Candles := l } : BasicStrategy)
  exact ⟨BasicStrategy.SameTrades.trans_same (BasicStrategy.SameTrades.of_eq rfl rfl) h1, h2, h3, h4,
    h5⟩

/-- What `putNewCandle` leaves alone. -/
theorem BasicStrategy.putNewCandle_frame (b : BasicStrategy) (candle : Option Candle) :
    b.SameTrades (b.putNewCandle candle).1 ∧ b.SameTicks (b.putNewCandle candle).1
    ∧ (b.putNewCandle candle).1.waitingN = b.waitingN
    ∧ (b.OpenKept (b.putNewCandle candle).1 ∨ b.OpenFromWindow (b.putNewCandle candle).1) := by
  have hsame : b.SameTrades b ∧ b.SameTicks b ∧ b.waitingN = b.waitingN
      ∧ (b.OpenKept b ∨ b.OpenFromWindow b) :=
    ⟨BasicStrategy.SameTrades.rfl_same b, ⟨rfl, rfl, rfl⟩, rfl, Or.inl ⟨rfl, rfl⟩⟩
  rcases hres : b.putNewCandle candle with ⟨b1, r⟩
  unfold BasicStrategy.putNewCandle at hres
  dsimp only at hres
  repeat' split at hres
  all_goals simp only [Prod.mk.injEq] at hres
  all_goals obtain ⟨hb, hr⟩ := hres
  all_goals subst hb
  all_goals first
    | exact hsame
    | (obtain ⟨h1, h2, h3, -, h5⟩ := BasicStrategy.updateLastCandleOpen_window b _
       exact ⟨h1, h2, h3, h5⟩)

/-- What `onCandleCloseHandler` leaves alone. -/
theorem BasicStrategy.candleClose_frame (b : BasicStrategy) (e : Option CandleCloseEvent) :
    b.SameTrades (b.onCandleCloseHandler e).1 ∧ b.SameTicks (b.onCandleCloseHandler e).1
    ∧ (b.onCandleCloseHandler e).1.waitingN = b.waitingN
    ∧ (b.OpenKept (b.onCandleCloseHandler e).1 ∨ b.OpenFromWindow (b.onCandleCloseHandler e).1) := by
  have hsame : b.SameTrades b ∧ b.SameTicks b ∧ b.waitingN = b.waitingN
      ∧ (b.OpenKept b ∨ b.OpenFromWindow b) :=
    ⟨BasicStrategy.SameTrades.rfl_same b, ⟨rfl, rfl, rfl⟩, rfl, Or.inl ⟨rfl, rfl⟩⟩
  unfold BasicStrategy.onCandleCloseHandler
  cases e with
  | none => exact hsame
  | some e =>
    dsimp only
    cases e.Candle with
    | none => exact hsame
    | some c =>
      dsimp only
      have hf := BasicStrategy.putNewCandle_frame b (some c)
      generalize b.putNewCandle (some c) = x at hf ⊢
      obtain ⟨b1, r⟩ := x
      obtain ⟨h1, h2, h3, h4⟩ := hf
      cases r with
      | ok v =>
        dsimp only
        obtain ⟨g1, g2, g3, g4⟩ := BasicStrategy.updateOpenPnL_frame b1 c.Close c.Datetime
        refine ⟨h1.trans_same g1, h2.trans_ticks g3, g4.trans h3, ?_⟩
        rcases h4 with h4 | ⟨x, hx1, hx2, hx3, hx4⟩
        · exact Or.inl ⟨g2.2.1.trans h4.1, g2.2.2.1.trans h4.2⟩
        · exact Or.inr ⟨x, by rw [g2.1]; exact hx1, hx2, g2.2.1.trans hx3, g2.2.2.1.trans hx4⟩
      | err msg => exact ⟨h1, h2, h3, h4⟩
      | panic msg => exact ⟨h1, h2, h3, h4⟩

/-- What `onCandleOpenHandler` leaves alone. -/
theorem BasicStrategy.candleOpen_frame (b : BasicStrategy) (e : Option CandleOpenEvent) :
    b.SameTrades (b.onCandleOpenHandler e).1 ∧ b.SameTicks (b.onCandleOpenHandler e).1
    ∧ (b.onCandleOpenHandler e).1.waitingN = b.waitingN
    ∧ (b.OpenKept (b.onCandleOpenHandler e).1
      ∨ ∃ ev, e = some ev ∧ b.OpenFromEvent (b.onCandleOpenHandler e).1 ev) := by
  unfold BasicStrategy.onCandleOpenHandler
  cases e with
  | none =>
    exact ⟨BasicStrategy.SameTrades.rfl_same b, ⟨rfl, rfl, rfl⟩, rfl, Or.inl ⟨rfl, rfl⟩⟩
  | some e =>
    dsimp only
    split_ifs with h
    · obtain ⟨g1, g2, g3, g4⟩ := BasicStrategy.updateOpenPnL_frame
        ({ b with lastCandleOpen := e.Price, lastCandleOpenTime := e.CandleTime } : BasicStrategy)
        e.Price e.CandleTime
      refine ⟨(BasicStrategy.SameTrades.of_eq rfl rfl).trans_same g1, g3, g4, Or.inr ⟨e, rfl, ?_⟩⟩
      refine ⟨?_, g2.2.1, g2.2.2.1⟩
      simpa using h
    · obtain ⟨g1, g2, g3, g4⟩ := BasicStrategy.updateOpenPnL_frame b e.Price e.CandleTime
      exact ⟨g1, g3, g4, Or.inl ⟨g2.2.1, g2.2.2.1⟩⟩

/-- What `onCandleHistoryHandler` leaves alone. -/
theorem BasicStrategy.candleHistory_frame (b : BasicStrategy) (e : CandlesHistoryEvent) :
    b.SameTrades (b.onCandleHistoryHandler e).1 ∧ b.SameTicks (b.onCandleHistoryHandler e).1
    ∧ (b.onCandleHistoryHandler e).1.waitingN = b.waitingN
    ∧ (b.OpenKept (b.onCandleHistoryHandler e).1
      ∨ b.OpenFromWindow (b.onCandleHistoryHandler e).1) := by
  have hsame : b.SameTrades b ∧ b.SameTicks b ∧ b.waitingN = b.waitingN
      ∧ (b.OpenKept b ∨ b.OpenFromWindow b) :=
    ⟨BasicStrategy.SameTrades.rfl_same b, ⟨rfl, rfl, rfl⟩, rfl, Or.inl ⟨rfl, rfl⟩⟩
  rcases hres : b.onCandleHistoryHandler e with ⟨b1, r⟩
  unfold BasicStrategy.onCandleHistoryHandler at hres
  dsimp only at hres
  repeat' split at hres
  all_goals simp only [Prod.mk.injEq] at hres
  all_goals obtain ⟨hb, hr⟩ := hres
  all_goals subst hb
  all_goals first
    | exact hsame
    | (obtain ⟨h1, h2, h3, -, h5⟩ := BasicStrategy.updateLastCandleOpen_window b _
       exact ⟨h1, h2, h3, h5⟩)

/-- What `putNewTick` leaves alone. -/
theorem BasicStrategy.putNewTick_frame (b : BasicStrategy) (tick : Option Tick) :
    b.SameTrades (b.putNewTick tick).1 ∧ b.SameCandles (b.putNewTick tick).1
    ∧ (b.putNewTick tick).1.waitingN = b.waitingN
    ∧ (b.putNewTick tick).1.onTickCalls = b.onTickCalls := by
  rcases hres : b.putNewTick tick with ⟨b1, r⟩
  unfold BasicStrategy.putNewTick at hres
  dsimp only at hres
  repeat' split at hres
  all_goals simp only [Prod.mk.injEq] at hres
  all_goals obtain ⟨hb, hr⟩ := hres
  all_goals subst hb
  all_goals exact ⟨BasicStrategy.SameTrades.of_eq rfl rfl, ⟨rfl, rfl, rfl, rfl⟩, rfl, rfl⟩

/-- What `onTickHistoryHandler` leaves alone. -/
theorem BasicStrategy.tickHistory_frame (b : BasicStrategy) (e : TickHistoryEvent) :
    b.SameTrades (b.onTickHistoryHandler e).1 ∧ b.SameCandles (b.onTickHistoryHandler e).1
    ∧ (b.onTickHistoryHandler e).1.waitingN = b.waitingN
    ∧ (b.onTickHistoryHandler e).1.onTickCalls = b.onTickCalls := by
  rcases hres : b.onTickHistoryHandler e with ⟨b1, r⟩
  unfold BasicStrategy.onTickHistoryHandler at hres
  dsimp only at hres
  repeat' split at hres
  all_goals simp only [Prod.mk.injEq] at hres
  all_goals obtain ⟨hb, hr⟩ := hres
  all_goals subst hb
  all_goals exact ⟨BasicStrategy.SameTrades.of_eq rfl rfl, ⟨rfl, rfl, rfl, rfl⟩, rfl, rfl⟩

/-- The tick handler, when it is not held: the counter is not positive, and
the handler leaves the trades' types, the candles and the counter alone. -/
theorem BasicStrategy.tick_frame (b : BasicStrategy) (e : Option NewTickEvent)
    (b1 : BasicStrategy) (r : Outcome Unit) (h : b.onTickHandler e = some (b1, r)) :
    b.waitingN ≤ 0 ∧ b.SameTrades b1 ∧ b.SameCandles b1 ∧ b1.waitingN = b.waitingN := by
  unfold BasicStrategy.onTickHandler at h
  split_ifs at h with hw
  refine ⟨by omega, ?_⟩
  dsimp only at h
  cases e with
  | none =>
    simp only [Option.some.injEq, Prod.mk.injEq] at h
    obtain ⟨hb, -⟩ := h
    subst hb
    exact ⟨BasicStrategy.SameTrades.of_eq rfl rfl, ⟨rfl, rfl, rfl, rfl⟩, rfl⟩
  | some e =>
    dsimp only at h
    cases htk : e.Tick with
    | none =>
      rw [htk] at h
      simp only [Option.some.injEq, Prod.mk.injEq] at h
      obtain ⟨hb, -⟩ := h
      subst hb
      exact ⟨BasicStrategy.SameTrades.of_eq rfl rfl, ⟨rfl, rfl, rfl, rfl⟩, rfl⟩
    | some tick =>
      rw [htk] at h
      dsimp only at h
      obtain ⟨p1, p2, p3, -⟩ := BasicStrategy.putNewTick_frame
        ({ b.newEvent (.tick (some e)) with mostRecentTime := tick.Datetime } : BasicStrategy)
        (some tick)
      have q1 : b.SameTrades (({ b.newEvent (.tick (some e)) with mostRecentTime := tick.Datetime }
          : BasicStrategy).putNewTick (some tick)).1 :=
        (BasicStrategy.SameTrades.of_eq rfl rfl).trans_same p1
      have q2 : b.SameCandles (({ b.newEvent (.tick (some e)) with
          mostRecentTime := tick.Datetime } : BasicStrategy).putNewTick (some tick)).1 :=
        BasicStrategy.SameCandles.trans_candles ⟨rfl, rfl, rfl, rfl⟩ p2
      have q3 : (({ b.newEvent (.tick (some e)) with mostRecentTime := tick.Datetime }
          : BasicStrategy).putNewTick (some tick)).1.waitingN = b.waitingN := p3
      clear p1 p2 p3
      generalize ({ b.newEvent (.tick (some e)) with mostRecentTime := tick.Datetime }
          : BasicStrategy).putNewTick (some tick) = x at h q1 q2 q3
      obtain ⟨b2, r2⟩ := x
      cases r2 with
      | ok v =>
        dsimp only at h
        have hg := BasicStrategy.updateOpenPnL_frame b2 tick.LastPrice tick.Datetime
        generalize b2.updateOpenPnL tick.LastPrice tick.Datetime = y at h hg
        obtain ⟨b3, r3⟩ := y
        obtain ⟨g1, g2, -, g4⟩ := hg
        cases r3 with
        | ok v =>
          dsimp only at h
          split_ifs at h
          all_goals simp only [Option.some.injEq, Prod.mk.injEq] at h
          all_goals obtain ⟨hb, -⟩ := h
          all_goals subst hb
          · exact ⟨q1.trans_same g1, q2.trans_candles g2, g4.trans q3⟩
          · exact ⟨q1.trans_same ⟨g1.1, g1.2⟩, q2.trans_candles ⟨g2.1, g2.2.1, g2.2.2.1, g2.2.2.2⟩,
              g4.trans q3⟩
        | err msg =>
          simp only [Option.some.injEq, Prod.mk.injEq] at h
          obtain ⟨hb, -⟩ := h
          subst hb
          exact ⟨q1.trans_same g1, q2.trans_candles g2, g4.trans q3⟩
        | panic msg =>
          simp only [Option.some.injEq, Prod.mk.injEq] at h
          obtain ⟨hb, -⟩ := h
          subst hb
          exact ⟨q1.trans_same g1, q2.trans_candles g2, g4.trans q3⟩
      | err msg =>
        simp only [Option.some.injEq, Prod.mk.injEq] at h
        obtain ⟨hb, -⟩ := h
        subst hb
        exact ⟨q1, q2, q3⟩
      | panic msg =>
        simp only [Option.some.injEq, Prod.mk.injEq] at h
        obtain ⟨hb, -⟩ := h
        subst hb
        exact ⟨q1, q2, q3⟩

/-! ## Runs of the strategy: the trades -/

theorem BasicStrategy.TradesInv.of_sameTrades {b b1 : BasicStrategy} (h : b.TradesInv)
    (hs : b.SameTrades b1) : b1.TradesInv :=
  h.of_same_typ hs.1 hs.2

/-- Every call but a fill keeps the archive and the type of the current trade. -/
theorem BasicStrategy.call_sameTrades (fmt : Time → String) (b : BasicStrategy)
    (c : StrategyCall) (b1 : BasicStrategy) (r : Outcome Unit)
    (h : b.call fmt c = some (b1, r)) (hc : ∀ e, c ≠ .onOrderFillHandler e) :
    b.SameTrades b1 := by
  cases c with
  | onOrderFillHandler e => exact absurd rfl (hc e)
  | onTickHandler e => exact (BasicStrategy.tick_frame b e b1 r h).2.1
  | newOrder order =>
    have hb : b1 = (b.newOrder fmt order).1 := by
      simp only [BasicStrategy.call, Option.some.injEq] at h
      rw [h]
    rw [hb]
    exact (BasicStrategy.newOrder_frame fmt b order).1
  | CancelOrder ordID =>
    have hb : b1 = (b.CancelOrder ordID).1 := by
      simp only [BasicStrategy.call, Option.some.injEq] at h
      rw [h]
    rw [hb]
    exact (BasicStrategy.cancelRequest_frame fmt b ordID).1
  | onOrderConfirmHandler e =>
    have hb : b1 = (b.onOrderConfirmHandler e).1 := by
      simp only [BasicStrategy.call, Option.some.injEq] at h
      rw [h]
    rw [hb]
    exact (BasicStrategy.confirm_frame b e).1
  | onOrderCancelHandler e =>
    have hb : b1 = (b.onOrderCancelHandler e).1 := by
      simp only [BasicStrategy.call, Option.some.injEq] at h
      rw [h]
    rw [hb]
    exact (BasicStrategy.cancel_frame b e).1
  | onOrderRejectedHandler e =>
    have hb : b1 = (b.onOrderRejectedHandler e).1 := by
      simp only [BasicStrategy.call, Option.some.injEq] at h
      rw [h]
    rw [hb]
    exact (BasicStrategy.rejected_frame b e).1
  | onTickHistoryHandler e =>
    have hb : b1 = (b.onTickHistoryHandler e).1 := by
      simp only [BasicStrategy.call, Option.some.injEq] at h
      rw [h]
    rw [hb]
    exact (BasicStrategy.tickHistory_frame b e).1
  | onCandleOpenHandler e =>
    have hb : b1 = (b.onCandleOpenHandler e).1 := by
      simp only [BasicStrategy.call, Option.some.injEq] at h
      rw [h]
    rw [hb]
    exact (BasicStrategy.candleOpen_frame b e).1
  | onCandleCloseHandler e =>
    have hb : b1 = (b.onCandleCloseHandler e).1 := by
      simp only [BasicStrategy.call, Option.some.injEq] at h
      rw [h]
    rw [hb]
    exact (BasicStrategy.candleClose_frame b e).1
  | onCandleHistoryHandler e =>
    have hb : b1 = (b.onCandleHistoryHandler e).1 := by
      simp only [BasicStrategy.call, Option.some.injEq] at h
      rw [h]
    rw [hb]
    exact (BasicStrategy.candleHistory_frame b e).1

/-- Every call that does not panic keeps the invariant of the trades. -/
theorem BasicStrategy.tradesInv_call (fmt : Time → String) (b : BasicStrategy)
    (c : StrategyCall) (b1 : BasicStrategy) (r : Outcome Unit)
    (h : b.call fmt c = some (b1, r)) (hp : r.isPanic = false) (hinv : b.TradesInv) :
    b1.TradesInv := by
  by_cases hc : ∀ e, c ≠ .onOrderFillHandler e
  · exact hinv.of_sameTrades (BasicStrategy.call_sameTrades fmt b c b1 r h hc)
  · push_neg at hc
    obtain ⟨e, rfl⟩ := hc
    simp only [BasicStrategy.call, Option.some.injEq] at h
    have h1 : b1 = (b.onOrderFillHandler e).1 := by rw [h]
    have h2 : r = (b.onOrderFillHandler e).2 := by rw [h]
    rw [h1]
    rw [h2] at hp
    exact BasicStrategy.tradesInv_fill b e hinv hp

/-- A run keeps the invariant of the trades. -/
theorem BasicStrategy.tradesInv_run (fmt : Time → String) (cs : List StrategyCall) :
    ∀ (b b1 : BasicStrategy), b.run fmt cs = some b1 → b.TradesInv → b1.TradesInv := by
  induction cs with
  | nil =>
    intro b b1 h hinv
    simp only [BasicStrategy.run, Option.some.injEq] at h
    rw [← h]
    exact hinv
  | cons c cs ih =>
    intro b b1 h hinv
    unfold BasicStrategy.run at h
    cases hc : b.call fmt c with
    | none =>
      rw [hc] at h
      cases h
    | some x =>
      obtain ⟨b2, r⟩ := x
      rw [hc] at h
      dsimp only at h
      cases hp : r.isPanic with
      | true =>
        rw [hp] at h
        simp at h
      | false =>
        rw [hp] at h
        simp only [Bool.false_eq_true, if_false] at h
        exact ih b2 b1 h (BasicStrategy.tradesInv_call fmt b c b2 r hc hp hinv)

/-- The method `init` on a strategy without trades establishes the invariant. -/
theorem BasicStrategy.tradesInv_init (b0 : BasicStrategy) (h0 : b0.currentTrade = none)
    (h1 : b0.closedTrades = []) : b0.init.TradesInv := by
  unfold BasicStrategy.init
  rw [h0]
  dsimp only
  rw [h1]
  have e0 : FlatTrade ≠ ClosedTrade := by decide
  exact ⟨⟨_, rfl, e0⟩, fun t ht => by cases ht⟩

/-! ## Runs of the strategy: the last candle open -/

theorem sortSliceStable_sorted {α : Type} (key : α → Int) (l : List α) :
    (sortSliceStable key l).Sorted (fun a b => key a ≤ key b) := by
  haveI : IsTotal α (fun a b => key a ≤ key b) := ⟨fun a b => le_total (key a) (key b)⟩
  haveI : IsTrans α (fun a b => key a ≤ key b) := ⟨fun a b c h1 h2 => le_trans h1 h2⟩
  exact List.sorted_insertionSort (fun a b => key a ≤ key b) l

theorem sortSliceStable_perm {α : Type} (key : α → Int) (l : List α) :
    (sortSliceStable key l).Perm l :=
  List.perm_insertionSort (fun a b => key a ≤ key b) l

theorem sortSliceStable_length {α : Type} (key : α → Int) (l : List α) :
    (sortSliceStable key l).length = l.length :=
  (sortSliceStable_perm key l).length_eq

/-- A list that is sorted already is left as it is. -/
theorem sortSliceStable_of_sorted {α : Type} (key : α → Int) (l : List α)
    (h : l.Sorted (fun a b => key a ≤ key b)) : sortSliceStable key l = l :=
  List.Sorted.insertionSort_eq h

theorem lastN_length_le {α : Type} (n : Nat) (l : List α) : (lastN n l).length ≤ n := by
  unfold lastN
  rw [List.length_drop]
  omega

theorem lastN_sublist {α : Type} (n : Nat) (l : List α) : (lastN n l).Sublist l :=
  List.drop_sublist _ l

theorem lastN_of_le {α : Type} (n : Nat) (l : List α) (h : l.length ≤ n) : lastN n l = l := by
  unfold lastN
  rw [Nat.sub_eq_zero_of_le h]
  rfl

/-- The loop of the candle history handler keeps, of the entries that are not
nil, the first with each timestamp. -/
theorem BasicStrategy.checkedCandles_fold (l : List (Option Candle)) :
    ∀ (acc : List Candle) (seen : Finset (Time × TimeRest)),
      (l.foldl
        (fun (acc : List Candle × Finset (Time × TimeRest)) v =>
          match v with
          | none => acc
          | some c =>
            if c.DatetimeKey ∈ acc.2 then acc else (acc.1 ++ [c], insert c.DatetimeKey acc.2))
        (acc, seen)).1
      = acc ++ (keepFirstByTime (l.filterMap id)).filter (fun x => decide (x.DatetimeKey ∉ seen)) := by
  induction l with
  | nil =>
    intro acc seen
    simp [keepFirstByTime]
  | cons v l ih =>
    intro acc seen
    cases v with
    | none =>
      simp only [List.foldl_cons, List.filterMap_cons_none, id_eq]
      exact ih acc seen
    | some c =>
      simp only [List.foldl_cons, List.filterMap_cons_some, id_eq, keepFirstByTime]
      by_cases hc : c.DatetimeKey ∈ seen
      · rw [if_pos hc, ih acc seen]
        congr 1
        rw [List.filter_cons_of_neg (by simpa using hc), List.filter_filter]
        apply List.filter_congr
        intro x _
        by_cases hx : x.DatetimeKey ∈ seen
        · simp [hx]
        · have : x.DatetimeKey ≠ c.DatetimeKey := fun h => hx (h ▸ hc)
          simp [hx, this]
      · rw [if_neg hc, ih (acc ++ [c]) (insert c.DatetimeKey seen)]
        rw [List.filter_cons_of_pos (by simpa using hc), List.filter_filter, List.append_assoc,
          List.singleton_append]
        congr 2
        apply List.filter_congr
        intro x _
        by_cases hx1 : x.DatetimeKey = c.DatetimeKey <;> by_cases hx2 : x.DatetimeKey ∈ seen <;>
          simp [hx1, hx2]

theorem BasicStrategy.checkedCandles_eq (l : List (Option Candle)) :
    BasicStrategy.checkedCandles l = keepFirstByTime (l.filterMap id) := by
  unfold BasicStrategy.checkedCandles
  refine Eq.trans (BasicStrategy.checkedCandles_fold l [] ∅) ?_
  simp

/-- The loop of the tick history handler keeps every entry that is not nil. -/
theorem BasicStrategy.checkedTicks_fold (l : List (Option Tick)) :
    ∀ acc : List Tick,
      l.foldl
        (fun acc v =>
          match v with
          | none => acc
          | some t => acc ++ [t])
        acc
      = acc ++ l.filterMap id := by
  induction l with
  | nil =>
    intro acc
    simp
  | cons v l ih =>
    intro acc
    cases v with
    | none =>
      simp only [List.foldl_cons, List.filterMap_cons_none, id_eq]
      exact ih acc
    | some c =>
      simp only [List.foldl_cons, List.filterMap_cons_some, id_eq]
      rw [ih (acc ++ [c]), List.append_assoc]
      rfl

theorem BasicStrategy.checkedTicks_eq (l : List (Option Tick)) :
    BasicStrategy.checkedTicks l = l.filterMap id := by
  unfold BasicStrategy.checkedTicks
  exact Eq.trans (BasicStrategy.checkedTicks_fold l []) rfl

theorem filterMap_merged {α : Type} (window : List α) (incoming : List (Option α)) :
    (window.map some ++ incoming).filterMap id = window ++ incoming.filterMap id := by
  rw [List.filterMap_append, List.filterMap_map]
  congr 1
  induction window with
  | nil => rfl
  | cons a l ih => simp

theorem keepFirstByTime_sublist (l : List Candle) : (keepFirstByTime l).Sublist l := by
  induction l with
  | nil => exact List.Sublist.refl _
  | cons c l ih =>
    unfold keepFirstByTime
    exact List.Sublist.cons₂ c ((List.filter_sublist _).trans ih)

/-- No two of the candles kept have the same timestamp. -/
theorem keepFirstByTime_nodup (l : List Candle) :
    ((keepFirstByTime l).map Candle.DatetimeKey).Nodup := by
  induction l with
  | nil => exact List.nodup_nil
  | cons c l ih =>
    unfold keepFirstByTime
    rw [List.map_cons, List.nodup_cons]
    refine ⟨?_, (ih.sublist ((List.filter_sublist _).map _))⟩
    intro hmem
    obtain ⟨x, hx, hxc⟩ := List.mem_map.mp hmem
    have := (List.mem_filter.mp hx).2
    simp only [ne_eq, decide_not, Bool.not_eq_true', decide_eq_false_iff_not] at this
    exact this hxc

/-- Every timestamp of the list is the timestamp of a candle that is kept. -/
theorem keepFirstByTime_covers (l : List Candle) (c : Candle) (hc : c ∈ l) :
    ∃ x ∈ keepFirstByTime l, x.DatetimeKey = c.DatetimeKey := by
  induction l with
  | nil => cases hc
  | cons a l ih =>
    unfold keepFirstByTime
    rcases List.mem_cons.mp hc with rfl | hc
    · exact ⟨c, List.mem_cons_self _ _, rfl⟩
    · obtain ⟨x, hx, hxc⟩ := ih hc
      by_cases hxa : x.DatetimeKey = a.DatetimeKey
      · exact ⟨a, List.mem_cons_self _ _, hxa.symm.trans hxc⟩
      · exact ⟨x, List.mem_cons_of_mem _ (List.mem_filter.mpr ⟨hx, by simpa using hxa⟩), hxc⟩

/-- The whole second of a timestamp grows with the timestamp. -/
theorem Time.unix_mono {t u : Time} (h : t.unixNano ≤ u.unixNano) : t.Unix ≤ u.Unix := by
  unfold Time.Unix
  exact Int.ediv_le_ediv (by norm_num) h

/-- Timestamps on whole seconds are ordered as their seconds are. -/
theorem Time.le_of_unix_le {t u : Time} (ht : t.unixNano % 1000000000 = 0)
    (hu : u.unixNano % 1000000000 = 0) (h : t.Unix ≤ u.Unix) : t.unixNano ≤ u.unixNano := by
  unfold Time.Unix at h
  omega

/-- A list sorted by second, of entries on whole seconds, is sorted by time. -/
theorem AscendingBySecond.byTime {α : Type} {time : α → Time} {l : List α}
    (h : AscendingBySecond time l) (hw : ∀ a ∈ l, (time a).unixNano % 1000000000 = 0) :
    AscendingByTime time l := by
  unfold AscendingBySecond at h
  unfold AscendingByTime
  exact List.Pairwise.imp_of_mem (fun ha hb hab => Time.le_of_unix_le (hw _ ha) (hw _ hb) hab) h

/-- Every entry of a sorted list is below its last entry. -/
theorem sorted_le_last {α : Type} (key : α → Int) (l : List α)
    (hs : l.Sorted (fun a b => key a ≤ key b)) (z : α) (hz : l.getLast? = some z) :
    ∀ a ∈ l, key a ≤ key z := by
  induction l with
  | nil => cases hz
  | cons x l ih =>
    intro a ha
    cases l with
    | nil =>
      simp only [List.getLast?_singleton, Option.some.injEq] at hz
      simp only [List.mem_singleton] at ha
      rw [ha, hz]
    | cons y l =>
      have hz2 : (y :: l).getLast? = some z := by
        rw [List.getLast?_cons_cons] at hz
        exact hz
      have hs2 := List.Sorted.of_cons hs
      rcases List.mem_cons.mp ha with rfl | ha
      · have hzmem : z ∈ y :: l := List.mem_of_getLast?_eq_some hz2
        exact List.rel_of_sorted_cons hs z hzmem
      · exact ih hs2 hz2 a ha

/-- Appending an entry that is not below the last keeps the list sorted. -/
theorem sorted_append_last {α : Type} (key : α → Int) (l : List α) (c : α)
    (hs : l.Sorted (fun a b => key a ≤ key b))
    (hl : ∀ z, l.getLast? = some z → key z ≤ key c) :
    (l ++ [c]).Sorted (fun a b => key a ≤ key b) := by
  unfold List.Sorted
  rw [List.pairwise_append]
  refine ⟨hs, List.pairwise_singleton _ _, fun a ha b hb => ?_⟩
  rw [List.mem_singleton.mp hb]
  cases hz : l.getLast? with
  | none =>
    rw [List.getLast?_eq_none_iff] at hz
    rw [hz] at ha
    cases ha
  | some z => exact le_trans (sorted_le_last key l hs z hz a ha) (hl z hz)

/-! ## The windows after the handlers -/

theorem BasicStrategy.updateLastCandleOpen_candles (b : BasicStrategy) :
    b.updateLastCandleOpen.Candles = b.Candles :=
  (BasicStrategy.updateLastCandleOpen_frame b).2.2.2.1

/-- The candle window after a history event with a list that is not empty. -/
theorem BasicStrategy.candleHistory_window (b : BasicStrategy) (e : CandlesHistoryEvent)
    (n : Nat) (hn : b.NPeriods = n) (he : e.Candles ≠ []) :
    (b.onCandleHistoryHandler e).2 = .ok ()
    ∧ (b.onCandleHistoryHandler e).1.Candles
      = candleWindowAsStated (fun c => c.Datetime.Unix) n b.Candles e.Candles := by
  have hlen : ¬ e.Candles.length = 0 := fun h => he (List.length_eq_zero.mp h)
  unfold BasicStrategy.onCandleHistoryHandler candleWindowAsStated
  rw [if_neg hlen]
  dsimp only
  rw [BasicStrategy.checkedCandles_eq, filterMap_merged, hn]
  generalize sortSliceStable (fun c => c.Datetime.Unix)
    (keepFirstByTime (b.Candles ++ e.Candles.filterMap id)) = checked
  split_ifs with h1 h2
  · omega
  · refine ⟨rfl, ?_⟩
    rw [BasicStrategy.updateLastCandleOpen_candles]
    simp only [Int.toNat_ofNat]
    rfl
  · refine ⟨rfl, ?_⟩
    rw [BasicStrategy.updateLastCandleOpen_candles]
    exact (lastN_of_le n checked (by omega)).symm

/-- A candle history event with an empty list changes nothing. -/
theorem BasicStrategy.candleHistory_empty (b : BasicStrategy) (e : CandlesHistoryEvent)
    (he : e.Candles = []) : b.onCandleHistoryHandler e = (b, .ok ()) := by
  unfold BasicStrategy.onCandleHistoryHandler
  rw [he]
  rfl

/-- The tick window after a history event with a list that is not empty. -/
theorem BasicStrategy.tickHistory_window (b : BasicStrategy) (e : TickHistoryEvent)
    (n : Nat) (hn : b.NPeriods = n) (he : e.Ticks ≠ []) :
    (b.onTickHistoryHandler e).2 = .ok ()
    ∧ (b.onTickHistoryHandler e).1.Ticks
      = tickWindowMerged (fun t => t.Datetime.Unix) n b.Ticks e.Ticks := by
  have hlen : ¬ e.Ticks.length = 0 := fun h => he (List.length_eq_zero.mp h)
  unfold BasicStrategy.onTickHistoryHandler tickWindowMerged
  rw [if_neg hlen]
  dsimp only
  rw [BasicStrategy.checkedTicks_eq, filterMap_merged, hn]
  generalize sortSliceStable (fun t => t.Datetime.Unix)
    (b.Ticks ++ e.Ticks.filterMap id) = checked
  split_ifs with h1 h2
  · omega
  · refine ⟨rfl, ?_⟩
    simp only [Int.toNat_ofNat]
    rfl
  · exact ⟨rfl, (lastN_of_le n checked (by omega)).symm⟩

/-- A tick history event with an empty list changes nothing. -/
theorem BasicStrategy.tickHistory_empty (b : BasicStrategy) (e : TickHistoryEvent)
    (he : e.Ticks = []) : b.onTickHistoryHandler e = (b, .ok ()) := by
  unfold BasicStrategy.onTickHistoryHandler
  rw [he]
  rfl

/-- The window after a new entry was put, for a window of at most `n` entries:
`putNewCandle` and `putNewTick` build it in the same way. -/
theorem window_put {α : Type} (time : α → Time) (window : List α) (c : α) (n : Nat)
    (h1 : 1 ≤ n) (hlen : window.length ≤ n) (result : List α)
    (hnot : (window.length : Int) < (n : Int) → result = window ++ [c])
    (hfull : ¬ (window.length : Int) < (n : Int) → ∀ x rest, window = x :: rest →
      result =
        if (match window.getLast? with
            | some l => (time c).Before (time l)
            | none => false) = true
        then sortSliceStable (fun x => (time x).Unix) (rest ++ [c])
        else rest ++ [c]) :
    result.length ≤ n
    ∧ (AscendingBySecond time window →
      (window.length = n ∨ ∀ z, window.getLast? = some z → (time c).Before (time z) = false) →
      AscendingBySecond time result) := by
  have hkey : ∀ z, (time c).Before (time z) = false → (time z).Unix ≤ (time c).Unix := by
    intro z hz
    have := of_decide_eq_false hz
    exact Time.unix_mono (by omega)
  by_cases hlt : (window.length : Int) < (n : Int)
  · rw [hnot hlt]
    refine ⟨by rw [List.length_append]; simp only [List.length_singleton]; omega, fun hs hor => ?_⟩
    rcases hor with hor | hor
    · omega
    · exact sorted_append_last (fun x => (time x).Unix) window c hs (fun z hz => hkey z (hor z hz))
  · cases window with
    | nil =>
      simp only [List.length_nil] at hlt
      omega
    | cons x rest =>
      rw [hfull hlt x rest rfl]
      simp only [List.length_cons] at hlen
      split_ifs with hsort
      · refine ⟨?_, fun _ _ => sortSliceStable_sorted _ _⟩
        rw [sortSliceStable_length, List.length_append]
        simp only [List.length_singleton]
        omega
      · refine ⟨by rw [List.length_append]; simp only [List.length_singleton]; omega,
          fun hs _ => ?_⟩
        have hall : ((x :: rest) ++ [c]).Sorted
            (fun a b => (time a).Unix ≤ (time b).Unix) := by
          refine sorted_append_last (fun x => (time x).Unix) (x :: rest) c hs (fun z hz => ?_)
          rw [hz] at hsort
          simp only [Bool.not_eq_true] at hsort
          exact hkey z hsort
        exact List.Sorted.of_cons hall

/-- The candle window after `putNewCandle`, for a window of at most `n` entries. -/
theorem BasicStrategy.putNewCandle_window (b : BasicStrategy) (c : Candle) (n : Nat)
    (hn : b.NPeriods = n) (h1 : 1 ≤ n) (hlen : b.Candles.length ≤ n) :
    (b.putNewCandle (some c)).2 = .ok ()
    ∧ (b.putNewCandle (some c)).1.Candles.length ≤ n
    ∧ (AscendingBySecond Candle.Datetime b.Candles →
      (b.Candles.length = n
        ∨ ∀ z, b.Candles.getLast? = some z → c.Datetime.Before z.Datetime = false) →
      AscendingBySecond Candle.Datetime (b.putNewCandle (some c)).1.Candles) := by
  have hok : (b.putNewCandle (some c)).2 = .ok () := by
    unfold BasicStrategy.putNewCandle
    dsimp only
    by_cases hlt : (b.Candles.length : Int) < b.NPeriods
    · rw [if_pos hlt]
    · rw [if_neg hlt]
      cases hc : b.Candles with
      | nil =>
        rw [hc, hn] at hlt
        simp only [List.length_nil] at hlt
        omega
      | cons x rest => rfl
  refine ⟨hok, window_put Candle.Datetime b.Candles c n h1 hlen _ (fun hlt => ?_)
    (fun hlt x rest hx => ?_)⟩
  · unfold BasicStrategy.putNewCandle
    dsimp only
    rw [hn, if_pos hlt]
    exact BasicStrategy.updateLastCandleOpen_candles _
  · unfold BasicStrategy.putNewCandle
    dsimp only
    rw [hn, if_neg hlt, hx]
    dsimp only
    rw [BasicStrategy.updateLastCandleOpen_candles]
    split_ifs <;> first | rfl | contradiction

/-- The tick window after `putNewTick`, for a window of at most `n` entries. -/
theorem BasicStrategy.putNewTick_window (b : BasicStrategy) (c : Tick) (n : Nat)
    (hn : b.NPeriods = n) (h1 : 1 ≤ n) (hlen : b.Ticks.length ≤ n) :
    (b.putNewTick (some c)).2 = .ok ()
    ∧ (b.putNewTick (some c)).1.Ticks.length ≤ n
    ∧ (AscendingBySecond Tick.Datetime b.Ticks →
      (b.Ticks.length = n
        ∨ ∀ z, b.Ticks.getLast? = some z → c.Datetime.Before z.Datetime = false) →
      AscendingBySecond Tick.Datetime (b.putNewTick (some c)).1.Ticks) := by
  have hok : (b.putNewTick (some c)).2 = .ok () := by
    unfold BasicStrategy.putNewTick
    dsimp only
    by_cases hlt : (b.Ticks.length : Int) < b.NPeriods
    · rw [if_pos hlt]
    · rw [if_neg hlt]
      cases hc : b.Ticks with
      | nil =>
        rw [hc, hn] at hlt
        simp only [List.length_nil] at hlt
        omega
      | cons x rest => rfl
  refine ⟨hok, window_put Tick.Datetime b.Ticks c n h1 hlen _ (fun hlt => ?_)
    (fun hlt x rest hx => ?_)⟩
  · unfold BasicStrategy.putNewTick
    dsimp only
    rw [hn, if_pos hlt]
  · unfold BasicStrategy.putNewTick
    dsimp only
    rw [hn, if_neg hlt, hx]
    dsimp only
    split_ifs <;> first | rfl | contradiction

/-! ## Runs of the strategy: the counter of requests in flight -/

/-- The effect of a call on the counter and on the calls of `OnTick`: the
counter goes up by one with a request sent, down by one with a confirmation, a
rejection or a cancel event, and `OnTick` is called only when the counter is
not positive. -/
theorem BasicStrategy.call_gate (fmt : Time → String) (b : BasicStrategy)
    (c : StrategyCall) (b1 : BasicStrategy) (r : Outcome Unit)
    (h : b.call fmt c = some (b1, r)) :
    (b1.onTickCalls ≠ b.onTickCalls → b.waitingN ≤ 0)
    ∧ b1.waitingN = b.waitingN + (if (b.requested fmt c).isSome then 1 else 0)
        - (if c.answers.isSome then 1 else 0) := by
  cases c with
  | onTickHandler e =>
    obtain ⟨h1, -, -, h4⟩ := BasicStrategy.tick_frame b e b1 r h
    refine ⟨fun _ => h1, ?_⟩
    simp only [BasicStrategy.requested, StrategyCall.answers, Option.isSome_none,
      Bool.false_eq_true, if_false]
    omega
  | newOrder order =>
    have hb : b1 = (b.newOrder fmt order).1 := by
      simp only [BasicStrategy.call, Option.some.injEq] at h
      rw [h]
    rw [hb]
    obtain ⟨-, -, h3, h4⟩ := BasicStrategy.newOrder_frame fmt b order
    refine ⟨fun hne => absurd h3.2.1 hne, ?_⟩
    rcases h4 with ⟨-, hw, tag, ht⟩ | ⟨-, hw, ht⟩
    · rw [hw, ht]
      simp [StrategyCall.answers]
    · rw [hw, ht]
      simp [StrategyCall.answers]
  | CancelOrder ordID =>
    have hb : b1 = (b.CancelOrder ordID).1 := by
      simp only [BasicStrategy.call, Option.some.injEq] at h
      rw [h]
    rw [hb]
    obtain ⟨-, -, h3, h4⟩ := BasicStrategy.cancelRequest_frame fmt b ordID
    refine ⟨fun hne => absurd h3.2.1 hne, ?_⟩
    rcases h4 with ⟨-, hw, tag, ht⟩ | ⟨-, hw, ht⟩
    · rw [hw, ht]
      simp [StrategyCall.answers]
    · rw [hw, ht]
      simp [StrategyCall.answers]
  | onOrderConfirmHandler e =>
    have hb : b1 = (b.onOrderConfirmHandler e).1 := by
      simp only [BasicStrategy.call, Option.some.injEq] at h
      rw [h]
    rw [hb]
    obtain ⟨-, -, h3, h4⟩ := BasicStrategy.confirm_frame b e
    refine ⟨fun hne => absurd h3.2.1 hne, ?_⟩
    rw [h4]
    simp [BasicStrategy.requested, StrategyCall.answers]
  | onOrderCancelHandler e =>
    have hb : b1 = (b.onOrderCancelHandler e).1 := by
      simp only [BasicStrategy.call, Option.some.injEq] at h
      rw [h]
    rw [hb]
    obtain ⟨-, -, h3, h4⟩ := BasicStrategy.cancel_frame b e
    refine ⟨fun hne => absurd h3.2.1 hne, ?_⟩
    rw [h4]
    simp [BasicStrategy.requested, StrategyCall.answers]
  | onOrderRejectedHandler e =>
    have hb : b1 = (b.onOrderRejectedHandler e).1 := by
      simp only [BasicStrategy.call, Option.some.injEq] at h
      rw [h]
    rw [hb]
    obtain ⟨-, -, h3, h4⟩ := BasicStrategy.rejected_frame b e
    refine ⟨fun hne => absurd h3.2.1 hne, ?_⟩
    rw [h4]
    simp [BasicStrategy.requested, StrategyCall.answers]
  | onOrderFillHandler e =>
    have hb : b1 = (b.onOrderFillHandler e).1 := by
      simp only [BasicStrategy.call, Option.some.injEq] at h
      rw [h]
    rw [hb]
    obtain ⟨-, h3, h4⟩ := BasicStrategy.fill_frame b e
    refine ⟨fun hne => absurd h3.2.1 hne, ?_⟩
    rw [h4]
    simp [BasicStrategy.requested, StrategyCall.answers]
  | onTickHistoryHandler e =>
    have hb : b1 = (b.onTickHistoryHandler e).1 := by
      simp only [BasicStrategy.call, Option.some.injEq] at h
      rw [h]
    rw [hb]
    obtain ⟨-, -, h3, h4⟩ := BasicStrategy.tickHistory_frame b e
    refine ⟨fun hne => absurd h4 hne, ?_⟩
    rw [h3]
    simp [BasicStrategy.requested, StrategyCall.answers]
  | onCandleOpenHandler e =>
    have hb : b1 = (b.onCandleOpenHandler e).1 := by
      simp only [BasicStrategy.call, Option.some.injEq] at h
      rw [h]
    rw [hb]
    obtain ⟨-, h3, h4, -⟩ := BasicStrategy.candleOpen_frame b e
    refine ⟨fun hne => absurd h3.2.1 hne, ?_⟩
    rw [h4]
    simp [BasicStrategy.requested, StrategyCall.answers]
  | onCandleCloseHandler e =>
    have hb : b1 = (b.onCandleCloseHandler e).1 := by
      simp only [BasicStrategy.call, Option.some.injEq] at h
      rw [h]
    rw [hb]
    obtain ⟨-, h3, h4, -⟩ := BasicStrategy.candleClose_frame b e
    refine ⟨fun hne => absurd h3.2.1 hne, ?_⟩
    rw [h4]
    simp [BasicStrategy.requested, StrategyCall.answers]
  | onCandleHistoryHandler e =>
    have hb : b1 = (b.onCandleHistoryHandler e).1 := by
      simp only [BasicStrategy.call, Option.some.injEq] at h
      rw [h]
    rw [hb]
    obtain ⟨-, h3, h4, -⟩ := BasicStrategy.candleHistory_frame b e
    refine ⟨fun hne => absurd h3.2.1 hne, ?_⟩
    rw [h4]
    simp [BasicStrategy.requested, StrategyCall.answers]

/-- A call that answers no request, sends none. -/
theorem BasicStrategy.requested_of_answers (fmt : Time → String) (b : BasicStrategy)
    (c : StrategyCall) (tag : String) (h : c.answers = some tag) : b.requested fmt c = none := by
  cases c <;> first | rfl | cases h

/-- When the counter is the number of requests awaiting a response, and the
call answers only such a request, the counter is their number after the call
as well. -/
theorem BasicStrategy.awaiting_length (fmt : Time → String) (b : BasicStrategy)
    (c : StrategyCall) (b1 : BasicStrategy) (r : Outcome Unit) (pending : List String)
    (h : b.call fmt c = some (b1, r)) (hw : b.waitingN = pending.length)
    (ha : ∀ tag, c.answers = some tag → tag ∈ pending) :
    b1.waitingN = (b.awaiting fmt pending c).length := by
  have hg := (BasicStrategy.call_gate fmt b c b1 r h).2
  unfold BasicStrategy.awaiting
  cases hans : c.answers with
  | some tag =>
    have hmem := ha tag hans
    have hpos : 0 < pending.length := List.length_pos_of_mem hmem
    rw [hans, BasicStrategy.requested_of_answers fmt b c tag hans] at hg
    simp only [Option.isSome_none, Bool.false_eq_true, if_false, Option.isSome_some, if_true]
      at hg
    dsimp only
    rw [List.length_erase_of_mem hmem, hg, hw]
    omega
  | none =>
    rw [hans] at hg
    dsimp only
    cases hreq : b.requested fmt c with
    | some tag =>
      rw [hreq] at hg
      simp only [Option.isSome_none, Bool.false_eq_true, if_false, Option.isSome_some, if_true]
        at hg
      dsimp only
      rw [List.length_cons, hg, hw]
      omega
    | none =>
      rw [hreq] at hg
      simp only [Option.isSome_none, Bool.false_eq_true, if_false] at hg
      dsimp only
      rw [hg, hw]
      omega

/-- In calls whose broker events answer requests that await a response, the
counter stays the number of such requests and `OnTick` is called only when
there is none. -/
theorem BasicStrategy.gated_run (fmt : Time → String) (cs : List StrategyCall) :
    ∀ (b : BasicStrategy) (pending : List String), b.waitingN = pending.length →
      b.Answered fmt pending cs = true →
      b.Gated fmt pending cs = true
      ∧ ∀ b1, b.run fmt cs = some b1 → b1.waitingN = (b.awaitingAfter fmt pending cs).length := by
  induction cs with
  | nil =>
    intro b pending hw _
    refine ⟨rfl, fun b1 h => ?_⟩
    simp only [BasicStrategy.run, Option.some.injEq] at h
    rw [← h]
    exact hw
  | cons c cs ih =>
    intro b pending hw hans
    unfold BasicStrategy.Answered at hans
    unfold BasicStrategy.Gated BasicStrategy.run BasicStrategy.awaitingAfter
    rw [Bool.and_eq_true] at hans
    have hmem : ∀ tag, c.answers = some tag → tag ∈ pending := by
      intro tag ht
      have h1 := hans.1
      rw [ht] at h1
      exact of_decide_eq_true h1
    cases hc : b.call fmt c with
    | none => exact ⟨rfl, fun b1 h => by cases h⟩
    | some x =>
      obtain ⟨b2, r⟩ := x
      have h2 := hans.2
      rw [hc] at h2
      dsimp only at h2 ⊢
      have hstep := BasicStrategy.awaiting_length fmt b c b2 r pending hc hw hmem
      obtain ⟨g1, g2⟩ := ih b2 (b.awaiting fmt pending c) hstep h2
      refine ⟨?_, fun b1 h => ?_⟩
      · rw [g1, Bool.and_true, Bool.or_eq_true, decide_eq_true_eq]
        by_cases hne : b2.onTickCalls = b.onTickCalls
        · exact Or.inl hne
        · right
          have h0 := (BasicStrategy.call_gate fmt b c b2 r hc).1 hne
          rw [hw] at h0
          rw [List.isEmpty_iff, ← List.length_eq_zero]
          omega
      · split_ifs at h
        exact g2 b1 h

/-! ## The time of a candle close event -/

/-- A value that `strconvParseInt8` returns fits eight bits. -/
theorem strconvParseInt8_range (s : String) (m : Int) (h : strconvParseInt8 s = some m) :
    -128 ≤ m ∧ m ≤ 127 := by
  unfold strconvParseInt8 at h
  split at h
  · cases h
  · dsimp only at h
    split at h
    · cases h
    · rename_i c rest un hun
      split_ifs at h with h1 h2 h3
      · simp only [Option.some.injEq] at h
        have : ¬ (un > 128) := fun hgt => h2 ⟨h3, hgt⟩
        omega
      · simp only [Option.some.injEq] at h
        have : ¬ (un ≥ 128) := fun hge => h1 ⟨h3, hge⟩
        omega

/-- The decimal string of a positive integer up to 127 is read as that integer. -/
theorem strconvParseInt8_decimal (N : Nat) (h1 : 1 ≤ N) (h2 : N ≤ 127) :
    strconvParseInt8 (Nat.repr N) = some (N : Int) := by
  interval_cases N <;> decide!

/-! ## The validity check of a candle -/

/-- The year of the era: between 0 and 399 for a day of the era. -/
theorem yearOfEra_bounds (doe : Int) (h0 : 0 ≤ doe) (h1 : doe ≤ 146096) :
    0 ≤ (doe - doe / 1460 + doe / 36524 - doe / 146096) / 365
    ∧ (doe - doe / 1460 + doe / 36524 - doe / 146096) / 365 ≤ 399 := by
  have hb : doe / 36524 = 0 ∨ doe / 36524 = 1 ∨ doe / 36524 = 2 ∨ doe / 36524 = 3
      ∨ doe / 36524 = 4 := by omega
  have hc : doe / 146096 = 0 ∨ doe / 146096 = 1 := by omega
  rcases hb with hb | hb | hb | hb | hb <;> rcases hc with hc | hc <;> rw [hb, hc] <;>
    constructor <;> omega

/-- In the era that starts on 1 March 1600, the year is 1995 or later exactly
from day 144211 of the era on, which is 1 January 1995. -/
theorem yearOfEra_1995 (doe : Int) (h0 : 0 ≤ doe) (h1 : doe ≤ 146096) :
    395 ≤ (doe - doe / 1460 + doe / 36524 - doe / 146096) / 365
        + (if (5 * (doe - (365 * ((doe - doe / 1460 + doe / 36524 - doe / 146096) / 365)
              + (doe - doe / 1460 + doe / 36524 - doe / 146096) / 365 / 4
              - (doe - doe / 1460 + doe / 36524 - doe / 146096) / 365 / 100)) + 2) / 153 < 10
            then 0 else 1)
    ↔ 144211 ≤ doe := by
  have hb : doe / 36524 = 0 ∨ doe / 36524 = 1 ∨ doe / 36524 = 2 ∨ doe / 36524 = 3
      ∨ doe / 36524 = 4 := by omega
  have hc : doe / 146096 = 0 ∨ doe / 146096 = 1 := by omega
  by_cases ha : doe < 143080
  · have hy : (doe - doe / 1460 + doe / 36524 - doe / 146096) / 365 ≤ 393 := by
      rcases hb with hb | hb | hb | hb | hb <;> rcases hc with hc | hc <;> rw [hb, hc] <;> omega
    split_ifs <;> omega
  · have ha2 : doe / 1460 = 98 ∨ doe / 1460 = 99 ∨ doe / 1460 = 100 := by omega
    have hb2 : doe / 36524 = 3 ∨ doe / 36524 = 4 := by omega
    rcases ha2 with ha2 | ha2 | ha2 <;> rcases hb2 with hb2 | hb2 <;>
      rcases hc with hc | hc <;> rw [ha2, hb2, hc] <;>
      generalize hy : (doe - _ + _ - _) / 365 = y <;>
      (have hy4 : y = 391 ∨ y = 392 ∨ y = 393 ∨ y = 394 ∨ y = 395 ∨ y = 396 ∨ y = 397
            ∨ y = 398 ∨ y = 399 := by omega) <;>
      rcases hy4 with h | h | h | h | h | h | h | h | h <;> subst h <;> split_ifs <;> omega

/-- The year of a civil date is 1995 or later exactly from day 9131 after the
epoch on, which is 1 January 1995. -/
theorem civilFromDays_year_ge_1995 (days : Int) :
    ¬ (civilFromDays days).1 < 1995 ↔ 9131 ≤ days := by
  unfold civilFromDays
  dsimp only
  generalize hz : days + 719468 = z
  generalize he : z / 146097 = era
  generalize hd : z - era * 146097 = doe
  have h0 : 0 ≤ doe := by omega
  have h1 : doe ≤ 146096 := by omega
  have hy := yearOfEra_bounds doe h0 h1
  have h95 := yearOfEra_1995 doe h0 h1
  generalize hyoe : (doe - doe / 1460 + doe / 36524 - doe / 146096) / 365 = yoe at hy h95 ⊢
  generalize hadj : (if (5 * (doe - (365 * yoe + yoe / 4 - yoe / 100)) + 2) / 153 < 10
    then (0 : Int) else 1) = adj at h95 ⊢
  have hadj2 : adj = 0 ∨ adj = 1 := by
    rw [← hadj]
    split_ifs
    · exact Or.inl rfl
    · exact Or.inr rfl
  rcases lt_trichotomy era 4 with hlt | heq | hgt
  · constructor
    · intro h
      omega
    · intro h
      omega
  · constructor
    · intro h
      have := h95.mp (by omega)
      omega
    · intro h
      have := h95.mpr (by omega)
      omega
  · constructor
    · intro h
      omega
    · intro h
      omega

/-- Of two values that are not NaN, the second is at most the first when the
first is not below it. -/
theorem F64.le_of_not_lt {a b : F64} (ha : a.isNaN = false) (hb : b.isNaN = false)
    (h : F64.lt a b = false) : F64.le b a = true := by
  cases a <;> cases b <;> simp [F64.lt, F64.le, F64.feq, F64.isNaN] at ha hb h ⊢
  rename_i x y
  rcases lt_or_eq_of_le h with h1 | h1
  · exact Or.inl h1
  · exact Or.inr h1

/-- The checks that `isValid` makes, one by one. -/
theorem Candle.isValid_iff (cal : Calendar) (c : Option Candle) :
    Candle.isValid cal c = true
    ↔ ∃ x, c = some x ∧ ¬ cal.Year x.DatetimeRest.loc x.Datetime < 1995
        ∧ F64.lt x.High x.Low = false
        ∧ F64.lt x.High x.Open = false ∧ F64.lt x.High x.Close = false
        ∧ F64.lt x.Open x.Low = false := by
  cases c with
  | none =>
    constructor
    · intro h
      cases h
    · rintro ⟨x, hx, -⟩
      cases hx
  | some x =>
    unfold Candle.isValid
    dsimp only
    constructor
    · intro h
      split_ifs at h with h1 h2 h3 h4 h5
      exact ⟨x, rfl, h1, by simpa using h2, by simpa using h3, by simpa using h4,
        by simpa using h5⟩
    · rintro ⟨y, hy, h1, h2, h3, h4, h5⟩
      cases hy
      rw [if_neg h1, h2, h3, h4, h5]
      rfl


/-- In a fixed zone the year is 1995 or later exactly from 1995-01-01 00:00:00
of the zone on. -/
theorem Calendar.fixedZones_year_ge_1995 (offset : Nat → Int) (loc : Nat) (t : Time) :
    ¬ (Calendar.fixedZones offset).Year loc t < 1995 ↔ 788918400 ≤ t.Unix + offset loc := by
  show ¬ (civilFromDays ((t.Unix + offset loc) / 86400)).1 < 1995 ↔ _
  rw [civilFromDays_year_ge_1995]
  omega
/-! ## The claims -/

/-- C1 (the code departs from the claim on trades reached through a Flat
successor). On every Flat trade reachable without passing to a flat successor
that holds `order` under `id` in `ConfirmedOrders`, a fill
`0 < d <= Qty - ExecQty` at a positive price `p`, computed without `int64`
overflow, makes `executeOrder` return no successor and no error; the trade
becomes Long for a Buy and Short for a Sell, which are the two sides it has,
with `Qty = d`, `OpenPrice = FirstPrice = p`, `OpenValue = d*p`,
`MarketValue = OpenValue`, `OpenTime = t`, `Id = order.Id`, and `ClosedPnL`
unchanged. On the reachable Flat trade `Sample.reusedIdFlat`, built on the Flat
successor whose id set was not rebuilt, the confirmed buy order `b2` for 5 is
held in `ConfirmedOrders` and its fill (5 at 99) is refused: the id is already
in `FilledOrders`. -/
theorem executeOrder_flat_opens :
    (∀ (t : Trade) (id : String) (order : Order) (d : Int) (p : F64) (tm : Time),
      ReachableNoFlatSuccessor t → t.Typ = FlatTrade →
      t.ConfirmedOrders.lookup id = some order →
      0 < d → d ≤ order.Qty - order.ExecQty → F64.lt 0 p = true → t.NoOverflow order d →
      (t.executeOrder64 id d p tm).2 = .ok none
      ∧ (order.Side = OrderBuy → (t.executeOrder64 id d p tm).1.Typ = LongTrade)
      ∧ (order.Side = OrderSell → (t.executeOrder64 id d p tm).1.Typ = ShortTrade)
      ∧ (order.Side = OrderBuy ∨ order.Side = OrderSell)
      ∧ (t.executeOrder64 id d p tm).1.Qty = d
      ∧ (t.executeOrder64 id d p tm).1.OpenPrice = p
      ∧ (t.executeOrder64 id d p tm).1.FirstPrice = p
      ∧ (t.executeOrder64 id d p tm).1.OpenValue = F64.ofInt d * p
      ∧ (t.executeOrder64 id d p tm).1.MarketValue = (t.executeOrder64 id d p tm).1.OpenValue
      ∧ (t.executeOrder64 id d p tm).1.OpenTime = tm
      ∧ (t.executeOrder64 id d p tm).1.Id = order.Id
      ∧ (t.executeOrder64 id d p tm).1.ClosedPnL = t.ClosedPnL)
    ∧ (Reachable Sample.reusedIdFlat
      ∧ Sample.reusedIdFlat.Typ = FlatTrade
      ∧ Sample.reusedIdFlat.ConfirmedOrders.lookup "b2"
        = some (Sample.confirmed (Sample.limitOrder "b2" OrderBuy 5 99))
      ∧ Sample.reusedIdFlat.NoOverflow (Sample.confirmed (Sample.limitOrder "b2" OrderBuy 5 99)) 5
      ∧ (Sample.reusedIdFlat.executeOrder64 "b2" 5 99 ⟨7⟩).2
        = .err "%v Can't execute order. ID already found in FilledOrders. Filled Qty:%v, Total Qty:%v,  id %v") := by
  refine ⟨fun t id order d p tm hr hflat hord hd hrem hp hno => ?_,
    Sample.reusedIdFlat_reachable, by decide!, by decide!, by decide!, by decide!⟩
  obtain ⟨hlive, hfresh⟩ := ReachableNoFlatSuccessor.confirmed_live hr id order hord
  have hside := (ReachableVia.sideKept hr).confirmed id order hord
  rw [Trade.executeOrder64_eq_of t id order d p tm hord hno]
  obtain ⟨a1, a2, a3, a4⟩ :=
    Trade.flat_opens_exact t id order d p tm hflat hord hd hrem hp hlive hfresh hside
  exact ⟨a1, a2, a3, hside, a4⟩

/-- Witness for C1: the first fill (25 at 50) of scenario S1. -/
theorem executeOrder_flat_opens_witness :
    (Sample.s1Confirmed.executeOrder64 "b" 25 50 ⟨1⟩).2 = .ok none
    ∧ (Sample.s1Confirmed.executeOrder64 "b" 25 50 ⟨1⟩).1.Typ = LongTrade
    ∧ (Sample.s1Confirmed.executeOrder64 "b" 25 50 ⟨1⟩).1.Qty = 25
    ∧ (Sample.s1Confirmed.executeOrder64 "b" 25 50 ⟨1⟩).1.OpenPrice = 50 :=
  by
  have h := executeOrder_flat_opens.1 Sample.s1Confirmed "b"
    (Sample.confirmed (Sample.limitOrder "b" OrderBuy 100 50)) 25 50 ⟨1⟩
    (Sample.s1Confirmed_reachable _) (by decide!) (by decide!) (by decide) (by decide)
    (by decide) (by decide!)
  exact ⟨h.1, h.2.1 (by decide), h.2.2.2.2.1, h.2.2.2.2.2.1⟩

/-- C2 (the code departs from the claim on trades reached through a Flat
successor). On every trade reachable without passing to a flat successor, for
a Long trade filled by a Buy order or a Short trade filled by a Sell order (the
order held under `id` in `ConfirmedOrders`, `0 < d <= Qty - ExecQty`, positive
price `p`, no `int64` operation of the call overflowing): `executeOrder` returns
no successor and no error, the type is unchanged, `Qty' = Qty + d`,
`OpenValue' = OpenValue + d*p`, `OpenPrice' = OpenValue'/Qty'`,
`MarketValue' = Qty'*p`, `ClosedPnL` is unchanged, and `OpenPnL'` is
`MarketValue' - OpenValue'` for Long and `OpenValue' - MarketValue'` for Short.
In particular (scenario S1), on such a flat trade the fills (25 at 50) then (75
at 52) of a buy order for 100 give Long, `Qty = 100`, `OpenPrice = 51.5`,
`OpenValue = 5150`. On the reachable Long trade `Sample.reusedId OrderBuy 5`,
built on the Flat successor whose id set was not rebuilt, the confirmed buy
order `b2` for 5 is held in `ConfirmedOrders` and its fill (5 at 99) is
refused: the id is already in `FilledOrders`. -/
theorem executeOrder_add_to_position :
    (∀ (t : Trade) (id : String) (order : Order) (d : Int) (p : F64) (tm : Time),
      ReachableNoFlatSuccessor t →
      ((t.Typ = LongTrade ∧ order.Side = OrderBuy)
        ∨ (t.Typ = ShortTrade ∧ order.Side = OrderSell)) →
      t.ConfirmedOrders.lookup id = some order →
      0 < d → d ≤ order.Qty - order.ExecQty → F64.lt 0 p = true → t.NoOverflow order d →
      (t.executeOrder64 id d p tm).2 = .ok none
      ∧ (t.executeOrder64 id d p tm).1.Typ = t.Typ
      ∧ (t.executeOrder64 id d p tm).1.Qty = t.Qty + d
      ∧ (t.executeOrder64 id d p tm).1.OpenValue = t.OpenValue + F64.ofInt d * p
      ∧ (t.executeOrder64 id d p tm).1.OpenPrice
          = (t.executeOrder64 id d p tm).1.OpenValue
            / F64.ofInt (t.executeOrder64 id d p tm).1.Qty
      ∧ (t.executeOrder64 id d p tm).1.MarketValue
          = F64.ofInt (t.executeOrder64 id d p tm).1.Qty * p
      ∧ (t.executeOrder64 id d p tm).1.ClosedPnL = t.ClosedPnL
      ∧ (t.Typ = LongTrade → (t.executeOrder64 id d p tm).1.OpenPnL
          = (t.executeOrder64 id d p tm).1.MarketValue
            - (t.executeOrder64 id d p tm).1.OpenValue)
      ∧ (t.Typ = ShortTrade → (t.executeOrder64 id d p tm).1.OpenPnL
          = (t.executeOrder64 id d p tm).1.OpenValue
            - (t.executeOrder64 id d p tm).1.MarketValue))
    ∧ (∀ (t : Trade) (id : String) (order : Order) (tm1 tm2 : Time),
      ReachableNoFlatSuccessor t →
      t.Typ = FlatTrade → t.ConfirmedOrders.lookup id = some order →
      order.Side = OrderBuy → order.Qty = 100 → order.ExecQty = 0 →
      (t.executeOrder64 id 25 50 tm1).2 = .ok none
      ∧ ((t.executeOrder64 id 25 50 tm1).1.executeOrder64 id 75 52 tm2).2 = .ok none
      ∧ ((t.executeOrder64 id 25 50 tm1).1.executeOrder64 id 75 52 tm2).1.Typ = LongTrade
      ∧ ((t.executeOrder64 id 25 50 tm1).1.executeOrder64 id 75 52 tm2).1.Qty = 100
      ∧ ((t.executeOrder64 id 25 50 tm1).1.executeOrder64 id 75 52 tm2).1.OpenPrice
          = F64.fin 51.5
      ∧ ((t.executeOrder64 id 25 50 tm1).1.executeOrder64 id 75 52 tm2).1.OpenValue = 5150)
    ∧ (Reachable (Sample.reusedId OrderBuy 5)
      ∧ (Sample.reusedId OrderBuy 5).Typ = LongTrade
      ∧ (Sample.reusedId OrderBuy 5).ConfirmedOrders.lookup "b2"
        = some (Sample.confirmed (Sample.limitOrder "b2" OrderBuy 5 99))
      ∧ (Sample.reusedId OrderBuy 5).NoOverflow
          (Sample.confirmed (Sample.limitOrder "b2" OrderBuy 5 99)) 5
      ∧ ((Sample.reusedId OrderBuy 5).executeOrder64 "b2" 5 99 ⟨7⟩).2
        = .err "%v Can't execute order. ID already found in FilledOrders. Filled Qty:%v, Total Qty:%v,  id %v") := by
  refine ⟨fun t id order d p tm hr hdir hord hd hrem hp hno => ?_,
    fun t id order tm1 tm2 hr hflat hord hside hqty hexec => ?_,
    Sample.reusedId_reachable _ _ (by decide!), by decide!, by decide!, by decide!, by decide!⟩
  · obtain ⟨hlive, hfresh⟩ := ReachableNoFlatSuccessor.confirmed_live hr id order hord
    rw [Trade.executeOrder64_eq_of t id order d p tm hord hno]
    exact Trade.add_to_position_exact.1 t id order d p tm hdir hord hd hrem hp hlive hfresh
  · obtain ⟨hlive, hfresh⟩ := ReachableNoFlatSuccessor.confirmed_live hr id order hord
    have e1 : FlatTrade ≠ ShortTrade := by decide
    have e2 : FlatTrade ≠ LongTrade := by decide
    have e3 : LongTrade ≠ ShortTrade := by decide
    have n1 : t.NoOverflow order 25 := by
      refine ⟨?_, ?_, fun h => ?_, fun h => ?_⟩
      · rw [hqty, hexec]
        decide
      · rw [hexec]
        decide
      · rw [hflat] at h
        rcases h with h | h
        · exact absurd h.1 e1
        · exact absurd h.1 e2
      · rw [hflat] at h
        rcases h with h | h
        · exact absurd h.1 e1
        · exact absurd h.1 e2
    rw [Trade.executeOrder64_eq_of t id order 25 50 tm1 hord n1]
    obtain ⟨f1, f2, f3⟩ :=
      Trade.scenario_first_fill t id order tm1 hflat hord hside hqty hexec hlive hfresh
    have n2 : (t.executeOrder id 25 50 tm1).1.NoOverflow (order.executed 50 25) 75 := by
      have q1 : (order.executed 50 25).Qty = 100 := hqty
      have q2 : (order.executed 50 25).ExecQty = 25 := by
        show order.ExecQty + 25 = 25
        rw [hexec]
        rfl
      have q3 : (order.executed 50 25).Side = OrderBuy := hside
      refine ⟨?_, ?_, fun _ => ?_, fun h => ?_⟩
      · rw [q1, q2]
        decide
      · rw [q2]
        decide
      · rw [f3]
        decide
      · rw [f2, q3] at h
        rcases h with h | h
        · exact absurd h.1 e3
        · exact absurd rfl h.2
    rw [Trade.executeOrder64_eq_of _ id (order.executed 50 25) 75 52 tm2 f1 n2]
    exact Trade.add_to_position_exact.2 t id order tm1 tm2 hflat hord hside hqty hexec hlive
      hfresh

/-- Witness for C2: the second fill (75 at 52) of scenario S1, and the whole
scenario from its confirmed order. -/
theorem executeOrder_add_to_position_witness :
    ((Sample.s1First.executeOrder64 "b" 75 52 ⟨2⟩).2 = .ok none
      ∧ (Sample.s1First.executeOrder64 "b" 75 52 ⟨2⟩).1.Qty = 25 + 75)
    ∧ ((Sample.s1Confirmed.executeOrder64 "b" 25 50 ⟨1⟩).1.executeOrder64 "b" 75 52 ⟨2⟩).1.OpenPrice
        = F64.fin 51.5 :=
  by
  have h := executeOrder_add_to_position.1 Sample.s1First "b"
    ((Sample.confirmed (Sample.limitOrder "b" OrderBuy 100 50)).executed 50 25) 75 52 ⟨2⟩
    (Sample.s1First_reachable _) (by decide!) (by decide!) (by decide) (by decide) (by decide)
    (by decide!)
  have h2 := executeOrder_add_to_position.2.1 Sample.s1Confirmed "b"
    (Sample.confirmed (Sample.limitOrder "b" OrderBuy 100 50)) ⟨1⟩ ⟨2⟩
    (Sample.s1Confirmed_reachable _) (by decide!) (by decide!) (by decide) (by decide)
    (by decide)
  exact ⟨⟨h.1, h.2.2.1.trans (by decide!)⟩, h2.2.2.2.2.1⟩

/-- C3 (the code departs from the claim on trades reached through a Flat
successor). On every trade reachable without passing to a flat successor, for
a Long trade filled by a Sell order or a Short trade filled by a Buy order (the
order held under `id` in `ConfirmedOrders`, `0 < d <= Qty - ExecQty`, positive
price `p`, no `int64` operation of the call overflowing) with `d` strictly below
the trade's `Qty`: `executeOrder` returns no successor and no error, the type
and `OpenPrice` are unchanged, `Qty' = Qty - d`, `ClosedPnL` grows by
`(p - OpenPrice)*d` for Long and `(OpenPrice - p)*d` for Short,
`OpenValue' = OpenPrice*Qty'`, `MarketValue' = Qty'*p`, and `OpenPnL'` is
`MarketValue' - OpenValue'` for Long and `OpenValue' - MarketValue'` for Short.
On the reachable Long trade `Sample.reusedId OrderSell 3` of quantity 5, built
on the Flat successor whose id set was not rebuilt, the confirmed sell order
`b2` for 3 is held in `ConfirmedOrders` and its fill (3 at 99) is refused: the
id is already in `FilledOrders`. -/
theorem executeOrder_partial_cover :
    (∀ (t : Trade) (id : String) (order : Order) (d : Int) (p : F64) (tm : Time),
      ReachableNoFlatSuccessor t →
      ((t.Typ = LongTrade ∧ order.Side = OrderSell)
        ∨ (t.Typ = ShortTrade ∧ order.Side = OrderBuy)) →
      d < t.Qty → t.ConfirmedOrders.lookup id = some order →
      0 < d → d ≤ order.Qty - order.ExecQty → F64.lt 0 p = true → t.NoOverflow order d →
      (t.executeOrder64 id d p tm).2 = .ok none
      ∧ (t.executeOrder64 id d p tm).1.Typ = t.Typ
      ∧ (t.executeOrder64 id d p tm).1.OpenPrice = t.OpenPrice
      ∧ (t.executeOrder64 id d p tm).1.Qty = t.Qty - d
      ∧ (t.Typ = LongTrade → (t.executeOrder64 id d p tm).1.ClosedPnL
          = t.ClosedPnL + (p - t.OpenPrice) * F64.ofInt d)
      ∧ (t.Typ = ShortTrade → (t.executeOrder64 id d p tm).1.ClosedPnL
          = t.ClosedPnL + (t.OpenPrice - p) * F64.ofInt d)
      ∧ (t.executeOrder64 id d p tm).1.OpenValue
          = t.OpenPrice * F64.ofInt (t.executeOrder64 id d p tm).1.Qty
      ∧ (t.executeOrder64 id d p tm).1.MarketValue
          = F64.ofInt (t.executeOrder64 id d p tm).1.Qty * p
      ∧ (t.Typ = LongTrade → (t.executeOrder64 id d p tm).1.OpenPnL
          = (t.executeOrder64 id d p tm).1.MarketValue
            - (t.executeOrder64 id d p tm).1.OpenValue)
      ∧ (t.Typ = ShortTrade → (t.executeOrder64 id d p tm).1.OpenPnL
          = (t.executeOrder64 id d p tm).1.OpenValue
            - (t.executeOrder64 id d p tm).1.MarketValue))
    ∧ (Reachable (Sample.reusedId OrderSell 3)
      ∧ (Sample.reusedId OrderSell 3).Typ = LongTrade
      ∧ (Sample.reusedId OrderSell 3).Qty = 5
      ∧ (Sample.reusedId OrderSell 3).ConfirmedOrders.lookup "b2"
        = some (Sample.confirmed (Sample.limitOrder "b2" OrderSell 3 99))
      ∧ (Sample.reusedId OrderSell 3).NoOverflow
          (Sample.confirmed (Sample.limitOrder "b2" OrderSell 3 99)) 3
      ∧ ((Sample.reusedId OrderSell 3).executeOrder64 "b2" 3 99 ⟨7⟩).2
        = .err "%v Can't execute order. ID already found in FilledOrders. Filled Qty:%v, Total Qty:%v,  id %v") := by
  refine ⟨fun t id order d p tm hr hdir hlt hord hd hrem hp hno => ?_,
    Sample.reusedId_reachable _ _ (by decide!), by decide!, by decide!, by decide!, by decide!,
    by decide!⟩
  obtain ⟨hlive, hfresh⟩ := ReachableNoFlatSuccessor.confirmed_live hr id order hord
  rw [Trade.executeOrder64_eq_of t id order d p tm hord hno]
  exact Trade.partial_cover_exact t id order d p tm hdir hlt hord hd hrem hp hlive hfresh

/-- Witness for C3: 40 of the long 100 of scenario S2 sold at 53. -/
theorem executeOrder_partial_cover_witness :
    (Sample.s2Confirmed.executeOrder64 "s" 40 53 ⟨3⟩).2 = .ok none
    ∧ (Sample.s2Confirmed.executeOrder64 "s" 40 53 ⟨3⟩).1.Typ = LongTrade
    ∧ (Sample.s2Confirmed.executeOrder64 "s" 40 53 ⟨3⟩).1.Qty = 60 := by
  have h := executeOrder_partial_cover.1 Sample.s2Confirmed "s"
    (Sample.confirmed (Sample.limitOrder "s" OrderSell 100 53)) 40 53 ⟨3⟩
    (Sample.s2Confirmed_reachable _)
    (Or.inl ⟨by decide!, by decide⟩) (by decide!) (by decide!) (by decide) (by decide)
    (by decide) (by decide!)
  exact ⟨h.1, h.2.1.trans (by decide!), h.2.2.2.1.trans (by decide!)⟩

/-- C4 (the code departs from the claim on trades reached through a Flat
successor). On every trade reachable without passing to a flat successor, for
a Long trade filled by a Sell order or a Short trade filled by a Buy order (the
order held under `id` in `ConfirmedOrders`, `0 < d <= Qty - ExecQty`, positive
price `p`, no `int64` operation of the call overflowing) with `d` equal to the
trade's `Qty`: `executeOrder` sets the type to Closed, `Qty`, `OpenValue`,
`MarketValue` and `OpenPnL` to 0, `CloseTime` to `t`, adds `(p - OpenPrice)*d`
(Long) or `(OpenPrice - p)*d` (Short) to `ClosedPnL`, and returns a successor
that is a Flat trade on the same ticker with `Qty = 0` and `ClosedPnL = 0`. In
particular (scenario S2) closing a long 100 at 51.5 with a sell fill (100 at 53)
realises 150, and the flat successor has empty books when that sell order was
the only live order. On the reachable Long trade `Sample.reusedId OrderSell 5`
of quantity 5, built on the Flat successor whose id set was not rebuilt, the
confirmed sell order `b2` for 5 is held in `ConfirmedOrders` and its fill (5 at
99) is refused: the id is already in `FilledOrders`; the trade stays Long and
no successor is returned. -/
theorem executeOrder_full_cover :
    (∀ (t : Trade) (id : String) (order : Order) (d : Int) (p : F64) (tm : Time),
      ReachableNoFlatSuccessor t →
      ((t.Typ = LongTrade ∧ order.Side = OrderSell)
        ∨ (t.Typ = ShortTrade ∧ order.Side = OrderBuy)) →
      d = t.Qty → t.ConfirmedOrders.lookup id = some order →
      0 < d → d ≤ order.Qty - order.ExecQty → F64.lt 0 p = true → t.NoOverflow order d →
      (t.executeOrder64 id d p tm).1.Typ = ClosedTrade
      ∧ (t.executeOrder64 id d p tm).1.Qty = 0
      ∧ (t.executeOrder64 id d p tm).1.OpenValue = 0
      ∧ (t.executeOrder64 id d p tm).1.MarketValue = 0
      ∧ (t.executeOrder64 id d p tm).1.OpenPnL = 0
      ∧ (t.executeOrder64 id d p tm).1.CloseTime = tm
      ∧ (t.Typ = LongTrade → (t.executeOrder64 id d p tm).1.ClosedPnL
          = t.ClosedPnL + (p - t.OpenPrice) * F64.ofInt d)
      ∧ (t.Typ = ShortTrade → (t.executeOrder64 id d p tm).1.ClosedPnL
          = t.ClosedPnL + (t.OpenPrice - p) * F64.ofInt d)
      ∧ ∃ s : Trade, (t.executeOrder64 id d p tm).2 = .ok (some s)
          ∧ s.Typ = FlatTrade ∧ s.Ticker = t.Ticker ∧ s.Qty = 0 ∧ s.ClosedPnL = 0)
    ∧ (∀ (t : Trade) (id : String) (order : Order) (tm : Time),
      ReachableNoFlatSuccessor t →
      t.Typ = LongTrade → t.Qty = 100 → t.OpenPrice = F64.fin 51.5 → t.ClosedPnL = 0 →
      order.Side = OrderSell → t.ConfirmedOrders.lookup id = some order →
      order.Qty - order.ExecQty = 100 → t.NoOverflow order 100 →
      t.NewOrders = ∅ → t.ConfirmedOrders.erase id = ∅ →
      (t.executeOrder64 id 100 53 tm).1.Typ = ClosedTrade
      ∧ (t.executeOrder64 id 100 53 tm).1.ClosedPnL = 150
      ∧ ∃ s : Trade, (t.executeOrder64 id 100 53 tm).2 = .ok (some s) ∧ s.Typ = FlatTrade
          ∧ s.NewOrders = ∅ ∧ s.ConfirmedOrders = ∅ ∧ s.FilledOrders = ∅
          ∧ s.CanceledOrders = ∅ ∧ s.RejectedOrders = ∅)
    ∧ (Reachable (Sample.reusedId OrderSell 5)
      ∧ (Sample.reusedId OrderSell 5).Typ = LongTrade
      ∧ (Sample.reusedId OrderSell 5).Qty = 5
      ∧ (Sample.reusedId OrderSell 5).ConfirmedOrders.lookup "b2"
        = some (Sample.confirmed (Sample.limitOrder "b2" OrderSell 5 99))
      ∧ (Sample.reusedId OrderSell 5).NoOverflow
          (Sample.confirmed (Sample.limitOrder "b2" OrderSell 5 99)) 5
      ∧ ((Sample.reusedId OrderSell 5).executeOrder64 "b2" 5 99 ⟨7⟩).2
        = .err "%v Can't execute order. ID already found in FilledOrders. Filled Qty:%v, Total Qty:%v,  id %v"
      ∧ ((Sample.reusedId OrderSell 5).executeOrder64 "b2" 5 99 ⟨7⟩).1.Typ = LongTrade) := by
  refine ⟨fun t id order d p tm hr hdir heq hord hd hrem hp hno => ?_,
    fun t id order tm hr hT hQ hP hC hside hord hrem hno hnew honly => ?_,
    Sample.reusedId_reachable _ _ (by decide!), by decide!, by decide!, by decide!, by decide!,
    by decide!, by decide!⟩
  · obtain ⟨hlive, hfresh⟩ := ReachableNoFlatSuccessor.confirmed_live hr id order hord
    rw [Trade.executeOrder64_eq_of t id order d p tm hord hno]
    exact Trade.full_cover_exact.1 t id order d p tm hdir heq hord hd hrem hp hlive hfresh
  · obtain ⟨hlive, hfresh⟩ := ReachableNoFlatSuccessor.confirmed_live hr id order hord
    rw [Trade.executeOrder64_eq_of t id order 100 53 tm hord hno]
    exact Trade.full_cover_exact.2 t id order tm hT hQ hP hC hside hord hrem hlive hfresh hnew
      honly

/-- Witness for C4: scenario S2, the sell fill (100 at 53) that closes the long
100 of scenario S1. -/
theorem executeOrder_full_cover_witness :
    (Sample.s2Confirmed.executeOrder64 "s" 100 53 ⟨3⟩).1.Typ = ClosedTrade
    ∧ (Sample.s2Confirmed.executeOrder64 "s" 100 53 ⟨3⟩).1.ClosedPnL = 150
    ∧ ∃ s : Trade, (Sample.s2Confirmed.executeOrder64 "s" 100 53 ⟨3⟩).2 = .ok (some s)
        ∧ s.Typ = FlatTrade ∧ s.NewOrders = ∅ ∧ s.ConfirmedOrders = ∅ ∧ s.FilledOrders = ∅
        ∧ s.CanceledOrders = ∅ ∧ s.RejectedOrders = ∅ :=
  executeOrder_full_cover.2.1 Sample.s2Confirmed "s"
    (Sample.confirmed (Sample.limitOrder "s" OrderSell 100 53)) ⟨3⟩
    (Sample.s2Confirmed_reachable _)
    (by decide!) (by decide!) (by decide!) (by decide!) (by decide) (by decide!) (by decide)
    (by decide!) (by decide!) (by decide!)

/-- C5 (the code departs from the claim on trades reached through a Flat
successor). On every trade reachable without passing to a flat successor, for
a Long trade filled by a Sell order or a Short trade filled by a Buy order (the
order held under `id` in `ConfirmedOrders`, `0 < d <= Qty - ExecQty`, positive
price `p`, no `int64` operation of the call overflowing) with `d` strictly above
the trade's `Qty = Q`: `executeOrder` closes the trade (type Closed, `Qty = 0`,
`CloseTime = t`) realising exactly `Q` units, `ClosedPnL` growing by
`(p - OpenPrice)*Q` for Long and `(OpenPrice - p)*Q` for Short, and returns a
successor of the opposite type with `Qty = d - Q`, `OpenPrice = p`,
`OpenValue = p*(d - Q)`, `MarketValue = OpenValue`, `OpenPnL = 0`,
`Id = order.Id`, `OpenTime = t`; hence successor `Qty` plus `Q` is `d`. In
particular (scenario S3) a long 10 at 100 hit by a sell fill (25 at 90) closes
with `ClosedPnL = -100` and yields a Short successor with `Qty = 15`,
`OpenPrice = 90`, `OpenValue = 1350`. On the reachable Long trade
`Sample.reusedId OrderSell 8` of quantity 5, built on the Flat successor whose
id set was not rebuilt, the confirmed sell order `b2` for 8 is held in
`ConfirmedOrders` and its fill (8 at 99) is refused: the id is already in
`FilledOrders`; the trade stays Long and no successor is returned. -/
theorem executeOrder_cover_and_flip :
    (∀ (t : Trade) (id : String) (order : Order) (d : Int) (p : F64) (tm : Time),
      ReachableNoFlatSuccessor t →
      ((t.Typ = LongTrade ∧ order.Side = OrderSell)
        ∨ (t.Typ = ShortTrade ∧ order.Side = OrderBuy)) →
      t.Qty < d → t.ConfirmedOrders.lookup id = some order →
      0 < d → d ≤ order.Qty - order.ExecQty → F64.lt 0 p = true → t.NoOverflow order d →
      (t.executeOrder64 id d p tm).1.Typ = ClosedTrade
      ∧ (t.executeOrder64 id d p tm).1.Qty = 0
      ∧ (t.executeOrder64 id d p tm).1.CloseTime = tm
      ∧ (t.Typ = LongTrade → (t.executeOrder64 id d p tm).1.ClosedPnL
          = t.ClosedPnL + (p - t.OpenPrice) * F64.ofInt t.Qty)
      ∧ (t.Typ = ShortTrade → (t.executeOrder64 id d p tm).1.ClosedPnL
          = t.ClosedPnL + (t.OpenPrice - p) * F64.ofInt t.Qty)
      ∧ ∃ s : Trade, (t.executeOrder64 id d p tm).2 = .ok (some s)
          ∧ (t.Typ = LongTrade → s.Typ = ShortTrade)
          ∧ (t.Typ = ShortTrade → s.Typ = LongTrade)
          ∧ s.Qty = d - t.Qty ∧ s.OpenPrice = p ∧ s.OpenValue = p * F64.ofInt (d - t.Qty)
          ∧ s.MarketValue = s.OpenValue ∧ s.OpenPnL = 0 ∧ s.Id = order.Id ∧ s.OpenTime = tm
          ∧ s.Qty + t.Qty = d)
    ∧ (∀ (t : Trade) (id : String) (order : Order) (tm : Time),
      ReachableNoFlatSuccessor t →
      t.Typ = LongTrade → t.Qty = 10 → t.OpenPrice = 100 → t.ClosedPnL = 0 →
      order.Side = OrderSell → t.ConfirmedOrders.lookup id = some order →
      25 ≤ order.Qty - order.ExecQty → t.NoOverflow order 25 →
      (t.executeOrder64 id 25 90 tm).1.Typ = ClosedTrade
      ∧ (t.executeOrder64 id 25 90 tm).1.ClosedPnL = F64.fin (-100)
      ∧ ∃ s : Trade, (t.executeOrder64 id 25 90 tm).2 = .ok (some s) ∧ s.Typ = ShortTrade
          ∧ s.Qty = 15 ∧ s.OpenPrice = 90 ∧ s.OpenValue = 1350)
    ∧ (Reachable (Sample.reusedId OrderSell 8)
      ∧ (Sample.reusedId OrderSell 8).Typ = LongTrade
      ∧ (Sample.reusedId OrderSell 8).Qty = 5
      ∧ (Sample.reusedId OrderSell 8).ConfirmedOrders.lookup "b2"
        = some (Sample.confirmed (Sample.limitOrder "b2" OrderSell 8 99))
      ∧ (Sample.reusedId OrderSell 8).NoOverflow
          (Sample.confirmed (Sample.limitOrder "b2" OrderSell 8 99)) 8
      ∧ ((Sample.reusedId OrderSell 8).executeOrder64 "b2" 8 99 ⟨7⟩).2
        = .err "%v Can't execute order. ID already found in FilledOrders. Filled Qty:%v, Total Qty:%v,  id %v"
      ∧ ((Sample.reusedId OrderSell 8).executeOrder64 "b2" 8 99 ⟨7⟩).1.Typ = LongTrade) := by
  refine ⟨fun t id order d p tm hr hdir hgt hord hd hrem hp hno => ?_,
    fun t id order tm hr hT hQ hP hC hside hord hrem hno => ?_,
    Sample.reusedId_reachable _ _ (by decide!), by decide!, by decide!, by decide!, by decide!,
    by decide!, by decide!⟩
  · obtain ⟨hlive, hfresh⟩ := ReachableNoFlatSuccessor.confirmed_live hr id order hord
    rw [Trade.executeOrder64_eq_of t id order d p tm hord hno]
    exact Trade.cover_and_flip_exact.1 t id order d p tm hdir hgt hord hd hrem hp hlive hfresh
  · obtain ⟨hlive, hfresh⟩ := ReachableNoFlatSuccessor.confirmed_live hr id order hord
    rw [Trade.executeOrder64_eq_of t id order 25 90 tm hord hno]
    exact Trade.cover_and_flip_exact.2 t id order tm hT hQ hP hC hside hord hrem hlive hfresh

/-- Witness for C5: scenario S3, the sell fill (25 at 90) on a long 10 at 100;
and its mirror image, a buy fill (25 at 90) on a short 10 at 100. -/
theorem executeOrder_cover_and_flip_witness :
    ((Sample.s3Confirmed.executeOrder64 "s" 25 90 ⟨3⟩).1.Typ = ClosedTrade
      ∧ (Sample.s3Confirmed.executeOrder64 "s" 25 90 ⟨3⟩).1.ClosedPnL = F64.fin (-100)
      ∧ ∃ s : Trade, (Sample.s3Confirmed.executeOrder64 "s" 25 90 ⟨3⟩).2 = .ok (some s)
          ∧ s.Typ = ShortTrade ∧ s.Qty = 15 ∧ s.OpenPrice = 90 ∧ s.OpenValue = 1350)
    ∧ (Sample.shortConfirmed.executeOrder64 "b" 25 90 ⟨3⟩).1.Typ = ClosedTrade := by
  have h1 := executeOrder_cover_and_flip.2.1 Sample.s3Confirmed "s"
    (Sample.confirmed (Sample.limitOrder "s" OrderSell 25 90)) ⟨3⟩
    (Sample.s3Confirmed_reachable _)
    (by decide!) (by decide!) (by decide!) (by decide!) (by decide) (by decide!) (by decide)
    (by decide!)
  have h2 := executeOrder_cover_and_flip.1 Sample.shortConfirmed "b"
    (Sample.confirmed (Sample.limitOrder "b" OrderBuy 25 90)) 25 90 ⟨3⟩
    (Sample.shortConfirmed_reachable _)
    (Or.inr ⟨by decide!, by decide⟩) (by decide!) (by decide!) (by decide) (by decide)
    (by decide) (by decide!)
  exact ⟨h1, h2.1⟩

/-- C6: exact carry-over of the live orders. Whenever `executeOrder` returns a
successor `s` (full cover or flip), the executed order was held under `id` in
`ConfirmedOrders`, and: `s.NewOrders` is the old `NewOrders`; `s.ConfirmedOrders`
is the old `ConfirmedOrders` minus the executed order if the fill completed it
(otherwise every order is carried over, the executed one with its fill
recorded); the successor's `FilledOrders`, `CanceledOrders` and `RejectedOrders`
are empty; the closed trade ends with empty `NewOrders` and `ConfirmedOrders`,
unchanged `CanceledOrders` and `RejectedOrders`, and `FilledOrders` unchanged
except for the just-completed order. -/
theorem executeOrder_successor_carry_over (t : Trade) (id : String) (d : Int) (p : F64)
    (tm : Time) (s : Trade) (h : (t.executeOrder id d p tm).2 = .ok (some s)) :
    ∃ order, t.ConfirmedOrders.lookup id = some order
      ∧ s.NewOrders = t.NewOrders
      ∧ s.ConfirmedOrders
          = (if d = order.Qty - order.ExecQty then t.ConfirmedOrders.erase id
             else t.ConfirmedOrders.insert id (order.addExecution p d).1)
      ∧ (∀ k, k ≠ id → s.ConfirmedOrders.lookup k = t.ConfirmedOrders.lookup k)
      ∧ (id ∈ s.ConfirmedOrders ↔ d ≠ order.Qty - order.ExecQty)
      ∧ s.FilledOrders = ∅ ∧ s.CanceledOrders = ∅ ∧ s.RejectedOrders = ∅
      ∧ (t.executeOrder id d p tm).1.NewOrders = ∅
      ∧ (t.executeOrder id d p tm).1.ConfirmedOrders = ∅
      ∧ (t.executeOrder id d p tm).1.CanceledOrders = t.CanceledOrders
      ∧ (t.executeOrder id d p tm).1.RejectedOrders = t.RejectedOrders
      ∧ (t.executeOrder id d p tm).1.FilledOrders
          = (if d = order.Qty - order.ExecQty
             then t.FilledOrders.insert id (order.addExecution p d).1
             else t.FilledOrders) := by
  obtain ⟨order, hord, hd, hrem, hp, hlive, b1, b2, b3, b4, b5, c1, c2, c3, c4, c5⟩ :=
    Trade.executeOrder_successor_books t id d p tm s h
  have hadd := Order.addExecution_ok order p d hlive hp hd (by omega)
  have hconf : s.ConfirmedOrders
      = (if d = order.Qty - order.ExecQty then t.ConfirmedOrders.erase id
         else t.ConfirmedOrders.insert id (order.addExecution p d).1) := by
    rw [b2, hadd]
    unfold Trade.recorded
    split <;> rfl
  refine ⟨order, hord, b1, hconf, ?_, ?_, b3, b4, b5, c1, c2, c3, c4, ?_⟩
  · intro k hk
    rw [hconf]
    split
    · exact Finmap.lookup_erase_ne hk
    · exact Finmap.lookup_insert_of_ne _ hk
  · rw [hconf]
    split
    · rename_i hfull
      simp [hfull]
    · rename_i hfull
      simp [hfull]
  · rw [c5, hadd]
    unfold Trade.recorded
    split <;> rfl

/-- Witness for C6: the flip of the sample trade `flipLive`, a long 10 with a
confirmed sell order `s` for 25 and a second confirmed order `b2`. The successor
holds `b2` in `ConfirmedOrders` as it was held before the call, does not hold
the completed order `s`, and has the old `NewOrders`; the closed trade has empty
live books and holds `s` in `FilledOrders`. -/
theorem executeOrder_successor_carry_over_witness :
    ∃ s : Trade, (Sample.flipLive.executeOrder "s" 25 90 ⟨3⟩).2 = .ok (some s)
      ∧ s.NewOrders = Sample.flipLive.NewOrders
      ∧ s.ConfirmedOrders = Sample.flipLive.ConfirmedOrders.erase "s"
      ∧ s.ConfirmedOrders.lookup "b2"
        = some (Sample.confirmed (Sample.limitOrder "b2" OrderBuy 5 99))
      ∧ "s" ∉ s.ConfirmedOrders
      ∧ s.FilledOrders = ∅ ∧ s.CanceledOrders = ∅ ∧ s.RejectedOrders = ∅
      ∧ (Sample.flipLive.executeOrder "s" 25 90 ⟨3⟩).1.ConfirmedOrders = ∅
      ∧ "s" ∈ (Sample.flipLive.executeOrder "s" 25 90 ⟨3⟩).1.FilledOrders := by
  have hs : (Sample.flipLive.executeOrder "s" 25 90 ⟨3⟩).2
      = .ok (some (Sample.successorOf (Sample.flipLive.executeOrder "s" 25 90 ⟨3⟩))) := by
    decide!
  obtain ⟨order, h1, h2, h3, h4, h5, h6, h7, h8, -, h10, -, -, h13⟩ :=
    executeOrder_successor_carry_over Sample.flipLive "s" 25 90 ⟨3⟩ _ hs
  have ho : order = Sample.confirmed (Sample.limitOrder "s" OrderSell 25 90) := by
    have h0 : Sample.flipLive.ConfirmedOrders.lookup "s"
        = some (Sample.confirmed (Sample.limitOrder "s" OrderSell 25 90)) := by decide!
    rw [h0] at h1
    exact (Option.some.inj h1).symm
  subst ho
  have hfull : (25 : Int) = (Sample.confirmed (Sample.limitOrder "s" OrderSell 25 90)).Qty
      - (Sample.confirmed (Sample.limitOrder "s" OrderSell 25 90)).ExecQty := by decide
  refine ⟨_, hs, h2, ?_, ?_, ?_, h6, h7, h8, h10, ?_⟩
  · rw [h3, if_pos hfull]
  · rw [h4 "b2" (by decide)]
    decide!
  · exact fun hm => (h5.mp hm) hfull
  · rw [h13, if_pos hfull]
    exact Finmap.mem_insert.mpr (Or.inl rfl)
/-- C7 (the code departs from the claim): the flat successor of a full cover
keeps the id set of `newFlatTrade`, which is empty, although it takes over the
live books; only the flip successor rebuilds the set. On a long 10 with a
confirmed sell order for 10 and a second confirmed order `b2`, the sell fill of
10 returns a Flat successor that holds `b2` in `ConfirmedOrders` while its
`AllOrdersIDMap` is empty, so it differs from the ids of the transferred books,
and a second order with the id `b2` is then accepted by `putNewOrder`. The flip
successor of the same position, in contrast, lists the transferred `b2`. -/
theorem flat_successor_id_set_not_rebuilt :
    (Sample.liveConfirmed.executeOrder "s" 10 101 ⟨5⟩).2
        = .ok (some (Sample.successorOf (Sample.liveConfirmed.executeOrder "s" 10 101 ⟨5⟩)))
    ∧ (Sample.successorOf (Sample.liveConfirmed.executeOrder "s" 10 101 ⟨5⟩)).Typ = FlatTrade
    ∧ "b2" ∈ (Sample.successorOf
        (Sample.liveConfirmed.executeOrder "s" 10 101 ⟨5⟩)).ConfirmedOrders
    ∧ (Sample.successorOf (Sample.liveConfirmed.executeOrder "s" 10 101 ⟨5⟩)).AllOrdersIDMap = ∅
    ∧ (Sample.successorOf (Sample.liveConfirmed.executeOrder "s" 10 101 ⟨5⟩)).AllOrdersIDMap
        ≠ (Sample.successorOf
            (Sample.liveConfirmed.executeOrder "s" 10 101 ⟨5⟩)).NewOrders.orderIds
          ∪ (Sample.successorOf
            (Sample.liveConfirmed.executeOrder "s" 10 101 ⟨5⟩)).ConfirmedOrders.orderIds
    ∧ ((Sample.successorOf (Sample.liveConfirmed.executeOrder "s" 10 101 ⟨5⟩)).putNewOrder
        (Sample.limitOrder "b2" OrderSell 7 120)).2 = .ok ()
    ∧ (Sample.successorOf (Sample.flipLive.executeOrder "s" 25 90 ⟨3⟩)).AllOrdersIDMap
        = {"b2"} := by
  decide!

/-- C9 (the code departs from the claim on trades reached through a Flat
successor): the contract of `putNewOrder`. It succeeds only if the trade is not
Closed, `o` passes `isValid`, the symbols of `o` and of the trade agree, `o` is
in state New and its id is absent from `AllOrdersIDMap`; it does succeed under
these conditions when the id is also absent from `NewOrders`. On success `o` is
stored in `NewOrders` under its id, the id is added to `AllOrdersIDMap`, and the
other four books are unchanged; otherwise the trade is unchanged. On every
trade reachable without passing to a flat successor the id of an accepted order
is in none of the five books, so a duplicate id is rejected. On the reachable
Flat successor `Sample.flatSuccessorLive`, whose id set was not rebuilt, the
id `b2` of the live order in `ConfirmedOrders` is absent from `AllOrdersIDMap`
and a second order with the id `b2` is accepted: the id is then both in
`NewOrders` and in `ConfirmedOrders`. -/
theorem putNewOrder_contract :
    (∀ (t : Trade) (o : Order),
      ((t.putNewOrder o).2 = .ok () ↔
        (t.Typ ≠ ClosedTrade ∧ o.isValid = true
          ∧ (∃ otk ttk, o.Ticker = some otk ∧ t.Ticker = some ttk ∧ otk.Symbol = ttk.Symbol)
          ∧ o.State = NewOrder ∧ o.Id ∉ t.AllOrdersIDMap ∧ o.Id ∉ t.NewOrders))
      ∧ ((t.putNewOrder o).2 = .ok () →
          (t.putNewOrder o).1.NewOrders = t.NewOrders.insert o.Id o
          ∧ (t.putNewOrder o).1.NewOrders.lookup o.Id = some o
          ∧ (t.putNewOrder o).1.AllOrdersIDMap = insert o.Id t.AllOrdersIDMap
          ∧ (t.putNewOrder o).1.ConfirmedOrders = t.ConfirmedOrders
          ∧ (t.putNewOrder o).1.FilledOrders = t.FilledOrders
          ∧ (t.putNewOrder o).1.CanceledOrders = t.CanceledOrders
          ∧ (t.putNewOrder o).1.RejectedOrders = t.RejectedOrders)
      ∧ ((t.putNewOrder o).2 ≠ .ok () → (t.putNewOrder o).1 = t))
    ∧ (∀ (t : Trade) (o : Order), ReachableNoFlatSuccessor t →
      (t.putNewOrder o).2 = .ok () →
      o.Id ∉ t.NewOrders ∧ o.Id ∉ t.ConfirmedOrders ∧ o.Id ∉ t.FilledOrders
        ∧ o.Id ∉ t.CanceledOrders ∧ o.Id ∉ t.RejectedOrders)
    ∧ (Reachable Sample.flatSuccessorLive
      ∧ "b2" ∈ Sample.flatSuccessorLive.ConfirmedOrders
      ∧ "b2" ∉ Sample.flatSuccessorLive.AllOrdersIDMap
      ∧ (Sample.flatSuccessorLive.putNewOrder (Sample.limitOrder "b2" OrderSell 7 120)).2
        = .ok ()
      ∧ "b2" ∈ (Sample.flatSuccessorLive.putNewOrder
          (Sample.limitOrder "b2" OrderSell 7 120)).1.NewOrders
      ∧ "b2" ∈ (Sample.flatSuccessorLive.putNewOrder
          (Sample.limitOrder "b2" OrderSell 7 120)).1.ConfirmedOrders) := by
  refine ⟨Trade.putNewOrder_exact, fun t o hr hok => ?_,
    Sample.flatSuccessorLive_reachable, by decide!, by decide!, by decide!, by decide!,
    by decide!⟩
  exact ReachableNoFlatSuccessor.absent_of_not_listed hr o.Id
    ((Trade.putNewOrder_exact t o).1.mp hok).2.2.2.2.1

/-- Witness for C9: a valid new order put on a fresh flat trade is stored under
its id and its id was in no book; the same order put again is refused and
changes nothing. -/
theorem putNewOrder_contract_witness :
    ((newFlatTrade (some Sample.ticker)).putNewOrder
        (Sample.limitOrder "b" OrderBuy 100 50)).1.NewOrders.lookup "b"
      = some (Sample.limitOrder "b" OrderBuy 100 50)
    ∧ (((newFlatTrade (some Sample.ticker)).putNewOrder
        (Sample.limitOrder "b" OrderBuy 100 50)).1.putNewOrder
          (Sample.limitOrder "b" OrderBuy 100 50)).1
      = ((newFlatTrade (some Sample.ticker)).putNewOrder
        (Sample.limitOrder "b" OrderBuy 100 50)).1
    ∧ "b" ∉ (newFlatTrade (some Sample.ticker)).ConfirmedOrders :=
  ⟨((putNewOrder_contract.1 (newFlatTrade (some Sample.ticker))
      (Sample.limitOrder "b" OrderBuy 100 50)).2.1 (by decide!)).2.1,
    (putNewOrder_contract.1 ((newFlatTrade (some Sample.ticker)).putNewOrder
      (Sample.limitOrder "b" OrderBuy 100 50)).1
      (Sample.limitOrder "b" OrderBuy 100 50)).2.2 (by decide!),
    (putNewOrder_contract.2.1 (newFlatTrade (some Sample.ticker))
      (Sample.limitOrder "b" OrderBuy 100 50) (ReachableVia.init _) (by decide!)).2.1⟩

/-- C10 as stated fails: `addExecution` accepts the price `+Inf`, which is not
finite; and on an order with `ExecQty = 0` whose `ExecPrice` is NaN the new
`ExecPrice` is the fill price, not the value of the averaging formula. -/
theorem addExecution_not_as_stated :
    (((Sample.limitOrder "b" OrderBuy 10 50).addExecution F64.pinf 5).2 = .ok ()
      ∧ F64.isFinite F64.pinf = false)
    ∧ (({ Sample.limitOrder "b" OrderBuy 10 50 with ExecPrice := F64.nan }.addExecution 50 5).2
        = .ok ()
      ∧ ({ Sample.limitOrder "b" OrderBuy 10 50 with ExecPrice := F64.nan }.addExecution
          50 5).1.ExecPrice = 50
      ∧ (F64.ofInt 0 * F64.nan + F64.ofInt 5 * 50) / F64.ofInt (0 + 5) ≠ 50) := by
  decide!

/-- C10 (amended): the contract of `Order.addExecution`, in `int64` arithmetic,
when the sum `qty + ExecQty` does not overflow. It succeeds if and only if the
order is not already Filled, the price is positive (not NaN and greater than
zero; `+Inf` passes), `qty > 0` and `qty + ExecQty <= Qty`. On success
`ExecQty' = ExecQty + qty`; `ExecPrice'` is
`(ExecQty*ExecPrice + qty*price)/(ExecQty + qty)` when `ExecQty > 0` and is
`price` when `ExecQty <= 0`; `State'` is Filled exactly when `ExecQty' = Qty` and
PartialFilled otherwise; no other field changes. On failure the order is
unchanged. -/
theorem addExecution_contract (o : Order) (price : F64) (qty : Int)
    (hno : IsInt64 (qty + o.ExecQty)) :
    ((o.addExecution64 price qty).2 = .ok () ↔
      (o.State ≠ FilledOrder ∧ F64.lt 0 price = true ∧ 0 < qty ∧ qty + o.ExecQty ≤ o.Qty))
    ∧ ((o.addExecution64 price qty).2 = .ok () →
        (o.addExecution64 price qty).1.ExecQty = o.ExecQty + qty
        ∧ (0 < o.ExecQty → (o.addExecution64 price qty).1.ExecPrice
            = (F64.ofInt o.ExecQty * o.ExecPrice + F64.ofInt qty * price)
              / F64.ofInt (o.ExecQty + qty))
        ∧ (o.ExecQty ≤ 0 → (o.addExecution64 price qty).1.ExecPrice = price)
        ∧ ((o.addExecution64 price qty).1.State = FilledOrder
            ↔ (o.addExecution64 price qty).1.ExecQty = o.Qty)
        ∧ ((o.addExecution64 price qty).1.ExecQty ≠ o.Qty
            → (o.addExecution64 price qty).1.State = PartialFilledOrder)
        ∧ (o.addExecution64 price qty).1
            = { o with ExecQty := (o.addExecution64 price qty).1.ExecQty,
                       ExecPrice := (o.addExecution64 price qty).1.ExecPrice,
                       State := (o.addExecution64 price qty).1.State })
    ∧ ((o.addExecution64 price qty).2 ≠ .ok () → (o.addExecution64 price qty).1 = o) := by
  rw [Order.addExecution64_eq o price qty hno]
  obtain ⟨h1, h2, h3⟩ := Order.addExecution_exact o price qty
  refine ⟨h1, fun hok => ?_, h3⟩
  obtain ⟨a, b, c, -, e, f, g⟩ := h2 hok
  exact ⟨a, b, c, e, f, g⟩

/-- C8 as stated fails on a closed trade: after a flip that hands a live order
to the successor, the closed trade (reachable from `newFlatTrade`) still lists
the id of that order in `AllOrdersIDMap`, while none of its five books holds
it, so the union of the book ids is not `AllOrdersIDMap`. -/
theorem books_partition_fails_on_closed_trade :
    Reachable (Sample.flipLive.executeOrder "s" 25 90 ⟨3⟩).1
    ∧ (Sample.flipLive.executeOrder "s" 25 90 ⟨3⟩).1.Typ = ClosedTrade
    ∧ "b2" ∈ (Sample.flipLive.executeOrder "s" 25 90 ⟨3⟩).1.AllOrdersIDMap
    ∧ "b2" ∉ (Sample.flipLive.executeOrder "s" 25 90 ⟨3⟩).1.bookIds
    ∧ ¬ ((Sample.flipLive.executeOrder "s" 25 90 ⟨3⟩).1.BooksDisjoint
        ∧ (Sample.flipLive.executeOrder "s" 25 90 ⟨3⟩).1.bookIds
          = (Sample.flipLive.executeOrder "s" 25 90 ⟨3⟩).1.AllOrdersIDMap) :=
  ⟨ReachableVia.executeOrder "s" 25 90 ⟨3⟩ (Sample.flipLive_reachable _) (by decide!),
    by decide!, by decide!, by decide!, by decide!⟩

/-- C8 (amended): for every trade reachable from `newFlatTrade` by any sequence
of `putNewOrder`, `confirmOrder`, `cancelOrder`, `replaceOrder`, `rejectOrder`
and `executeOrder` calls, continuing on the closed trades and on the flip
(Long or Short) successors that `executeOrder` produces, the five order books
are pairwise disjoint by id and the union of their ids is contained in
`AllOrdersIDMap`, and equals it whenever the trade is not Closed. -/
theorem books_partition_of_reachable (t : Trade) (h : ReachableNoFlatSuccessor t) :
    t.BooksDisjoint ∧ t.bookIds ⊆ t.AllOrdersIDMap
    ∧ (t.Typ ≠ ClosedTrade → t.bookIds = t.AllOrdersIDMap) := by
  have inv := h.booksInv
  refine ⟨inv.disjoint, fun k hk => ?_, fun ht => ?_⟩
  · rw [Trade.mem_bookIds] at hk
    by_contra hnot
    have := inv.sub k hnot
    omega
  · ext k
    rw [Trade.mem_bookIds]
    constructor
    · intro hk
      by_contra hnot
      have := inv.sub k hnot
      omega
    · intro hk
      have := inv.sup ht k hk
      omega

/-- Witness for C8: the flip successor of the sample trade `flipLive`, which
took over the live order `b2`. -/
theorem books_partition_of_reachable_witness :
    (Sample.successorOf (Sample.flipLive.executeOrder "s" 25 90 ⟨3⟩)).BooksDisjoint
    ∧ (Sample.successorOf (Sample.flipLive.executeOrder "s" 25 90 ⟨3⟩)).bookIds
        ⊆ (Sample.successorOf (Sample.flipLive.executeOrder "s" 25 90 ⟨3⟩)).AllOrdersIDMap
    ∧ ((Sample.successorOf (Sample.flipLive.executeOrder "s" 25 90 ⟨3⟩)).Typ ≠ ClosedTrade
      → (Sample.successorOf (Sample.flipLive.executeOrder "s" 25 90 ⟨3⟩)).bookIds
        = (Sample.successorOf (Sample.flipLive.executeOrder "s" 25 90 ⟨3⟩)).AllOrdersIDMap) :=
  books_partition_of_reachable _
    (ReachableVia.successor "s" 25 90 ⟨3⟩ (Sample.flipLive_reachable _) (by decide!)
      (by decide!))

/-- Witness for C10: the two fills of scenario S1 on a buy order for 100; the
first leaves it PartialFilled at 50, and a third fill is refused. -/
theorem addExecution_contract_witness :
    ((Sample.limitOrder "b" OrderBuy 100 50).addExecution64 50 25).1.ExecQty = 0 + 25
    ∧ ((Sample.limitOrder "b" OrderBuy 100 50).addExecution64 50 25).1.ExecPrice = 50
    ∧ ((Sample.limitOrder "b" OrderBuy 100 50).addExecution64 50 25).1.State = PartialFilledOrder
    ∧ ((Sample.limitOrder "b" OrderBuy 100 50).addExecution64 50 101).1
      = Sample.limitOrder "b" OrderBuy 100 50 := by
  have h := (addExecution_contract (Sample.limitOrder "b" OrderBuy 100 50) 50 25
    (by decide)).2.1 (by decide!)
  have h2 := (addExecution_contract (Sample.limitOrder "b" OrderBuy 100 50) 50 101
    (by decide)).2.2 (by decide!)
  exact ⟨h.1, h.2.2.1 (by decide), h.2.2.2.2.1 (by decide!), h2⟩
/-- C11: a sequence of fills that sums to the order quantity. For every order
with `Qty > 0`, `ExecQty = 0` and state New or Confirmed, and every non-empty
list of fills `(p_i, q_i)` with all `p_i > 0`, all `q_i > 0` and
`q_1 + ... + q_n = Qty`: `addExecution` accepts every fill in order, the order
ends in state Filled with `ExecQty = Qty`, and the final `ExecPrice` is the
volume-weighted average `(p_1*q_1 + ... + p_n*q_n) / Qty`. -/
theorem addExecutions_volume_weighted (o : Order) (fills : List (F64 × Int))
    (hqty : 0 < o.Qty) (hexec : o.ExecQty = 0)
    (hstate : o.State = NewOrder ∨ o.State = ConfirmedOrder) (hne : fills ≠ [])
    (hpos : ∀ f ∈ fills, F64.lt 0 f.1 = true ∧ 0 < f.2) (hsum : filledQty fills = o.Qty) :
    ∃ o', o.addExecutions fills = some o' ∧ o'.State = FilledOrder ∧ o'.ExecQty = o.Qty
      ∧ o'.ExecPrice = notional fills / F64.ofInt o.Qty := by
  cases fills with
  | nil => exact absurd rfl hne
  | cons f rest =>
    obtain ⟨hfp, hfq⟩ := hpos f (List.mem_cons_self f rest)
    have hrest := fun g hg => hpos g (List.mem_cons_of_mem f hg)
    have hnn := filledQty_nonneg hrest
    have hsum' : f.2 + filledQty rest = o.Qty := by
      simp only [filledQty, List.map_cons, List.sum_cons] at hsum ⊢
      exact hsum
    have hlive : o.State ≠ FilledOrder := by
      rcases hstate with h | h <;> rw [h] <;> decide
    have hadd := Order.addExecution_ok o f.1 f.2 hlive hfp hfq (by omega)
    have h0 : ¬ o.ExecQty > 0 := by omega
    obtain ⟨o', h1, h2, h3, h4⟩ := Order.addExecutions_from rest (o.executed f.1 f.2)
      (0 + f.1 * F64.ofInt f.2)
      (by simp only [Order.executed]; omega)
      (by rw [F64.zero_add_eq]; exact F64.pos_mul_ofInt hfp hfq)
      (by
        simp only [Order.executed, h0, if_false, hexec, zero_add]
        exact (F64.mul_div_self_pos hfp hfq).symm)
      (by
        simp only [Order.executed]
        constructor
        · intro h
          by_contra hne'
          simp [hne'] at h
          exact absurd h (by decide)
        · intro h
          simp [h])
      hrest (by simp only [Order.executed]; omega)
    refine ⟨o', ?_, h2, h3, h4⟩
    simp only [Order.addExecutions, hadd]
    exact h1

/-- Witness for C11: the two fills of scenario S1, 25 at 50 and 75 at 52, on a
buy order for 100 average to 51.5. -/
theorem addExecutions_volume_weighted_witness :
    ∃ o', (Sample.limitOrder "b" OrderBuy 100 50).addExecutions [(50, 25), (52, 75)] = some o'
      ∧ o'.State = FilledOrder ∧ o'.ExecQty = 100
      ∧ o'.ExecPrice = notional [(50, 25), (52, 75)] / F64.ofInt 100
      ∧ notional [(50, 25), (52, 75)] / F64.ofInt 100 = F64.fin 51.5 := by
  obtain ⟨o', h1, h2, h3, h4⟩ :=
    addExecutions_volume_weighted (Sample.limitOrder "b" OrderBuy 100 50) [(50, 25), (52, 75)]
      (by decide) (by decide) (Or.inl (by decide)) (by decide)
      (by
        intro f hf
        simp only [List.mem_cons, List.mem_singleton, List.not_mem_nil, or_false] at hf
        rcases hf with h | h <;> subst h <;> exact ⟨by decide, by decide⟩)
      (by decide)
  exact ⟨o', h1, h2, h3, h4, by decide!⟩

/-- C12 (the code departs from the claim when the sum of the guard overflows):
the quantity invariant of an order. For every order constructed with `Qty > 0`,
`ExecQty = 0` and state New, after every sequence of `addExecution`, `confirm`,
`cancel`, `reject` and `replace` calls (successful or failing) in which every
quantity `q` passed to `addExecution` satisfies `q + Qty <= math.MaxInt64`, the
order satisfies `ExecQty <= Qty`, is in state Filled if and only if
`ExecQty = Qty`, and in state PartialFilled only if `0 < ExecQty < Qty`. On a new
order for 100, after `addExecution(50, 25)` the call
`addExecution(50, math.MaxInt64)` succeeds, because the `int64` sum
`qty+o.ExecQty` of the guard wraps around to a negative value, and leaves the
order PartialFilled with `ExecQty = -9223372036854775784`. -/
theorem order_quantity_invariant :
    (∀ (o : Order) (cs : List OrderCall),
      0 < o.Qty → o.ExecQty = 0 → o.State = NewOrder →
      (∀ p q, OrderCall.addExecution p q ∈ cs → q + o.Qty ≤ MaxInt64) →
      (o.calls64 cs).ExecQty ≤ (o.calls64 cs).Qty
      ∧ ((o.calls64 cs).State = FilledOrder ↔ (o.calls64 cs).ExecQty = (o.calls64 cs).Qty)
      ∧ ((o.calls64 cs).State = PartialFilledOrder →
          0 < (o.calls64 cs).ExecQty ∧ (o.calls64 cs).ExecQty < (o.calls64 cs).Qty))
    ∧ ((((Sample.limitOrder "b" OrderBuy 100 50).calls64 [.addExecution 50 25]).addExecution64
          50 MaxInt64).2 = .ok ()
      ∧ ((Sample.limitOrder "b" OrderBuy 100 50).calls64
          [.addExecution 50 25, .addExecution 50 MaxInt64]).ExecQty = -9223372036854775784
      ∧ ((Sample.limitOrder "b" OrderBuy 100 50).calls64
          [.addExecution 50 25, .addExecution 50 MaxInt64]).Qty = 100
      ∧ ((Sample.limitOrder "b" OrderBuy 100 50).calls64
          [.addExecution 50 25, .addExecution 50 MaxInt64]).State = PartialFilledOrder) := by
  refine ⟨fun o cs hqty hexec hstate hq => ?_, by decide!, by decide!, by decide!, by decide!⟩
  have h0 : o.QtyInv := by
    refine ⟨by omega, by omega, ?_, ?_⟩
    · rw [hstate, hexec]
      constructor
      · intro h
        exact absurd h (by decide)
      · intro h
        omega
    · rw [hstate]
      intro h
      exact absurd h (by decide)
  rw [Order.calls64_eq cs o h0 hq]
  obtain ⟨-, h2, h3, h4⟩ := Order.QtyInv.after_calls cs h0
  exact ⟨h2, h3, h4⟩

/-- Witness for C12: a new order for 100 that is confirmed, filled 25, cancelled,
filled again with the remaining 75, and then hit by further calls. -/
theorem order_quantity_invariant_witness :
    ((Sample.limitOrder "b" OrderBuy 100 50).calls64
        [.confirm, .addExecution 50 25, .cancel, .addExecution 52 75, .reject "late",
          .addExecution 53 1, .replace 60]).ExecQty = 100
    ∧ ((Sample.limitOrder "b" OrderBuy 100 50).calls64
        [.confirm, .addExecution 50 25, .cancel, .addExecution 52 75, .reject "late",
          .addExecution 53 1, .replace 60]).State = FilledOrder := by
  have h := order_quantity_invariant.1 (Sample.limitOrder "b" OrderBuy 100 50)
    [.confirm, .addExecution 50 25, .cancel, .addExecution 52 75, .reject "late",
      .addExecution 53 1, .replace 60] (by decide) (by decide) (by decide)
    (by
      intro p q hmem
      simp at hmem
      rcases hmem with ⟨-, rfl⟩ | ⟨-, rfl⟩ | ⟨-, rfl⟩ <;> decide)
  have hq : ((Sample.limitOrder "b" OrderBuy 100 50).calls64
      [.confirm, .addExecution 50 25, .cancel, .addExecution 52 75, .reject "late",
        .addExecution 53 1, .replace 60]).ExecQty = 100 := by decide!
  exact ⟨hq, h.2.1.mpr (hq.trans (by decide!))⟩

/-- C13 as stated fails: `replace` succeeds on a Filled limit order and changes
its price; `cancel` succeeds on a Rejected order and makes it Cancelled; and
`addExecution` succeeds on a Rejected order. -/
theorem terminal_order_still_mutable :
    (({ Sample.limitOrder "b" OrderBuy 100 50 with
          State := FilledOrder, ExecQty := 100, ExecPrice := 50 }.replace 60).2 = .ok ()
      ∧ ({ Sample.limitOrder "b" OrderBuy 100 50 with
          State := FilledOrder, ExecQty := 100, ExecPrice := 50 }.replace 60).1.Price = 60)
    ∧ (({ Sample.limitOrder "b" OrderBuy 100 50 with State := RejectedOrder }.cancel).2 = .ok ()
      ∧ ({ Sample.limitOrder "b" OrderBuy 100 50 with State := RejectedOrder }.cancel).1.State
          = CanceledOrder)
    ∧ (({ Sample.limitOrder "b" OrderBuy 100 50 with State := RejectedOrder }.addExecution
          50 25).2 = .ok ()
      ∧ ({ Sample.limitOrder "b" OrderBuy 100 50 with State := RejectedOrder }.addExecution
          50 25).1.ExecQty = 25) := by
  decide!

/-- C13 (amended): what the order methods refuse on a terminal order. On a
Filled order `addExecution`, `confirm`, `cancel` and `reject` fail and leave
every field unchanged. On a Rejected order `confirm` and `reject` fail and leave
every field unchanged, `cancel` succeeds and only sets the state to Cancelled,
and `addExecution` succeeds whenever the price is positive, `qty > 0` and
`qty + ExecQty <= Qty`. `replace` does not look at the state: it succeeds exactly
on priced orders, where it only sets `Price`, and otherwise fails and leaves
every field unchanged. The method `addExecution` is taken in `int64` arithmetic;
for its success the `Qty` and `ExecQty` of the order are `int64` values. -/
theorem terminal_order_calls (o : Order) :
    (o.State = FilledOrder →
      (∀ p d, (o.addExecution64 p d).2.isErr = true ∧ (o.addExecution64 p d).1 = o)
      ∧ (o.confirm.2.isErr = true ∧ o.confirm.1 = o)
      ∧ (o.cancel.2.isErr = true ∧ o.cancel.1 = o)
      ∧ (∀ reason, (o.reject reason).2.isErr = true ∧ (o.reject reason).1 = o))
    ∧ (o.State = RejectedOrder →
      (o.confirm.2.isErr = true ∧ o.confirm.1 = o)
      ∧ (∀ reason, (o.reject reason).2.isErr = true ∧ (o.reject reason).1 = o)
      ∧ (o.cancel.2 = .ok () ∧ o.cancel.1 = { o with State := CanceledOrder })
      ∧ (∀ p d, IsInt64 o.Qty → IsInt64 o.ExecQty →
          F64.lt 0 p = true → 0 < d → d + o.ExecQty ≤ o.Qty →
          (o.addExecution64 p d).2 = .ok ()))
    ∧ (∀ p, ((o.replace p).2 = .ok () ↔ o.IsPriced = true)
      ∧ (o.IsPriced = true → (o.replace p).1 = { o with Price := p })
      ∧ (o.IsPriced = false → (o.replace p).2.isErr = true ∧ (o.replace p).1 = o)) := by
  have e1 : FilledOrder ≠ NewOrder := by decide
  have e2 : RejectedOrder ≠ NewOrder := by decide
  have e3 : RejectedOrder ≠ FilledOrder := by decide
  refine ⟨fun hs => ⟨fun p d => ?_, ?_, ?_, fun reason => ?_⟩,
    fun hs => ⟨?_, fun reason => ?_, ?_, fun p d hq he hp hd hle => ?_⟩, fun p => ⟨?_, ?_, ?_⟩⟩
  · simp [Order.addExecution64, hs, Outcome.isErr]
  · simp [Order.confirm, hs, e1, Outcome.isErr]
  · simp [Order.cancel, hs, Outcome.isErr]
  · simp [Order.reject, hs, e1, Outcome.isErr]
  · simp [Order.confirm, hs, e2, Outcome.isErr]
  · simp [Order.reject, hs, e2, Outcome.isErr]
  · simp [Order.cancel, hs, e2, e3]
  · have hno : IsInt64 (d + o.ExecQty) := by
      unfold IsInt64 at hq he ⊢
      omega
    rw [Order.addExecution64_eq o p d hno, Order.addExecution_ok o p d (hs ▸ e3) hp hd hle]
  · unfold Order.replace
    cases hp : o.IsPriced <;> simp
  · intro hp
    simp [Order.replace, hp]
  · intro hp
    simp [Order.replace, hp, Outcome.isErr]

/-- Witness for C13: a filled limit order refuses a further fill unchanged, and a
rejected order refuses a second reject unchanged. -/
theorem terminal_order_calls_witness :
    (({ Sample.limitOrder "b" OrderBuy 100 50 with
          State := FilledOrder, ExecQty := 100, ExecPrice := 50 }.addExecution64 50 1).2.isErr
        = true
      ∧ ({ Sample.limitOrder "b" OrderBuy 100 50 with
          State := FilledOrder, ExecQty := 100, ExecPrice := 50 }.addExecution64 50 1).1
        = { Sample.limitOrder "b" OrderBuy 100 50 with
          State := FilledOrder, ExecQty := 100, ExecPrice := 50 })
    ∧ ({ Sample.limitOrder "b" OrderBuy 100 50 with State := RejectedOrder }.reject "again").1
        = { Sample.limitOrder "b" OrderBuy 100 50 with State := RejectedOrder }
    ∧ ({ Sample.limitOrder "b" OrderBuy 100 50 with State := RejectedOrder }.addExecution64
        50 25).2 = .ok () :=
  ⟨((terminal_order_calls { Sample.limitOrder "b" OrderBuy 100 50 with
        State := FilledOrder, ExecQty := 100, ExecPrice := 50 }).1
      (by decide)).1 50 1,
    (((terminal_order_calls
        { Sample.limitOrder "b" OrderBuy 100 50 with State := RejectedOrder }).2.1
      (by decide)).2.1 "again").2,
    ((terminal_order_calls
        { Sample.limitOrder "b" OrderBuy 100 50 with State := RejectedOrder }).2.1
      (by decide)).2.2.2 50 25 (by decide) (by decide) (by decide) (by decide) (by decide)⟩

/-- C16: the contract of `replaceOrder`. It succeeds if and only if `id` is in
`ConfirmedOrders` and the order is priced (Limit, Stop, LimitOnOpen or
LimitOnClose). On success the trade is the old trade with that one order
carrying `Price = newPrice`: the order's other fields (state, `ExecQty`,
`ExecPrice`, ...), the keys of `ConfirmedOrders`, the other four books and all
trade-level fields are unchanged. Otherwise (a market-type order or an id not in
`ConfirmedOrders`) it returns an error and changes nothing. -/
theorem replaceOrder_contract (t : Trade) (id : String) (newPrice : F64) :
    ((t.replaceOrder id newPrice).2 = .ok () ↔
      ∃ o, t.ConfirmedOrders.lookup id = some o ∧ o.IsPriced = true)
    ∧ (∀ o, t.ConfirmedOrders.lookup id = some o → o.IsPriced = true →
        (t.replaceOrder id newPrice).1
          = { t with ConfirmedOrders := t.ConfirmedOrders.insert id { o with Price := newPrice } }
        ∧ (t.replaceOrder id newPrice).1.ConfirmedOrders.lookup id
          = some { o with Price := newPrice }
        ∧ (∀ k, k ≠ id → (t.replaceOrder id newPrice).1.ConfirmedOrders.lookup k
          = t.ConfirmedOrders.lookup k)
        ∧ (t.replaceOrder id newPrice).1.ConfirmedOrders.keys = t.ConfirmedOrders.keys)
    ∧ ((t.replaceOrder id newPrice).2 ≠ .ok () →
        (t.replaceOrder id newPrice).2.isErr = true ∧ (t.replaceOrder id newPrice).1 = t) := by
  unfold Trade.replaceOrder
  cases hl : t.ConfirmedOrders.lookup id with
  | none => simp [Outcome.isErr]
  | some order =>
    cases hp : order.IsPriced with
    | false =>
      simp [Order.replace, hp, Outcome.isErr, Book.insert_self hl]
    | true =>
      simp only [Order.replace, hp, Bool.not_true, Bool.false_eq_true, if_false]
      refine ⟨⟨fun _ => ⟨order, rfl, hp⟩, fun _ => trivial⟩, ?_, fun h => absurd rfl h⟩
      intro o ho _
      cases ho
      refine ⟨rfl, Finmap.lookup_insert _, fun k hk => Finmap.lookup_insert_of_ne _ hk,
        Book.keys_insert_present hl⟩

/-- Witness for C16: replacing the price of the partially filled buy order of
scenario S1 succeeds and keeps its fill; replacing an unknown id fails and
changes nothing. -/
theorem replaceOrder_contract_witness :
    ((Sample.s1First.replaceOrder "b" 49).2 = .ok ()
      ∧ (Sample.s1First.replaceOrder "b" 49).1.ConfirmedOrders.lookup "b"
        = some { (Sample.confirmed (Sample.limitOrder "b" OrderBuy 100 50)).executed 50 25 with
            Price := 49 })
    ∧ (Sample.s1First.replaceOrder "zz" 49).1 = Sample.s1First :=
  ⟨⟨(replaceOrder_contract Sample.s1First "b" 49).1.mpr
      ⟨(Sample.confirmed (Sample.limitOrder "b" OrderBuy 100 50)).executed 50 25,
        by decide!, by decide⟩,
    ((replaceOrder_contract Sample.s1First "b" 49).2.1
      ((Sample.confirmed (Sample.limitOrder "b" OrderBuy 100 50)).executed 50 25)
      (by decide!) (by decide)).2.1⟩,
   ((replaceOrder_contract Sample.s1First "zz" 49).2.2 (by decide!)).2⟩

/-- C19: Closed is terminal. For every trade that `executeOrder` has turned into
a Closed trade (the call returned a successor), after any sequence of later
calls of `putNewOrder`, `confirmOrder`, `cancelOrder`, `replaceOrder`,
`rejectOrder`, `executeOrder` and `updatePnL` on it, every further such call
returns an error, and the trade still has type Closed, `Qty = 0`, the same
`ClosedPnL`, no live order, and the same filled, cancelled and rejected books
and P&L snapshots (no fill is recorded). -/
theorem closed_is_terminal (t : Trade) (id : String) (d : Int) (p : F64) (tm : Time)
    (s : Trade) (h : (t.executeOrder id d p tm).2 = .ok (some s)) (cs : List TradeCall)
    (c : TradeCall) :
    (((t.executeOrder id d p tm).1.calls cs).call c).2.isErr = true
    ∧ ((t.executeOrder id d p tm).1.calls cs).Typ = ClosedTrade
    ∧ ((t.executeOrder id d p tm).1.calls cs).Qty = 0
    ∧ ((t.executeOrder id d p tm).1.calls cs).ClosedPnL = (t.executeOrder id d p tm).1.ClosedPnL
    ∧ ((t.executeOrder id d p tm).1.calls cs).NewOrders = ∅
    ∧ ((t.executeOrder id d p tm).1.calls cs).ConfirmedOrders = ∅
    ∧ ((t.executeOrder id d p tm).1.calls cs).FilledOrders
        = (t.executeOrder id d p tm).1.FilledOrders
    ∧ ((t.executeOrder id d p tm).1.calls cs).CanceledOrders
        = (t.executeOrder id d p tm).1.CanceledOrders
    ∧ ((t.executeOrder id d p tm).1.calls cs).RejectedOrders
        = (t.executeOrder id d p tm).1.RejectedOrders
    ∧ ((t.executeOrder id d p tm).1.calls cs).Returns = (t.executeOrder id d p tm).1.Returns := by
  have h0 := Trade.closedOut_of_successor t id d p tm s h
  obtain ⟨a1, a2, a3, a4, a5, a6⟩ := Trade.ClosedOut.stays_closed cs h0
  obtain ⟨b1, -⟩ := a1.refuses c
  exact ⟨b1, a1.1, a1.2.1, a2, a1.2.2.1, a1.2.2.2, a3, a4, a5, a6⟩

/-- Witness for C19: the trade closed by the sell fill of scenario S2 refuses a
new order, a price update and a second fill of the same order. -/
theorem closed_is_terminal_witness :
    ((((Sample.s2Confirmed.executeOrder "s" 100 53 ⟨3⟩).1.calls
        [.putNewOrder (Sample.limitOrder "x" OrderBuy 1 50), .updatePnL 55 ⟨4⟩]).call
        (.executeOrder "s" 100 53 ⟨5⟩)).2.isErr = true)
    ∧ ((Sample.s2Confirmed.executeOrder "s" 100 53 ⟨3⟩).1.calls
        [.putNewOrder (Sample.limitOrder "x" OrderBuy 1 50), .updatePnL 55 ⟨4⟩]).ClosedPnL
      = 150 := by
  have h := closed_is_terminal Sample.s2Confirmed "s" 100 53 ⟨3⟩
    (Sample.successorOf (Sample.s2Confirmed.executeOrder "s" 100 53 ⟨3⟩)) (by decide!)
    [.putNewOrder (Sample.limitOrder "x" OrderBuy 1 50), .updatePnL 55 ⟨4⟩]
    (.executeOrder "s" 100 53 ⟨5⟩)
  exact ⟨h.1, h.2.2.2.1.trans (by decide!)⟩


/-- C18 (the code departs from the claim when a quantity overflows): every
trade that the source reaches from `newFlatTrade` by the trade operations,
closed and successor trades included, in a run in which no `int64` operation
of an `executeOrder` call overflows, satisfies: type Flat implies `Qty = 0` and
a NaN `OpenPrice`; type Long or Short implies `Qty > 0`, so `IsOpen` does not
panic; type Closed implies `Qty = 0`. The long position `Sample.maxLong` of
`math.MaxInt64` shares is reached in such a run; the fill of its confirmed buy
order `b` for one share succeeds and leaves a Long trade whose `Qty` is
`math.MinInt64`. -/
theorem reachable_quantity_invariant :
    (∀ t, ReachableNoOverflow t →
      (t.Typ = FlatTrade → t.Qty = 0 ∧ t.OpenPrice = F64.nan)
      ∧ (t.Typ = LongTrade ∨ t.Typ = ShortTrade → 0 < t.Qty)
      ∧ (t.Typ = ClosedTrade → t.Qty = 0)
      ∧ t.IsOpen.isPanic = false)
    ∧ (ReachableNoOverflow Sample.maxLong
      ∧ Sample.maxLong.Typ = LongTrade ∧ Sample.maxLong.Qty = MaxInt64
      ∧ Sample.maxLong.ConfirmedOrders.lookup "b"
        = some (Sample.confirmed (Sample.limitOrder "b" OrderBuy 1 50))
      ∧ (Sample.maxLong.executeOrder64 "b" 1 50 ⟨2⟩).2 = .ok none
      ∧ (Sample.maxLong.executeOrder64 "b" 1 50 ⟨2⟩).1.Typ = LongTrade
      ∧ (Sample.maxLong.executeOrder64 "b" 1 50 ⟨2⟩).1.Qty = MinInt64
      ∧ (Sample.maxLong.executeOrder64 "b" 1 50 ⟨2⟩).1.Qty < 0) := by
  refine ⟨fun t h => ?_, Sample.maxLong_reachable, by decide!, by decide!, by decide!,
    by decide!, by decide!, by decide!, by decide!⟩
  obtain ⟨h1, h2, h3⟩ := Reachable.reachable_positionInv h.reachable
  refine ⟨h1, h2, h3, ?_⟩
  unfold Trade.IsOpen
  split_ifs with c1 c2
  · have := h2 c1
    omega
  · rfl
  · rfl

/-- Witness for C18: the long position of `math.MaxInt64` shares of the sample
trade `maxLong` is positive, so `IsOpen` does not panic on it. -/
theorem reachable_quantity_invariant_witness :
    0 < Sample.maxLong.Qty ∧ Sample.maxLong.IsOpen.isPanic = false :=
  ⟨(reachable_quantity_invariant.1 _ Sample.maxLong_reachable).2.1 (Or.inl (by decide!)),
    (reachable_quantity_invariant.1 _ Sample.maxLong_reachable).2.2.2⟩

/-- C17, counterexample: `isValid` accepts a limit order with the price -5,
`replace` installs a NaN price on a limit order, and the flat trade on which
the order with the price -5 was submitted and confirmed is reachable and holds
a priced order whose price is not positive. -/
theorem held_price_not_as_stated :
    (Sample.limitOrder "b" OrderBuy 10 (-5)).isValid = true
    ∧ ((Sample.limitOrder "b" OrderBuy 10 5).replace F64.nan).2 = .ok ()
    ∧ ((Sample.limitOrder "b" OrderBuy 10 5).replace F64.nan).1.Price = F64.nan
    ∧ ¬ ∀ t, Reachable t → ∀ o, t.Holds o → o.PriceAsStated := by
  refine ⟨by decide!, by decide!, by decide!, fun h => ?_⟩
  have h1 := h (Sample.submit (newFlatTrade (some Sample.ticker))
      (Sample.limitOrder "b" OrderBuy 10 (-5)))
    (ReachableVia.submit _ (ReachableVia.init _) (by decide!))
    (Sample.confirmed (Sample.limitOrder "b" OrderBuy 10 (-5)))
    ⟨"b", Or.inr (Or.inl (by decide!))⟩
  exact absurd (h1.1 (by decide!)).2 (by decide!)

/-- C17, amended: every order held in a book of a trade reachable from
`newFlatTrade` by the six trade operations has a priced or a market type, and
has a NaN price if its type is a market type; `isValid` accepts a priced order
only if its price is neither NaN nor zero; `replace` installs the price it is
given on a priced order, whatever the price, and refuses any other order. -/
theorem held_order_prices :
    (∀ t, Reachable t → ∀ o, t.Holds o →
      (o.IsPriced = true ∨ o.IsMarketType = true)
        ∧ (o.IsMarketType = true → o.Price.isNaN = true))
    ∧ (∀ o : Order, o.isValid = true → o.IsPriced = true →
        o.Price.isNaN = false ∧ F64.feq o.Price 0 = false)
    ∧ (∀ (o : Order) (p : F64), o.IsPriced = true →
        o.replace p = ({ o with Price := p }, .ok ()))
    ∧ (∀ (o : Order) (p : F64), o.IsPriced = false →
        (o.replace p).1 = o ∧ (o.replace p).2.isErr = true) := by
  refine ⟨fun t ht o ho => (ReachableVia.priceKept ht).holds ho, fun o hv hp => ?_,
    fun o p hp => Order.replace_ok p hp, fun o p hp => ?_⟩
  · rcases Order.isValid_price hv with ⟨-, h1, h2⟩ | ⟨h1, -⟩
    · exact ⟨h1, h2⟩
    · rw [Order.not_market_of_priced hp] at h1
      cases h1
  · rw [Order.replace_err p hp]
    exact ⟨rfl, rfl⟩

/-- Witness for C17: the trade of scenario S1 holds a confirmed limit order,
which has a priced type; a valid limit order at 50 has a price that is not
NaN; replacing its price by 55 installs 55. -/
theorem held_order_prices_witness :
    ((Sample.confirmed (Sample.limitOrder "b" OrderBuy 100 50)).IsPriced = true
      ∨ (Sample.confirmed (Sample.limitOrder "b" OrderBuy 100 50)).IsMarketType = true)
    ∧ (Sample.limitOrder "b" OrderBuy 100 50).Price.isNaN = false
    ∧ ((Sample.limitOrder "b" OrderBuy 100 50).replace 55).1.Price = 55 := by
  have h := held_order_prices
  refine ⟨(h.1 Sample.s1Confirmed (ReachableVia.submit _ (ReachableVia.init _) (by decide!))
      (Sample.confirmed (Sample.limitOrder "b" OrderBuy 100 50))
      ⟨"b", Or.inr (Or.inl (by decide!))⟩).1,
    (h.2.1 (Sample.limitOrder "b" OrderBuy 100 50) (by decide!) (by decide!)).1, ?_⟩
  rw [h.2.2.1 (Sample.limitOrder "b" OrderBuy 100 50) 55 (by decide!)]

/-- C14 (the code departs from the claim on trades reached through a Flat
successor). On every trade reachable without passing to a flat successor the
contract of `cancelOrder` holds: it succeeds exactly when the id is in
`ConfirmedOrders`; on success the order, in state Canceled, is in
`CanceledOrders` and no longer in `ConfirmedOrders`, and the type, quantity and
P&L fields are unchanged; when the id is not in `ConfirmedOrders` it returns an
error and changes nothing. On the reachable trade `Sample.duplicateId`, built
on the Flat successor whose id set was not rebuilt, the id `b2` is in
`ConfirmedOrders` and `cancelOrder` fails, leaving the order Canceled inside
`ConfirmedOrders`. -/
theorem cancelOrder_contract_up_to_flat_successor :
    (∀ t, ReachableNoFlatSuccessor t → ∀ id,
      ((t.cancelOrder id).2 = .ok () ↔ id ∈ t.ConfirmedOrders)
      ∧ ((t.cancelOrder id).2 = .ok () →
          ∃ o, t.ConfirmedOrders.lookup id = some o
            ∧ (t.cancelOrder id).1.CanceledOrders.lookup id
              = some { o with State := CanceledOrder }
            ∧ id ∉ (t.cancelOrder id).1.ConfirmedOrders
            ∧ t.SamePosition (t.cancelOrder id).1)
      ∧ (id ∉ t.ConfirmedOrders →
          (t.cancelOrder id).2.isErr = true ∧ (t.cancelOrder id).1 = t))
    ∧ (Reachable Sample.duplicateId
      ∧ "b2" ∈ Sample.duplicateId.ConfirmedOrders
      ∧ (Sample.duplicateId.cancelOrder "b2").2
        = .err "Order found both in confirmed and cancel map"
      ∧ ((Sample.duplicateId.cancelOrder "b2").1.ConfirmedOrders.lookup "b2").map Order.State
        = some CanceledOrder
      ∧ (Sample.duplicateId.cancelOrder "b2").1 ≠ Sample.duplicateId) := by
  refine ⟨fun t ht id => ?_,
    Sample.duplicateId_reachable, by decide!, by decide!, by decide!, by decide!⟩
  rcases Trade.cancelOrder_live (ReachableNoFlatSuccessor.booksInv ht)
    (ReachableNoFlatSuccessor.liveStates ht) id with ⟨hn, msg, e⟩ | ⟨order, ho, e⟩
  · rw [e]
    refine ⟨⟨fun h => (by cases h), fun h => absurd h hn⟩, fun h => (by cases h),
      fun _ => ⟨rfl, rfl⟩⟩
  · have hmem : id ∈ t.ConfirmedOrders := Finmap.mem_of_lookup_eq_some ho
    rw [e]
    refine ⟨⟨fun _ => hmem, fun _ => rfl⟩, fun _ => ⟨order, ho, ?_, ?_, ?_⟩,
      fun h => absurd hmem h⟩
    · exact Finmap.lookup_insert _
    · exact Finmap.not_mem_erase_self
    · exact ⟨rfl, rfl, rfl, rfl, rfl, rfl, rfl⟩

/-- C15, counterexample: `putNewOrder` accepts on a fresh flat trade a New
order that carries an executed quantity of 5; the trade is reachable and has
the id in `NewOrders`, and `rejectOrder` fails on it. -/
theorem rejectOrder_refuses_executed_order :
    ((newFlatTrade (some Sample.ticker)).putNewOrder Sample.executedNew).2 = .ok ()
    ∧ "e" ∈ ((newFlatTrade (some Sample.ticker)).putNewOrder Sample.executedNew).1.NewOrders
    ∧ (((newFlatTrade (some Sample.ticker)).putNewOrder Sample.executedNew).1.rejectOrder
        "e" "late").2
      = .err "Can't reject order. Already has executed qty. Status should be PartialFilled"
    ∧ ¬ ∀ t, Reachable t → ∀ id reason,
        ((t.rejectOrder id reason).2 = .ok () ↔ id ∈ t.NewOrders) := by
  refine ⟨by decide!, by decide!, by decide!, fun h => ?_⟩
  have h1 := (h _ (ReachableVia.putNewOrder Sample.executedNew
    (ReachableVia.init (some Sample.ticker)) (by decide!)) "e" "late").mpr (by decide!)
  exact absurd h1 (by decide!)

/-- C15, amended: on every trade reachable from `newFlatTrade` by the trade
operations without passing to a flat successor, `rejectOrder(id, reason)`
succeeds exactly when the id is in `NewOrders` and that order has no executed
quantity; on success the order, in state Rejected and with `Mark1` equal to
the reason, is in `RejectedOrders` and no longer in `NewOrders`, and a
subsequent `cancelOrder(id)` fails and changes nothing; in every other case
`rejectOrder` returns an error and changes nothing. -/
theorem rejectOrder_contract (t : Trade) (h : ReachableNoFlatSuccessor t)
    (id reason : String) :
    ((t.rejectOrder id reason).2 = .ok ()
      ↔ ∃ o, t.NewOrders.lookup id = some o ∧ o.ExecQty ≤ 0)
    ∧ ((t.rejectOrder id reason).2 = .ok () →
        ∃ o, t.NewOrders.lookup id = some o
          ∧ (t.rejectOrder id reason).1.RejectedOrders.lookup id
            = some { o with State := RejectedOrder, Mark1 := reason }
          ∧ id ∉ (t.rejectOrder id reason).1.NewOrders
          ∧ ((t.rejectOrder id reason).1.cancelOrder id).2.isErr = true
          ∧ ((t.rejectOrder id reason).1.cancelOrder id).1 = (t.rejectOrder id reason).1)
    ∧ ((t.rejectOrder id reason).2 ≠ .ok () →
        (t.rejectOrder id reason).2.isErr = true ∧ (t.rejectOrder id reason).1 = t) := by
  have hb := ReachableNoFlatSuccessor.booksInv h
  rcases Trade.rejectOrder_live hb (ReachableNoFlatSuccessor.liveStates h) id reason with
    ⟨hwhy, msg, e⟩ | ⟨order, ho, hq, e⟩
  · rw [e]
    refine ⟨⟨fun h => (by cases h), fun ⟨o, ho, hq⟩ => ?_⟩, fun h => (by cases h),
      fun _ => ⟨rfl, rfl⟩⟩
    rcases hwhy with hn | ⟨order, ho2, hpos⟩
    · exact absurd (Finmap.mem_of_lookup_eq_some ho) hn
    · rw [ho] at ho2
      cases ho2
      omega
  · have hmem : id ∈ t.NewOrders := Finmap.mem_of_lookup_eq_some ho
    have hnc : id ∉ t.ConfirmedOrders := (hb.exclusive id).2.2 hmem
    rw [e]
    refine ⟨⟨fun _ => ⟨order, ho, hq⟩, fun _ => rfl⟩,
      fun _ => ⟨order, ho, Finmap.lookup_insert _, Finmap.not_mem_erase_self, ?_, ?_⟩,
      fun h => absurd rfl h⟩
    · rw [Trade.cancelOrder_absent (by exact hnc)]
      rfl
    · rw [Trade.cancelOrder_absent (by exact hnc)]

/-- Witness for C15: scenario S5. A buy order for 10 at 5 is submitted and
rejected with the reason "price too low": the call succeeds, the stored order
is Rejected and carries the reason, and cancelling the same id then fails. -/
theorem rejectOrder_contract_witness :
    (((newFlatTrade (some Sample.ticker)).putNewOrder
        (Sample.limitOrder "r" OrderBuy 10 5)).1.rejectOrder "r" "price too low").2 = .ok ()
    ∧ ((((newFlatTrade (some Sample.ticker)).putNewOrder
          (Sample.limitOrder "r" OrderBuy 10 5)).1.rejectOrder "r"
            "price too low").1.RejectedOrders.lookup "r").map (fun o => (o.State, o.Mark1))
        = some (RejectedOrder, "price too low")
    ∧ ((((newFlatTrade (some Sample.ticker)).putNewOrder
          (Sample.limitOrder "r" OrderBuy 10 5)).1.rejectOrder "r"
            "price too low").1.cancelOrder "r").2.isErr = true := by
  have h := rejectOrder_contract
    ((newFlatTrade (some Sample.ticker)).putNewOrder (Sample.limitOrder "r" OrderBuy 10 5)).1
    (ReachableVia.putNewOrder _ (ReachableVia.init (some Sample.ticker)) (by decide!))
    "r" "price too low"
  have hok := h.1.mpr ⟨Sample.limitOrder "r" OrderBuy 10 5, by decide!, by decide!⟩
  obtain ⟨o, -, h2, -, h4, -⟩ := h.2.1 hok
  refine ⟨hok, ?_, h4⟩
  rw [h2]
  rfl

/-- C21, counterexample: on a fresh flat trade `updatePnL` with the market price
+Inf returns an error, yet it has replaced the market value 0 by NaN, so the
trade is not left unchanged. -/
theorem updatePnL_rewrites_market_value :
    ((newFlatTrade (some Sample.ticker)).updatePnL F64.pinf ⟨1⟩).2.isErr = true
    ∧ (newFlatTrade (some Sample.ticker)).MarketValue = 0
    ∧ ((newFlatTrade (some Sample.ticker)).updatePnL F64.pinf ⟨1⟩).1.MarketValue = F64.nan
    ∧ ((newFlatTrade (some Sample.ticker)).updatePnL F64.pinf ⟨1⟩).1
      ≠ newFlatTrade (some Sample.ticker) := by
  decide!

/-- C21, amended: the contract of `updatePnL`. It succeeds if and only if the
trade is Long or Short. On success the trade is the old trade with
`MarketValue = marketPrice * Qty`, `OpenPnL = MarketValue - OpenValue` (Long) or
`OpenValue - MarketValue` (Short) and the one snapshot `(OpenPnL, ClosedPnL, t)`
appended to `Returns`; nothing else changes. Otherwise it returns an error and
the trade is the old trade with `MarketValue` overwritten by
`marketPrice * Qty`, which was computed before the type was tested; that leaves
the trade unchanged when `Qty = 0`, the old `MarketValue` is 0 and the market
price is finite. -/
theorem updatePnL_contract (t : Trade) (marketPrice : F64) (lastTime : Time) :
    ((t.updatePnL marketPrice lastTime).2 = .ok () ↔ (t.Typ = LongTrade ∨ t.Typ = ShortTrade))
    ∧ (t.Typ = LongTrade →
        (t.updatePnL marketPrice lastTime).1
          = { t with
              MarketValue := marketPrice * F64.ofInt t.Qty
              OpenPnL := marketPrice * F64.ofInt t.Qty - t.OpenValue
              Returns := t.Returns
                ++ [⟨marketPrice * F64.ofInt t.Qty - t.OpenValue, t.ClosedPnL, lastTime⟩] })
    ∧ (t.Typ = ShortTrade →
        (t.updatePnL marketPrice lastTime).1
          = { t with
              MarketValue := marketPrice * F64.ofInt t.Qty
              OpenPnL := t.OpenValue - marketPrice * F64.ofInt t.Qty
              Returns := t.Returns
                ++ [⟨t.OpenValue - marketPrice * F64.ofInt t.Qty, t.ClosedPnL, lastTime⟩] })
    ∧ (¬ (t.Typ = LongTrade ∨ t.Typ = ShortTrade) →
        (t.updatePnL marketPrice lastTime).2.isErr = true
        ∧ (t.updatePnL marketPrice lastTime).1
          = { t with MarketValue := marketPrice * F64.ofInt t.Qty }
        ∧ (t.Qty = 0 → t.MarketValue = 0 → marketPrice.isFinite = true →
            (t.updatePnL marketPrice lastTime).1 = t)) := by
  refine ⟨⟨fun h => ?_, fun h => ?_⟩, fun h => ?_, fun h => ?_, fun h => ?_⟩
  · by_contra hn
    rw [Trade.updatePnL_other t marketPrice lastTime (fun c => hn (Or.inl c))
      (fun c => hn (Or.inr c))] at h
    cases h
  · rcases h with h | h
    · rw [Trade.updatePnL_long t marketPrice lastTime h]
    · rw [Trade.updatePnL_short t marketPrice lastTime h]
  · rw [Trade.updatePnL_long t marketPrice lastTime h]
  · rw [Trade.updatePnL_short t marketPrice lastTime h]
  · rw [Trade.updatePnL_other t marketPrice lastTime (fun c => h (Or.inl c))
      (fun c => h (Or.inr c))]
    refine ⟨rfl, rfl, fun hq hm hf => ?_⟩
    have hz : marketPrice * F64.ofInt t.Qty = t.MarketValue := by
      rw [hq, hm, F64.finite_mul_zero hf]
    simp only [hz]

/-- Witness for C21: marking the long 100 @ 51.5 of scenario S1 at 53 succeeds
and appends one snapshot; on the trade closed in scenario S2 the call fails and,
the price being finite, leaves the trade unchanged. -/
theorem updatePnL_contract_witness :
    (Sample.s1Second.updatePnL 53 ⟨3⟩).2 = .ok ()
    ∧ (Sample.s1Second.updatePnL 53 ⟨3⟩).1.Returns.length = Sample.s1Second.Returns.length + 1
    ∧ ((Sample.s2Confirmed.executeOrder "s" 100 53 ⟨3⟩).1.updatePnL 55 ⟨4⟩).1
      = (Sample.s2Confirmed.executeOrder "s" 100 53 ⟨3⟩).1 := by
  have h1 := updatePnL_contract Sample.s1Second 53 ⟨3⟩
  have h2 := updatePnL_contract (Sample.s2Confirmed.executeOrder "s" 100 53 ⟨3⟩).1 55 ⟨4⟩
  refine ⟨h1.1.mpr (Or.inl (by decide!)), ?_,
    (h2.2.2.2 (by decide!)).2.2 (by decide!) (by decide!) (by decide!)⟩
  rw [h1.2.1 (by decide!)]
  simp

/-- C22: the bookkeeping of the executed order. After a successful
`executeOrder(id, d, p, t)` on the order held under `id` in `ConfirmedOrders`,
`addExecution` has accepted the fill and the order's `ExecQty` has grown by `d`.
If `d` is the remaining quantity, the order is Filled, is stored in
`FilledOrders` of the trade and is neither in `ConfirmedOrders` of the trade
nor of a successor. If `d` is smaller, the order is PartialFilled and is stored
in the live `ConfirmedOrders` book: the trade's when there is no successor, the
successor's otherwise. -/
theorem executeOrder_order_bookkeeping (t : Trade) (id : String) (d : Int) (p : F64)
    (tm : Time) (v : Option Trade) (order : Order)
    (h : (t.executeOrder id d p tm).2 = .ok v)
    (hord : t.ConfirmedOrders.lookup id = some order) :
    (order.addExecution p d).2 = .ok ()
    ∧ (order.addExecution p d).1.ExecQty = order.ExecQty + d
    ∧ (d = order.Qty - order.ExecQty ∨ d < order.Qty - order.ExecQty)
    ∧ (d = order.Qty - order.ExecQty →
        (order.addExecution p d).1.State = FilledOrder
        ∧ (t.executeOrder id d p tm).1.FilledOrders.lookup id = some (order.addExecution p d).1
        ∧ id ∉ (t.executeOrder id d p tm).1.ConfirmedOrders
        ∧ ∀ s, v = some s → id ∉ s.ConfirmedOrders)
    ∧ (d < order.Qty - order.ExecQty →
        (order.addExecution p d).1.State = PartialFilledOrder
        ∧ (v = none →
            (t.executeOrder id d p tm).1.ConfirmedOrders.lookup id
              = some (order.addExecution p d).1)
        ∧ ∀ s, v = some s →
            s.ConfirmedOrders.lookup id = some (order.addExecution p d).1) := by
  obtain ⟨hd, hrem, hadd, hf, hn, hs⟩ := Trade.executeOrder_ok_books t id d p tm v order h hord
  rw [hadd]
  refine ⟨rfl, rfl, by omega, fun hq => ?_, fun hlt => ?_⟩
  · have hm := Trade.recorded_moves t id order p d hq
    refine ⟨Order.executed_state_of_eq order p d hq, ?_, ?_, fun s hv => ?_⟩
    · rw [hf, hm]
      exact Finmap.lookup_insert _
    · cases v with
      | none =>
        rw [hn rfl, hm]
        exact Finmap.not_mem_erase_self
      | some s =>
        rw [(hs s rfl).1]
        exact Finmap.not_mem_empty
    · rw [(hs s hv).2, hm]
      exact Finmap.not_mem_erase_self
  · have hm := Trade.recorded_stays t id order p d (by omega)
    refine ⟨Order.executed_state_of_lt order p d hlt, fun hv => ?_, fun s hv => ?_⟩
    · rw [hn hv, hm]
      exact Finmap.lookup_insert _
    · rw [(hs s hv).2, hm]
      exact Finmap.lookup_insert _

/-- Witness for C22: the first fill of scenario S1, 25 of 100, leaves the buy
order PartialFilled with `ExecQty = 25` in `ConfirmedOrders` of the trade. -/
theorem executeOrder_order_bookkeeping_witness :
    ((Sample.confirmed (Sample.limitOrder "b" OrderBuy 100 50)).addExecution 50 25).1.ExecQty
      = 0 + 25
    ∧ ((Sample.confirmed (Sample.limitOrder "b" OrderBuy 100 50)).addExecution 50 25).1.State
      = PartialFilledOrder
    ∧ (Sample.s1Confirmed.executeOrder "b" 25 50 ⟨1⟩).1.ConfirmedOrders.lookup "b"
      = some ((Sample.confirmed (Sample.limitOrder "b" OrderBuy 100 50)).addExecution 50 25).1 := by
  have h := executeOrder_order_bookkeeping Sample.s1Confirmed "b" 25 50 ⟨1⟩ none
    (Sample.confirmed (Sample.limitOrder "b" OrderBuy 100 50)) (by decide!) (by decide!)
  have h2 := h.2.2.2.2 (by decide)
  exact ⟨h.2.1, h2.1, h2.2.1 rfl⟩

/-- C23, counterexample: in scenario S1 a fill of the whole order at the price
-1 returns the error of `addExecution`, but the order has already been moved:
it is now in `FilledOrders` and no longer in `ConfirmedOrders`. -/
theorem executeOrder_error_moves_order :
    (Sample.s1Confirmed.executeOrder "b" 100 (-1) ⟨1⟩).2
      = .err "Can't update order. Price less or equal zero"
    ∧ "b" ∈ Sample.s1Confirmed.ConfirmedOrders
    ∧ "b" ∉ (Sample.s1Confirmed.executeOrder "b" 100 (-1) ⟨1⟩).1.ConfirmedOrders
    ∧ "b" ∈ (Sample.s1Confirmed.executeOrder "b" 100 (-1) ⟨1⟩).1.FilledOrders
    ∧ (Sample.s1Confirmed.executeOrder "b" 100 (-1) ⟨1⟩).1 ≠ Sample.s1Confirmed := by
  decide!

/-- C23, amended: whenever `executeOrder` returns an error, the type, quantity
and P&L fields of the trade are unchanged, and the trade is left exactly as it
was unless the fill quantity equals the order's remaining quantity, the id is
not yet in `FilledOrders` and `addExecution` refuses the fill; in that case the
only change is that the order, itself unchanged, has been moved from
`ConfirmedOrders` to `FilledOrders`. A negative price on the whole remaining
quantity of a live order is such a case. -/
theorem executeOrder_error_state (t : Trade) (id : String) (d : Int) (p : F64) (tm : Time) :
    (∀ msg, (t.executeOrder id d p tm).2 = .err msg →
      t.SamePosition (t.executeOrder id d p tm).1
      ∧ ((t.executeOrder id d p tm).1 = t
        ∨ ∃ order, t.ConfirmedOrders.lookup id = some order ∧ d = order.Qty - order.ExecQty
            ∧ id ∉ t.FilledOrders ∧ (order.addExecution p d).2 ≠ .ok ()
            ∧ (t.executeOrder id d p tm).1
              = { t with
                  FilledOrders := t.FilledOrders.insert id order
                  ConfirmedOrders := t.ConfirmedOrders.erase id }))
    ∧ (∀ order, t.ConfirmedOrders.lookup id = some order → d = order.Qty - order.ExecQty →
        id ∉ t.FilledOrders → F64.lt p 0 = true →
        (t.executeOrder id d p tm).2.isErr = true
        ∧ (t.executeOrder id d p tm).1
          = { t with
              FilledOrders := t.FilledOrders.insert id order
              ConfirmedOrders := t.ConfirmedOrders.erase id }) := by
  refine ⟨fun msg h => ⟨?_, Trade.executeOrder_err_state t id d p tm msg h⟩,
    fun order hord hq hm hp => ?_⟩
  · rcases Trade.executeOrder_cases t id d p tm with ⟨hs, -⟩ | ⟨order, -, -, -, -, -, e⟩
    · exact hs
    · rw [e] at h
      exact absurd h (Trade.positionUpdate_not_err _ _ d p tm _ rfl msg)
  · obtain ⟨msg, e⟩ := Trade.executeOrder_negative t id d p tm order hord hq hm hp
    rw [e]
    exact ⟨rfl, rfl⟩

/-- Witness for C23: in scenario S1 a fill of 101, more than the order's
quantity, returns an error and leaves the trade exactly as it was. -/
theorem executeOrder_error_state_witness :
    (Sample.s1Confirmed.executeOrder "b" 101 50 ⟨1⟩).2.isErr = true
    ∧ (Sample.s1Confirmed.executeOrder "b" 101 50 ⟨1⟩).1 = Sample.s1Confirmed := by
  have hm : (Sample.s1Confirmed.executeOrder "b" 101 50 ⟨1⟩).2
      = .err "Can't execute order %v. Qty is greater than unexecuted order qty. Order: %+v, execQty: %v" := by
    decide!
  have h := (executeOrder_error_state Sample.s1Confirmed "b" 101 50 ⟨1⟩).1 _ hm
  refine ⟨by rw [hm]; rfl, ?_⟩
  rcases h.2 with h2 | ⟨order, ho, hq, -⟩
  · exact h2
  · exfalso
    have ho2 : Sample.s1Confirmed.ConfirmedOrders.lookup "b"
        = some (Sample.confirmed (Sample.limitOrder "b" OrderBuy 100 50)) := by decide!
    rw [ho2] at ho
    cases ho
    revert hq
    decide
/-! ## Claims about the strategy: the current trade and the archive -/

/-- C24: the current trade and the archive of the strategy. In every state
that a run of calls (new-order submissions, broker events, market data) reaches
from `init` on a strategy without trades, where `init` installs a Flat trade
and an empty archive: there is a current trade and it is not of type Closed,
every trade of `closedTrades` is of type Closed, and a fill for which
`executeOrder` returns a successor appends the old trade to `closedTrades` and
installs exactly that successor as the current trade. -/
theorem current_trade_never_closed (fmt : Time → String) (b0 : BasicStrategy)
    (cs : List StrategyCall) (b : BasicStrategy) (h0 : b0.currentTrade = none)
    (h1 : b0.closedTrades = []) (hrun : b0.init.run fmt cs = some b) :
    (∃ flat, b0.init.currentTrade = some flat ∧ flat.Typ = FlatTrade)
    ∧ b0.init.closedTrades = []
    ∧ (∃ t, b.currentTrade = some t ∧ t.Typ ≠ ClosedTrade
      ∧ ∀ (e : OrderFillEvent) (s : Trade),
          (t.executeOrder e.OrdId e.Qty e.Price e.Time).2 = .ok (some s) →
          (b.onOrderFillHandler e).1.closedTrades
            = b.closedTrades ++ [(t.executeOrder e.OrdId e.Qty e.Price e.Time).1]
          ∧ (b.onOrderFillHandler e).1.currentTrade = some s)
    ∧ ∀ t ∈ b.closedTrades, t.Typ = ClosedTrade := by
  have hinit := BasicStrategy.tradesInv_init b0 h0 h1
  obtain ⟨⟨t, ht, hty⟩, hc⟩ := BasicStrategy.tradesInv_run fmt cs b0.init b hrun hinit
  refine ⟨?_, ?_, ⟨t, ht, hty, fun e s hs => ?_⟩, hc⟩
  · unfold BasicStrategy.init
    rw [h0]
    dsimp only
    split_ifs <;> exact ⟨_, rfl, rfl⟩
  · unfold BasicStrategy.init
    rw [h0]
    dsimp only
    rw [h1]
    rfl
  · obtain ⟨g1, g2, -⟩ := BasicStrategy.fill_successor b e t s ht hs
    exact ⟨g1, g2⟩

/-- Witness for C24: the sample strategy bought 100 and has a confirmed order
to sell 100. The fill of that order closes the long trade: the archive, empty
before, then holds that one Closed trade, and the current trade is the Flat
successor. -/
theorem current_trade_never_closed_witness :
    Sample.strategy.init.run Sample.fmt Sample.sellConfirmed
      = some (Sample.after Sample.sellConfirmed)
    ∧ (∃ t, (Sample.after Sample.sellConfirmed).currentTrade = some t ∧ t.Typ = LongTrade
      ∧ (t.executeOrder (Sample.orderId OrderSell "b") 100 55 ⟨0⟩).2
        = .ok (some (newFlatTrade (some (Instrument.ofSymbol "AAPL"))))
      ∧ ((Sample.after Sample.sellConfirmed).onOrderFillHandler
          (Sample.fillEvent (Sample.orderId OrderSell "b") 55 100)).1.closedTrades
        = [(t.executeOrder (Sample.orderId OrderSell "b") 100 55 ⟨0⟩).1]
      ∧ ((Sample.after Sample.sellConfirmed).onOrderFillHandler
          (Sample.fillEvent (Sample.orderId OrderSell "b") 55 100)).1.currentTrade
        = some (newFlatTrade (some (Instrument.ofSymbol "AAPL")))) := by
  have hrun : Sample.strategy.init.run Sample.fmt Sample.sellConfirmed
      = some (Sample.after Sample.sellConfirmed) := by decide!
  obtain ⟨-, -, ⟨t, ht, -, hfill⟩, -⟩ :=
    current_trade_never_closed Sample.fmt Sample.strategy Sample.sellConfirmed
      (Sample.after Sample.sellConfirmed) rfl rfl hrun
  have ht2 : t = ((Sample.after Sample.sellConfirmed).currentTrade).getD Trade.zeroValue := by
    rw [ht]
    rfl
  have hs : (t.executeOrder (Sample.orderId OrderSell "b") 100 55 ⟨0⟩).2
      = .ok (some (newFlatTrade (some (Instrument.ofSymbol "AAPL")))) := by
    rw [ht2]
    decide!
  have hcl : (Sample.after Sample.sellConfirmed).closedTrades = [] := by decide!
  have h := hfill (Sample.fillEvent (Sample.orderId OrderSell "b") 55 100) _ hs
  refine ⟨hrun, t, ht, ?_, hs, ?_, h.2⟩
  · rw [ht2]
    decide!
  · rw [h.1, hcl]
    rfl

/-! ## Claims about the strategy: the last candle open -/

/-- C25, counterexample: the candle history handler sorts by the whole second
of the timestamp. With window size 2 and an empty window, the history list of a
candle at 1.9 s followed by a candle at 1.1 s leaves the window in that order:
it is not sorted ascending by timestamp, and it is not the list that a stable
sort by timestamp gives. -/
theorem candle_history_not_sorted_by_timestamp :
    ((Sample.windowStrategy 2 [] []).onCandleHistoryHandler
        (Sample.candleHistory
          [some (Sample.candleAt 1900000000), some (Sample.candleAt 1100000000)])).1.Candles
      = [Sample.candleAt 1900000000, Sample.candleAt 1100000000]
    ∧ candleWindowAsStated (fun c => c.Datetime.unixNano) 2 []
        [some (Sample.candleAt 1900000000), some (Sample.candleAt 1100000000)]
      = [Sample.candleAt 1100000000, Sample.candleAt 1900000000]
    ∧ ¬ AscendingByTime Candle.Datetime
        ((Sample.windowStrategy 2 [] []).onCandleHistoryHandler
          (Sample.candleHistory
            [some (Sample.candleAt 1900000000), some (Sample.candleAt 1100000000)])).1.Candles := by
  decide!

/-- C25, amended: with window size `n`, a candle history event with an empty
list changes nothing; one with a list that is not empty returns normally and
leaves as the window the existing window followed by the incoming candles,
without nil entries and keeping the first of each timestamp, sorted stably by
the whole second of the timestamp and cut to its last `n` entries. Two
timestamps are the same when they are the same key of a map, that is the same
instant with the same Location and the same monotonic clock reading. So the
window has at most `n` entries, no two with the same timestamp, and is sorted
ascending by whole second; it is sorted ascending by timestamp when every
timestamp of the window and of the list is on a whole second. Two candles at
the same instant whose timestamps carry different Locations are both kept. -/
theorem candle_history_window (b : BasicStrategy) (e : CandlesHistoryEvent) (n : Nat)
    (hn : b.NPeriods = n) :
    (e.Candles = [] → b.onCandleHistoryHandler e = (b, .ok ()))
    ∧ (e.Candles ≠ [] →
      (b.onCandleHistoryHandler e).2 = .ok ()
      ∧ (b.onCandleHistoryHandler e).1.Candles
        = candleWindowAsStated (fun c => c.Datetime.Unix) n b.Candles e.Candles
      ∧ (b.onCandleHistoryHandler e).1.Candles.length ≤ n
      ∧ ((b.onCandleHistoryHandler e).1.Candles.map Candle.DatetimeKey).Nodup
      ∧ AscendingBySecond Candle.Datetime (b.onCandleHistoryHandler e).1.Candles
      ∧ ((∀ c ∈ b.Candles, c.Datetime.IsWholeSecond) →
        (∀ c, some c ∈ e.Candles → c.Datetime.IsWholeSecond) →
        AscendingByTime Candle.Datetime (b.onCandleHistoryHandler e).1.Candles))
    ∧ ((Sample.windowStrategy 2 [] []).onCandleHistoryHandler
        (Sample.candleHistory
          [some (Sample.candleIn 0 (2 * Sample.second)),
            some (Sample.candleIn 1 (2 * Sample.second))])).1.Candles
      = [Sample.candleIn 0 (2 * Sample.second), Sample.candleIn 1 (2 * Sample.second)] := by
  refine ⟨BasicStrategy.candleHistory_empty b e, fun he => ?_, by decide!⟩
  obtain ⟨hok, hw⟩ := BasicStrategy.candleHistory_window b e n hn he
  rw [hw]
  have hsub : (candleWindowAsStated (fun c => c.Datetime.Unix) n b.Candles e.Candles).Sublist
      (sortSliceStable (fun c => c.Datetime.Unix)
        (keepFirstByTime (b.Candles ++ e.Candles.filterMap id))) := lastN_sublist _ _
  have hsorted : AscendingBySecond Candle.Datetime
      (candleWindowAsStated (fun c => c.Datetime.Unix) n b.Candles e.Candles) :=
    List.Pairwise.sublist hsub (sortSliceStable_sorted (fun c : Candle => c.Datetime.Unix) _)
  refine ⟨hok, rfl, lastN_length_le _ _, ?_, hsorted, fun h1 h2 => ?_⟩
  · exact ((keepFirstByTime_nodup _).perm
      ((sortSliceStable_perm (fun c : Candle => c.Datetime.Unix) _).map _).symm).sublist (hsub.map _)
  · refine hsorted.byTime (fun a ha => ?_)
    have ha1 := (sortSliceStable_perm (fun c : Candle => c.Datetime.Unix) _).subset (hsub.subset ha)
    have ha2 := (keepFirstByTime_sublist _).subset ha1
    rcases List.mem_append.mp ha2 with ha3 | ha3
    · exact h1 a ha3
    · obtain ⟨x, hx, hxa⟩ := List.mem_filterMap.mp ha3
      simp only [id_eq] at hxa
      rw [hxa] at hx
      exact h2 a hx

/-- Witness for C25: with window size 2 and the window holding a candle at 2 s,
the history list of a nil entry, a candle at 3 s, a second candle at 2 s and a
candle at 1 s leaves the candles at 2 s (the one of the window) and 3 s. -/
theorem candle_history_window_witness :
    ((Sample.windowStrategy 2 [Sample.candleAt (2 * Sample.second)] []).onCandleHistoryHandler
        (Sample.candleHistory
          [none, some (Sample.candleAt (3 * Sample.second)),
            some { Sample.candleAt (2 * Sample.second) with Open := 7 },
            some (Sample.candleAt Sample.second)])).1.Candles
      = [Sample.candleAt (2 * Sample.second), Sample.candleAt (3 * Sample.second)]
    ∧ AscendingByTime Candle.Datetime
        ((Sample.windowStrategy 2 [Sample.candleAt (2 * Sample.second)] []).onCandleHistoryHandler
          (Sample.candleHistory
            [none, some (Sample.candleAt (3 * Sample.second)),
              some { Sample.candleAt (2 * Sample.second) with Open := 7 },
              some (Sample.candleAt Sample.second)])).1.Candles := by
  have h := (candle_history_window
    (Sample.windowStrategy 2 [Sample.candleAt (2 * Sample.second)] [])
    (Sample.candleHistory
      [none, some (Sample.candleAt (3 * Sample.second)),
        some { Sample.candleAt (2 * Sample.second) with Open := 7 },
        some (Sample.candleAt Sample.second)]) 2 rfl).2.1 (by decide)
  refine ⟨?_, h.2.2.2.2.2 (by decide!) (fun c hc => ?_)⟩
  · rw [h.2.1]
    decide!
  · simp only [Sample.candleHistory, List.mem_cons, reduceCtorEq, Option.some.injEq,
      List.mem_singleton, List.not_mem_nil, or_false, false_or] at hc
    rcases hc with rfl | rfl | rfl <;> decide!

/-- C26, counterexample: the tick history handler has no filter for duplicate
timestamps. With window size 2 and an empty window, the history list of two
ticks with the same timestamp, at prices 10 and 11, leaves both in the window. -/
theorem tick_history_keeps_duplicates :
    ((Sample.windowStrategy 2 [] []).onTickHistoryHandler
        (Sample.tickHistory
          [some (Sample.tickAt Sample.second 10), some (Sample.tickAt Sample.second 11)])).1.Ticks
      = [Sample.tickAt Sample.second 10, Sample.tickAt Sample.second 11]
    ∧ ¬ (((Sample.windowStrategy 2 [] []).onTickHistoryHandler
        (Sample.tickHistory
          [some (Sample.tickAt Sample.second 10),
            some (Sample.tickAt Sample.second 11)])).1.Ticks.map Tick.Datetime).Nodup := by
  decide!

/-- C26, amended: with window size `n`, a tick history event with an empty list
changes nothing; one with a list that is not empty returns normally and leaves
as the window the existing window followed by the incoming ticks, without nil
entries but with every other entry, duplicates of a timestamp included, sorted
stably by the whole second of the timestamp and cut to its last `n` entries. So
the window has at most `n` entries and is sorted ascending by whole second, and
when the merged entries number at most `n` the window holds each of them. -/
theorem tick_history_window (b : BasicStrategy) (e : TickHistoryEvent) (n : Nat)
    (hn : b.NPeriods = n) :
    (e.Ticks = [] → b.onTickHistoryHandler e = (b, .ok ()))
    ∧ (e.Ticks ≠ [] →
      (b.onTickHistoryHandler e).2 = .ok ()
      ∧ (b.onTickHistoryHandler e).1.Ticks
        = tickWindowMerged (fun t => t.Datetime.Unix) n b.Ticks e.Ticks
      ∧ (b.onTickHistoryHandler e).1.Ticks.length ≤ n
      ∧ AscendingBySecond Tick.Datetime (b.onTickHistoryHandler e).1.Ticks
      ∧ ((b.Ticks ++ e.Ticks.filterMap id).length ≤ n →
        (b.onTickHistoryHandler e).1.Ticks.Perm (b.Ticks ++ e.Ticks.filterMap id))) := by
  refine ⟨BasicStrategy.tickHistory_empty b e, fun he => ?_⟩
  obtain ⟨hok, hw⟩ := BasicStrategy.tickHistory_window b e n hn he
  rw [hw]
  have hsub : (tickWindowMerged (fun t => t.Datetime.Unix) n b.Ticks e.Ticks).Sublist
      (sortSliceStable (fun t => t.Datetime.Unix) (b.Ticks ++ e.Ticks.filterMap id)) :=
    lastN_sublist _ _
  refine ⟨hok, rfl, lastN_length_le _ _,
    List.Pairwise.sublist hsub (sortSliceStable_sorted (fun t : Tick => t.Datetime.Unix) _),
    fun hlen => ?_⟩
  unfold tickWindowMerged
  rw [lastN_of_le n _ (by rw [sortSliceStable_length]; exact hlen)]
  exact sortSliceStable_perm _ _

/-- Witness for C26: with window size 2 and the window holding a tick at 2 s,
the history list of a nil entry and a tick at 1 s leaves the ticks at 1 s and
2 s. -/
theorem tick_history_window_witness :
    ((Sample.windowStrategy 2 [] [Sample.tickAt (2 * Sample.second) 10]).onTickHistoryHandler
        (Sample.tickHistory [none, some (Sample.tickAt Sample.second 11)])).1.Ticks
      = [Sample.tickAt Sample.second 11, Sample.tickAt (2 * Sample.second) 10]
    ∧ ((Sample.windowStrategy 2 [] [Sample.tickAt (2 * Sample.second) 10]).onTickHistoryHandler
        (Sample.tickHistory [none, some (Sample.tickAt Sample.second 11)])).1.Ticks.Perm
        [Sample.tickAt (2 * Sample.second) 10, Sample.tickAt Sample.second 11] := by
  have h := (tick_history_window
    (Sample.windowStrategy 2 [] [Sample.tickAt (2 * Sample.second) 10])
    (Sample.tickHistory [none, some (Sample.tickAt Sample.second 11)]) 2 rfl).2 (by decide)
  refine ⟨?_, h.2.2.2.2 (by decide)⟩
  rw [h.2.1]
  decide!

/-- C27 (the code departs from the claim while the window is not full): with
window size `n >= 1` and a window of at most `n` entries, `putNewCandle` and
`putNewTick` return normally and leave at most `n` entries; and a window that
is sorted ascending by the whole second of the timestamp stays so when it is
full, or when the new entry is not before its last entry. But while the window
is not full the new entry is appended and the method returns before the sort:
with window size 3, putting a candle (a tick) at 5 s after one at 10 s leaves
the window 10 s, 5 s, which is not sorted ascending by timestamp. -/
theorem live_append_window (b : BasicStrategy) (n : Nat) (hn : b.NPeriods = n) (h1 : 1 ≤ n) :
    (∀ c : Candle, b.Candles.length ≤ n →
      (b.putNewCandle (some c)).2 = .ok ()
      ∧ (b.putNewCandle (some c)).1.Candles.length ≤ n
      ∧ (AscendingBySecond Candle.Datetime b.Candles →
        (b.Candles.length = n
          ∨ ∀ z, b.Candles.getLast? = some z → c.Datetime.Before z.Datetime = false) →
        AscendingBySecond Candle.Datetime (b.putNewCandle (some c)).1.Candles))
    ∧ (∀ t : Tick, b.Ticks.length ≤ n →
      (b.putNewTick (some t)).2 = .ok ()
      ∧ (b.putNewTick (some t)).1.Ticks.length ≤ n
      ∧ (AscendingBySecond Tick.Datetime b.Ticks →
        (b.Ticks.length = n
          ∨ ∀ z, b.Ticks.getLast? = some z → t.Datetime.Before z.Datetime = false) →
        AscendingBySecond Tick.Datetime (b.putNewTick (some t)).1.Ticks))
    ∧ AscendingByTime Candle.Datetime [Sample.candleAt (10 * Sample.second)]
    ∧ ((Sample.windowStrategy 3 [Sample.candleAt (10 * Sample.second)] []).putNewCandle
        (some (Sample.candleAt (5 * Sample.second)))).1.Candles
      = [Sample.candleAt (10 * Sample.second), Sample.candleAt (5 * Sample.second)]
    ∧ ¬ AscendingByTime Candle.Datetime
        ((Sample.windowStrategy 3 [Sample.candleAt (10 * Sample.second)] []).putNewCandle
          (some (Sample.candleAt (5 * Sample.second)))).1.Candles
    ∧ ((Sample.windowStrategy 3 [] [Sample.tickAt (10 * Sample.second) 1]).putNewTick
        (some (Sample.tickAt (5 * Sample.second) 1))).1.Ticks
      = [Sample.tickAt (10 * Sample.second) 1, Sample.tickAt (5 * Sample.second) 1]
    ∧ ¬ AscendingByTime Tick.Datetime
        ((Sample.windowStrategy 3 [] [Sample.tickAt (10 * Sample.second) 1]).putNewTick
          (some (Sample.tickAt (5 * Sample.second) 1))).1.Ticks :=
  ⟨fun c hlen => BasicStrategy.putNewCandle_window b c n hn h1 hlen,
    fun t hlen => BasicStrategy.putNewTick_window b t n hn h1 hlen,
    by decide!, by decide!, by decide!, by decide!, by decide!⟩

/-- Witness for C27: with window size 2 and a full window of candles at 1 s and
3 s, putting a candle at 2 s evicts the head and sorts: the window is then the
candles at 2 s and 3 s. -/
theorem live_append_window_witness :
    ((Sample.windowStrategy 2
        [Sample.candleAt Sample.second, Sample.candleAt (3 * Sample.second)] []).putNewCandle
        (some (Sample.candleAt (2 * Sample.second)))).1.Candles
      = [Sample.candleAt (2 * Sample.second), Sample.candleAt (3 * Sample.second)]
    ∧ AscendingBySecond Candle.Datetime
        ((Sample.windowStrategy 2
          [Sample.candleAt Sample.second, Sample.candleAt (3 * Sample.second)] []).putNewCandle
          (some (Sample.candleAt (2 * Sample.second)))).1.Candles :=
  ⟨by decide!,
    ((live_append_window
      (Sample.windowStrategy 2
        [Sample.candleAt Sample.second, Sample.candleAt (3 * Sample.second)] [])
      2 rfl (by decide)).1 (Sample.candleAt (2 * Sample.second)) (by decide)).2.2
      (by decide!) (Or.inl rfl)⟩

/-! ## Claims about the time of a candle close event and about gating -/

/-- C29, the failing input: the timeframe is read by
`strconv.ParseInt(tf, 10, 8)`, whose values fit eight bits. The timeframe
"240", the decimal string of a positive integer, aborts (and so does
`isClosingForTimeFrame`), while the timeframes "0" and "-5", which are not
decimal strings of positive integers, do not abort: "-5" sets the event time
five minutes before the candle's time. -/
theorem timeframe_240_aborts :
    (Sample.closeEvent "240").setEventTimeFromCandle Calendar.utc
      = (Sample.closeEvent "240", .panic "Unknown timeframe: 240")
    ∧ (Sample.candleAt 0).isClosingForTimeFrame Calendar.utc "240"
      = .panic "Unknown timeframe. "
    ∧ (Sample.closeEvent "0").setEventTimeFromCandle Calendar.utc
      = ({ Sample.closeEvent "0" with Time := ⟨(86400 + 36000) * Sample.second⟩ }, .ok ())
    ∧ (Sample.closeEvent "-5").setEventTimeFromCandle Calendar.utc
      = ({ Sample.closeEvent "-5" with
            Time := ⟨(86400 + 36000) * Sample.second - 5 * Duration.Minute⟩ }, .ok ()) := by
  decide!

/-- C29 (the code departs from the claim on timeframes above 127): what
`setEventTimeFromCandle` does. It panics on a nil candle. For a candle `c` whose
`Datetime` carries the Location `loc` it sets the event time, when the timeframe
is "D", to `time.Date` at 23:59:59 of the year, month and day of `c.Datetime`
in `loc`; when it is "W", to `time.Date` at 23:59:59 of the year, month and day
of `c.Datetime.AddDate(0, 0, 7)` in `loc`. For every other timeframe it sets
`c.Datetime` plus `m` minutes when `strconv.ParseInt(tf, 10, 8)` reads the
timeframe as `m`, which is then between -128 and 127, and panics when it reads
no such number. The decimal string of a positive integer up to 127 is read as
that integer. -/
theorem setEventTimeFromCandle_contract (cal : Calendar) (e : CandleCloseEvent) :
    (e.Candle = none → (e.setEventTimeFromCandle cal).2.isPanic = true)
    ∧ ∀ c, e.Candle = some c →
      (e.TimeFrame = "D" →
        e.setEventTimeFromCandle cal
          = ({ e with
                Time := cal.Date (cal.Year c.DatetimeRest.loc c.Datetime)
                  (cal.Month c.DatetimeRest.loc c.Datetime)
                  (cal.Day c.DatetimeRest.loc c.Datetime) 23 59 59 0 c.DatetimeRest.loc },
              .ok ()))
      ∧ (e.TimeFrame = "W" →
        e.setEventTimeFromCandle cal
          = ({ e with
                Time := cal.Date
                  (cal.Year c.DatetimeRest.loc (cal.AddDate c.DatetimeRest.loc c.Datetime 0 0 7))
                  (cal.Month c.DatetimeRest.loc (cal.AddDate c.DatetimeRest.loc c.Datetime 0 0 7))
                  (cal.Day c.DatetimeRest.loc (cal.AddDate c.DatetimeRest.loc c.Datetime 0 0 7))
                  23 59 59 0 c.DatetimeRest.loc },
              .ok ()))
      ∧ (e.TimeFrame ≠ "D" → e.TimeFrame ≠ "W" →
        (∀ m, strconvParseInt8 e.TimeFrame = some m →
          -128 ≤ m ∧ m ≤ 127
          ∧ e.setEventTimeFromCandle cal
            = ({ e with Time := c.Datetime.Add (m * Duration.Minute) }, .ok ()))
        ∧ (strconvParseInt8 e.TimeFrame = none →
          e.setEventTimeFromCandle cal = (e, .panic ("Unknown timeframe: " ++ e.TimeFrame)))
        ∧ ∀ N : Nat, 1 ≤ N → N ≤ 127 → e.TimeFrame = Nat.repr N →
          e.setEventTimeFromCandle cal
            = ({ e with Time := c.Datetime.Add ((N : Int) * Duration.Minute) }, .ok ())) := by
  refine ⟨fun hc => ?_, fun c hc => ⟨fun hd => ?_, fun hw => ?_, fun hd hw => ?_⟩⟩
  · unfold CandleCloseEvent.setEventTimeFromCandle
    rw [hc]
    rfl
  · unfold CandleCloseEvent.setEventTimeFromCandle
    rw [hc]
    dsimp only
    rw [if_pos hd]
  · have hnd : e.TimeFrame ≠ "D" := by
      rw [hw]
      decide
    unfold CandleCloseEvent.setEventTimeFromCandle
    rw [hc]
    dsimp only
    rw [if_neg hnd, if_pos hw]
  · have hm : ∀ m, strconvParseInt8 e.TimeFrame = some m →
        e.setEventTimeFromCandle cal
          = ({ e with Time := c.Datetime.Add (m * Duration.Minute) }, .ok ()) := by
      intro m hm
      unfold CandleCloseEvent.setEventTimeFromCandle
      rw [hc]
      dsimp only
      rw [if_neg hd, if_neg hw, hm]
    refine ⟨fun m h => ⟨(strconvParseInt8_range _ m h).1, (strconvParseInt8_range _ m h).2, hm m h⟩,
      fun h => ?_, fun N h1 h2 hN => ?_⟩
    · unfold CandleCloseEvent.setEventTimeFromCandle
      rw [hc]
      dsimp only
      rw [if_neg hd, if_neg hw, h]
    · exact hm N (by rw [hN]; exact strconvParseInt8_decimal N h1 h2)

/-- Witness for C29: for the sample candle at 10:00 UTC on the second day of the
epoch, in the calendar of UTC, the timeframe "D" gives 23:59:59 of that day, the
timeframe "W" the same time eight days after the epoch, and the timeframe "60"
gives 11:00. -/
theorem setEventTimeFromCandle_contract_witness :
    ((Sample.closeEvent "D").setEventTimeFromCandle Calendar.utc).1.Time
      = ⟨(86400 + 86399) * Sample.second⟩
    ∧ ((Sample.closeEvent "W").setEventTimeFromCandle Calendar.utc).1.Time
      = ⟨(8 * 86400 + 86399) * Sample.second⟩
    ∧ ((Sample.closeEvent "60").setEventTimeFromCandle Calendar.utc).1.Time
      = ⟨(86400 + 39600) * Sample.second⟩ := by
  have hD := ((setEventTimeFromCandle_contract Calendar.utc (Sample.closeEvent "D")).2 _ rfl).1
    rfl
  have hW := ((setEventTimeFromCandle_contract Calendar.utc (Sample.closeEvent "W")).2 _
    rfl).2.1 rfl
  have hN := (((setEventTimeFromCandle_contract Calendar.utc (Sample.closeEvent "60")).2 _
    rfl).2.2 (by decide) (by decide)).2.2 60 (by decide) (by decide) (by decide!)
  rw [hD, hW, hN]
  decide!

/-- C30, the failing run: a broker cancel event that answers no request. The
sample strategy submits an order and the broker confirms it: the handler
deletes the tag `&NO&` of the order, while the request was registered under the
tag `$NO$`, which stays in `waitingConfirmation`. The broker later cancels the
order without a cancel request: the handler decrements the counter without a
look at the registered requests, and the counter is then -1. The strategy
submits a second order: the counter is 0 while that request awaits its
response, and a tick that arrives now is not held: `OnTick` is called. -/
theorem onTick_called_while_request_pending :
    Sample.strategy.init.run Sample.fmt Sample.unsolicitedCancel
      = some (Sample.after Sample.unsolicitedCancel)
    ∧ "$NO$" ++ Sample.orderId OrderBuy "a"
        ∈ (Sample.after Sample.newOrderConfirmed).waitingConfirmation
    ∧ (Sample.after (Sample.newOrderConfirmed
        ++ [.onOrderCancelHandler (Sample.cancelEvent (Sample.orderId OrderBuy "a"))])).waitingN
      = -1
    ∧ Sample.strategy.init.awaitingAfter Sample.fmt [] Sample.unsolicitedCancel
      = ["$NO$" ++ Sample.orderId OrderBuy "b"]
    ∧ (Sample.after Sample.unsolicitedCancel).waitingN = 0
    ∧ ((Sample.after Sample.unsolicitedCancel).onTickHandler
        (some (Sample.tickEvent 5 50))).map (fun x => (x.1.onTickCalls, x.2))
      = some ([Sample.tickAt 5 50], .ok ())
    ∧ Sample.strategy.init.Gated Sample.fmt []
        (Sample.unsolicitedCancel ++ [.onTickHandler (some (Sample.tickEvent 5 50))]) = false := by
  decide!

/-- C30 (the code departs from the claim when a broker event answers no pending
request): gating in runs whose broker events answer requests. Let
`pending` list the requests awaiting a response and let the counter `waitingN`
be their number. In calls in which every confirmation, rejection and cancel
event answers a request that is awaiting a response when it arrives, `OnTick`
is called by no call while a request awaits a response; and after a run of the
calls the counter is the number of requests awaiting a response, a tick handler
is held while there is one, and when a tick handler is not held there is none. -/
theorem gating_in_answered_runs (fmt : Time → String) (b : BasicStrategy)
    (pending : List String) (cs : List StrategyCall) (hw : b.waitingN = pending.length)
    (hans : b.Answered fmt pending cs = true) :
    b.Gated fmt pending cs = true
    ∧ ∀ b1, b.run fmt cs = some b1 →
      b1.waitingN = (b.awaitingAfter fmt pending cs).length
      ∧ (b.awaitingAfter fmt pending cs ≠ [] → ∀ e, b1.onTickHandler e = none)
      ∧ ∀ e b2 r, b1.onTickHandler e = some (b2, r) → b.awaitingAfter fmt pending cs = [] := by
  obtain ⟨h1, h2⟩ := BasicStrategy.gated_run fmt cs b pending hw hans
  refine ⟨h1, fun b1 hrun => ?_⟩
  have hlen := h2 b1 hrun
  have hheld : b.awaitingAfter fmt pending cs ≠ [] → ∀ e, b1.onTickHandler e = none := by
    intro hne e
    have hpos : 0 < (b.awaitingAfter fmt pending cs).length := List.length_pos.mpr hne
    unfold BasicStrategy.onTickHandler
    rw [if_pos (by omega)]
  refine ⟨hlen, hheld, fun e b2 r htick => ?_⟩
  by_contra hne
  rw [hheld hne e] at htick
  cases htick

/-- Witness for C30, scenario S6: the sample strategy submits an order. The
counter is 1 and one request awaits its response: a tick is held. After the
confirmation the counter is 0 and the tick is handled: `OnTick` is called with
it. -/
theorem gating_in_answered_runs_witness :
    Sample.strategy.init.run Sample.fmt Sample.newOrderSent
      = some (Sample.after Sample.newOrderSent)
    ∧ (Sample.after Sample.newOrderSent).waitingN = 1
    ∧ (Sample.after Sample.newOrderSent).onTickHandler (some (Sample.tickEvent 5 50)) = none
    ∧ (Sample.after Sample.newOrderConfirmed).waitingN = 0
    ∧ ((Sample.after Sample.newOrderConfirmed).onTickHandler
        (some (Sample.tickEvent 5 50))).map (fun x => (x.1.onTickCalls, x.2))
      = some ([Sample.tickAt 5 50], .ok ()) := by
  have hrun : Sample.strategy.init.run Sample.fmt Sample.newOrderSent
      = some (Sample.after Sample.newOrderSent) := by decide!
  have h := (gating_in_answered_runs Sample.fmt Sample.strategy.init [] Sample.newOrderSent
    (by decide) (by decide!)).2 _ hrun
  have haw : Sample.strategy.init.awaitingAfter Sample.fmt [] Sample.newOrderSent
      = ["$NO$" ++ Sample.orderId OrderBuy "a"] := by decide!
  refine ⟨hrun, ?_, h.2.1 (by rw [haw]; exact List.cons_ne_nil _ _) _, by decide!, by decide!⟩
  rw [h.1, haw]
  rfl

/-! ## Claim about the validity check of a candle -/

/-- C31 (the code departs from the claim: the check of the close against the
low is missing). A candle that `isValid` accepts is non-nil and its `Year()` is
1995 or later; none of `High < Low`, `Open > High`, `Close > High` and
`Open < Low` holds for it, and these are all the checks; so when none of its
prices is NaN, `Low <= Open <= High`, `Low <= High` and `Close <= High`. But
`Close` is never compared with `Low`, the last check repeating `Open > High`:
the candle with open 12, high 15, low 10 and close 5 is accepted although its
close is below its low; and as every check is a comparison that is false on
NaN, a candle whose prices are all NaN is accepted. The year is that of the
Location of the candle's `Datetime`: of two candles at 20:00:00 UTC on 31
December 1994, the one in UTC is refused and the one in a zone nine hours east
is accepted. -/
theorem candle_isValid_checks (cal : Calendar) (c : Option Candle) :
    (Candle.isValid cal c = true
      ↔ ∃ x, c = some x ∧ ¬ cal.Year x.DatetimeRest.loc x.Datetime < 1995
          ∧ F64.lt x.High x.Low = false
          ∧ F64.lt x.High x.Open = false ∧ F64.lt x.High x.Close = false
          ∧ F64.lt x.Open x.Low = false)
    ∧ (Candle.isValid cal c = true →
      ∃ x, c = some x ∧ 1995 ≤ cal.Year x.DatetimeRest.loc x.Datetime
        ∧ (x.Open.isNaN = false → x.High.isNaN = false → x.Low.isNaN = false →
          x.Close.isNaN = false →
          F64.le x.Low x.Open = true ∧ F64.le x.Open x.High = true
          ∧ F64.le x.Low x.High = true ∧ F64.le x.Close x.High = true))
    ∧ Candle.isValid Calendar.utc (some (Sample.pricedCandle 12 15 10 5)) = true
    ∧ F64.le (Sample.pricedCandle 12 15 10 5).Low (Sample.pricedCandle 12 15 10 5).Close = false
    ∧ Candle.isValid Calendar.utc (some (Sample.pricedCandle F64.nan F64.nan F64.nan F64.nan))
      = true
    ∧ F64.le (Sample.pricedCandle F64.nan F64.nan F64.nan F64.nan).Low
        (Sample.pricedCandle F64.nan F64.nan F64.nan F64.nan).Open = false
    ∧ Candle.isValid (Calendar.fixedZones Sample.zones) (some (Sample.newYearCandle 0)) = false
    ∧ Candle.isValid (Calendar.fixedZones Sample.zones) (some (Sample.newYearCandle 1)) = true := by
  refine ⟨Candle.isValid_iff cal c, fun h => ?_, by decide!, by decide!, by decide!, by decide!,
    by decide!, by decide!⟩
  obtain ⟨x, hx, h1, h2, h3, h4, h5⟩ := (Candle.isValid_iff cal c).mp h
  refine ⟨x, hx, by omega, fun ho hh hl hc => ?_⟩
  exact ⟨F64.le_of_not_lt ho hl h5, F64.le_of_not_lt hh ho h3, F64.le_of_not_lt hh hl h2,
    F64.le_of_not_lt hh hc h4⟩

/-- Witness for C31: the candle of 1 June 2000 with open 12, high 15, low 10
and close 13 is accepted, and its prices are in order. -/
theorem candle_isValid_checks_witness :
    Candle.isValid Calendar.utc (some (Sample.pricedCandle 12 15 10 13)) = true
    ∧ ∃ x, some (Sample.pricedCandle 12 15 10 13) = some x
      ∧ 1995 ≤ Calendar.utc.Year x.DatetimeRest.loc x.Datetime
      ∧ F64.le x.Low x.Open = true ∧ F64.le x.Open x.High = true
      ∧ F64.le x.Close x.High = true := by
  have hv : Candle.isValid Calendar.utc (some (Sample.pricedCandle 12 15 10 13)) = true := by
    decide!
  obtain ⟨x, hx, hy, hp⟩ :=
    (candle_isValid_checks Calendar.utc (some (Sample.pricedCandle 12 15 10 13))).2.1 hv
  have hx2 : x = Sample.pricedCandle 12 15 10 13 := (Option.some.inj hx).symm
  obtain ⟨p1, p2, -, p4⟩ := hp (by rw [hx2]; decide!) (by rw [hx2]; decide!)
    (by rw [hx2]; decide!) (by rw [hx2]; decide!)
  exact ⟨hv, x, hx, hy, p1, p2, p4⟩

end Engine
